import Mathlib

/-! Duktape: URI transforms, extended UTF-8 codec and CommonJS module id resolution.

A shallow embedding of parts of `src/duk_unicode_support.c` and
`src/duk_bi_global.c`, with theorems about them.

Conventions of the embedding:

* a byte is a `Nat` (values `< 256` for well-formed data); a C buffer is a
  `List Nat` and a pointer into it is an index; reading is `rdByte`;
* `duk_ucodepoint_t` / `duk_uint32_t` values are `Nat` with explicit
  `% 2 ^ 32` where the C arithmetic can wrap; `duk_codepoint_t` (signed) is `Int`;
* a function that can `DUK_ERROR` returns `Except DukError _`;
* a function that reports failure by returning zero returns `Option _`;
* a C loop becomes a recursive function named after its place in the source;
  where no argument decreases structurally the loop takes a fuel counter and
  answers `none` when it runs out, and the entry points supply enough fuel;
* on signed values that are known to be non-negative at that point, `x << k`,
  `x >> k` and `x & (2^k - 1)` are written `x * 2 ^ k`, `x / 2 ^ k`, `x % 2 ^ k`.
-/

namespace Duktape

/-! ## Data model -/

/-- Error classes raised through `DUK_ERROR` by the embedded functions. -/
inductive DukError where
  | uriError
  | typeError
  | internalError
  deriving DecidableEq, Repr

deriving instance DecidableEq for Except

/-- Read of `buf[i]` (bytes outside the list read as zero, which is what the NUL
terminator of a C string reads as). -/
def rdByte (buf : List Nat) (i : Nat) : Nat := buf.getD i 0

/-! ## `duk_unicode_support.c`: XUTF-8 and CESU-8 -/

/-- Embedding of `duk_unicode_get_xutf8_length` (duk_unicode_support.c:12). -/
def duk_unicode_get_xutf8_length (cp : Nat) : Nat :=
  let x := cp
  if x < 0x80 then 1
  else if x < 0x800 then 2
  else if x < 0x10000 then 3
  else if x < 0x200000 then 4
  else if x < 0x4000000 then 5
  else if x < 0x80000000 then 6
  else 7

/-- Embedding of the table `duk_unicode_xutf8_markers` (duk_unicode_support.c:38). -/
def duk_unicode_xutf8_markers : List Nat := [0x00, 0xc0, 0xe0, 0xf0, 0xf8, 0xfc, 0xfe]

/-- The `do { i--; ... } while (i > 0)` loop of `duk_unicode_encode_xutf8`; the
first argument is the value of `i` after the decrement, `acc` holds the bytes
`out[i+1 ..]` already written. -/
def encode_xutf8_loop (marker : Nat) : Nat → Nat → List Nat → List Nat
  | 0, x, acc => ((marker + x) % 256) :: acc
  | i + 1, x, acc =>
      encode_xutf8_loop marker i (x >>> 6) (((0x80 + (x &&& 0x3f)) % 256) :: acc)

/-- Embedding of `duk_unicode_encode_xutf8` (duk_unicode_support.c:46): the
returned length and the bytes written to `out[0 .. len-1]`. -/
def duk_unicode_encode_xutf8 (cp : Nat) : Nat × List Nat :=
  let x := cp
  let len := duk_unicode_get_xutf8_length cp
  let marker := rdByte duk_unicode_xutf8_markers (len - 1)
  (len, encode_xutf8_loop marker (len - 1) x [])

/-- Embedding of `duk_unicode_encode_cesu8` (duk_unicode_support.c:80). -/
def duk_unicode_encode_cesu8 (cp : Nat) : Nat × List Nat :=
  let x := cp
  if x < 0x80 then
    (1, [x % 256])
  else if x < 0x800 then
    (2, [(0xc0 + ((x >>> 6) &&& 0x1f)) % 256, (0x80 + (x &&& 0x3f)) % 256])
  else if x < 0x10000 then
    (3, [(0xe0 + ((x >>> 12) &&& 0x0f)) % 256, (0x80 + ((x >>> 6) &&& 0x3f)) % 256,
         (0x80 + (x &&& 0x3f)) % 256])
  else
    let x := x - 0x10000
    (6, [0xed, (0xa0 + ((x >>> 16) &&& 0x0f)) % 256, (0x80 + ((x >>> 10) &&& 0x3f)) % 256,
         0xed, (0xb0 + ((x >>> 6) &&& 0x0f)) % 256, (0x80 + (x &&& 0x3f)) % 256])

/-- The `while (n > 0)` loop of `duk_unicode_decode_xutf8`: returns the final
`p` and `res` (a `duk_uint32_t`, so the arithmetic wraps at `2 ^ 32`). -/
def decode_xutf8_loop (buf : List Nat) : Nat → Nat → Nat → Nat × Nat
  | 0, p, res => (p, res)
  | n + 1, p, res =>
      let res := (res <<< 6) % 2 ^ 32
      let res := (res + (rdByte buf p &&& 0x3f)) % 2 ^ 32
      decode_xutf8_loop buf n (p + 1) res

/-- Embedding of `duk_unicode_decode_xutf8` (duk_unicode_support.c:140).
`none` is the `return 0` (`fail`) path, on which neither `*ptr` nor `*out_cp`
is written; `some (p, cp)` is `return 1` with the new `*ptr` and `*out_cp`. -/
def duk_unicode_decode_xutf8 (buf : List Nat) (ptr ptr_start ptr_end : Nat) :
    Option (Nat × Nat) :=
  let p := ptr
  if p < ptr_start ∨ p ≥ ptr_end then none
  else
    let ch := rdByte buf p
    let p := p + 1
    let hdr : Option (Nat × Nat) :=
      if ch < 0x80 then some (ch &&& 0x7f, 0)
      else if ch < 0xc0 then none
      else if ch < 0xe0 then some (ch &&& 0x1f, 1)
      else if ch < 0xf0 then some (ch &&& 0x0f, 2)
      else if ch < 0xf8 then some (ch &&& 0x07, 3)
      else if ch < 0xfc then some (ch &&& 0x03, 4)
      else if ch < 0xfe then some (ch &&& 0x01, 5)
      else if ch < 0xff then some (0, 6)
      else none
    match hdr with
    | none => none
    | some (res, n) =>
        if p + n > ptr_end then none
        else some (decode_xutf8_loop buf n p res)

/-- Embedding of `duk_unicode_decode_xutf8_checked` (duk_unicode_support.c:224):
returns the new `*ptr` and the code point, or raises an internal error. -/
def duk_unicode_decode_xutf8_checked (buf : List Nat) (ptr ptr_start ptr_end : Nat) :
    Except DukError (Nat × Nat) :=
  match duk_unicode_decode_xutf8 buf ptr ptr_start ptr_end with
  | some r => .ok r
  | none => .error .internalError

/-- Number of continuation bytes announced by a lead byte, as decided by the
`if` chain of `duk_unicode_decode_xutf8` (used to state results only). -/
def xutf8_cont_count (ch : Nat) : Nat :=
  if ch < 0xc0 then 0 else if ch < 0xe0 then 1 else if ch < 0xf0 then 2
  else if ch < 0xf8 then 3 else if ch < 0xfc then 4 else if ch < 0xfe then 5 else 6

/-- Payload bits of a lead byte, as extracted by the `if` chain of
`duk_unicode_decode_xutf8` (used to state results only). -/
def xutf8_lead_bits (ch : Nat) : Nat :=
  if ch < 0x80 then ch % 128 else if ch < 0xe0 then ch % 32 else if ch < 0xf0 then ch % 16
  else if ch < 0xf8 then ch % 8 else if ch < 0xfc then ch % 4 else if ch < 0xfe then ch % 2
  else 0

/-! ## `duk_bi_global.c`: URI encoding and decoding -/

/-- Embedding of the macro `DUK__MKBITS` (duk_bi_global.c:14). -/
def DUK__MKBITS (a b c d e f g h : Nat) : Nat :=
  (((a <<< 0) ||| (b <<< 1) ||| (c <<< 2) ||| (d <<< 3) |||
    (e <<< 4) ||| (f <<< 5) ||| (g <<< 6) ||| (h <<< 7))) % 256

/-- Embedding of the macro `DUK__CHECK_BITMASK` (duk_bi_global.c:18); the C
value is used as a truth value, so the embedding returns whether it is non-zero. -/
def DUK__CHECK_BITMASK (table : List Nat) (cp : Nat) : Bool :=
  (rdByte table (cp >>> 3) &&& (1 <<< (cp &&& 0x07))) != 0

/-- Embedding of `duk__encode_uriunescaped_table` (duk_bi_global.c:21). -/
def duk__encode_uriunescaped_table : List Nat := [
  DUK__MKBITS 0 0 0 0 0 0 0 0, DUK__MKBITS 0 0 0 0 0 0 0 0,
  DUK__MKBITS 0 0 0 0 0 0 0 0, DUK__MKBITS 0 0 0 0 0 0 0 0,
  DUK__MKBITS 0 1 0 1 1 0 1 1, DUK__MKBITS 1 1 1 1 1 1 1 1,
  DUK__MKBITS 1 1 1 1 1 1 1 1, DUK__MKBITS 1 1 1 1 0 1 0 1,
  DUK__MKBITS 1 1 1 1 1 1 1 1, DUK__MKBITS 1 1 1 1 1 1 1 1,
  DUK__MKBITS 1 1 1 1 1 1 1 1, DUK__MKBITS 1 1 1 0 0 0 0 1,
  DUK__MKBITS 0 1 1 1 1 1 1 1, DUK__MKBITS 1 1 1 1 1 1 1 1,
  DUK__MKBITS 1 1 1 1 1 1 1 1, DUK__MKBITS 1 1 1 0 0 0 1 0]

/-- Embedding of `duk__encode_uricomponent_unescaped_table` (duk_bi_global.c:33). -/
def duk__encode_uricomponent_unescaped_table : List Nat := [
  DUK__MKBITS 0 0 0 0 0 0 0 0, DUK__MKBITS 0 0 0 0 0 0 0 0,
  DUK__MKBITS 0 0 0 0 0 0 0 0, DUK__MKBITS 0 0 0 0 0 0 0 0,
  DUK__MKBITS 0 1 0 0 0 0 0 1, DUK__MKBITS 1 1 1 0 0 1 1 0,
  DUK__MKBITS 1 1 1 1 1 1 1 1, DUK__MKBITS 1 1 0 0 0 0 0 0,
  DUK__MKBITS 0 1 1 1 1 1 1 1, DUK__MKBITS 1 1 1 1 1 1 1 1,
  DUK__MKBITS 1 1 1 1 1 1 1 1, DUK__MKBITS 1 1 1 0 0 0 0 1,
  DUK__MKBITS 0 1 1 1 1 1 1 1, DUK__MKBITS 1 1 1 1 1 1 1 1,
  DUK__MKBITS 1 1 1 1 1 1 1 1, DUK__MKBITS 1 1 1 0 0 0 1 0]

/-- Embedding of `duk__decode_uri_reserved_table` (duk_bi_global.c:45). -/
def duk__decode_uri_reserved_table : List Nat := [
  DUK__MKBITS 0 0 0 0 0 0 0 0, DUK__MKBITS 0 0 0 0 0 0 0 0,
  DUK__MKBITS 0 0 0 0 0 0 0 0, DUK__MKBITS 0 0 0 0 0 0 0 0,
  DUK__MKBITS 0 0 0 1 1 0 1 0, DUK__MKBITS 0 0 0 1 1 0 0 1,
  DUK__MKBITS 0 0 0 0 0 0 0 0, DUK__MKBITS 0 0 1 1 0 1 0 1,
  DUK__MKBITS 1 0 0 0 0 0 0 0, DUK__MKBITS 0 0 0 0 0 0 0 0,
  DUK__MKBITS 0 0 0 0 0 0 0 0, DUK__MKBITS 0 0 0 0 0 0 0 0,
  DUK__MKBITS 0 0 0 0 0 0 0 0, DUK__MKBITS 0 0 0 0 0 0 0 0,
  DUK__MKBITS 0 0 0 0 0 0 0 0, DUK__MKBITS 0 0 0 0 0 0 0 0]

/-- Embedding of `duk__decode_uri_component_reserved_table` (duk_bi_global.c:57). -/
def duk__decode_uri_component_reserved_table : List Nat := [
  DUK__MKBITS 0 0 0 0 0 0 0 0, DUK__MKBITS 0 0 0 0 0 0 0 0,
  DUK__MKBITS 0 0 0 0 0 0 0 0, DUK__MKBITS 0 0 0 0 0 0 0 0,
  DUK__MKBITS 0 0 0 0 0 0 0 0, DUK__MKBITS 0 0 0 0 0 0 0 0,
  DUK__MKBITS 0 0 0 0 0 0 0 0, DUK__MKBITS 0 0 0 0 0 0 0 0,
  DUK__MKBITS 0 0 0 0 0 0 0 0, DUK__MKBITS 0 0 0 0 0 0 0 0,
  DUK__MKBITS 0 0 0 0 0 0 0 0, DUK__MKBITS 0 0 0 0 0 0 0 0,
  DUK__MKBITS 0 0 0 0 0 0 0 0, DUK__MKBITS 0 0 0 0 0 0 0 0,
  DUK__MKBITS 0 0 0 0 0 0 0 0, DUK__MKBITS 0 0 0 0 0 0 0 0]

/-- Modelled from the spec: the table `duk_uc_nybbles` is declared outside
`src/`; the callers index it with a nybble `0..15` to obtain an uppercase
hexadecimal digit (spec: `encodeURIComponent("a b/c")` is `a%20b%2Fc`). -/
def duk_uc_nybbles : List Nat :=
  [0x30, 0x31, 0x32, 0x33, 0x34, 0x35, 0x36, 0x37, 0x38, 0x39,
   0x41, 0x42, 0x43, 0x44, 0x45, 0x46]

/-- Modelled from the spec: the table `duk_hex_dectab` is declared outside
`src/`; `duk__decode_hex_escape` indexes it with a byte and expects the value of
the hexadecimal digit (either case), or a negative number for any other byte. -/
def duk_hex_dectab (c : Nat) : Int :=
  if 0x30 ≤ c ∧ c ≤ 0x39 then (c - 0x30 : Nat)
  else if 0x41 ≤ c ∧ c ≤ 0x46 then (c - 0x41 + 10 : Nat)
  else if 0x61 ≤ c ∧ c ≤ 0x66 then (c - 0x61 + 10 : Nat)
  else -1

/-- Conversion `(duk_codepoint_t) x` of a 32-bit unsigned value to the signed type. -/
def toCodepoint (u : Nat) : Int :=
  if u % 2 ^ 32 < 2 ^ 31 then ((u % 2 ^ 32 : Nat) : Int) else ((u % 2 ^ 32 : Nat) : Int) - 2 ^ 32

/-- Conversion `(duk_ucodepoint_t) x` of a signed value to the 32-bit unsigned type. -/
def toUcodepoint (i : Int) : Nat := (i % 2 ^ 32).toNat

/-- Embedding of `duk__transform_context` (duk_bi_global.c:82): the input
string `h_str` (so `p_start` is index 0 and `p_end` is its length), the output
buffer `h_buf` and the read pointer `p` as an index into `h_str`. -/
structure duk__transform_context where
  h_str : List Nat
  h_buf : List Nat
  p : Nat
  deriving DecidableEq, Repr

/-- Field `p_start` of `duk__transform_context`. -/
def duk__transform_context.p_start (_tfm_ctx : duk__transform_context) : Nat := 0

/-- Field `p_end` of `duk__transform_context`. -/
def duk__transform_context.p_end (tfm_ctx : duk__transform_context) : Nat :=
  tfm_ctx.h_str.length

/-- Modelled from the spec: `duk_hbuffer_append_byte` is defined outside `src/`;
it appends one byte to the dynamic buffer. -/
def duk_hbuffer_append_byte (tfm_ctx : duk__transform_context) (b : Nat) :
    duk__transform_context :=
  { tfm_ctx with h_buf := tfm_ctx.h_buf ++ [b % 256] }

/-- Modelled from the spec: `duk_hbuffer_append_bytes` is defined outside `src/`;
it appends the given bytes to the dynamic buffer. -/
def duk_hbuffer_append_bytes (tfm_ctx : duk__transform_context) (bs : List Nat) :
    duk__transform_context :=
  { tfm_ctx with h_buf := tfm_ctx.h_buf ++ bs }

/-- Modelled from the spec: `duk_hbuffer_append_xutf8` is defined outside `src/`;
it appends the extended UTF-8 encoding (`duk_unicode_encode_xutf8`) of the code
point to the dynamic buffer. -/
def duk_hbuffer_append_xutf8 (tfm_ctx : duk__transform_context) (cp : Nat) :
    duk__transform_context :=
  { tfm_ctx with h_buf := tfm_ctx.h_buf ++ (duk_unicode_encode_xutf8 cp).2 }

/-- The `while (n > 0)` loop of `duk__decode_hex_escape` (duk_bi_global.c:98). -/
def duk__decode_hex_escape_loop (buf : List Nat) : Nat → Nat → Int → Int
  | 0, _, t => t
  | n + 1, p, t =>
      let t := t * 16
      let ch := duk_hex_dectab (rdByte buf p)
      if ch ≥ 0 then duk__decode_hex_escape_loop buf n (p + 1) (t + ch)
      else -1

/-- Embedding of `duk__decode_hex_escape` (duk_bi_global.c:94): the value of
the `n` hex digits at `p`, or `-1`. -/
def duk__decode_hex_escape (buf : List Nat) (p : Nat) (n : Nat) : Int :=
  duk__decode_hex_escape_loop buf n p 0

/-- The `for (i = 0; i < len; i++)` loop of `duk__transform_callback_encode_uri`
(duk_bi_global.c:182): one `%XX` group per byte of `xutf8_buf`. -/
def encode_uri_emit (tfm_ctx : duk__transform_context) : List Nat → duk__transform_context
  | [] => tfm_ctx
  | t :: rest =>
      let buf := [0x25, rdByte duk_uc_nybbles (t >>> 4), rdByte duk_uc_nybbles (t &&& 0x0f)]
      encode_uri_emit (duk_hbuffer_append_bytes tfm_ctx buf) rest

/-- Embedding of `duk__transform_callback_encode_uri` (duk_bi_global.c:140);
`udata` is the unescaped table. -/
def duk__transform_callback_encode_uri (tfm_ctx : duk__transform_context)
    (unescaped_table : List Nat) (cp : Int) : Except DukError duk__transform_context :=
  if cp < 0 then
    .error .uriError
  else if cp < 0x80 ∧ DUK__CHECK_BITMASK unescaped_table cp.toNat then
    .ok (duk_hbuffer_append_byte tfm_ctx cp.toNat)
  else if cp ≥ 0xdc00 ∧ cp ≤ 0xdfff then
    .error .uriError
  else if cp ≥ 0xd800 ∧ cp ≤ 0xdbff then
    match duk_unicode_decode_xutf8 tfm_ctx.h_str tfm_ctx.p tfm_ctx.p_start tfm_ctx.p_end with
    | none => .error .uriError
    | some (p, cp2u) =>
        let tfm_ctx := { tfm_ctx with p := p }
        let cp2 := toCodepoint cp2u
        if ¬ (cp2 ≥ 0xdc00 ∧ cp2 ≤ 0xdfff) then
          .error .uriError
        else
          let cp1 := cp
          let cp := (cp1 - 0xd800) * 2 ^ 10 + (cp2 - 0xdc00) + 0x10000
          let enc := duk_unicode_encode_xutf8 (toUcodepoint cp)
          .ok (encode_uri_emit tfm_ctx (enc.2.take enc.1))
  else if cp > 0x10ffff then
    .error .uriError
  else
    let enc := duk_unicode_encode_xutf8 (toUcodepoint cp)
    .ok (encode_uri_emit tfm_ctx (enc.2.take enc.1))

/-- The `for (i = 1; i < utf8_blen; i++)` loop of
`duk__transform_callback_decode_uri` (duk_bi_global.c:268); the first argument
counts the remaining rounds. Returns the final `p` and `cp`. -/
def decode_uri_cont_loop (buf : List Nat) : Nat → Nat → Int → Except DukError (Nat × Int)
  | 0, p, cp => .ok (p, cp)
  | k + 1, p, cp =>
      let t := duk__decode_hex_escape buf p 2
      if t < 0 then .error .uriError
      else if t.toNat &&& 0xc0 ≠ 0x80 then .error .uriError
      else decode_uri_cont_loop buf k (p + 3) (cp * 2 ^ 6 + ((t.toNat &&& 0x3f : Nat) : Int))

/-- Embedding of `duk__transform_callback_decode_uri` (duk_bi_global.c:194);
`udata` is the reserved table. The callback is entered with `p ≤ p_end`, so
`left` is computed with truncated subtraction. -/
def duk__transform_callback_decode_uri (tfm_ctx : duk__transform_context)
    (reserved_table : List Nat) (cp : Int) : Except DukError duk__transform_context :=
  if cp = 0x25 then
    let p := tfm_ctx.p
    let left := tfm_ctx.p_end - p
    if left < 2 then .error .uriError
    else
      let t := duk__decode_hex_escape tfm_ctx.h_str p 2
      if t < 0 then .error .uriError
      else if t < 0x80 then
        if DUK__CHECK_BITMASK reserved_table t.toNat then
          .ok { duk_hbuffer_append_bytes tfm_ctx
                  [rdByte tfm_ctx.h_str (p - 1), rdByte tfm_ctx.h_str p,
                   rdByte tfm_ctx.h_str (p + 1)] with p := tfm_ctx.p + 2 }
        else
          .ok { duk_hbuffer_append_byte tfm_ctx t.toNat with p := tfm_ctx.p + 2 }
      else
        let hdr : Option (Nat × Int × Int) :=
          if t < 0xc0 then none
          else if t < 0xe0 then some (2, 0x80, ((t.toNat &&& 0x1f : Nat) : Int))
          else if t < 0xf0 then some (3, 0x800, ((t.toNat &&& 0x0f : Nat) : Int))
          else if t < 0xf8 then some (4, 0x10000, ((t.toNat &&& 0x07 : Nat) : Int))
          else none
        match hdr with
        | none => .error .uriError
        | some (utf8_blen, min_cp, cp) =>
            if left < utf8_blen * 3 - 1 then .error .uriError
            else
              match decode_uri_cont_loop tfm_ctx.h_str (utf8_blen - 1) (p + 3) cp with
              | .error e => .error e
              | .ok (p, cp) =>
                  let p := p - 1
                  let tfm_ctx := { tfm_ctx with p := p }
                  if cp < min_cp ∨ cp > 0x10ffff ∨ (cp ≥ 0xd800 ∧ cp ≤ 0xdfff) then
                    .error .uriError
                  else if cp ≥ 0x10000 then
                    let cp := cp - 0x10000
                    let tfm_ctx := duk_hbuffer_append_xutf8 tfm_ctx
                      (toUcodepoint (cp / 2 ^ 10 + 0xd800))
                    .ok (duk_hbuffer_append_xutf8 tfm_ctx
                      (toUcodepoint (cp % 2 ^ 10 + 0xdc00)))
                  else
                    .ok (duk_hbuffer_append_xutf8 tfm_ctx (toUcodepoint cp))
  else
    .ok (duk_hbuffer_append_xutf8 tfm_ctx (toUcodepoint cp))

/-- The `while (tfm_ctx->p < tfm_ctx->p_end)` loop of `duk__transform_helper`
(duk_bi_global.c:131), bounded by a fuel counter: `none` means the counter ran
out before the loop ended. -/
def duk__transform_loop
    (callback : duk__transform_context → List Nat → Int → Except DukError duk__transform_context)
    (udata : List Nat) : Nat → duk__transform_context →
    Option (Except DukError duk__transform_context)
  | 0, _ => none
  | fuel + 1, tfm_ctx =>
      if tfm_ctx.p < tfm_ctx.p_end then
        match duk_unicode_decode_xutf8_checked tfm_ctx.h_str tfm_ctx.p
            tfm_ctx.p_start tfm_ctx.p_end with
        | .error e => some (.error e)
        | .ok (p, cp) =>
            match callback { tfm_ctx with p := p } udata (toCodepoint cp) with
            | .error e => some (.error e)
            | .ok tfm_ctx => duk__transform_loop callback udata fuel tfm_ctx
      else some (.ok tfm_ctx)

/-- Embedding of `duk__transform_helper` (duk_bi_global.c:111) on an argument
that is already a string with bytes `s`: the bytes of the result string, or
the error raised. Every round of the loop consumes at least one input byte, so
`s.length + 1` rounds of fuel are supplied. -/
def duk__transform_helper
    (callback : duk__transform_context → List Nat → Int → Except DukError duk__transform_context)
    (udata : List Nat) (s : List Nat) : Option (Except DukError (List Nat)) :=
  match duk__transform_loop callback udata (s.length + 1) { h_str := s, h_buf := [], p := 0 } with
  | none => none
  | some (.error e) => some (.error e)
  | some (.ok tfm_ctx) => some (.ok tfm_ctx.h_buf)

/-- Embedding of `duk_bi_global_object_decode_uri` (duk_bi_global.c:653). -/
def duk_bi_global_object_decode_uri (s : List Nat) : Option (Except DukError (List Nat)) :=
  duk__transform_helper duk__transform_callback_decode_uri duk__decode_uri_reserved_table s

/-- Embedding of `duk_bi_global_object_decode_uri_component` (duk_bi_global.c:657). -/
def duk_bi_global_object_decode_uri_component (s : List Nat) :
    Option (Except DukError (List Nat)) :=
  duk__transform_helper duk__transform_callback_decode_uri
    duk__decode_uri_component_reserved_table s

/-- Embedding of `duk_bi_global_object_encode_uri` (duk_bi_global.c:661). -/
def duk_bi_global_object_encode_uri (s : List Nat) : Option (Except DukError (List Nat)) :=
  duk__transform_helper duk__transform_callback_encode_uri duk__encode_uriunescaped_table s

/-- Embedding of `duk_bi_global_object_encode_uri_component` (duk_bi_global.c:665). -/
def duk_bi_global_object_encode_uri_component (s : List Nat) :
    Option (Except DukError (List Nat)) :=
  duk__transform_helper duk__transform_callback_encode_uri
    duk__encode_uricomponent_unescaped_table s

/-! ## Definitions used to state results -/

/-- Moving a transform context behind a prefix `pre` of the input. -/
def shiftCtx (pre : List Nat) (c : duk__transform_context) : duk__transform_context :=
  { h_str := pre ++ c.h_str, h_buf := c.h_buf, p := pre.length + c.p }


/-- Membership in the ES5.1 `uriUnescaped` set: `A-Z a-z 0-9 - _ . ! ~ * ' ( )`. -/
def uriUnescaped (c : Nat) : Bool :=
  (0x41 ≤ c && c ≤ 0x5a) || (0x61 ≤ c && c ≤ 0x7a) || (0x30 ≤ c && c ≤ 0x39) ||
  c == 0x2d || c == 0x5f || c == 0x2e || c == 0x21 || c == 0x7e || c == 0x2a ||
  c == 0x27 || c == 0x28 || c == 0x29

/-- The uppercase hexadecimal digit (as an ASCII code) of a nybble. -/
def hexDigitUpper (n : Nat) : Nat := if n < 10 then 0x30 + n else 0x41 + (n - 10)


/-- One round of the loop of `duk__transform_helper`: decode a code point at
`p`, then run the callback on it. -/
def transform_step
    (callback : duk__transform_context → List Nat → Int → Except DukError duk__transform_context)
    (udata : List Nat) (tfm_ctx : duk__transform_context) :
    Except DukError duk__transform_context :=
  match duk_unicode_decode_xutf8_checked tfm_ctx.h_str tfm_ctx.p
      tfm_ctx.p_start tfm_ctx.p_end with
  | .error e => .error e
  | .ok (p, cp) => callback { tfm_ctx with p := p } udata (toCodepoint cp)

/-- The bytes of a string holding the code points `us`, each in shortest form
(for 16-bit code units this is the CESU-8 string of the units). -/
def encodeUnits : List Nat → List Nat
  | [] => []
  | u :: us => (duk_unicode_encode_xutf8 u).2 ++ encodeUnits us

/-- A sequence of 16-bit code units in which every high surrogate is directly
followed by a low surrogate and every low surrogate directly follows a high one. -/
def wellPaired : List Nat → Bool
  | [] => true
  | [u] => u < 0x10000 && !(0xd800 ≤ u && u ≤ 0xdfff)
  | u :: v :: rest =>
      if 0xd800 ≤ u ∧ u ≤ 0xdbff then
        (0xdc00 ≤ v && v ≤ 0xdfff) && wellPaired rest
      else
        (u < 0x10000 && !(0xdc00 ≤ u && u ≤ 0xdfff)) && wellPaired (v :: rest)

/-- The `%XX` groups (uppercase digits of `duk_uc_nybbles`) for a list of bytes. -/
def pctEscape : List Nat → List Nat
  | [] => []
  | t :: rest =>
      [0x25, rdByte duk_uc_nybbles (t >>> 4), rdByte duk_uc_nybbles (t &&& 0x0f)]
        ++ pctEscape rest

/-- What the URI encoder emits for one code point outside the surrogate range,
given its unescaped table. -/
def uriChunk (table : List Nat) (u : Nat) : List Nat :=
  if u < 0x80 ∧ DUK__CHECK_BITMASK table u then [u]
  else pctEscape (duk_unicode_encode_xutf8 u).2

/-- The expected URI encoding of a well-paired sequence of code units: a
surrogate pair is combined into one code point, escaped as four bytes. -/
def uriEncodeUnits (table : List Nat) : List Nat → List Nat
  | [] => []
  | [u] => uriChunk table u
  | u :: v :: rest =>
      if 0xd800 ≤ u ∧ u ≤ 0xdbff then
        pctEscape (duk_unicode_encode_xutf8
          ((u - 0xd800) * 1024 + (v - 0xdc00) + 0x10000)).2 ++ uriEncodeUnits table rest
      else
        uriChunk table u ++ uriEncodeUnits table (v :: rest)

/-- Whether `txt` is a run of percent escapes `%XY` (hex digits of either
case) whose values are the bytes `bs`. -/
def escapeTextOf : List Nat → List Nat → Bool
  | [], [] => true
  | b :: bs, c :: h :: l :: txt =>
      c == 0x25 && decide (b < 256) && duk_hex_dectab h == ((b / 16 : Nat) : Int) &&
        duk_hex_dectab l == ((b % 16 : Nat) : Int) && escapeTextOf bs txt
  | _, _ => false

/-- Whether a byte is a UTF-8 continuation byte `10xxxxxx`. -/
def isContByte (b : Nat) : Bool := 0x80 ≤ b && b < 0xc0

/-- Whether the bytes `bs` (the values of a run of percent escapes) start with
something that is not strict UTF-8 for one of these reasons: a continuation
byte in lead position; a lead byte `≥ 0xF8`; a byte that is not `10xxxxxx`
among the bytes that the lead byte announces; or a complete sequence whose
code point is below the minimum for its length (non-shortest form), is above
`0x10FFFF`, or is a surrogate. -/
def badEscapeBytes : List Nat → Bool
  | [] => false
  | b0 :: rest =>
      if b0 < 0x80 then false
      else if b0 < 0xc0 then true
      else if 0xf8 ≤ b0 then true
      else
        let n := if b0 < 0xe0 then 2 else if b0 < 0xf0 then 3 else 4
        let min_cp := if b0 < 0xe0 then 0x80 else if b0 < 0xf0 then 0x800 else 0x10000
        let cp0 := if b0 < 0xe0 then b0 % 32 else if b0 < 0xf0 then b0 % 16 else b0 % 8
        let conts := rest.take (n - 1)
        if conts.any (fun b => !isContByte b) then true
        else if conts.length < n - 1 then false
        else
          let cp := conts.foldl (fun a b => a * 64 + b % 64) cp0
          decide (cp < min_cp) || decide (0x10ffff < cp) || (0xd800 ≤ cp && cp ≤ 0xdfff)

/-! ## `duk_bi_global.c`: CommonJS module id resolution -/

/-- The C string at a `const char *`: the bytes before the first NUL. -/
def cstr (s : List Nat) : List Nat := s.takeWhile (fun b => b != 0)

/-- Embedding of `DUK_STRLEN`. -/
def DUK_STRLEN (s : List Nat) : Nat := (cstr s).length

/-- The `eat_dup_slashes` loop of `duk__bi_global_resolve_module_id`
(duk_bi_global.c:910) on the rest of the input at `p`. -/
def eat_dup_slashes : List Nat → List Nat
  | [] => []
  | c :: p => if c ≠ 0x2f then c :: p else eat_dup_slashes p

/-- The loop `Backtrack to previous slash or start of buffer`
(duk_bi_global.c:875). The bytes written to `buf_out` so far are kept most
recent first, so `*(q - 1)` is the head and `q--` drops it. -/
def backtrack_to_slash : List Nat → List Nat
  | [] => []
  | c :: q => if c = 0x2f then c :: q else backtrack_to_slash q

/-- The loop `Copy term name until end or '/'` (duk_bi_global.c:895), entered
with the first character `c` of the term already read. Returns whether
`loop_done` was reached, the rest of the input and the output written. -/
def copy_term : Nat → List Nat → List Nat → Bool × List Nat × List Nat
  | c, [], q => (true, [], c :: q)
  | c, c' :: p, q =>
      if c' = 0 then (true, p, c :: q)
      else if c' = 0x2f then (false, p, 0x2f :: c :: q)
      else copy_term c' p (c :: q)

/-- The resolution loop of `duk__bi_global_resolve_module_id`
(duk_bi_global.c:845), bounded by a fuel counter (`none`: the counter ran
out). `p` is the rest of `buf_in` up to its NUL terminator, `q` the bytes
written to `buf_out`, most recent first. The result is the string pushed by
`duk_push_lstring`, or the TypeError of `resolve_error`. -/
def duk__resolve_loop : Nat → List Nat → List Nat → Option (Except DukError (List Nat))
  | 0, _, _ => none
  | fuel + 1, p, q =>
      let c := p.headD 0
      let p := p.tail
      if c = 0 then some (.error .typeError)
      else if c = 0x2e then
        let c := p.headD 0
        let p := p.tail
        if c = 0x2f then
          duk__resolve_loop fuel (eat_dup_slashes p) q
        else if c = 0x2e ∧ p.headD 0 = 0x2f then
          let p := p.tail
          if q = [] then some (.error .typeError)
          else
            let q := q.tail
            let q := backtrack_to_slash q
            duk__resolve_loop fuel (eat_dup_slashes p) q
        else some (.error .typeError)
      else if c = 0x2f then some (.error .typeError)
      else
        match copy_term c p q with
        | (true, _, q) => some (.ok q.reverse)
        | (false, p, q) => duk__resolve_loop fuel (eat_dup_slashes p) q

/-- Embedding of `duk__bi_global_resolve_module_id` (duk_bi_global.c:779).
`limit` is `DUK_BI_COMMONJS_MODULE_ID_LIMIT` (the size of `buf_in` and
`buf_out`), a constant defined outside `src/`; `mod_id` is `none` for `NULL`.
Every round of the resolution loop consumes at least one input byte, so
`length + 1` rounds of fuel are supplied. -/
def duk__bi_global_resolve_module_id (limit : Nat) (req_id : List Nat)
    (mod_id : Option (List Nat)) : Option (Except DukError (List Nat)) :=
  let req_id_len := DUK_STRLEN req_id
  let buf_in : Except DukError (List Nat) :=
    match mod_id with
    | some mod_id =>
        if rdByte req_id 0 = 0x2e then
          let mod_id_len := DUK_STRLEN mod_id
          if mod_id_len + 4 + req_id_len + 1 ≥ limit then .error .typeError
          else .ok (cstr mod_id ++ [0x2f, 0x2e, 0x2e, 0x2f] ++ cstr req_id)
        else if req_id_len + 1 ≥ limit then .error .typeError
        else .ok (cstr req_id)
    | none =>
        if req_id_len + 1 ≥ limit then .error .typeError
        else .ok (cstr req_id)
  match buf_in with
  | .error e => some (.error e)
  | .ok buf_in => duk__resolve_loop (buf_in.length + 1) buf_in []

/-- A list that is empty or ends with `/`. -/
def slashEnded (pre : List Nat) : Prop := pre = [] ∨ pre.getLast? = some 0x2f


/-- An ordinary term of a module id: non-empty, without `/` (and NUL), not
beginning with `.`. -/
def ordinaryTerm (t : List Nat) : Prop :=
  t ≠ [] ∧ (∀ b ∈ t, b ≠ 0 ∧ b ≠ 0x2f) ∧ t.head? ≠ some 0x2e

/-- The `/`-join of a list of terms. -/
def joinTerms : List (List Nat) → List Nat
  | [] => []
  | [t] => t
  | t :: t' :: ts => t ++ 0x2f :: joinTerms (t' :: ts)

/-- The contents of `buf_out` (most recent byte first) when the terms of the
stack `st` (last pushed term first) have been written, each followed by `/`. -/
def qOfStack : List (List Nat) → List Nat
  | [] => []
  | t :: st => 0x2f :: (t.reverse ++ qOfStack st)

/-- The term stack of the specification (last pushed term first): scanning the
terms left to right, `.` is dropped, `..` pops the last pushed term (`none`
when there is nothing to pop), any other term is pushed. -/
def resolveTerms : List (List Nat) → List (List Nat) → Option (List (List Nat))
  | [], st => some st
  | t :: ts, st =>
      if t = [0x2e] then resolveTerms ts st
      else if t = [0x2e, 0x2e] then
        match st with
        | [] => none
        | _ :: st' => resolveTerms ts st'
      else resolveTerms ts (t :: st)

/-- After a `/` comes neither `/` nor `.`. -/
def afterSlashOk (a b : Nat) : Prop := a = 0x2f → b ≠ 0x2f ∧ b ≠ 0x2e


/-- A term that the resolution accepts: `.`, `..` or an ordinary term. -/
def validTerm (t : List Nat) : Prop := t = [0x2e] ∨ t = [0x2e, 0x2e] ∨ ordinaryTerm t

instance ordinaryTerm_decidable (t : List Nat) : Decidable (ordinaryTerm t) := by
  unfold ordinaryTerm
  infer_instance

instance validTerm_decidable (t : List Nat) : Decidable (validTerm t) := by
  unfold validTerm
  infer_instance

/-- The `while (p < p_end)` loop of `duk_unicode_unvalidated_utf8_length`
(duk_unicode_support.c:243); the first argument is `p_end - p`. -/
def unvalidated_utf8_length_loop (data : List Nat) : Nat → Nat → Nat → Nat
  | 0, _, clen => clen
  | n + 1, p, clen =>
      let x := rdByte data p
      if x < 0x80 ∨ x ≥ 0xc0 then unvalidated_utf8_length_loop data n (p + 1) (clen + 1)
      else unvalidated_utf8_length_loop data n (p + 1) clen

/-- Embedding of `duk_unicode_unvalidated_utf8_length` (duk_unicode_support.c:238). -/
def duk_unicode_unvalidated_utf8_length (data : List Nat) (blen : Nat) : Nat :=
  unvalidated_utf8_length_loop data blen 0 0

/-- Membership in the ES5.1 `uriReserved` set: `; / ? : @ & = + $ ,`. -/
def uriReserved (c : Nat) : Bool :=
  c == 0x3b || c == 0x2f || c == 0x3f || c == 0x3a || c == 0x40 || c == 0x26 ||
  c == 0x3d || c == 0x2b || c == 0x24 || c == 0x2c

/-- The `DUK_S2N_FLAG_*` constants that `parseInt` passes to
`duk_numconv_parse`. They are defined outside `src/`, so their values are
parameters of the embedding. -/
structure duk_s2n_flag_values where
  TRIM_WHITE : Nat
  ALLOW_GARBAGE : Nat
  ALLOW_PLUS : Nat
  ALLOW_MINUS : Nat
  ALLOW_LEADING_ZERO : Nat
  ALLOW_AUTO_HEX_INT : Nat
  ALLOW_AUTO_OCT_INT : Nat

/-- The value assigned to `s2n_flags` in `duk_bi_global_object_parse_int`
(duk_bi_global.c:588); `octal_support` is the option `DUK_USE_OCTAL_SUPPORT`. -/
def parse_int_s2n_flags (F : duk_s2n_flag_values) (octal_support : Bool)
    ( strip_prefix : Bool) : Nat :=
  F.TRIM_WHITE ||| F.ALLOW_GARBAGE ||| F.ALLOW_PLUS ||| F.ALLOW_MINUS |||
  F.ALLOW_LEADING_ZERO |||
  (if octal_support then
    (if strip_prefix then F.ALLOW_AUTO_HEX_INT ||| F.ALLOW_AUTO_OCT_INT else 0)
   else
    (if strip_prefix then F.ALLOW_AUTO_HEX_INT else 0))

/-- Embedding of `duk_bi_global_object_parse_int` (duk_bi_global.c:560) after
its two coercions: `s` is the string at index 0 and `radix` the value of
`duk_to_int32` at index 1. The result is the value left on the stack.
`duk_numconv_parse` and the NaN pushed by `duk_push_nan` are defined outside
`src/` and are parameters. -/
def duk_bi_global_object_parse_int {α : Type} (F : duk_s2n_flag_values)
    (octal_support : Bool) (duk_numconv_parse : List Nat → Int → Nat → α)
    (duk_push_nan : α) (s : List Nat) (radix : Int) : α :=
  let strip_prefix := true
  if radix ≠ 0 then
    if radix < 2 ∨ radix > 36 then duk_push_nan
    else
      let strip_prefix := if radix ≠ 16 then false else strip_prefix
      duk_numconv_parse s radix (parse_int_s2n_flags F octal_support strip_prefix )
  else
    let radix := 10
    duk_numconv_parse s radix (parse_int_s2n_flags F octal_support strip_prefix )

/-- The code point sequence of the string `buf` from position `p` on, read
with `duk_unicode_decode_xutf8` one code point after the other as the loop of
`duk__transform_helper` reads it; `none` when some position does not decode
(or the fuel, one unit per code point, runs out). -/
def xutf8CodePoints (buf : List Nat) : Nat → Nat → Option (List Nat)
  | 0, _ => none
  | fuel + 1, p =>
      if p < buf.length then
        match duk_unicode_decode_xutf8 buf p 0 buf.length with
        | none => none
        | some (p', cp) => (xutf8CodePoints buf fuel p').map (fun rest => cp :: rest)
      else some []

/-- The error condition of URI encoding in the words of the specification,
read from left to right over a code point sequence: a low surrogate that is not
the second half of a pair, a high surrogate that is not immediately followed by
a low surrogate, or a code point above `0x10FFFF`. -/
def hasEncodeError : List Nat → Bool
  | [] => false
  | c :: rest =>
      if 0xdc00 ≤ c ∧ c ≤ 0xdfff then true
      else if 0xd800 ≤ c ∧ c ≤ 0xdbff then
        match rest with
        | [] => true
        | d :: rest' => if 0xdc00 ≤ d ∧ d ≤ 0xdfff then hasEncodeError rest' else true
      else if c > 0x10ffff then true
      else hasEncodeError rest

/-! ## The resolution loop as a machine with pointers into the two buffers -/

/-- The places in the resolution loop of `duk__bi_global_resolve_module_id`
where the state is observed: the top of the outer loop (duk_bi_global.c:845),
the top of the loop `Copy term name until end or '/'` with the character `c`
read but not yet written (duk_bi_global.c:895), the top of the backtrack loop
(duk_bi_global.c:875) and the top of the `eat_dup_slashes` loop
(duk_bi_global.c:910). -/
inductive resolve_pc where
  | top
  | copy (c : Nat)
  | backtrack
  | eat
deriving DecidableEq

/-- The variables of the resolution loop: `p` as the offset `p - buf_in`, `q`
as the signed offset `q - buf_out`, and the contents of the array `buf_out`
(its length is `sizeof(buf_out)`). -/
structure resolve_state where
  p : Nat
  q : Int
  buf_out : List Nat
deriving DecidableEq

/-- A configuration of the resolution loop: running at a place, finished at
`loop_done` with the string given to `duk_push_lstring`, finished at
`resolve_error`, or stopped because a store `*q++ = c` fell outside `buf_out`. -/
inductive resolve_config where
  | running (pc : resolve_pc) (s : resolve_state)
  | loop_done (result : List Nat)
  | resolve_error
  | bad_write
deriving DecidableEq

/-- The store `*q++ = c`; `none` when `q` points outside `buf_out`. -/
def resolve_write (s : resolve_state) (c : Nat) : Option resolve_state :=
  if 0 ≤ s.q ∧ s.q < (s.buf_out.length : Int) then
    some { s with buf_out := s.buf_out.set s.q.toNat c, q := s.q + 1 }
  else none

/-- One pass through the body of the loop at the current place of the
resolution loop (duk_bi_global.c:845-918). `buf_in` holds the bytes of the
input string; the NUL that terminates it is the `0` that `rdByte` returns at
its length. -/
def resolve_step (buf_in : List Nat) : resolve_config → resolve_config
  | .running .top s =>
      let c := rdByte buf_in s.p
      let s : resolve_state := { s with p := s.p + 1 }
      if c = 0 then .resolve_error
      else if c = 0x2e then
        let c := rdByte buf_in s.p
        let s : resolve_state := { s with p := s.p + 1 }
        if c = 0x2f then .running .eat s
        else if c = 0x2e ∧ rdByte buf_in s.p = 0x2f then
          let s : resolve_state := { s with p := s.p + 1 }
          if s.q = 0 then .resolve_error
          else .running .backtrack { s with q := s.q - 1 }
        else .resolve_error
      else if c = 0x2f then .resolve_error
      else .running (.copy c) s
  | .running (.copy c) s =>
      match resolve_write s c with
      | none => .bad_write
      | some s =>
          let c := rdByte buf_in s.p
          let s : resolve_state := { s with p := s.p + 1 }
          if c = 0 then .loop_done (s.buf_out.take s.q.toNat)
          else if c = 0x2f then
            match resolve_write s 0x2f with
            | none => .bad_write
            | some s => .running .eat s
          else .running (.copy c) s
  | .running .backtrack s =>
      if s.q = 0 then .running .eat s
      else if rdByte s.buf_out (s.q - 1).toNat = 0x2f then .running .eat s
      else .running .backtrack { s with q := s.q - 1 }
  | .running .eat s =>
      let c := rdByte buf_in s.p
      if c ≠ 0x2f then .running .top s
      else .running .eat { s with p := s.p + 1 }
  | .loop_done result => .loop_done result
  | .resolve_error => .resolve_error
  | .bad_write => .bad_write

/-- The configuration after `k` passes. -/
def resolve_run (buf_in : List Nat) : Nat → resolve_config → resolve_config
  | 0, cfg => cfg
  | k + 1, cfg => resolve_run buf_in k (resolve_step buf_in cfg)

/-- The set-up of the resolution input `buf_in` in
`duk__bi_global_resolve_module_id` (duk_bi_global.c:819-834): the string
written by `DUK_SNPRINTF`, or the TypeError of the length check. -/
def resolve_buf_in (limit : Nat) (req_id : List Nat) (mod_id : Option (List Nat)) :
    Except DukError (List Nat) :=
  let req_id_len := DUK_STRLEN req_id
  match mod_id with
  | some mod_id =>
      if rdByte req_id 0 = 0x2e then
        let mod_id_len := DUK_STRLEN mod_id
        if mod_id_len + 4 + req_id_len + 1 ≥ limit then .error .typeError
        else .ok (cstr mod_id ++ [0x2f, 0x2e, 0x2e, 0x2f] ++ cstr req_id)
      else if req_id_len + 1 ≥ limit then .error .typeError
      else .ok (cstr req_id)
  | none =>
      if req_id_len + 1 ≥ limit then .error .typeError
      else .ok (cstr req_id)

/-- The bound stated for a configuration of the resolution loop over an input
of `n` bytes and buffers of `limit` bytes: while running, `q` is not before
`buf_out`, the bytes written (and, in the copy loop, the one about to be
written) are at most the bytes consumed, and `p` is not past the terminator;
at `loop_done` the result is at most `n` bytes; no store fell outside. -/
def resolve_bounded (n limit : Nat) : resolve_config → Prop
  | .running (.copy _) s => 0 ≤ s.q ∧ s.q + 1 ≤ (s.p : Int) ∧ s.p ≤ n ∧ s.buf_out.length = limit
  | .running _ s => 0 ≤ s.q ∧ s.q ≤ (s.p : Int) ∧ s.p ≤ n ∧ s.buf_out.length = limit
  | .loop_done result => result.length ≤ n
  | .resolve_error => True
  | .bad_write => False

/-- The final configuration of the machine for an outcome of `duk__resolve_loop`. -/
def resolve_final : Except DukError (List Nat) → resolve_config
  | .ok result => .loop_done result
  | .error _ => .resolve_error

/-- The code units `us` have properly paired surrogates, stated position by
position: every unit is below `0x10000`, every high surrogate is immediately
followed by a low surrogate, and every low surrogate is immediately preceded
by a high surrogate (`getD` gives `0`, not a surrogate, past the end). -/
def codeUnitsPaired (us : List Nat) : Prop :=
  ∀ i, i < us.length →
    us.getD i 0 < 0x10000 ∧
    ((0xd800 ≤ us.getD i 0 ∧ us.getD i 0 ≤ 0xdbff) →
      (0xdc00 ≤ us.getD (i + 1) 0 ∧ us.getD (i + 1) 0 ≤ 0xdfff)) ∧
    ((0xdc00 ≤ us.getD i 0 ∧ us.getD i 0 ≤ 0xdfff) →
      (0 < i ∧ 0xd800 ≤ us.getD (i - 1) 0 ∧ us.getD (i - 1) 0 ≤ 0xdbff))

instance codeUnitsPaired_decidable (us : List Nat) : Decidable (codeUnitsPaired us) := by
  unfold codeUnitsPaired
  infer_instance

/-! ## `duk_hcompiledfunction.h`: the data buffer of a compiled function -/

/-- Modelled from the spec: a fixed buffer as the accessor macros see it. The
macros `DUK_HBUFFER_FIXED_GET_DATA_PTR` and `DUK_HBUFFER_GET_SIZE` are defined
outside `src/`; they give the address of the data area and its size in bytes. -/
structure duk_hbuffer_fixed where
  data_ptr : Nat
  size : Nat

/-- Embedding of the fields of `struct duk_hcompiledfunction`
(duk_hcompiledfunction.h:124) that the accessor macros read; the two
mid-pointers `funcs` and `bytecode` are addresses. -/
structure duk_hcompiledfunction where
  data : duk_hbuffer_fixed
  funcs : Nat
  bytecode : Nat

/-- Modelled from the spec: `DUK_HBUFFER_FIXED_GET_DATA_PTR`. -/
def DUK_HBUFFER_FIXED_GET_DATA_PTR (b : duk_hbuffer_fixed) : Nat := b.data_ptr

/-- Modelled from the spec: `DUK_HBUFFER_GET_SIZE`. -/
def DUK_HBUFFER_GET_SIZE (b : duk_hbuffer_fixed) : Nat := b.size

/-- Embedding of `DUK_HCOMPILEDFUNCTION_GET_DATA` (duk_hcompiledfunction.h:35). -/
def DUK_HCOMPILEDFUNCTION_GET_DATA (h : duk_hcompiledfunction) : duk_hbuffer_fixed := h.data

/-- Embedding of `DUK_HCOMPILEDFUNCTION_GET_FUNCS` (duk_hcompiledfunction.h:40). -/
def DUK_HCOMPILEDFUNCTION_GET_FUNCS (h : duk_hcompiledfunction) : Nat := h.funcs

/-- Embedding of `DUK_HCOMPILEDFUNCTION_GET_BYTECODE` (duk_hcompiledfunction.h:45). -/
def DUK_HCOMPILEDFUNCTION_GET_BYTECODE (h : duk_hcompiledfunction) : Nat := h.bytecode

/-- Embedding of `DUK_HCOMPILEDFUNCTION_GET_BUFFER_BASE` (duk_hcompiledfunction.h:57). -/
def DUK_HCOMPILEDFUNCTION_GET_BUFFER_BASE (h : duk_hcompiledfunction) : Nat :=
  DUK_HBUFFER_FIXED_GET_DATA_PTR (DUK_HCOMPILEDFUNCTION_GET_DATA h)

/-- Embedding of `DUK_HCOMPILEDFUNCTION_GET_CONSTS_BASE` (duk_hcompiledfunction.h:60). -/
def DUK_HCOMPILEDFUNCTION_GET_CONSTS_BASE (h : duk_hcompiledfunction) : Nat :=
  DUK_HCOMPILEDFUNCTION_GET_BUFFER_BASE h

/-- Embedding of `DUK_HCOMPILEDFUNCTION_GET_FUNCS_BASE` (duk_hcompiledfunction.h:63). -/
def DUK_HCOMPILEDFUNCTION_GET_FUNCS_BASE (h : duk_hcompiledfunction) : Nat :=
  DUK_HCOMPILEDFUNCTION_GET_FUNCS h

/-- Embedding of `DUK_HCOMPILEDFUNCTION_GET_CODE_BASE` (duk_hcompiledfunction.h:66). -/
def DUK_HCOMPILEDFUNCTION_GET_CODE_BASE (h : duk_hcompiledfunction) : Nat :=
  DUK_HCOMPILEDFUNCTION_GET_BYTECODE h

/-- Embedding of `DUK_HCOMPILEDFUNCTION_GET_CONSTS_END` (duk_hcompiledfunction.h:69). -/
def DUK_HCOMPILEDFUNCTION_GET_CONSTS_END (h : duk_hcompiledfunction) : Nat :=
  DUK_HCOMPILEDFUNCTION_GET_FUNCS h

/-- Embedding of `DUK_HCOMPILEDFUNCTION_GET_FUNCS_END` (duk_hcompiledfunction.h:72). -/
def DUK_HCOMPILEDFUNCTION_GET_FUNCS_END (h : duk_hcompiledfunction) : Nat :=
  DUK_HCOMPILEDFUNCTION_GET_BYTECODE h

/-- Embedding of `DUK_HCOMPILEDFUNCTION_GET_CODE_END` (duk_hcompiledfunction.h:76). -/
def DUK_HCOMPILEDFUNCTION_GET_CODE_END (h : duk_hcompiledfunction) : Nat :=
  DUK_HBUFFER_FIXED_GET_DATA_PTR (DUK_HCOMPILEDFUNCTION_GET_DATA h) +
    DUK_HBUFFER_GET_SIZE (DUK_HCOMPILEDFUNCTION_GET_DATA h)

/-- The conversion `(duk_size_t) (end - base)` of a difference of two byte
pointers; `w` is the width of `duk_size_t` in bits. -/
def ptrdiff_to_size (w : Nat) (e b : Nat) : Nat := (((e : Int) - (b : Int)) % 2 ^ w).toNat

/-- Embedding of `DUK_HCOMPILEDFUNCTION_GET_CONSTS_SIZE` (duk_hcompiledfunction.h:80). -/
def DUK_HCOMPILEDFUNCTION_GET_CONSTS_SIZE (w : Nat) (h : duk_hcompiledfunction) : Nat :=
  ptrdiff_to_size w (DUK_HCOMPILEDFUNCTION_GET_CONSTS_END h)
    (DUK_HCOMPILEDFUNCTION_GET_CONSTS_BASE h)

/-- Embedding of `DUK_HCOMPILEDFUNCTION_GET_FUNCS_SIZE` (duk_hcompiledfunction.h:89). -/
def DUK_HCOMPILEDFUNCTION_GET_FUNCS_SIZE (w : Nat) (h : duk_hcompiledfunction) : Nat :=
  ptrdiff_to_size w (DUK_HCOMPILEDFUNCTION_GET_FUNCS_END h)
    (DUK_HCOMPILEDFUNCTION_GET_FUNCS_BASE h)

/-- Embedding of `DUK_HCOMPILEDFUNCTION_GET_CODE_SIZE` (duk_hcompiledfunction.h:98). -/
def DUK_HCOMPILEDFUNCTION_GET_CODE_SIZE (w : Nat) (h : duk_hcompiledfunction) : Nat :=
  ptrdiff_to_size w (DUK_HCOMPILEDFUNCTION_GET_CODE_END h)
    (DUK_HCOMPILEDFUNCTION_GET_CODE_BASE h)

/-! ## `duk_cmdline.c`: the command-line tool -/

/-- The bytes of the string literal `--restrict-memory`. -/
def OPT_RESTRICT_MEMORY : List Nat :=
  [0x2d, 0x2d, 0x72, 0x65, 0x73, 0x74, 0x72, 0x69, 0x63, 0x74, 0x2d, 0x6d, 0x65, 0x6d, 0x6f, 0x72, 0x79]

/-- The bytes of the string literal `-i`. -/
def OPT_I : List Nat :=
  [0x2d, 0x69]

/-- The bytes of the string literal `-e`. -/
def OPT_E : List Nat :=
  [0x2d, 0x65]

/-- The bytes of the string literal `--alloc-default`. -/
def OPT_ALLOC_DEFAULT : List Nat :=
  [0x2d, 0x2d, 0x61, 0x6c, 0x6c, 0x6f, 0x63, 0x2d, 0x64, 0x65, 0x66, 0x61, 0x75, 0x6c, 0x74]

/-- The bytes of the string literal `--alloc-logging`. -/
def OPT_ALLOC_LOGGING : List Nat :=
  [0x2d, 0x2d, 0x61, 0x6c, 0x6c, 0x6f, 0x63, 0x2d, 0x6c, 0x6f, 0x67, 0x67, 0x69, 0x6e, 0x67]

/-- The bytes of the string literal `--alloc-torture`. -/
def OPT_ALLOC_TORTURE : List Nat :=
  [0x2d, 0x2d, 0x61, 0x6c, 0x6c, 0x6f, 0x63, 0x2d, 0x74, 0x6f, 0x72, 0x74, 0x75, 0x72, 0x65]

/-- The bytes of the string literal `--alloc-hybrid`. -/
def OPT_ALLOC_HYBRID : List Nat :=
  [0x2d, 0x2d, 0x61, 0x6c, 0x6c, 0x6f, 0x63, 0x2d, 0x68, 0x79, 0x62, 0x72, 0x69, 0x64]

/-- The bytes of the string literal `--alloc-ajsheap`. -/
def OPT_ALLOC_AJSHEAP : List Nat :=
  [0x2d, 0x2d, 0x61, 0x6c, 0x6c, 0x6f, 0x63, 0x2d, 0x61, 0x6a, 0x73, 0x68, 0x65, 0x61, 0x70]

/-- Embedding of `ALLOC_DEFAULT` (duk_cmdline.c:525). -/
def ALLOC_DEFAULT : Nat := 0
/-- Embedding of `ALLOC_LOGGING` (duk_cmdline.c:526). -/
def ALLOC_LOGGING : Nat := 1
/-- Embedding of `ALLOC_TORTURE` (duk_cmdline.c:527). -/
def ALLOC_TORTURE : Nat := 2
/-- Embedding of `ALLOC_HYBRID` (duk_cmdline.c:528). -/
def ALLOC_HYBRID : Nat := 3
/-- Embedding of `ALLOC_AJSHEAP` (duk_cmdline.c:529). -/
def ALLOC_AJSHEAP : Nat := 4

/-- The local variables of `main` that the option loop sets (duk_cmdline.c:534). -/
structure cmdline_options where
  have_files : Bool
  have_eval : Bool
  interactive : Bool
  memlimit_high : Bool
  alloc_provider : Nat
deriving DecidableEq

/-- The option loop `for (i = 1; i < argc; i++)` of `main` (duk_cmdline.c:560)
over the arguments `argv[i ..]`; `none` is `goto usage`. An argument is the C
string at `argv[i]` (its bytes before the NUL), so `strcmp (arg, lit) == 0` is
equality with the bytes of the literal; `argv[i]` is not a null pointer for
`i < argc`, so the test `if (!arg)` is never taken and is left out. -/
def parse_options : List (List Nat) → cmdline_options → Option cmdline_options
  | [], o => some o
  | arg :: rest, o =>
      if arg = OPT_RESTRICT_MEMORY then parse_options rest { o with memlimit_high := false }
      else if arg = OPT_I then parse_options rest { o with interactive := true }
      else if arg = OPT_E then
        match rest with
        | [] => none
        | _ :: rest' => parse_options rest' { o with have_eval := true }
      else if arg = OPT_ALLOC_DEFAULT then
        parse_options rest { o with alloc_provider := ALLOC_DEFAULT }
      else if arg = OPT_ALLOC_LOGGING then
        parse_options rest { o with alloc_provider := ALLOC_LOGGING }
      else if arg = OPT_ALLOC_TORTURE then
        parse_options rest { o with alloc_provider := ALLOC_TORTURE }
      else if arg = OPT_ALLOC_HYBRID then
        parse_options rest { o with alloc_provider := ALLOC_HYBRID }
      else if arg = OPT_ALLOC_AJSHEAP then
        parse_options rest { o with alloc_provider := ALLOC_AJSHEAP }
      else if arg.length ≥ 1 ∧ rdByte arg 0 = 0x2d then none
      else parse_options rest { o with have_files := true }

/-- What `main` does that is visible from outside, in order. -/
inductive cmdline_event where
  | print_usage
  | memory_limit (high : Bool)
  | create_heap (alloc_provider : Nat)
  | handle_eval (code : List Nat)
  | handle_file (filename : List Nat)
  | handle_interactive
  | destroy_heap
deriving DecidableEq

/-- The functions that `main` calls and whose bodies use the Duktape API or the
operating system: creating a heap with the allocator selected by
`alloc_provider` (`none`: no context, because creation failed or support for
the allocator is not compiled in), and the three handlers, which return a
status and change the context. `ctx` stands for the state of the heap. -/
structure cmdline_env (ctx : Type) where
  duk_create_heap : Nat → Option ctx
  handle_eval : ctx → List Nat → Int × ctx
  handle_file : ctx → List Nat → Int × ctx
  handle_interactive : ctx → Int × ctx

/-- The loop `Execute any argument file(s)` of `main` (duk_cmdline.c:693) over
the arguments `argv[i ..]`: the value of `retval` (`1` is `goto cleanup`), the
context and the events so far. -/
def run_arguments {ctx : Type} (env : cmdline_env ctx) :
    List (List Nat) → ctx → List cmdline_event → Int × ctx × List cmdline_event
  | [], c, tr => (0, c, tr)
  | arg :: rest, c, tr =>
      if arg.length = 2 ∧ arg = OPT_E then
        match rest with
        | [] => (1, c, tr)
        | code :: rest' =>
            let r := env.handle_eval c code
            if r.1 ≠ 0 then (1, r.2, tr ++ [.handle_eval code])
            else run_arguments env rest' r.2 (tr ++ [.handle_eval code])
      else if arg.length ≥ 1 ∧ rdByte arg 0 = 0x2d then run_arguments env rest c tr
      else
        let r := env.handle_file c arg
        if r.1 ≠ 0 then (1, r.2, tr ++ [.handle_file arg])
        else run_arguments env rest r.2 (tr ++ [.handle_file arg])

/-- Embedding of `main` (duk_cmdline.c:531): the exit status and the events in
order. `ajsheap` is the option `DUK_CMDLINE_AJSHEAP`, which changes the initial
allocator; `exit(-1)` is the status `-1`. The dumps and warnings printed on the
way are not recorded. -/
def main {ctx : Type} (env : cmdline_env ctx) (ajsheap : Bool) (argv : List (List Nat)) :
    Int × List cmdline_event :=
  let init : cmdline_options :=
    { have_files := false, have_eval := false, interactive := false, memlimit_high := true,
      alloc_provider := if ajsheap then ALLOC_AJSHEAP else ALLOC_DEFAULT }
  match parse_options argv.tail init with
  | none => (1, [.print_usage])
  | some o =>
      let interactive := if ¬ o.have_files ∧ ¬ o.have_eval then true else o.interactive
      let tr := [cmdline_event.memory_limit o.memlimit_high,
                 cmdline_event.create_heap o.alloc_provider]
      match env.duk_create_heap o.alloc_provider with
      | none => (-1, tr)
      | some c =>
          let r := run_arguments env argv.tail c tr
          if r.1 ≠ 0 then (r.1, r.2.2 ++ [.destroy_heap])
          else if interactive then
            let ri := env.handle_interactive r.2.1
            if ri.1 ≠ 0 then (1, r.2.2 ++ [.handle_interactive, .destroy_heap])
            else (0, r.2.2 ++ [.handle_interactive, .destroy_heap])
          else (0, r.2.2 ++ [.destroy_heap])

/-- The arguments in option position: every argument except the `CODE` operand
that follows a `-e`. -/
def optionPositions : List (List Nat) → List (List Nat)
  | [] => []
  | arg :: rest =>
      if arg = OPT_E then
        match rest with
        | [] => [arg]
        | _ :: rest' => arg :: optionPositions rest'
      else arg :: optionPositions rest

/-- The options that the tool recognizes. -/
def knownOptions : List (List Nat) :=
  [OPT_RESTRICT_MEMORY, OPT_I, OPT_E, OPT_ALLOC_DEFAULT, OPT_ALLOC_LOGGING, OPT_ALLOC_TORTURE,
   OPT_ALLOC_HYBRID, OPT_ALLOC_AJSHEAP]

/-! ## `duk_bi_global.c`: `escape` and `unescape` -/

/-- Embedding of `duk__escape_unescaped_table` (duk_bi_global.c:70). -/
def duk__escape_unescaped_table : List Nat := [
  DUK__MKBITS 0 0 0 0 0 0 0 0, DUK__MKBITS 0 0 0 0 0 0 0 0,
  DUK__MKBITS 0 0 0 0 0 0 0 0, DUK__MKBITS 0 0 0 0 0 0 0 0,
  DUK__MKBITS 0 0 0 0 0 0 0 0, DUK__MKBITS 0 0 1 1 0 1 1 1,
  DUK__MKBITS 1 1 1 1 1 1 1 1, DUK__MKBITS 1 1 0 0 0 0 0 0,
  DUK__MKBITS 1 1 1 1 1 1 1 1, DUK__MKBITS 1 1 1 1 1 1 1 1,
  DUK__MKBITS 1 1 1 1 1 1 1 1, DUK__MKBITS 1 1 1 0 0 0 0 1,
  DUK__MKBITS 0 1 1 1 1 1 1 1, DUK__MKBITS 1 1 1 1 1 1 1 1,
  DUK__MKBITS 1 1 1 1 1 1 1 1, DUK__MKBITS 1 1 1 0 0 0 0 0]

/-- Embedding of `duk__transform_callback_escape` (duk_bi_global.c:320);
`udata` is unused. -/
def duk__transform_callback_escape (tfm_ctx : duk__transform_context)
    (_udata : List Nat) (cp : Int) : Except DukError duk__transform_context :=
  if cp < 0 then
    .error .typeError
  else if cp < 0x80 ∧ DUK__CHECK_BITMASK duk__escape_unescaped_table cp.toNat then
    .ok (duk_hbuffer_append_bytes tfm_ctx [cp.toNat % 256])
  else if cp < 0x100 then
    .ok (duk_hbuffer_append_bytes tfm_ctx
      [0x25, rdByte duk_uc_nybbles (cp.toNat >>> 4), rdByte duk_uc_nybbles (cp.toNat &&& 0x0f)])
  else if cp < 0x10000 then
    .ok (duk_hbuffer_append_bytes tfm_ctx
      [0x25, 0x75, rdByte duk_uc_nybbles (cp.toNat >>> 12),
       rdByte duk_uc_nybbles ((cp.toNat >>> 8) &&& 0x0f),
       rdByte duk_uc_nybbles ((cp.toNat >>> 4) &&& 0x0f),
       rdByte duk_uc_nybbles (cp.toNat &&& 0x0f)])
  else
    .error .typeError

/-- Embedding of `duk__transform_callback_unescape` (duk_bi_global.c:360);
`udata` is unused. The pair holds the values of `cp` and `tfm_ctx->p` after the
`if`. -/
def duk__transform_callback_unescape (tfm_ctx : duk__transform_context)
    (_udata : List Nat) (cp : Int) : Except DukError duk__transform_context :=
  let r : Int × Nat :=
    if cp = 0x25 then
      let p := tfm_ctx.p
      let left := tfm_ctx.p_end - p
      if left ≥ 5 ∧ rdByte tfm_ctx.h_str p = 0x75 ∧
          duk__decode_hex_escape tfm_ctx.h_str (p + 1) 4 ≥ 0 then
        (duk__decode_hex_escape tfm_ctx.h_str (p + 1) 4, tfm_ctx.p + 5)
      else if left ≥ 2 ∧ duk__decode_hex_escape tfm_ctx.h_str p 2 ≥ 0 then
        (duk__decode_hex_escape tfm_ctx.h_str p 2, tfm_ctx.p + 2)
      else (cp, tfm_ctx.p)
    else (cp, tfm_ctx.p)
  .ok (duk_hbuffer_append_xutf8 { tfm_ctx with p := r.2 } (toUcodepoint r.1))

/-- Embedding of `duk_bi_global_object_escape` (duk_bi_global.c:670). -/
def duk_bi_global_object_escape (s : List Nat) : Option (Except DukError (List Nat)) :=
  duk__transform_helper duk__transform_callback_escape [] s

/-- Embedding of `duk_bi_global_object_unescape` (duk_bi_global.c:674). -/
def duk_bi_global_object_unescape (s : List Nat) : Option (Except DukError (List Nat)) :=
  duk__transform_helper duk__transform_callback_unescape [] s

/-- What `escape` emits for one code point below `0x10000`: the character
itself, `%XX` or `%uXXXX` (uppercase digits). -/
def escapeChunk (u : Nat) : List Nat :=
  if u < 0x80 ∧ DUK__CHECK_BITMASK duk__escape_unescaped_table u then [u]
  else if u < 0x100 then
    [0x25, rdByte duk_uc_nybbles (u / 16), rdByte duk_uc_nybbles (u % 16)]
  else
    [0x25, 0x75, rdByte duk_uc_nybbles (u / 4096), rdByte duk_uc_nybbles (u / 256 % 16),
     rdByte duk_uc_nybbles (u / 16 % 16), rdByte duk_uc_nybbles (u % 16)]

/-- The expected output of `escape` for a sequence of code points. -/
def escapeUnits : List Nat → List Nat
  | [] => []
  | u :: us => escapeChunk u ++ escapeUnits us

/-! ## `duk_bi_global.c`: `require` -/

/-- Modelled from the spec: the values that `require` tells apart: undefined,
a string, a reference to an object, or any other value. -/
inductive duk_value where
  | undefined
  | string (s : List Nat)
  | object (ref : Nat)
  | other (tag : Nat)
deriving DecidableEq

/-- Modelled from the spec: the part of the heap that `require` reads and
writes. An object is a table of plain data properties keyed by string and is
addressed by a reference; `modLoaded` is the current value of the property
`Duktape.modLoaded`; `next_ref` is the reference of the next object created. -/
structure require_heap where
  objects : List (Nat × List (List Nat × duk_value))
  modLoaded : duk_value
  next_ref : Nat
deriving DecidableEq

/-- Modelled from the spec: the property table of the object at a reference. -/
def heap_get (st : require_heap) (ref : Nat) : Option (List (List Nat × duk_value)) :=
  st.objects.lookup ref

/-- Modelled from the spec: `duk_get_prop` on a table: the value of the
property, `none` when the object has no such property (the call returns 0). -/
def duk_get_prop (table : List (List Nat × duk_value)) (key : List Nat) : Option duk_value :=
  table.lookup key

/-- Modelled from the spec: `duk_def_prop` on the object at `ref`: the property
`key` of that object becomes `v`. -/
def duk_def_prop (st : require_heap) (ref : Nat) (key : List Nat) (v : duk_value) :
    require_heap :=
  { st with objects := (ref, (key, v) :: (heap_get st ref).getD []) :: st.objects }

/-- Modelled from the spec: `duk_push_object` (and `duk_push_c_function`)
followed by the definition of the given properties: a new object. -/
def duk_push_object (st : require_heap) (props : List (List Nat × duk_value)) :
    Nat × require_heap :=
  (st.next_ref,
   { st with objects := (st.next_ref, props) :: st.objects, next_ref := st.next_ref + 1 })

/-- The bytes of the built-in string `id` (`DUK_STRIDX_ID`). -/
def DUK_STRIDX_ID : List Nat := [0x69, 0x64]

/-- The bytes of the string literal `(function(require,exports,module){`. -/
def MODULE_WRAP_HEAD : List Nat :=
  [0x28, 0x66, 0x75, 0x6e, 0x63, 0x74, 0x69, 0x6f, 0x6e, 0x28, 0x72, 0x65,
   0x71, 0x75, 0x69, 0x72, 0x65, 0x2c, 0x65, 0x78, 0x70, 0x6f, 0x72, 0x74,
   0x73, 0x2c, 0x6d, 0x6f, 0x64, 0x75, 0x6c, 0x65, 0x29, 0x7b]

/-- The bytes of the string literal `})`. -/
def MODULE_WRAP_TAIL : List Nat := [0x7d, 0x29]

/-- The calls that `require` makes into user code and the compiler, which lie
outside `src/`: the call of `Duktape.modSearch` with its four arguments, the
compilation `duk_eval_raw` of the wrapped source with a file name, and the call
`duk_call_method` of the module function with a `this` value and arguments.
Each may throw, and each returns a value and the heap as it left it. -/
structure require_callbacks where
  modSearch : require_heap → duk_value → duk_value → duk_value → duk_value →
    Except DukError (duk_value × require_heap)
  duk_eval_raw : require_heap → List Nat → List Nat → Except DukError (duk_value × require_heap)
  duk_call_method : require_heap → duk_value → duk_value → List duk_value →
    Except DukError (duk_value × require_heap)

/-- The three objects that `require` creates on a cache miss
(duk_bi_global.c:997-1023): the fresh `require` function with `id` set to the
resolved id, the `exports` table, and the `module` table with `id` set. -/
def require_fresh (st : require_heap) (resolved_id : List Nat) :
    Nat × Nat × Nat × require_heap :=
  let fresh_require := duk_push_object st [(DUK_STRIDX_ID, .string resolved_id)]
  let exports := duk_push_object fresh_require.2 []
  let module := duk_push_object exports.2 [(DUK_STRIDX_ID, .string resolved_id)]
  (fresh_require.1, exports.1, module.1, module.2)

/-- Embedding of `duk_bi_global_object_require` (duk_bi_global.c:931). `arg0`
is the argument, `current_id` the value of the property `id` of the running
`require` function, `limit` the constant `DUK_BI_COMMONJS_MODULE_ID_LIMIT`.
The result is the value returned and the heap, or the error thrown; `none`
only if the resolution ran out of fuel. -/
def duk_bi_global_object_require (cb : require_callbacks) (limit : Nat) (st : require_heap)
    (arg0 : duk_value) (current_id : duk_value) :
    Option (Except DukError (duk_value × require_heap)) :=
  match arg0 with
  | .string str_req_id =>
      let str_mod_id : Option (List Nat) :=
        match current_id with
        | .string s => some s
        | _ => none
      match duk__bi_global_resolve_module_id limit str_req_id str_mod_id with
      | none => none
      | some (.error e) => some (.error e)
      | some (.ok resolved_id) =>
          match st.modLoaded with
          | .object loaded =>
              match duk_get_prop ((heap_get st loaded).getD []) resolved_id with
              | some v => some (.ok (v, st))
              | none =>
                  let fr := require_fresh st resolved_id
                  let fresh_require := duk_value.object fr.1
                  let exports := duk_value.object fr.2.1
                  let module := duk_value.object fr.2.2.1
                  match cb.modSearch fr.2.2.2 (.string resolved_id) fresh_require exports
                      module with
                  | .error e => some (.error e)
                  | .ok (source, st1) =>
                      let st2 := duk_def_prop st1 loaded resolved_id exports
                      match source with
                      | .string src =>
                          match cb.duk_eval_raw st2
                              (MODULE_WRAP_HEAD ++ src ++ MODULE_WRAP_TAIL) resolved_id with
                          | .error e => some (.error e)
                          | .ok (mod_func, st3) =>
                              match cb.duk_call_method st3 mod_func exports
                                  [fresh_require, exports, module] with
                              | .error e => some (.error e)
                              | .ok (_, st4) => some (.ok (exports, st4))
                      | _ => some (.ok (exports, st2))
          | _ => some (.error .typeError)
  | _ => some (.error .typeError)

/-- Callbacks that throw whenever they are invoked. -/
def failing_callbacks : require_callbacks :=
  { modSearch := fun _ _ _ _ _ => .error .internalError,
    duk_eval_raw := fun _ _ _ => .error .internalError,
    duk_call_method := fun _ _ _ _ => .error .internalError }

/-- Callbacks for a module `a` whose body requires `a` again: `modSearch`
returns a source string, the compilation returns some function, and the call of
the module function issues `require ("a")` from inside module `a`, with
callbacks that would throw if the nested call reached them. -/
def cyclic_callbacks : require_callbacks :=
  { modSearch := fun st _ _ _ _ => .ok (.string [0x78], st),
    duk_eval_raw := fun st _ _ => .ok (.other 0, st),
    duk_call_method := fun st _ _ _ =>
      match duk_bi_global_object_require failing_callbacks 256 st (.string [0x61])
          (.string [0x61]) with
      | some (.ok r) => .ok r
      | _ => .error .internalError }

/-! ## `duk_heap.h`: the string table behind `duk_heap_string_intern` -/

/-- Modelled from the spec: a cell of the string table holds nothing, the
deleted marker (`DUK_STRTAB_DELETED_MARKER`, duk_heap.h:166), or a reference to
a string. -/
inductive strtab_cell where
  | empty
  | deleted
  | used (ref : Nat)
deriving DecidableEq

/-- Modelled from the spec: the heap as the string table sees it: the cells of
`strtable` (their number is `st_size`), the bytes of every string body by
reference, and the reference that the next new string gets. The functions that
work on the table are declared in duk_heap.h:418-425 and defined outside
`src/`. -/
structure strtab_heap where
  strtable : List strtab_cell
  strings : List (Nat × List Nat)
  next_ref : Nat

/-- Modelled from the spec: the probe sequence for a hash over a table of
`st_size` cells: it starts at `DUK_STRTAB_HASH_INITIAL` (duk_heap.h:177), the
hash modulo the size, and advances by the probe step; `k` probes are listed. -/
def strtab_probe_seq (st_size : Nat) (step : Nat → Nat) (hash : Nat) : Nat → List Nat
  | 0 => []
  | k + 1 => strtab_probe_seq st_size step hash k ++ [(hash % st_size + k * step hash) % st_size]

/-- The outcome of probing: a cell holding an equal string, an empty cell
reached (with the cell where a new string goes: the first deleted cell seen,
else the empty cell), or no empty cell among the probes. -/
inductive strtab_probe_result where
  | hit (ref : Nat)
  | miss (slot : Nat)
  | full
deriving DecidableEq

/-- Modelled from the spec: steps 2 to 4 of the intern protocol over the slots
still to probe; `del` is the first deleted cell seen so far. A cell matches when
its string has the same bytes (and so the same byte length). -/
def strtab_probe (h : strtab_heap) (s : List Nat) :
    List Nat → Option Nat → strtab_probe_result
  | [], _ => .full
  | i :: rest, del =>
      match h.strtable.getD i .empty with
      | .empty => .miss (del.getD i)
      | .deleted => strtab_probe h s rest (some (del.getD i))
      | .used r =>
          if h.strings.lookup r = some s then .hit r
          else strtab_probe h s rest del

/-- Modelled from the spec: step 4 of the intern protocol: a new string body
with bytes `s` is created and its reference is placed in the cell `slot`. -/
def strtab_insert (h : strtab_heap) (slot : Nat) (s : List Nat) : strtab_heap :=
  { strtable := h.strtable.set slot (.used h.next_ref),
    strings := (h.next_ref, s) :: h.strings,
    next_ref := h.next_ref + 1 }

/-- Modelled from the spec: `duk_heap_string_intern` (declared at
duk_heap.h:418): the reference of the string with bytes `s` and the heap
afterwards. On a match the existing reference is returned; on an empty cell a
new string body is created and placed in the table. `hash` is the hash function
(seeded at heap creation) and `step` the probe step. `none` when no empty cell
is met, which the load factor kept by resizing excludes; resizing is not
modelled. -/
def duk_heap_string_intern (hash : List Nat → Nat) (step : Nat → Nat) (h : strtab_heap)
    (s : List Nat) : Option (Nat × strtab_heap) :=
  match strtab_probe h s
      (strtab_probe_seq h.strtable.length step (hash s) h.strtable.length) none with
  | .hit r => some (r, h)
  | .miss slot => some (h.next_ref, strtab_insert h slot s)
  | .full => none

/-- Modelled from the spec: `duk_heap_string_remove` (declared at
duk_heap.h:425): the cell of the string is replaced with the deleted marker. -/
def duk_heap_string_remove (h : strtab_heap) (ref : Nat) : strtab_heap :=
  { h with strtable := h.strtable.map (fun c => if c = .used ref then .deleted else c) }

/-- An operation on the string table: interning a byte sequence or removing a
string. -/
inductive strtab_op where
  | intern (s : List Nat)
  | remove (ref : Nat)

/-- The heap after a sequence of operations; `none` if an intern met no empty
cell. -/
def strtab_run (hash : List Nat → Nat) (step : Nat → Nat) :
    List strtab_op → strtab_heap → Option strtab_heap
  | [], h => some h
  | .intern s :: ops, h =>
      match duk_heap_string_intern hash step h s with
      | none => none
      | some r => strtab_run hash step ops r.2
  | .remove ref :: ops, h => strtab_run hash step ops (duk_heap_string_remove h ref)

/-- A new heap: a string table of `st_size` empty cells. -/
def strtab_new (st_size : Nat) : strtab_heap :=
  { strtable := List.replicate st_size .empty, strings := [], next_ref := 0 }

/-- The condition kept by the string table: every string referenced from a
cell was created earlier, and probing for its bytes arrives at it. -/
def strtab_wf (hash : List Nat → Nat) (step : Nat → Nat) (h : strtab_heap) : Prop :=
  ∀ i r, i < h.strtable.length → h.strtable.getD i .empty = .used r →
    r < h.next_ref ∧ ∃ b, h.strings.lookup r = some b ∧
      strtab_probe h b
        (strtab_probe_seq h.strtable.length step (hash b) h.strtable.length) none = .hit r

/-- The call `duk_unicode_decode_xutf8 (thr, &ptr, ptr_start, ptr_end, &out_cp)`
with the two variables it may write: the return value and the values of `*ptr`
and `*out_cp` afterwards. On the `fail` path neither variable is assigned
(duk_unicode_support.c:219). -/
def duk_unicode_decode_xutf8_call (buf : List Nat) (ptr_start ptr_end : Nat)
    (ptr out_cp : Nat) : Nat × Nat × Nat :=
  match duk_unicode_decode_xutf8 buf ptr ptr_start ptr_end with
  | none => (0, ptr, out_cp)
  | some (p, res) => (1, p, res)

/-! ### White space and line terminators (duk_unicode_support.c) -/

/-- `duk_unicode_is_whitespace` (duk_unicode_support.c:321-395) on a signed
code point. `cp & 0xff` of a two's complement value is `cp % 256`; `cp >> 8` is
the arithmetic shift `cp / 256` (rounding down), converted to
`duk_uint_fast32_t`, an unsigned type of `w` bits. -/
def duk_unicode_is_whitespace (w : Nat) (cp : Int) : Nat :=
  let lo : Int := cp % 256
  let hi : Int := (cp / 256) % 2 ^ w
  if hi = 0x0000 then
    if lo = 0x09 ∨ lo = 0x0b ∨ lo = 0x0c ∨ lo = 0x20 ∨ lo = 0xa0 then 1 else 0
  else if hi = 0x0020 then
    if lo ≤ 0x0a ∨ lo = 0x2f ∨ lo = 0x5f then 1 else 0
  else if cp = 0x1680 ∨ cp = 0x180e ∨ cp = 0x3000 ∨ cp = 0xfeff then 1
  else 0

/-- `duk_unicode_is_line_terminator` (duk_unicode_support.c:401-415). -/
def duk_unicode_is_line_terminator (cp : Int) : Nat :=
  if cp = 0x000a ∨ cp = 0x000d ∨ cp = 0x2028 ∨ cp = 0x2029 then 1 else 0

/-- `duk_unicode_re_ranges_white[22]` (duk_unicode_support.c:965-977): eleven
pairs of an inclusive lower and upper bound. -/
def duk_unicode_re_ranges_white : List Nat :=
  [0x0009, 0x000D,
   0x0020, 0x0020,
   0x00A0, 0x00A0,
   0x1680, 0x1680,
   0x180E, 0x180E,
   0x2000, 0x200A,
   0x2028, 0x2029,
   0x202F, 0x202F,
   0x205F, 0x205F,
   0x3000, 0x3000,
   0xFEFF, 0xFEFF]

/-- Membership of a code point in a range table: the table is read as
consecutive pairs `(r1, r2)` and `cp` matches when `r1 ≤ cp ≤ r2` for one of
them. -/
def inRanges : List Nat → Nat → Bool
  | r1 :: r2 :: rest, cp => (decide (r1 ≤ cp) && decide (cp ≤ r2)) || inRanges rest cp
  | _, _ => false

/-! ### `eval` (duk_bi_global.c:395) -/

/-- The flag constants used by `duk_bi_global_object_eval`; they are defined
outside the embedded sources and enter as parameters. -/
structure duk_eval_flag_values where
  DUK_ACT_FLAG_STRICT : Nat
  DUK_ACT_FLAG_DIRECT_EVAL : Nat
  DUK_JS_COMPILE_FLAG_EVAL : Nat
  DUK_JS_COMPILE_FLAG_STRICT : Nat

/-- What `duk_bi_global_object_eval` does with its argument: it returns it as
is, or calls `duk_js_compile` on the source bytes with `comp_flags`. -/
inductive eval_compile_call where
  | return_arg
  | duk_js_compile (src : List Nat) (comp_flags : Nat)
  deriving DecidableEq, Repr

/-- `duk_bi_global_object_eval` (duk_bi_global.c:395-448) up to its call of
`duk_js_compile`. `callstack` holds the `flags` word of each activation,
`thr->callstack_top` being its length; `h` is the result of
`duk_get_hstring (ctx, 0)`, `none` for NULL. -/
def duk_bi_global_object_eval (F : duk_eval_flag_values) (callstack : List Nat)
    (h : Option (List Nat)) : eval_compile_call :=
  match h with
  | none => .return_arg
  | some src =>
    let callstack_top := callstack.length
    let comp_flags := F.DUK_JS_COMPILE_FLAG_EVAL
    let act_eval := callstack.getD (callstack_top - 1) 0
    let comp_flags :=
      if callstack_top ≥ 2 then
        let act_caller := callstack.getD (callstack_top - 2) 0
        if act_caller &&& F.DUK_ACT_FLAG_STRICT ≠ 0 ∧
            act_eval &&& F.DUK_ACT_FLAG_DIRECT_EVAL ≠ 0 then
          comp_flags ||| F.DUK_JS_COMPILE_FLAG_STRICT
        else comp_flags
      else comp_flags
    .duk_js_compile src comp_flags

/-! ### `require`: the value stack (duk_bi_global.c:931-1118)

The function is embedded a second time with the value stack explicit: each API
call acts on the stack by its documented effect and each `DUK_ASSERT_TOP` is
recorded with the stack top at that point. -/

namespace ValueStack

/-- The built-in strings used as property keys by `require`. -/
inductive stridx where
  | DUK_STRIDX_ID
  | DUK_STRIDX_MOD_LOADED
  | DUK_STRIDX_MOD_SEARCH
  deriving DecidableEq, Repr

/-- A value on the value stack, named by where it came from. -/
inductive stack_item where
  | undefined
  | argument (i : Nat)
  | current_function
  | builtin_duktape
  | resolved_id
  | c_function
  | object (serial : Nat)
  | string (s : List Nat)
  | property_stridx (obj : stack_item) (key : stridx)
  | property (obj key : stack_item)
  | call_result (func : stack_item)
  | call_method_result (func this : stack_item)
  | concat_result (n : Nat)
  | eval_result (src filename : stack_item)
  deriving DecidableEq, Repr

/-- The value stack of the running call, index 0 at the bottom, together with
the stack index at which each object was created (by serial number) and the
`DUK_ASSERT_TOP` checks met so far, each as the asserted and the actual top. -/
structure value_stack where
  items : List stack_item
  created : List Nat
  asserts : List (Nat × Nat)
  deriving DecidableEq, Repr

/-- The value of `duk_get_top`. -/
def duk_get_top (st : value_stack) : Nat := st.items.length

/-- Modelled from the spec: a stack index, negative ones counting from the top. -/
def duk_normalize_index (st : value_stack) (index : Int) : Nat :=
  if index < 0 then (st.items.length + index).toNat else index.toNat

/-- The value at a stack index. -/
def stack_at (st : value_stack) (index : Int) : stack_item :=
  st.items.getD (duk_normalize_index st index) .undefined

/-- Modelled from the spec: a push adds one value on top of the stack. -/
def duk_push (st : value_stack) (v : stack_item) : value_stack :=
  { st with items := st.items ++ [v] }

/-- Removal of the `n` topmost values. -/
def stack_pop_n (st : value_stack) (n : Nat) : value_stack :=
  { st with items := st.items.take (st.items.length - n) }

/-- Modelled from the spec: `duk_dup` pushes a copy of the value at `index`. -/
def duk_dup (st : value_stack) (index : Int) : value_stack :=
  duk_push st (stack_at st index)

/-- Modelled from the spec: `duk_push_object` pushes a new object. -/
def duk_push_object (st : value_stack) : value_stack :=
  duk_push { st with created := st.created ++ [st.items.length] }
    (.object st.created.length)

/-- Modelled from the spec: `duk_get_prop_stridx` pushes the property value. -/
def duk_get_prop_stridx (st : value_stack) (index : Int) (key : stridx) : value_stack :=
  duk_push st (.property_stridx (stack_at st index) key)

/-- Modelled from the spec: `duk_get_prop` replaces the key on top of the stack
by the property value, `undefined` when the property is not found. -/
def duk_get_prop (st : value_stack) (index : Int) (found : Bool) : value_stack :=
  let obj := stack_at st index
  let key := stack_at st (-1)
  duk_push (stack_pop_n st 1) (if found then .property obj key else .undefined)

/-- Modelled from the spec: `duk_def_prop_stridx` pops the value. -/
def duk_def_prop_stridx (st : value_stack) (_index : Int) (_key : stridx) : value_stack :=
  stack_pop_n st 1

/-- Modelled from the spec: `duk_def_prop` pops the key and the value. -/
def duk_def_prop (st : value_stack) (_index : Int) : value_stack :=
  stack_pop_n st 2

/-- Modelled from the spec: `duk_call` replaces the function and its `nargs`
arguments by the result. -/
def duk_call (st : value_stack) (nargs : Nat) : value_stack :=
  let func := stack_at st (-(nargs : Int) - 1)
  duk_push (stack_pop_n st (nargs + 1)) (.call_result func)

/-- Modelled from the spec: `duk_call_method` replaces the function, the this
binding and the `nargs` arguments by the result. -/
def duk_call_method (st : value_stack) (nargs : Nat) : value_stack :=
  let func := stack_at st (-(nargs : Int) - 2)
  let this := stack_at st (-(nargs : Int) - 1)
  duk_push (stack_pop_n st (nargs + 2)) (.call_method_result func this)

/-- Modelled from the spec: `duk_concat` replaces `n` values by their
concatenation. -/
def duk_concat (st : value_stack) (n : Nat) : value_stack :=
  duk_push (stack_pop_n st n) (.concat_result n)

/-- Modelled from the spec: `duk_eval_raw` without a source buffer replaces the
source and the file name on top of the stack by the result. -/
def duk_eval_raw (st : value_stack) : value_stack :=
  let src := stack_at st (-2)
  let filename := stack_at st (-1)
  duk_push (stack_pop_n st 2) (.eval_result src filename)

/-- Modelled from the spec: `duk_pop_2` pops two values. -/
def duk_pop_2 (st : value_stack) : value_stack := stack_pop_n st 2

/-- `DUK_ASSERT_TOP (ctx, n)`: the check is recorded with the actual top. -/
def DUK_ASSERT_TOP (st : value_stack) (n : Nat) : value_stack :=
  { st with asserts := st.asserts ++ [(n, duk_get_top st)] }

/-- `return 1`: the value on top of the stack is the return value. -/
def return_1 (st : value_stack) : stack_item × value_stack :=
  (stack_at st (-1), st)

/-- `duk_bi_global_object_require` (duk_bi_global.c:931-1118) on the value
stack `entry` it is entered with, on the path where no call throws. `found` is
the result of `duk_get_prop (ctx, 5)` and `source_is_string` that of
`duk_is_string (ctx, 11)`. The identifier pushed by
`duk__bi_global_resolve_module_id`, the built-in pushed by
`duk_push_hobject_bidx` and the function pushed by `duk_push_c_function` are
pushes of one value; `duk_require_string`, `duk_get_string`,
`duk_require_hobject` and `duk_is_string` leave the stack as it is. The result
is the return value and the final stack. -/
def duk_bi_global_object_require (entry : List stack_item) (found source_is_string : Bool) :
    stack_item × value_stack :=
  let st : value_stack := { items := entry, created := [], asserts := [] }
  let st := duk_push st .current_function
  let st := duk_get_prop_stridx st (-1) .DUK_STRIDX_ID
  let st := duk_push st .resolved_id
  let st := DUK_ASSERT_TOP st 4
  let st := DUK_ASSERT_TOP st 4
  let st := duk_push st .builtin_duktape
  let st := duk_get_prop_stridx st 4 .DUK_STRIDX_MOD_LOADED
  let st := DUK_ASSERT_TOP st 6
  let st := duk_dup st 3
  let st := duk_get_prop st 5 found
  if found then return_1 st
  else
    let st := DUK_ASSERT_TOP st 7
    let st := duk_push st .c_function
    let st := duk_dup st 3
    let st := duk_def_prop_stridx st 7 .DUK_STRIDX_ID
    let st := duk_push_object st
    let st := duk_push_object st
    let st := duk_dup st 3
    let st := duk_def_prop_stridx st 9 .DUK_STRIDX_ID
    let st := DUK_ASSERT_TOP st 10
    let st := duk_push st (.string MODULE_WRAP_HEAD)
    let st := duk_get_prop_stridx st 4 .DUK_STRIDX_MOD_SEARCH
    let st := duk_dup st 3
    let st := duk_dup st 7
    let st := duk_dup st 8
    let st := duk_dup st 9
    let st := duk_call st 4
    let st := DUK_ASSERT_TOP st 12
    let st := duk_dup st 3
    let st := duk_dup st 8
    let st := duk_def_prop st 5
    if !source_is_string then
      let st := duk_dup st 8
      return_1 st
    else
      let st := duk_push st (.string MODULE_WRAP_TAIL)
      let st := duk_concat st 3
      let st := duk_dup st 3
      let st := duk_eval_raw st
      let st := DUK_ASSERT_TOP st 11
      let st := duk_dup st 8
      let st := duk_dup st 7
      let st := duk_dup st 8
      let st := duk_dup st 9
      let st := DUK_ASSERT_TOP st 15
      let st := duk_call_method st 3
      let st := DUK_ASSERT_TOP st 11
      let st := duk_pop_2 st
      return_1 st

end ValueStack

/-! ## Theorems -/

/-! ### Bit operations as arithmetic, buffer reads -/

theorem and_0x7f (x : Nat) : x &&& 0x7f = x % 128 := Nat.and_pow_two_sub_one_eq_mod x 7
theorem and_0x3f (x : Nat) : x &&& 0x3f = x % 64 := Nat.and_pow_two_sub_one_eq_mod x 6
theorem and_0x1f (x : Nat) : x &&& 0x1f = x % 32 := Nat.and_pow_two_sub_one_eq_mod x 5
theorem and_0x0f (x : Nat) : x &&& 0x0f = x % 16 := Nat.and_pow_two_sub_one_eq_mod x 4
theorem and_0x07 (x : Nat) : x &&& 0x07 = x % 8 := Nat.and_pow_two_sub_one_eq_mod x 3
theorem and_0x03 (x : Nat) : x &&& 0x03 = x % 4 := Nat.and_pow_two_sub_one_eq_mod x 2
theorem and_0x01 (x : Nat) : x &&& 0x01 = x % 2 := Nat.and_pow_two_sub_one_eq_mod x 1
theorem shr_6 (x : Nat) : x >>> 6 = x / 64 := Nat.shiftRight_eq_div_pow x 6
theorem shl_6 (x : Nat) : x <<< 6 = x * 64 := Nat.shiftLeft_eq x 6

theorem rdByte_append_right (pre l : List Nat) (k : Nat) :
    rdByte (pre ++ l) (pre.length + k) = rdByte l k := by
  simp [rdByte, List.getElem?_append_right]

theorem rdByte_append_right0 (pre l : List Nat) :
    rdByte (pre ++ l) pre.length = rdByte l 0 := by
  simpa using rdByte_append_right pre l 0

theorem rdByte_cons_zero (a : Nat) (l : List Nat) : rdByte (a :: l) 0 = a := rfl
theorem rdByte_cons_succ (a : Nat) (l : List Nat) (k : Nat) :
    rdByte (a :: l) (k + 1) = rdByte l k := rfl

/-- `duk_unicode_decode_xutf8` in closed form: when it fails, and what it returns. -/
theorem decode_xutf8_eq (buf : List Nat) (p ptr_start ptr_end : Nat) :
    duk_unicode_decode_xutf8 buf p ptr_start ptr_end =
      if p < ptr_start ∨ ptr_end ≤ p ∨ (0x80 ≤ rdByte buf p ∧ rdByte buf p < 0xc0) ∨
          0xff ≤ rdByte buf p ∨ ptr_end < p + 1 + xutf8_cont_count (rdByte buf p) then none
      else some (decode_xutf8_loop buf (xutf8_cont_count (rdByte buf p)) (p + 1)
              (xutf8_lead_bits (rdByte buf p))) := by
  unfold duk_unicode_decode_xutf8 xutf8_cont_count xutf8_lead_bits
  simp only [and_0x7f, and_0x1f, and_0x0f, and_0x07, and_0x03, and_0x01]
  generalize rdByte buf p = ch
  by_cases hp : p < ptr_start ∨ p ≥ ptr_end
  · rw [if_pos hp, if_pos (by omega)]
  rw [if_neg hp]
  by_cases c1 : ch < 0x80
  · simp only [if_pos c1, if_pos (show ch < 0xc0 by omega)]
    by_cases hn : p + 1 + 0 > ptr_end
    · rw [if_pos hn, if_pos (by omega)]
    · rw [if_neg hn, if_neg (by omega)]
  by_cases c2 : ch < 0xc0
  · simp only [if_neg c1, if_pos c2]
    rw [if_pos (by omega)]
  by_cases c3 : ch < 0xe0
  · simp only [if_neg c1, if_neg c2, if_pos c3]
    by_cases hn : p + 1 + 1 > ptr_end
    · rw [if_pos hn, if_pos (by omega)]
    · rw [if_neg hn, if_neg (by omega)]
  by_cases c4 : ch < 0xf0
  · simp only [if_neg c1, if_neg c2, if_neg c3, if_pos c4]
    by_cases hn : p + 1 + 2 > ptr_end
    · rw [if_pos hn, if_pos (by omega)]
    · rw [if_neg hn, if_neg (by omega)]
  by_cases c5 : ch < 0xf8
  · simp only [if_neg c1, if_neg c2, if_neg c3, if_neg c4, if_pos c5]
    by_cases hn : p + 1 + 3 > ptr_end
    · rw [if_pos hn, if_pos (by omega)]
    · rw [if_neg hn, if_neg (by omega)]
  by_cases c6 : ch < 0xfc
  · simp only [if_neg c1, if_neg c2, if_neg c3, if_neg c4, if_neg c5, if_pos c6]
    by_cases hn : p + 1 + 4 > ptr_end
    · rw [if_pos hn, if_pos (by omega)]
    · rw [if_neg hn, if_neg (by omega)]
  by_cases c7 : ch < 0xfe
  · simp only [if_neg c1, if_neg c2, if_neg c3, if_neg c4, if_neg c5, if_neg c6, if_pos c7]
    by_cases hn : p + 1 + 5 > ptr_end
    · rw [if_pos hn, if_pos (by omega)]
    · rw [if_neg hn, if_neg (by omega)]
  by_cases c8 : ch < 0xff
  · simp only [if_neg c1, if_neg c2, if_neg c3, if_neg c4, if_neg c5, if_neg c6, if_neg c7,
      if_pos c8]
    by_cases hn : p + 1 + 6 > ptr_end
    · rw [if_pos hn, if_pos (by omega)]
    · rw [if_neg hn, if_neg (by omega)]
  simp only [if_neg c1, if_neg c2, if_neg c3, if_neg c4, if_neg c5, if_neg c6, if_neg c7,
    if_neg c8]
  rw [if_pos (by omega)]

/-- `duk_unicode_decode_xutf8` on a lead byte in `[0, 0x80)`: 0 continuation bytes. -/
theorem decode_xutf8_n0 (buf : List Nat) (p ptr_end : Nat)
    (hlo : 0 ≤ rdByte buf p) (hhi : rdByte buf p < 0x80) (hn : p + 1 + 0 ≤ ptr_end) :
    duk_unicode_decode_xutf8 buf p 0 ptr_end
      = some (decode_xutf8_loop buf 0 (p + 1) (rdByte buf p % 128)) := by
  have hc : xutf8_cont_count (rdByte buf p) = 0 := by
    unfold xutf8_cont_count; split_ifs <;> omega
  have hb : xutf8_lead_bits (rdByte buf p) = (rdByte buf p % 128) := by
    unfold xutf8_lead_bits; rw [if_pos hhi]
  rw [decode_xutf8_eq, hc, hb, if_neg (by omega)]

/-- `duk_unicode_decode_xutf8` on a lead byte in `[0xc0, 0xe0)`: 1 continuation bytes. -/
theorem decode_xutf8_n1 (buf : List Nat) (p ptr_end : Nat)
    (hlo : 0xc0 ≤ rdByte buf p) (hhi : rdByte buf p < 0xe0) (hn : p + 1 + 1 ≤ ptr_end) :
    duk_unicode_decode_xutf8 buf p 0 ptr_end
      = some (decode_xutf8_loop buf 1 (p + 1) (rdByte buf p % 32)) := by
  have hc : xutf8_cont_count (rdByte buf p) = 1 := by
    unfold xutf8_cont_count; split_ifs <;> omega
  have hb : xutf8_lead_bits (rdByte buf p) = (rdByte buf p % 32) := by
    unfold xutf8_lead_bits; split_ifs <;> omega
  rw [decode_xutf8_eq, hc, hb, if_neg (by omega)]

/-- `duk_unicode_decode_xutf8` on a lead byte in `[0xe0, 0xf0)`: 2 continuation bytes. -/
theorem decode_xutf8_n2 (buf : List Nat) (p ptr_end : Nat)
    (hlo : 0xe0 ≤ rdByte buf p) (hhi : rdByte buf p < 0xf0) (hn : p + 1 + 2 ≤ ptr_end) :
    duk_unicode_decode_xutf8 buf p 0 ptr_end
      = some (decode_xutf8_loop buf 2 (p + 1) (rdByte buf p % 16)) := by
  have hc : xutf8_cont_count (rdByte buf p) = 2 := by
    unfold xutf8_cont_count; split_ifs <;> omega
  have hb : xutf8_lead_bits (rdByte buf p) = (rdByte buf p % 16) := by
    unfold xutf8_lead_bits; split_ifs <;> omega
  rw [decode_xutf8_eq, hc, hb, if_neg (by omega)]

/-- `duk_unicode_decode_xutf8` on a lead byte in `[0xf0, 0xf8)`: 3 continuation bytes. -/
theorem decode_xutf8_n3 (buf : List Nat) (p ptr_end : Nat)
    (hlo : 0xf0 ≤ rdByte buf p) (hhi : rdByte buf p < 0xf8) (hn : p + 1 + 3 ≤ ptr_end) :
    duk_unicode_decode_xutf8 buf p 0 ptr_end
      = some (decode_xutf8_loop buf 3 (p + 1) (rdByte buf p % 8)) := by
  have hc : xutf8_cont_count (rdByte buf p) = 3 := by
    unfold xutf8_cont_count; split_ifs <;> omega
  have hb : xutf8_lead_bits (rdByte buf p) = (rdByte buf p % 8) := by
    unfold xutf8_lead_bits; split_ifs <;> omega
  rw [decode_xutf8_eq, hc, hb, if_neg (by omega)]

/-- `duk_unicode_decode_xutf8` on a lead byte in `[0xf8, 0xfc)`: 4 continuation bytes. -/
theorem decode_xutf8_n4 (buf : List Nat) (p ptr_end : Nat)
    (hlo : 0xf8 ≤ rdByte buf p) (hhi : rdByte buf p < 0xfc) (hn : p + 1 + 4 ≤ ptr_end) :
    duk_unicode_decode_xutf8 buf p 0 ptr_end
      = some (decode_xutf8_loop buf 4 (p + 1) (rdByte buf p % 4)) := by
  have hc : xutf8_cont_count (rdByte buf p) = 4 := by
    unfold xutf8_cont_count; split_ifs <;> omega
  have hb : xutf8_lead_bits (rdByte buf p) = (rdByte buf p % 4) := by
    unfold xutf8_lead_bits; split_ifs <;> omega
  rw [decode_xutf8_eq, hc, hb, if_neg (by omega)]

/-- `duk_unicode_decode_xutf8` on a lead byte in `[0xfc, 0xfe)`: 5 continuation bytes. -/
theorem decode_xutf8_n5 (buf : List Nat) (p ptr_end : Nat)
    (hlo : 0xfc ≤ rdByte buf p) (hhi : rdByte buf p < 0xfe) (hn : p + 1 + 5 ≤ ptr_end) :
    duk_unicode_decode_xutf8 buf p 0 ptr_end
      = some (decode_xutf8_loop buf 5 (p + 1) (rdByte buf p % 2)) := by
  have hc : xutf8_cont_count (rdByte buf p) = 5 := by
    unfold xutf8_cont_count; split_ifs <;> omega
  have hb : xutf8_lead_bits (rdByte buf p) = (rdByte buf p % 2) := by
    unfold xutf8_lead_bits; split_ifs <;> omega
  rw [decode_xutf8_eq, hc, hb, if_neg (by omega)]

/-- `duk_unicode_decode_xutf8` on a lead byte in `[0xfe, 0xff)`: 6 continuation bytes. -/
theorem decode_xutf8_n6 (buf : List Nat) (p ptr_end : Nat)
    (hlo : 0xfe ≤ rdByte buf p) (hhi : rdByte buf p < 0xff) (hn : p + 1 + 6 ≤ ptr_end) :
    duk_unicode_decode_xutf8 buf p 0 ptr_end
      = some (decode_xutf8_loop buf 6 (p + 1) 0) := by
  have hc : xutf8_cont_count (rdByte buf p) = 6 := by
    unfold xutf8_cont_count; split_ifs <;> omega
  have hb : xutf8_lead_bits (rdByte buf p) = 0 := by
    unfold xutf8_lead_bits; split_ifs <;> omega
  rw [decode_xutf8_eq, hc, hb, if_neg (by omega)]

theorem encode_xutf8_1 (cp : Nat) (h : cp < 0x80) :
    duk_unicode_encode_xutf8 cp = (1, [cp]) := by
  have e0 : cp < 256 := by omega
  simp [duk_unicode_encode_xutf8, duk_unicode_get_xutf8_length, h, encode_xutf8_loop,
    duk_unicode_xutf8_markers, rdByte, e0]

theorem encode_xutf8_2 (cp : Nat) (h1 : 0x80 ≤ cp) (h2 : cp < 0x800) :
    duk_unicode_encode_xutf8 cp = (2, [0xc0 + cp / 64, 0x80 + cp % 64]) := by
  have e0 : (192 + cp / 64) % 256 = 192 + cp / 64 := by omega
  have e1 : (128 + cp % 64) % 256 = 128 + cp % 64 := by omega
  have n1 : ¬ cp < 128 := by omega
  simp [duk_unicode_encode_xutf8, duk_unicode_get_xutf8_length, n1, h2, encode_xutf8_loop,
    duk_unicode_xutf8_markers, rdByte, and_0x3f, shr_6, e0, e1]

theorem encode_xutf8_3 (cp : Nat) (h1 : 0x800 ≤ cp) (h2 : cp < 0x10000) :
    duk_unicode_encode_xutf8 cp
      = (3, [0xe0 + cp / 4096, 0x80 + cp / 64 % 64, 0x80 + cp % 64]) := by
  have e0 : (224 + cp / 64 / 64) % 256 = 224 + cp / 4096 := by omega
  have e1 : (128 + cp / 64 % 64) % 256 = 128 + cp / 64 % 64 := by omega
  have e2 : (128 + cp % 64) % 256 = 128 + cp % 64 := by omega
  have n1 : ¬ cp < 128 := by omega
  have n2 : ¬ cp < 2048 := by omega
  simp [duk_unicode_encode_xutf8, duk_unicode_get_xutf8_length, n1, n2, h2, encode_xutf8_loop,
    duk_unicode_xutf8_markers, rdByte, and_0x3f, shr_6, e0, e1, e2]

theorem encode_xutf8_4 (cp : Nat) (h1 : 0x10000 ≤ cp) (h2 : cp < 0x200000) :
    duk_unicode_encode_xutf8 cp
      = (4, [0xf0 + cp / 262144, 0x80 + cp / 4096 % 64, 0x80 + cp / 64 % 64,
              0x80 + cp % 64]) := by
  have e0 : (240 + cp / 64 / 64 / 64) % 256 = 240 + cp / 262144 := by omega
  have e1 : (128 + cp / 64 / 64 % 64) % 256 = 128 + cp / 4096 % 64 := by omega
  have e2 : (128 + cp / 64 % 64) % 256 = 128 + cp / 64 % 64 := by omega
  have e3 : (128 + cp % 64) % 256 = 128 + cp % 64 := by omega
  have n1 : ¬ cp < 128 := by omega
  have n2 : ¬ cp < 2048 := by omega
  have n3 : ¬ cp < 65536 := by omega
  simp [duk_unicode_encode_xutf8, duk_unicode_get_xutf8_length, n1, n2, n3, h2,
    encode_xutf8_loop, duk_unicode_xutf8_markers, rdByte, and_0x3f, shr_6, e0, e1, e2, e3]

theorem encode_xutf8_5 (cp : Nat) (h1 : 0x200000 ≤ cp) (h2 : cp < 0x4000000) :
    duk_unicode_encode_xutf8 cp
      = (5, [0xf8 + cp / 16777216, 0x80 + cp / 262144 % 64, 0x80 + cp / 4096 % 64,
              0x80 + cp / 64 % 64, 0x80 + cp % 64]) := by
  have e0 : (248 + cp / 64 / 64 / 64 / 64) % 256 = 248 + cp / 16777216 := by omega
  have e1 : (128 + cp / 64 / 64 / 64 % 64) % 256 = 128 + cp / 262144 % 64 := by omega
  have e2 : (128 + cp / 64 / 64 % 64) % 256 = 128 + cp / 4096 % 64 := by omega
  have e3 : (128 + cp / 64 % 64) % 256 = 128 + cp / 64 % 64 := by omega
  have e4 : (128 + cp % 64) % 256 = 128 + cp % 64 := by omega
  have n1 : ¬ cp < 128 := by omega
  have n2 : ¬ cp < 2048 := by omega
  have n3 : ¬ cp < 65536 := by omega
  have n4 : ¬ cp < 2097152 := by omega
  simp [duk_unicode_encode_xutf8, duk_unicode_get_xutf8_length, n1, n2, n3, n4, h2,
    encode_xutf8_loop, duk_unicode_xutf8_markers, rdByte, and_0x3f, shr_6, e0, e1, e2, e3, e4]

theorem encode_xutf8_6 (cp : Nat) (h1 : 0x4000000 ≤ cp) (h2 : cp < 0x80000000) :
    duk_unicode_encode_xutf8 cp
      = (6, [0xfc + cp / 1073741824, 0x80 + cp / 16777216 % 64, 0x80 + cp / 262144 % 64,
              0x80 + cp / 4096 % 64, 0x80 + cp / 64 % 64, 0x80 + cp % 64]) := by
  have e0 : (252 + cp / 64 / 64 / 64 / 64 / 64) % 256 = 252 + cp / 1073741824 := by omega
  have e1 : (128 + cp / 64 / 64 / 64 / 64 % 64) % 256 = 128 + cp / 16777216 % 64 := by omega
  have e2 : (128 + cp / 64 / 64 / 64 % 64) % 256 = 128 + cp / 262144 % 64 := by omega
  have e3 : (128 + cp / 64 / 64 % 64) % 256 = 128 + cp / 4096 % 64 := by omega
  have e4 : (128 + cp / 64 % 64) % 256 = 128 + cp / 64 % 64 := by omega
  have e5 : (128 + cp % 64) % 256 = 128 + cp % 64 := by omega
  have n1 : ¬ cp < 128 := by omega
  have n2 : ¬ cp < 2048 := by omega
  have n3 : ¬ cp < 65536 := by omega
  have n4 : ¬ cp < 2097152 := by omega
  have n5 : ¬ cp < 67108864 := by omega
  simp [duk_unicode_encode_xutf8, duk_unicode_get_xutf8_length, n1, n2, n3, n4, n5, h2,
    encode_xutf8_loop, duk_unicode_xutf8_markers, rdByte, and_0x3f, shr_6,
    e0, e1, e2, e3, e4, e5]

theorem encode_xutf8_7 (cp : Nat) (h1 : 0x80000000 ≤ cp) (h2 : cp < 2 ^ 32) :
    duk_unicode_encode_xutf8 cp
      = (7, [0xfe, 0x80 + cp / 1073741824, 0x80 + cp / 16777216 % 64,
              0x80 + cp / 262144 % 64, 0x80 + cp / 4096 % 64, 0x80 + cp / 64 % 64,
              0x80 + cp % 64]) := by
  have e0 : (254 + cp / 64 / 64 / 64 / 64 / 64 / 64) % 256 = 254 := by omega
  have e1 : (128 + cp / 64 / 64 / 64 / 64 / 64 % 64) % 256 = 128 + cp / 1073741824 := by omega
  have e2 : (128 + cp / 64 / 64 / 64 / 64 % 64) % 256 = 128 + cp / 16777216 % 64 := by omega
  have e3 : (128 + cp / 64 / 64 / 64 % 64) % 256 = 128 + cp / 262144 % 64 := by omega
  have e4 : (128 + cp / 64 / 64 % 64) % 256 = 128 + cp / 4096 % 64 := by omega
  have e5 : (128 + cp / 64 % 64) % 256 = 128 + cp / 64 % 64 := by omega
  have e6 : (128 + cp % 64) % 256 = 128 + cp % 64 := by omega
  have n1 : ¬ cp < 128 := by omega
  have n2 : ¬ cp < 2048 := by omega
  have n3 : ¬ cp < 65536 := by omega
  have n4 : ¬ cp < 2097152 := by omega
  have n5 : ¬ cp < 67108864 := by omega
  have n6 : ¬ cp < 2147483648 := by omega
  simp [duk_unicode_encode_xutf8, duk_unicode_get_xutf8_length, n1, n2, n3, n4, n5, n6,
    encode_xutf8_loop, duk_unicode_xutf8_markers, rdByte, and_0x3f, shr_6,
    e0, e1, e2, e3, e4, e5, e6]

/-- The continuation loop only looks at the bytes from `p` on: a prefix of the
buffer shifts the final pointer and nothing else. -/
theorem decode_xutf8_loop_append (pre l : List Nat) (n k res : Nat) :
    decode_xutf8_loop (pre ++ l) n (pre.length + k) res
      = (pre.length + (decode_xutf8_loop l n k res).1, (decode_xutf8_loop l n k res).2) := by
  induction n generalizing k res with
  | zero => simp [decode_xutf8_loop]
  | succ n ih =>
      simp only [decode_xutf8_loop, rdByte_append_right]
      rw [Nat.add_assoc, ih]

/-- One round of the continuation loop on a byte `0x80 + c`, when no bits are lost. -/
theorem decode_step_eq (r c x : Nat) (hx : x < 2 ^ 32) (h : r * 64 + c = x) (hc : c < 64) :
    (r * 64 % 2 ^ 32 + (128 + c) % 64) % 2 ^ 32 = x := by
  omega

/-- Decoding what `duk_unicode_encode_xutf8` wrote, anywhere in a buffer: the
decoder returns the code point and stops right after the encoded bytes. -/
theorem decode_encode_xutf8 (cp : Nat) (hcp : cp < 2 ^ 32) (pre post : List Nat)
    (ptr_end : Nat) (hend : pre.length + (duk_unicode_encode_xutf8 cp).1 ≤ ptr_end) :
    duk_unicode_decode_xutf8 (pre ++ (duk_unicode_encode_xutf8 cp).2 ++ post)
        pre.length 0 ptr_end
      = some (pre.length + (duk_unicode_encode_xutf8 cp).1, cp) := by
  by_cases h1 : cp < 0x80
  · rw [encode_xutf8_1 cp h1] at hend ⊢
    simp only [List.append_assoc, List.cons_append, List.nil_append] at hend ⊢
    rw [decode_xutf8_n0 _ _ _ (by simp only [rdByte_append_right0, rdByte_cons_zero]; omega)
      (by simp only [rdByte_append_right0, rdByte_cons_zero]; omega) (by omega)]
    rw [decode_xutf8_loop_append]
    simp only [decode_xutf8_loop, rdByte_append_right0, rdByte_cons_zero,
      rdByte_cons_succ, and_0x3f, shl_6, Nat.reduceAdd]
    have e0 : cp % 128 = cp := by omega
    rw [e0]
  by_cases h2 : cp < 0x800
  · rw [encode_xutf8_2 cp (by omega) h2] at hend ⊢
    simp only [List.append_assoc, List.cons_append, List.nil_append] at hend ⊢
    rw [decode_xutf8_n1 _ _ _ (by simp only [rdByte_append_right0, rdByte_cons_zero]; omega)
      (by simp only [rdByte_append_right0, rdByte_cons_zero]; omega) (by omega)]
    rw [decode_xutf8_loop_append]
    simp only [decode_xutf8_loop, rdByte_append_right0, rdByte_cons_zero,
      rdByte_cons_succ, and_0x3f, shl_6, Nat.reduceAdd]
    have e0 : (192 + cp / 64) % 32 = cp / 64 := by omega
    rw [e0]
    rw [decode_step_eq (cp / 64) (cp % 64) (cp) (by omega) (by omega) (by omega)]
  by_cases h3 : cp < 0x10000
  · rw [encode_xutf8_3 cp (by omega) h3] at hend ⊢
    simp only [List.append_assoc, List.cons_append, List.nil_append] at hend ⊢
    rw [decode_xutf8_n2 _ _ _ (by simp only [rdByte_append_right0, rdByte_cons_zero]; omega)
      (by simp only [rdByte_append_right0, rdByte_cons_zero]; omega) (by omega)]
    rw [decode_xutf8_loop_append]
    simp only [decode_xutf8_loop, rdByte_append_right0, rdByte_cons_zero,
      rdByte_cons_succ, and_0x3f, shl_6, Nat.reduceAdd]
    have e0 : (224 + cp / 4096) % 16 = cp / 4096 := by omega
    rw [e0]
    rw [decode_step_eq (cp / 4096) (cp / 64 % 64) (cp / 64) (by omega) (by omega) (by omega)]
    rw [decode_step_eq (cp / 64) (cp % 64) (cp) (by omega) (by omega) (by omega)]
  by_cases h4 : cp < 0x200000
  · rw [encode_xutf8_4 cp (by omega) h4] at hend ⊢
    simp only [List.append_assoc, List.cons_append, List.nil_append] at hend ⊢
    rw [decode_xutf8_n3 _ _ _ (by simp only [rdByte_append_right0, rdByte_cons_zero]; omega)
      (by simp only [rdByte_append_right0, rdByte_cons_zero]; omega) (by omega)]
    rw [decode_xutf8_loop_append]
    simp only [decode_xutf8_loop, rdByte_append_right0, rdByte_cons_zero,
      rdByte_cons_succ, and_0x3f, shl_6, Nat.reduceAdd]
    have e0 : (240 + cp / 262144) % 8 = cp / 262144 := by omega
    rw [e0]
    rw [decode_step_eq (cp / 262144) (cp / 4096 % 64) (cp / 4096) (by omega) (by omega) (by omega)]
    rw [decode_step_eq (cp / 4096) (cp / 64 % 64) (cp / 64) (by omega) (by omega) (by omega)]
    rw [decode_step_eq (cp / 64) (cp % 64) (cp) (by omega) (by omega) (by omega)]
  by_cases h5 : cp < 0x4000000
  · rw [encode_xutf8_5 cp (by omega) h5] at hend ⊢
    simp only [List.append_assoc, List.cons_append, List.nil_append] at hend ⊢
    rw [decode_xutf8_n4 _ _ _ (by simp only [rdByte_append_right0, rdByte_cons_zero]; omega)
      (by simp only [rdByte_append_right0, rdByte_cons_zero]; omega) (by omega)]
    rw [decode_xutf8_loop_append]
    simp only [decode_xutf8_loop, rdByte_append_right0, rdByte_cons_zero,
      rdByte_cons_succ, and_0x3f, shl_6, Nat.reduceAdd]
    have e0 : (248 + cp / 16777216) % 4 = cp / 16777216 := by omega
    rw [e0]
    rw [decode_step_eq (cp / 16777216) (cp / 262144 % 64) (cp / 262144) (by omega) (by omega) (by omega)]
    rw [decode_step_eq (cp / 262144) (cp / 4096 % 64) (cp / 4096) (by omega) (by omega) (by omega)]
    rw [decode_step_eq (cp / 4096) (cp / 64 % 64) (cp / 64) (by omega) (by omega) (by omega)]
    rw [decode_step_eq (cp / 64) (cp % 64) (cp) (by omega) (by omega) (by omega)]
  by_cases h6 : cp < 0x80000000
  · rw [encode_xutf8_6 cp (by omega) h6] at hend ⊢
    simp only [List.append_assoc, List.cons_append, List.nil_append] at hend ⊢
    rw [decode_xutf8_n5 _ _ _ (by simp only [rdByte_append_right0, rdByte_cons_zero]; omega)
      (by simp only [rdByte_append_right0, rdByte_cons_zero]; omega) (by omega)]
    rw [decode_xutf8_loop_append]
    simp only [decode_xutf8_loop, rdByte_append_right0, rdByte_cons_zero,
      rdByte_cons_succ, and_0x3f, shl_6, Nat.reduceAdd]
    have e0 : (252 + cp / 1073741824) % 2 = cp / 1073741824 := by omega
    rw [e0]
    rw [decode_step_eq (cp / 1073741824) (cp / 16777216 % 64) (cp / 16777216) (by omega) (by omega) (by omega)]
    rw [decode_step_eq (cp / 16777216) (cp / 262144 % 64) (cp / 262144) (by omega) (by omega) (by omega)]
    rw [decode_step_eq (cp / 262144) (cp / 4096 % 64) (cp / 4096) (by omega) (by omega) (by omega)]
    rw [decode_step_eq (cp / 4096) (cp / 64 % 64) (cp / 64) (by omega) (by omega) (by omega)]
    rw [decode_step_eq (cp / 64) (cp % 64) (cp) (by omega) (by omega) (by omega)]
  rw [encode_xutf8_7 cp (by omega) hcp] at hend ⊢
  simp only [List.append_assoc, List.cons_append, List.nil_append] at hend ⊢
  rw [decode_xutf8_n6 _ _ _ (by simp only [rdByte_append_right0, rdByte_cons_zero]; omega)
    (by simp only [rdByte_append_right0, rdByte_cons_zero]; omega) (by omega)]
  rw [decode_xutf8_loop_append]
  simp only [decode_xutf8_loop, rdByte_append_right0, rdByte_cons_zero,
    rdByte_cons_succ, and_0x3f, shl_6, Nat.reduceAdd]
  have e1 : (0 * 64 % 2 ^ 32 + (128 + cp / 1073741824) % 64) % 2 ^ 32 = cp / 1073741824 := by omega
  rw [e1]
  rw [decode_step_eq (cp / 1073741824) (cp / 16777216 % 64) (cp / 16777216) (by omega) (by omega) (by omega)]
  rw [decode_step_eq (cp / 16777216) (cp / 262144 % 64) (cp / 262144) (by omega) (by omega) (by omega)]
  rw [decode_step_eq (cp / 262144) (cp / 4096 % 64) (cp / 4096) (by omega) (by omega) (by omega)]
  rw [decode_step_eq (cp / 4096) (cp / 64 % 64) (cp / 64) (by omega) (by omega) (by omega)]
  rw [decode_step_eq (cp / 64) (cp % 64) (cp) (by omega) (by omega) (by omega)]

/-! ### XUTF-8 codec: closed forms and round trip (C3, C4) -/

/-- The continuation loop advances the pointer by `n`. -/
theorem decode_xutf8_loop_fst (buf : List Nat) (n p res : Nat) :
    (decode_xutf8_loop buf n p res).1 = p + n := by
  induction n generalizing p res with
  | zero => rfl
  | succ n ih => simp only [decode_xutf8_loop]; rw [ih]; omega

/-- The number of bytes written by `duk_unicode_encode_xutf8` is the returned length. -/
theorem encode_xutf8_length (cp : Nat) (hcp : cp < 2 ^ 32) :
    (duk_unicode_encode_xutf8 cp).2.length = (duk_unicode_encode_xutf8 cp).1 := by
  by_cases h1 : cp < 0x80
  · rw [encode_xutf8_1 cp h1]; rfl
  by_cases h2 : cp < 0x800
  · rw [encode_xutf8_2 cp (by omega) h2]; rfl
  by_cases h3 : cp < 0x10000
  · rw [encode_xutf8_3 cp (by omega) h3]; rfl
  by_cases h4 : cp < 0x200000
  · rw [encode_xutf8_4 cp (by omega) h4]; rfl
  by_cases h5 : cp < 0x4000000
  · rw [encode_xutf8_5 cp (by omega) h5]; rfl
  by_cases h6 : cp < 0x80000000
  · rw [encode_xutf8_6 cp (by omega) h6]; rfl
  rw [encode_xutf8_7 cp (by omega) hcp]; rfl

/-- C3: for every code point `cp` in `[0, 0x10FFFF]` outside `[0xD800, 0xDFFF]`,
`duk_unicode_decode_xutf8` run on the bytes written by `duk_unicode_encode_xutf8 cp`
(alone in the buffer, or between any other bytes `pre` and `post`) returns 1,
yields `cp`, and advances the read pointer by exactly the length that the
encoder returned, which is also the number of bytes it wrote. -/
theorem xutf8_encode_decode_roundtrip (cp : Nat) (hmax : cp ≤ 0x10FFFF)
    (_hsur : ¬ (0xD800 ≤ cp ∧ cp ≤ 0xDFFF)) (pre post : List Nat) :
    (duk_unicode_encode_xutf8 cp).2.length = (duk_unicode_encode_xutf8 cp).1 ∧
    duk_unicode_decode_xutf8 (pre ++ (duk_unicode_encode_xutf8 cp).2 ++ post)
        pre.length 0 (pre.length + (duk_unicode_encode_xutf8 cp).1 + post.length)
      = some (pre.length + (duk_unicode_encode_xutf8 cp).1, cp) :=
  ⟨encode_xutf8_length cp (by omega),
   decode_encode_xutf8 cp (by omega) pre post _ (by omega)⟩

/-- Witness for C3 at U+20AC (three bytes E2 82 AC), alone in the buffer. -/
theorem xutf8_encode_decode_roundtrip_witness :
    (0x20AC ≤ 0x10FFFF ∧ ¬ (0xD800 ≤ 0x20AC ∧ 0x20AC ≤ 0xDFFF)) ∧
    duk_unicode_encode_xutf8 0x20AC = (3, [0xE2, 0x82, 0xAC]) ∧
    duk_unicode_decode_xutf8 ([] ++ (duk_unicode_encode_xutf8 0x20AC).2 ++ [])
        0 0 (0 + (duk_unicode_encode_xutf8 0x20AC).1 + 0)
      = some (0 + (duk_unicode_encode_xutf8 0x20AC).1, 0x20AC) :=
  ⟨by decide, by decide,
   (xutf8_encode_decode_roundtrip 0x20AC (by decide) (by decide) [] []).2⟩

/-- C4 (as stated) fails: the checked decoder accepts the non-shortest form
`C0 80` (returning U+0000) and the lone surrogate `ED A0 80` (returning
U+D800), raising no error. -/
theorem decode_xutf8_checked_accepts_overlong_and_surrogate :
    duk_unicode_decode_xutf8_checked [0xC0, 0x80] 0 0 2 = .ok (2, 0) ∧
    duk_unicode_decode_xutf8_checked [0xED, 0xA0, 0x80] 0 0 3 = .ok (3, 0xD800) := by
  decide

/-- C4 (amended): `duk_unicode_decode_xutf8_checked` raises its error exactly
when the read position is outside the buffer, the lead byte is a continuation
byte `0x80..0xBF` or is `0xFF` (or more), or fewer bytes are left than the lead
byte announces; in every other case (non-shortest forms and surrogates
included) it returns a code point and advances by `1 + n` bytes. -/
theorem decode_xutf8_checked_error_iff (buf : List Nat) (p ptr_start ptr_end : Nat) :
    (duk_unicode_decode_xutf8_checked buf p ptr_start ptr_end = .error .internalError ↔
      (p < ptr_start ∨ ptr_end ≤ p ∨ (0x80 ≤ rdByte buf p ∧ rdByte buf p < 0xc0) ∨
        0xff ≤ rdByte buf p ∨ ptr_end < p + 1 + xutf8_cont_count (rdByte buf p))) ∧
    (∀ e, duk_unicode_decode_xutf8_checked buf p ptr_start ptr_end = .error e →
      e = .internalError) ∧
    (∀ r, duk_unicode_decode_xutf8_checked buf p ptr_start ptr_end = .ok r →
      r.1 = p + 1 + xutf8_cont_count (rdByte buf p)) := by
  unfold duk_unicode_decode_xutf8_checked
  rw [decode_xutf8_eq]
  split_ifs with h
  · simp only [true_iff, reduceCtorEq, false_implies, implies_true, and_true]
    refine ⟨h, ?_⟩
    intro e he
    cases he
    rfl
  · simp only [reduceCtorEq, false_iff, false_implies, implies_true, true_and]
    refine ⟨h, ?_⟩
    intro r hr
    cases hr
    exact decode_xutf8_loop_fst _ _ _ _

/-! ### Translation invariance: a prefix of the input shifts pointers only -/

theorem decode_xutf8_shift (pre l : List Nat) (k : Nat) :
    duk_unicode_decode_xutf8 (pre ++ l) (pre.length + k) 0 (pre.length + l.length)
      = (duk_unicode_decode_xutf8 l k 0 l.length).map
          (fun r => (pre.length + r.1, r.2)) := by
  rw [decode_xutf8_eq, decode_xutf8_eq, rdByte_append_right]
  by_cases h : k < 0 ∨ l.length ≤ k ∨ (0x80 ≤ rdByte l k ∧ rdByte l k < 0xc0) ∨
      0xff ≤ rdByte l k ∨ l.length < k + 1 + xutf8_cont_count (rdByte l k)
  · rw [if_pos h, if_pos (by omega)]; rfl
  · rw [if_neg h, if_neg (by omega), Nat.add_assoc, decode_xutf8_loop_append]; rfl

theorem decode_xutf8_checked_shift (pre l : List Nat) (k : Nat) :
    duk_unicode_decode_xutf8_checked (pre ++ l) (pre.length + k) 0 (pre.length + l.length)
      = (duk_unicode_decode_xutf8_checked l k 0 l.length).map
          (fun r => (pre.length + r.1, r.2)) := by
  unfold duk_unicode_decode_xutf8_checked
  rw [decode_xutf8_shift]
  cases duk_unicode_decode_xutf8 l k 0 l.length <;> rfl

theorem decode_hex_escape_loop_shift (pre l : List Nat) (n k : Nat) (t : Int) :
    duk__decode_hex_escape_loop (pre ++ l) n (pre.length + k) t
      = duk__decode_hex_escape_loop l n k t := by
  induction n generalizing k t with
  | zero => rfl
  | succ n ih =>
      simp only [duk__decode_hex_escape_loop, rdByte_append_right]
      rw [Nat.add_assoc, ih]

theorem decode_hex_escape_shift (pre l : List Nat) (n k : Nat) :
    duk__decode_hex_escape (pre ++ l) (pre.length + k) n = duk__decode_hex_escape l k n :=
  decode_hex_escape_loop_shift pre l n k 0

theorem decode_uri_cont_loop_shift (pre l : List Nat) (n k : Nat) (cp : Int) :
    decode_uri_cont_loop (pre ++ l) n (pre.length + k) cp
      = (decode_uri_cont_loop l n k cp).map (fun r => (pre.length + r.1, r.2)) := by
  induction n generalizing k cp with
  | zero => rfl
  | succ n ih =>
      simp only [decode_uri_cont_loop, decode_hex_escape_shift]
      split_ifs
      · rfl
      · rfl
      · rw [Nat.add_assoc, ih]

theorem decode_uri_cont_loop_fst (buf : List Nat) (n p : Nat) (cp : Int) (r : Nat × Int)
    (h : decode_uri_cont_loop buf n p cp = .ok r) : r.1 = p + 3 * n := by
  induction n generalizing p cp with
  | zero =>
      simp only [decode_uri_cont_loop, Except.ok.injEq] at h
      subst h
      rfl
  | succ n ih =>
      simp only [decode_uri_cont_loop] at h
      split_ifs at h
      rw [ih _ _ h]
      omega

theorem encode_uri_emit_shift (pre : List Nat) (c : duk__transform_context) (bs : List Nat) :
    encode_uri_emit (shiftCtx pre c) bs = shiftCtx pre (encode_uri_emit c bs) := by
  induction bs generalizing c with
  | nil => rfl
  | cons b bs ih =>
      simp only [encode_uri_emit]
      rw [← ih]
      rfl

theorem callback_encode_uri_shift (pre : List Nat) (c : duk__transform_context)
    (table : List Nat) (cp : Int) :
    duk__transform_callback_encode_uri (shiftCtx pre c) table cp
      = (duk__transform_callback_encode_uri c table cp).map (shiftCtx pre) := by
  unfold duk__transform_callback_encode_uri
  split_ifs
  · rfl
  · rfl
  · rfl
  · simp only [shiftCtx, duk__transform_context.p_start, duk__transform_context.p_end,
      List.length_append]
    rw [decode_xutf8_shift]
    cases h : duk_unicode_decode_xutf8 c.h_str c.p 0 c.h_str.length with
    | none => rfl
    | some r =>
        obtain ⟨p, cp2u⟩ := r
        simp only [Option.map_some']
        split_ifs
        · exact congrArg Except.ok (encode_uri_emit_shift pre { c with p := p } _)
        · rfl
  · rfl
  · exact congrArg Except.ok (encode_uri_emit_shift pre c _)

theorem callback_decode_uri_shift (pre : List Nat) (c : duk__transform_context)
    (table : List Nat) (cp : Int) (hp : 1 ≤ c.p) :
    duk__transform_callback_decode_uri (shiftCtx pre c) table cp
      = (duk__transform_callback_decode_uri c table cp).map (shiftCtx pre) := by
  have hp1 : pre.length + c.p - 1 = pre.length + (c.p - 1) := by omega
  have hleft : (pre ++ c.h_str).length - (pre.length + c.p) = c.h_str.length - c.p := by
    simp only [List.length_append]; omega
  unfold duk__transform_callback_decode_uri
  simp only [shiftCtx, duk__transform_context.p_end, hleft, decode_hex_escape_shift, hp1,
    Nat.add_assoc, rdByte_append_right]
  by_cases h1 : cp = 0x25
  · simp only [if_pos h1]
    by_cases h2 : c.h_str.length - c.p < 2
    · simp only [if_pos h2]; rfl
    simp only [if_neg h2]
    generalize duk__decode_hex_escape c.h_str c.p 2 = t
    by_cases h3 : t < 0
    · simp only [if_pos h3]; rfl
    simp only [if_neg h3]
    by_cases h4 : t < 0x80
    · simp only [if_pos h4]
      split_ifs
      · rfl
      · rfl
    simp only [if_neg h4]
    generalize (if t < 0xc0 then none
          else if t < 0xe0 then some (2, (0x80 : Int), ((t.toNat &&& 0x1f : Nat) : Int))
          else if t < 0xf0 then some (3, 0x800, ((t.toNat &&& 0x0f : Nat) : Int))
          else if t < 0xf8 then some (4, 0x10000, ((t.toNat &&& 0x07 : Nat) : Int))
          else none : Option (Nat × Int × Int)) = hdr
    cases hdr with
    | none => rfl
    | some r =>
        obtain ⟨blen, min_cp, cp0⟩ := r
        simp only []
        by_cases h5 : c.h_str.length - c.p < blen * 3 - 1
        · simp only [if_pos h5]; rfl
        simp only [if_neg h5]
        rw [decode_uri_cont_loop_shift]
        cases hl : decode_uri_cont_loop c.h_str (blen - 1) (c.p + 3) cp0 with
        | error e => rfl
        | ok r =>
            obtain ⟨p', cp'⟩ := r
            have hp' : pre.length + p' - 1 = pre.length + (p' - 1) := by
              have := decode_uri_cont_loop_fst _ _ _ _ _ hl
              simp only at this
              omega
            simp only [Except.map, hp']
            split_ifs
            · rfl
            · rfl
            · rfl
  · simp only [if_neg h1]; rfl
theorem decode_xutf8_some_fst (buf : List Nat) (p s e : Nat) (r : Nat × Nat)
    (h : duk_unicode_decode_xutf8 buf p s e = some r) :
    r.1 = p + 1 + xutf8_cont_count (rdByte buf p) ∧ r.1 ≤ e := by
  rw [decode_xutf8_eq] at h
  split_ifs at h with hc
  simp only [Option.some.injEq] at h
  subst h
  rw [decode_xutf8_loop_fst]
  omega

theorem decode_xutf8_checked_ok_fst (buf : List Nat) (p s e : Nat) (r : Nat × Nat)
    (h : duk_unicode_decode_xutf8_checked buf p s e = .ok r) :
    r.1 = p + 1 + xutf8_cont_count (rdByte buf p) ∧ r.1 ≤ e := by
  unfold duk_unicode_decode_xutf8_checked at h
  cases hd : duk_unicode_decode_xutf8 buf p s e with
  | none => rw [hd] at h; cases h
  | some r' =>
      rw [hd] at h
      cases h
      exact decode_xutf8_some_fst buf p s e _ hd

theorem transform_loop_shift
    (cb : duk__transform_context → List Nat → Int → Except DukError duk__transform_context)
    (udata : List Nat)
    (hcb : ∀ pre c cp, 1 ≤ c.p →
      cb (shiftCtx pre c) udata cp = (cb c udata cp).map (shiftCtx pre))
    (pre : List Nat) (fuel : Nat) (c : duk__transform_context) :
    duk__transform_loop cb udata fuel (shiftCtx pre c)
      = (duk__transform_loop cb udata fuel c).map (Except.map (shiftCtx pre)) := by
  induction fuel generalizing c with
  | zero => rfl
  | succ fuel ih =>
      simp only [duk__transform_loop]
      have hlt : ((shiftCtx pre c).p < (shiftCtx pre c).p_end) ↔ (c.p < c.p_end) := by
        simp only [shiftCtx, duk__transform_context.p_end, List.length_append]; omega
      by_cases h : c.p < c.p_end
      · rw [if_pos h, if_pos (hlt.mpr h)]
        have hd := decode_xutf8_checked_shift pre c.h_str c.p
        simp only [shiftCtx, duk__transform_context.p_start, duk__transform_context.p_end,
          List.length_append]
        rw [hd]
        cases hr : duk_unicode_decode_xutf8_checked c.h_str c.p 0 c.h_str.length with
        | error e => rfl
        | ok r =>
            obtain ⟨p', cp⟩ := r
            have hp' := (decode_xutf8_checked_ok_fst _ _ _ _ _ hr).1
            simp only at hp'
            have := hcb pre { c with p := p' } (toCodepoint cp) (by simp only; omega)
            simp only [shiftCtx] at this
            simp only [Except.map]
            rw [this]
            cases hc : cb { h_str := c.h_str, h_buf := c.h_buf, p := p' } udata (toCodepoint cp) with
            | error e => rfl
            | ok c' =>
                simp only [Except.map]
                exact ih c'
      · rw [if_neg h, if_neg (fun h' => h (hlt.mp h'))]
        rfl

/-! ### `encodeURIComponent` on ASCII (C10) -/

/-- C10: for every ASCII code point `c < 0x80`, `encodeURIComponent` emits `c`
unchanged if and only if `c` is in `uriUnescaped`, and otherwise emits `%`
followed by the two uppercase hexadecimal digits of `c`: this is what the
callback appends for `c` in any context, what the built-in returns on the
one-character string `c`, and `"a b/c"` encodes to `"a%20b%2Fc"`. -/
theorem encode_uri_component_ascii (c : Nat) (hc : c < 0x80) :
    (∀ tfm_ctx : duk__transform_context,
      duk__transform_callback_encode_uri tfm_ctx duk__encode_uricomponent_unescaped_table
          (c : Int)
        = .ok { tfm_ctx with h_buf := tfm_ctx.h_buf ++
            (if uriUnescaped c then [c]
             else [0x25, hexDigitUpper (c / 16), hexDigitUpper (c % 16)]) }) ∧
    duk_bi_global_object_encode_uri_component [c]
      = some (.ok (if uriUnescaped c then [c]
                   else [0x25, hexDigitUpper (c / 16), hexDigitUpper (c % 16)])) ∧
    duk_bi_global_object_encode_uri_component [0x61, 0x20, 0x62, 0x2f, 0x63]
      = some (.ok [0x61, 0x25, 0x32, 0x30, 0x62, 0x25, 0x32, 0x46, 0x63]) := by
  refine ⟨?_, ?_, by decide⟩
  · intro tfm_ctx
    interval_cases c <;> rfl
  · interval_cases c <;> rfl

/-! ### The transform loop, one round at a time -/

theorem transform_loop_succ
    (cb : duk__transform_context → List Nat → Int → Except DukError duk__transform_context)
    (udata : List Nat) (fuel : Nat) (c : duk__transform_context) :
    duk__transform_loop cb udata (fuel + 1) c =
      if c.p < c.p_end then
        match transform_step cb udata c with
        | .error e => some (.error e)
        | .ok c' => duk__transform_loop cb udata fuel c'
      else some (.ok c) := by
  simp only [duk__transform_loop, transform_step]
  split_ifs
  · cases duk_unicode_decode_xutf8_checked c.h_str c.p c.p_start c.p_end with
    | error e => rfl
    | ok r => rfl
  · rfl

theorem encode_uri_emit_eq (c : duk__transform_context) (bs : List Nat) :
    encode_uri_emit c bs = { c with h_buf := c.h_buf ++ pctEscape bs } := by
  induction bs generalizing c with
  | nil => simp [encode_uri_emit, pctEscape]
  | cons b bs ih =>
      simp only [encode_uri_emit, pctEscape, ih, duk_hbuffer_append_bytes, List.append_assoc]

theorem toCodepoint_of_lt (u : Nat) (h : u < 2 ^ 31) : toCodepoint u = (u : Int) := by
  unfold toCodepoint
  have : u % 2 ^ 32 = u := Nat.mod_eq_of_lt (by omega)
  rw [this, if_pos h]

theorem toUcodepoint_natCast (u : Nat) (h : u < 2 ^ 32) : toUcodepoint (u : Int) = u := by
  unfold toUcodepoint
  omega

theorem hex_dectab_nybble (n : Nat) (h : n < 16) :
    duk_hex_dectab (rdByte duk_uc_nybbles n) = (n : Int) := by
  interval_cases n <;> rfl

theorem nybble_ne_pct (n : Nat) : rdByte duk_uc_nybbles n ≠ 0x25 := by
  by_cases h : n < 16
  · interval_cases n <;> decide
  · have : rdByte duk_uc_nybbles n = 0 := by
      unfold rdByte
      rw [List.getD_eq_default]
      simp [duk_uc_nybbles]; omega
    omega

/-- Two uppercase hex digits written by the encoder are read back as the byte. -/
theorem hex_escape_pct_at (pre rest : List Nat) (a b : Nat) (hb : b < 256) :
    duk__decode_hex_escape
        (pre ++ a :: rdByte duk_uc_nybbles (b >>> 4) :: rdByte duk_uc_nybbles (b &&& 0x0f) :: rest)
        (pre.length + 1) 2 = (b : Int) := by
  rw [decode_hex_escape_shift]
  have e1 : b >>> 4 = b / 16 := Nat.shiftRight_eq_div_pow b 4
  simp only [duk__decode_hex_escape, duk__decode_hex_escape_loop, rdByte_cons_succ,
    rdByte_cons_zero, and_0x0f, e1]
  rw [hex_dectab_nybble _ (by omega), hex_dectab_nybble _ (by omega)]
  rw [if_pos (by omega), if_pos (by omega)]
  omega

theorem decode_checked_encode_xutf8 (u : Nat) (hu : u < 2 ^ 32) (rest : List Nat) :
    duk_unicode_decode_xutf8_checked ((duk_unicode_encode_xutf8 u).2 ++ rest) 0 0
        ((duk_unicode_encode_xutf8 u).2 ++ rest).length
      = .ok ((duk_unicode_encode_xutf8 u).2.length, u) := by
  have hlen := encode_xutf8_length u hu
  have hd := decode_encode_xutf8 u hu [] rest
    ((duk_unicode_encode_xutf8 u).2 ++ rest).length
    (by simp only [List.length_nil, List.length_append]; omega)
  simp only [List.nil_append, List.length_nil, Nat.zero_add] at hd
  unfold duk_unicode_decode_xutf8_checked
  rw [hd, hlen]

theorem take_encode_xutf8 (u : Nat) (hu : u < 2 ^ 32) :
    (duk_unicode_encode_xutf8 u).2.take (duk_unicode_encode_xutf8 u).1
      = (duk_unicode_encode_xutf8 u).2 := by
  rw [← encode_xutf8_length u hu, List.take_length]

/-- Encoder round on a code point outside the surrogate range. -/
theorem enc_step_plain (table out rest : List Nat) (u : Nat) (hu : u < 0x10000)
    (hs : ¬ (0xd800 ≤ u ∧ u ≤ 0xdfff)) :
    transform_step duk__transform_callback_encode_uri table
        { h_str := (duk_unicode_encode_xutf8 u).2 ++ rest, h_buf := out, p := 0 }
      = .ok { h_str := (duk_unicode_encode_xutf8 u).2 ++ rest,
              h_buf := out ++ uriChunk table u,
              p := (duk_unicode_encode_xutf8 u).2.length } := by
  unfold transform_step
  simp only [duk__transform_context.p_start, duk__transform_context.p_end]
  rw [decode_checked_encode_xutf8 u (by omega) rest]
  simp only []
  rw [toCodepoint_of_lt u (by omega)]
  unfold duk__transform_callback_encode_uri uriChunk
  rw [if_neg (by omega)]
  simp only [Int.toNat_ofNat]
  by_cases h1 : u < 0x80 ∧ DUK__CHECK_BITMASK table u = true
  · have h1' : (u : Int) < 0x80 ∧ DUK__CHECK_BITMASK table u = true := ⟨by omega, h1.2⟩
    rw [if_pos h1', if_pos h1]
    simp only [duk_hbuffer_append_byte]
    rw [Nat.mod_eq_of_lt (by omega)]
  · have h1' : ¬ ((u : Int) < 0x80 ∧ DUK__CHECK_BITMASK table u = true) := by
      intro h; exact h1 ⟨by omega, h.2⟩
    rw [if_neg h1', if_neg h1, if_neg (by omega), if_neg (by omega), if_neg (by omega)]
    simp only [toUcodepoint_natCast u (by omega), take_encode_xutf8 u (by omega),
      encode_uri_emit_eq]

/-- Encoder round on a surrogate pair: the pair is combined and escaped as one
code point, and the lookahead consumes the low surrogate. -/
theorem enc_step_pair (table out rest : List Nat) (u v : Nat)
    (hu : 0xd800 ≤ u ∧ u ≤ 0xdbff) (hv : 0xdc00 ≤ v ∧ v ≤ 0xdfff) :
    transform_step duk__transform_callback_encode_uri table
        { h_str := (duk_unicode_encode_xutf8 u).2 ++ ((duk_unicode_encode_xutf8 v).2 ++ rest),
          h_buf := out, p := 0 }
      = .ok { h_str := (duk_unicode_encode_xutf8 u).2 ++ ((duk_unicode_encode_xutf8 v).2 ++ rest),
              h_buf := out ++ pctEscape (duk_unicode_encode_xutf8
                ((u - 0xd800) * 1024 + (v - 0xdc00) + 0x10000)).2,
              p := (duk_unicode_encode_xutf8 u).2.length
                    + (duk_unicode_encode_xutf8 v).2.length } := by
  unfold transform_step
  simp only [duk__transform_context.p_start, duk__transform_context.p_end]
  rw [decode_checked_encode_xutf8 u (by omega) _]
  simp only []
  rw [toCodepoint_of_lt u (by omega)]
  unfold duk__transform_callback_encode_uri
  have h1' : ¬ ((u : Int) < 0x80 ∧ DUK__CHECK_BITMASK table (u : Int).toNat = true) := by
    intro h; omega
  rw [if_neg (by omega), if_neg h1', if_neg (by omega), if_pos (by omega)]
  simp only [duk__transform_context.p_start, duk__transform_context.p_end]
  have hlenv := encode_xutf8_length v (by omega)
  have hd := decode_encode_xutf8 v (by omega) (duk_unicode_encode_xutf8 u).2 rest
    ((duk_unicode_encode_xutf8 u).2 ++ ((duk_unicode_encode_xutf8 v).2 ++ rest)).length
    (by simp only [List.length_append]; omega)
  rw [List.append_assoc] at hd
  rw [hd]
  simp only []
  rw [toCodepoint_of_lt v (by omega)]
  rw [if_neg (by omega)]
  have hcp : toUcodepoint (((u : Int) - 0xd800) * 2 ^ 10 + ((v : Int) - 0xdc00) + 0x10000)
      = (u - 0xd800) * 1024 + (v - 0xdc00) + 0x10000 := by
    unfold toUcodepoint
    omega
  simp only [hcp, take_encode_xutf8 _ (show (u - 0xd800) * 1024 + (v - 0xdc00) + 0x10000 < 2 ^ 32 by omega),
    encode_uri_emit_eq, hlenv]

theorem encode_xutf8_length_pos (u : Nat) (hu : u < 2 ^ 32) :
    1 ≤ (duk_unicode_encode_xutf8 u).2.length := by
  rw [encode_xutf8_length u hu]
  simp only [duk_unicode_encode_xutf8, duk_unicode_get_xutf8_length]
  split_ifs <;> omega

theorem transform_loop_encode_shift (table pre : List Nat) (fuel : Nat)
    (c : duk__transform_context) :
    duk__transform_loop duk__transform_callback_encode_uri table fuel (shiftCtx pre c)
      = (duk__transform_loop duk__transform_callback_encode_uri table fuel c).map
          (Except.map (shiftCtx pre)) :=
  transform_loop_shift _ _ (fun pre c cp _ => callback_encode_uri_shift pre c table cp) pre fuel c

theorem transform_loop_decode_shift (table pre : List Nat) (fuel : Nat)
    (c : duk__transform_context) :
    duk__transform_loop duk__transform_callback_decode_uri table fuel (shiftCtx pre c)
      = (duk__transform_loop duk__transform_callback_decode_uri table fuel c).map
          (Except.map (shiftCtx pre)) :=
  transform_loop_shift _ _ (fun pre c cp h => callback_decode_uri_shift pre c table cp h) pre fuel c

theorem wellPaired_cons (u : Nat) (tl : List Nat) (h : wellPaired (u :: tl) = true) :
    ((0xd800 ≤ u ∧ u ≤ 0xdbff) ∧ ∃ v rest, tl = v :: rest ∧ (0xdc00 ≤ v ∧ v ≤ 0xdfff) ∧
        wellPaired rest = true) ∨
    (u < 0x10000 ∧ ¬ (0xd800 ≤ u ∧ u ≤ 0xdfff) ∧ wellPaired tl = true) := by
  cases tl with
  | nil =>
      simp only [wellPaired, Bool.and_eq_true, decide_eq_true_eq, Bool.not_eq_true',
        Bool.and_eq_false_imp, decide_eq_false_iff_not] at h
      right
      exact ⟨h.1, by omega, rfl⟩
  | cons v rest =>
      simp only [wellPaired] at h
      split_ifs at h with hh
      · simp only [Bool.and_eq_true, decide_eq_true_eq] at h
        left
        exact ⟨hh, v, rest, rfl, h.1, h.2⟩
      · simp only [Bool.and_eq_true, decide_eq_true_eq, Bool.not_eq_true',
          Bool.and_eq_false_imp, decide_eq_false_iff_not] at h
        right
        exact ⟨h.1.1, by omega, h.2⟩

theorem uriEncodeUnits_plain (table : List Nat) (u : Nat) (tl : List Nat)
    (h : ¬ (0xd800 ≤ u ∧ u ≤ 0xdbff)) :
    uriEncodeUnits table (u :: tl) = uriChunk table u ++ uriEncodeUnits table tl := by
  cases tl with
  | nil => simp [uriEncodeUnits]
  | cons v rest => simp only [uriEncodeUnits, if_neg h]

theorem uriEncodeUnits_pair (table : List Nat) (u v : Nat) (rest : List Nat)
    (h : 0xd800 ≤ u ∧ u ≤ 0xdbff) :
    uriEncodeUnits table (u :: v :: rest)
      = pctEscape (duk_unicode_encode_xutf8
          ((u - 0xd800) * 1024 + (v - 0xdc00) + 0x10000)).2 ++ uriEncodeUnits table rest := by
  simp only [uriEncodeUnits, if_pos h]

/-- The encoder loop on the string of a well-paired unit sequence: it ends at
the end of the input with the expected escapes appended. -/
theorem enc_loop_units (table : List Nat) (n : Nat) :
    ∀ (us : List Nat), us.length ≤ n → wellPaired us = true →
    ∀ (out : List Nat) (fuel : Nat), (encodeUnits us).length < fuel →
    duk__transform_loop duk__transform_callback_encode_uri table fuel
        { h_str := encodeUnits us, h_buf := out, p := 0 }
      = some (.ok { h_str := encodeUnits us, h_buf := out ++ uriEncodeUnits table us,
                    p := (encodeUnits us).length }) := by
  induction n with
  | zero =>
      intro us hn _ out fuel hfuel
      have : us = [] := List.eq_nil_of_length_eq_zero (by omega)
      subst this
      obtain ⟨f, rfl⟩ : ∃ f, fuel = f + 1 := ⟨fuel - 1, by omega⟩
      rw [transform_loop_succ]
      simp [encodeUnits, uriEncodeUnits, duk__transform_context.p_end]
  | succ n ih =>
      intro us hn hwp out fuel hfuel
      obtain ⟨f, rfl⟩ : ∃ f, fuel = f + 1 := ⟨fuel - 1, by omega⟩
      rw [transform_loop_succ]
      cases us with
      | nil => simp [encodeUnits, uriEncodeUnits, duk__transform_context.p_end]
      | cons u tl =>
          rcases wellPaired_cons u tl hwp with ⟨hu, v, rest, rfl, hv, hrest⟩ | ⟨hu, hs, htl⟩
          · have hposu := encode_xutf8_length_pos u (by omega)
            simp only [encodeUnits, List.length_append] at hfuel ⊢
            rw [if_pos (by simp only [duk__transform_context.p_end, List.length_append]; omega)]
            rw [enc_step_pair table out _ u v hu hv]
            simp only [uriEncodeUnits_pair table u v rest hu]
            have hsh := transform_loop_encode_shift table
              ((duk_unicode_encode_xutf8 u).2 ++ (duk_unicode_encode_xutf8 v).2) f
              { h_str := encodeUnits rest,
                h_buf := out ++ pctEscape (duk_unicode_encode_xutf8
                  ((u - 0xd800) * 1024 + (v - 0xdc00) + 0x10000)).2, p := 0 }
            simp only [shiftCtx, List.append_assoc, List.length_append, Nat.add_zero] at hsh
            rw [hsh, ih rest (by simp only [List.length_cons] at hn; omega) hrest _ f (by omega)]
            simp only [Option.map_some', Except.map, shiftCtx, List.append_assoc,
              List.length_append, Nat.add_assoc]
          · have hposu := encode_xutf8_length_pos u (by omega)
            simp only [encodeUnits, List.length_append] at hfuel ⊢
            rw [if_pos (by simp only [duk__transform_context.p_end, List.length_append]; omega)]
            rw [enc_step_plain table out _ u hu hs]
            simp only [uriEncodeUnits_plain table u tl (by omega)]
            have hsh := transform_loop_encode_shift table (duk_unicode_encode_xutf8 u).2 f
              { h_str := encodeUnits tl, h_buf := out ++ uriChunk table u, p := 0 }
            simp only [shiftCtx, Nat.add_zero] at hsh
            rw [hsh, ih tl (by simp only [List.length_cons] at hn; omega) htl _ f (by omega)]
            simp only [Option.map_some', Except.map, shiftCtx, List.append_assoc]
theorem and_0xc0 (b : Nat) (hb : b < 256) : b &&& 0xc0 = b / 64 * 64 := by
  interval_cases b <;> rfl

/-- The decoder reads a `%` at the start of the input as the code point `%`. -/
theorem decode_checked_pct (l : List Nat) :
    duk_unicode_decode_xutf8_checked (0x25 :: l) 0 0 (0x25 :: l).length = .ok (1, 0x25) := by
  unfold duk_unicode_decode_xutf8_checked
  rw [decode_xutf8_n0 _ _ _ (by simp [rdByte_cons_zero]) (by simp [rdByte_cons_zero])
    (by simp only [List.length_cons]; omega)]
  rfl

theorem toCodepoint_pct : toCodepoint 0x25 = 0x25 := by decide

/-- One round of the continuation loop of the URI decoder on a valid
continuation escape. -/
theorem decode_uri_cont_loop_step (buf : List Nat) (k p b : Nat) (cp : Int)
    (hhex : duk__decode_hex_escape buf p 2 = (b : Int)) (hb : 0x80 ≤ b ∧ b < 0xc0) :
    decode_uri_cont_loop buf (k + 1) p cp
      = decode_uri_cont_loop buf k (p + 3) (cp * 2 ^ 6 + ((b % 64 : Nat) : Int)) := by
  simp only [decode_uri_cont_loop, hhex, Int.toNat_ofNat, and_0x3f]
  rw [if_neg (by omega), and_0xc0 b (by omega), if_neg (by omega)]

/-- The URI decoder callback on `%` followed by a well-formed multi-byte
escape sequence: `t` is the value of the first escape, `cp'` the code point the
continuation loop assembles. -/
theorem callback_decode_uri_multibyte (c : duk__transform_context) (table : List Nat)
    (t blen m min_cp cp' : Nat)
    (hcls : (blen = 2 ∧ 0xc0 ≤ t ∧ t < 0xe0 ∧ m = 32 ∧ min_cp = 0x80) ∨
            (blen = 3 ∧ 0xe0 ≤ t ∧ t < 0xf0 ∧ m = 16 ∧ min_cp = 0x800) ∨
            (blen = 4 ∧ 0xf0 ≤ t ∧ t < 0xf8 ∧ m = 8 ∧ min_cp = 0x10000))
    (hleft : blen * 3 - 1 ≤ c.h_str.length - c.p)
    (ht : duk__decode_hex_escape c.h_str c.p 2 = (t : Int))
    (hloop : decode_uri_cont_loop c.h_str (blen - 1) (c.p + 3) ((t % m : Nat) : Int)
      = .ok (c.p + 3 * blen, (cp' : Int)))
    (hvalid : min_cp ≤ cp' ∧ cp' ≤ 0x10ffff ∧ ¬ (0xd800 ≤ cp' ∧ cp' ≤ 0xdfff)) :
    duk__transform_callback_decode_uri c table 0x25
      = .ok { h_str := c.h_str,
              h_buf := c.h_buf ++
                (if 0x10000 ≤ cp' then
                  (duk_unicode_encode_xutf8 ((cp' - 0x10000) / 1024 + 0xd800)).2 ++
                  (duk_unicode_encode_xutf8 ((cp' - 0x10000) % 1024 + 0xdc00)).2
                 else (duk_unicode_encode_xutf8 cp').2),
              p := c.p + 3 * blen - 1 } := by
  unfold duk__transform_callback_decode_uri
  simp only [duk__transform_context.p_end, if_true, ht, Int.toNat_ofNat, and_0x1f, and_0x0f,
    and_0x07]
  rw [if_neg (by omega), if_neg (by omega), if_neg (by omega)]
  have e1 : toUcodepoint (((cp' : Int) - 0x10000) / 2 ^ 10 + 0xd800)
      = (cp' - 0x10000) / 1024 + 0xd800 ∨ cp' < 0x10000 := by
    unfold toUcodepoint; omega
  have e2 : toUcodepoint (((cp' : Int) - 0x10000) % 2 ^ 10 + 0xdc00)
      = (cp' - 0x10000) % 1024 + 0xdc00 ∨ cp' < 0x10000 := by
    unfold toUcodepoint; omega
  have fin : (if ((cp' : Int) < (min_cp : Int) ∨ (cp' : Int) > 0x10ffff ∨
        ((cp' : Int) ≥ 0xd800 ∧ (cp' : Int) ≤ 0xdfff)) then
          (Except.error DukError.uriError : Except DukError duk__transform_context)
      else if (cp' : Int) ≥ 0x10000 then
        .ok (duk_hbuffer_append_xutf8
          (duk_hbuffer_append_xutf8 { c with p := c.p + 3 * blen - 1 }
            (toUcodepoint (((cp' : Int) - 0x10000) / 2 ^ 10 + 0xd800)))
          (toUcodepoint (((cp' : Int) - 0x10000) % 2 ^ 10 + 0xdc00)))
      else .ok (duk_hbuffer_append_xutf8 { c with p := c.p + 3 * blen - 1 }
          (toUcodepoint (cp' : Int))))
      = .ok { h_str := c.h_str,
              h_buf := c.h_buf ++
                (if 0x10000 ≤ cp' then
                  (duk_unicode_encode_xutf8 ((cp' - 0x10000) / 1024 + 0xd800)).2 ++
                  (duk_unicode_encode_xutf8 ((cp' - 0x10000) % 1024 + 0xdc00)).2
                 else (duk_unicode_encode_xutf8 cp').2),
              p := c.p + 3 * blen - 1 } := by
    rw [if_neg (by omega)]
    by_cases hbig : 0x10000 ≤ cp'
    · rw [if_pos (by omega), if_pos hbig]
      have e1' := e1.resolve_right (by omega)
      have e2' := e2.resolve_right (by omega)
      simp only [duk_hbuffer_append_xutf8, e1', e2', List.append_assoc]
    · rw [if_neg (by omega), if_neg hbig]
      simp only [duk_hbuffer_append_xutf8, toUcodepoint_natCast cp' (by omega)]
  rcases hcls with ⟨rfl, h1, h2, rfl, rfl⟩ | ⟨rfl, h1, h2, rfl, rfl⟩ | ⟨rfl, h1, h2, rfl, rfl⟩
  · rw [if_neg (by omega), if_pos (by omega)]
    simp only []
    rw [if_neg (by omega), hloop]
    exact fin
  · rw [if_neg (by omega), if_neg (by omega), if_pos (by omega)]
    simp only []
    rw [if_neg (by omega), hloop]
    exact fin
  · rw [if_neg (by omega), if_neg (by omega), if_neg (by omega), if_pos (by omega)]
    simp only []
    rw [if_neg (by omega), hloop]
    exact fin

/-- Decoder round on a two-byte escape sequence `%XX%XX`. -/
theorem dec_step_pct2 (table out rest : List Nat) (b0 b1 : Nat)
    (h0 : 0xc2 ≤ b0 ∧ b0 < 0xe0) (h1 : 0x80 ≤ b1 ∧ b1 < 0xc0) :
    transform_step duk__transform_callback_decode_uri table
        { h_str := pctEscape [b0, b1] ++ rest, h_buf := out, p := 0 }
      = .ok { h_str := pctEscape [b0, b1] ++ rest,
              h_buf := out ++ (duk_unicode_encode_xutf8 (b0 % 32 * 64 + b1 % 64)).2,
              p := 6 } := by
  unfold transform_step
  simp only [pctEscape, List.cons_append, List.nil_append, List.append_nil,
    duk__transform_context.p_start, duk__transform_context.p_end]
  rw [decode_checked_pct]
  simp only [toCodepoint_pct]
  have e0 := hex_escape_pct_at [] (0x25 :: rdByte duk_uc_nybbles (b1 >>> 4) ::
    rdByte duk_uc_nybbles (b1 &&& 0x0f) :: rest) 0x25 b0 (by omega)
  have e1 := hex_escape_pct_at [0x25, rdByte duk_uc_nybbles (b0 >>> 4),
    rdByte duk_uc_nybbles (b0 &&& 0x0f)] rest 0x25 b1 (by omega)
  simp only [List.nil_append, List.length_nil, Nat.zero_add, List.cons_append,
    List.length_cons, Nat.reduceAdd] at e0 e1
  rw [callback_decode_uri_multibyte _ table b0 2 32 0x80 (b0 % 32 * 64 + b1 % 64)
    (Or.inl ⟨rfl, by omega, by omega, rfl, rfl⟩)
    (by simp only [List.length_cons]; omega) e0
    (by
      simp only [Nat.reduceSub, Nat.reduceAdd, Nat.reduceMul]
      rw [decode_uri_cont_loop_step _ 0 4 b1 _ e1 h1]
      simp only [decode_uri_cont_loop, Nat.reduceAdd]
      congr 2)
    (by omega)]
  rw [if_neg (by omega)]
  rfl

/-- Decoder round on a three-byte escape sequence. -/
theorem dec_step_pct3 (table out rest : List Nat) (b0 b1 b2 : Nat)
    (h0 : 0xe0 ≤ b0 ∧ b0 < 0xf0) (h1 : 0x80 ≤ b1 ∧ b1 < 0xc0) (h2 : 0x80 ≤ b2 ∧ b2 < 0xc0)
    (hmin : 0x800 ≤ b0 % 16 * 4096 + b1 % 64 * 64 + b2 % 64)
    (hsur : ¬ (0xd800 ≤ b0 % 16 * 4096 + b1 % 64 * 64 + b2 % 64 ∧
               b0 % 16 * 4096 + b1 % 64 * 64 + b2 % 64 ≤ 0xdfff)) :
    transform_step duk__transform_callback_decode_uri table
        { h_str := pctEscape [b0, b1, b2] ++ rest, h_buf := out, p := 0 }
      = .ok { h_str := pctEscape [b0, b1, b2] ++ rest,
              h_buf := out ++
                (duk_unicode_encode_xutf8 (b0 % 16 * 4096 + b1 % 64 * 64 + b2 % 64)).2,
              p := 9 } := by
  unfold transform_step
  simp only [pctEscape, List.cons_append, List.nil_append, List.append_nil,
    duk__transform_context.p_start, duk__transform_context.p_end]
  rw [decode_checked_pct]
  simp only [toCodepoint_pct]
  have e0 := hex_escape_pct_at [] (0x25 :: rdByte duk_uc_nybbles (b1 >>> 4) ::
    rdByte duk_uc_nybbles (b1 &&& 0x0f) :: 0x25 :: rdByte duk_uc_nybbles (b2 >>> 4) ::
    rdByte duk_uc_nybbles (b2 &&& 0x0f) :: rest) 0x25 b0 (by omega)
  have e1 := hex_escape_pct_at [0x25, rdByte duk_uc_nybbles (b0 >>> 4),
    rdByte duk_uc_nybbles (b0 &&& 0x0f)] (0x25 :: rdByte duk_uc_nybbles (b2 >>> 4) ::
    rdByte duk_uc_nybbles (b2 &&& 0x0f) :: rest) 0x25 b1 (by omega)
  have e2 := hex_escape_pct_at [0x25, rdByte duk_uc_nybbles (b0 >>> 4),
    rdByte duk_uc_nybbles (b0 &&& 0x0f), 0x25, rdByte duk_uc_nybbles (b1 >>> 4),
    rdByte duk_uc_nybbles (b1 &&& 0x0f)] rest 0x25 b2 (by omega)
  simp only [List.nil_append, List.length_nil, Nat.zero_add, List.cons_append,
    List.length_cons, Nat.reduceAdd] at e0 e1 e2
  rw [callback_decode_uri_multibyte _ table b0 3 16 0x800
    (b0 % 16 * 4096 + b1 % 64 * 64 + b2 % 64)
    (Or.inr (Or.inl ⟨rfl, by omega, by omega, rfl, rfl⟩))
    (by simp only [List.length_cons]; omega) e0
    (by
      simp only [Nat.reduceSub, Nat.reduceAdd, Nat.reduceMul]
      rw [decode_uri_cont_loop_step _ 1 4 b1 _ e1 h1, decode_uri_cont_loop_step _ 0 7 b2 _ e2 h2]
      simp only [decode_uri_cont_loop, Nat.reduceAdd]
      congr 2
      all_goals omega)
    (by omega)]
  rw [if_neg (by omega)]
  rfl

/-- Decoder round on a four-byte escape sequence: the code point is written as
a surrogate pair. -/
theorem dec_step_pct4 (table out rest : List Nat) (b0 b1 b2 b3 : Nat)
    (h0 : 0xf0 ≤ b0 ∧ b0 < 0xf8) (h1 : 0x80 ≤ b1 ∧ b1 < 0xc0) (h2 : 0x80 ≤ b2 ∧ b2 < 0xc0)
    (h3 : 0x80 ≤ b3 ∧ b3 < 0xc0)
    (hmin : 0x10000 ≤ b0 % 8 * 262144 + b1 % 64 * 4096 + b2 % 64 * 64 + b3 % 64)
    (hmax : b0 % 8 * 262144 + b1 % 64 * 4096 + b2 % 64 * 64 + b3 % 64 ≤ 0x10ffff) :
    transform_step duk__transform_callback_decode_uri table
        { h_str := pctEscape [b0, b1, b2, b3] ++ rest, h_buf := out, p := 0 }
      = .ok { h_str := pctEscape [b0, b1, b2, b3] ++ rest,
              h_buf := out ++
                ((duk_unicode_encode_xutf8
                  ((b0 % 8 * 262144 + b1 % 64 * 4096 + b2 % 64 * 64 + b3 % 64 - 0x10000) / 1024
                    + 0xd800)).2 ++
                 (duk_unicode_encode_xutf8
                  ((b0 % 8 * 262144 + b1 % 64 * 4096 + b2 % 64 * 64 + b3 % 64 - 0x10000) % 1024
                    + 0xdc00)).2),
              p := 12 } := by
  unfold transform_step
  simp only [pctEscape, List.cons_append, List.nil_append, List.append_nil,
    duk__transform_context.p_start, duk__transform_context.p_end]
  rw [decode_checked_pct]
  simp only [toCodepoint_pct]
  have e0 := hex_escape_pct_at [] (0x25 :: rdByte duk_uc_nybbles (b1 >>> 4) ::
    rdByte duk_uc_nybbles (b1 &&& 0x0f) :: 0x25 :: rdByte duk_uc_nybbles (b2 >>> 4) ::
    rdByte duk_uc_nybbles (b2 &&& 0x0f) :: 0x25 :: rdByte duk_uc_nybbles (b3 >>> 4) ::
    rdByte duk_uc_nybbles (b3 &&& 0x0f) :: rest) 0x25 b0 (by omega)
  have e1 := hex_escape_pct_at [0x25, rdByte duk_uc_nybbles (b0 >>> 4),
    rdByte duk_uc_nybbles (b0 &&& 0x0f)] (0x25 :: rdByte duk_uc_nybbles (b2 >>> 4) ::
    rdByte duk_uc_nybbles (b2 &&& 0x0f) :: 0x25 :: rdByte duk_uc_nybbles (b3 >>> 4) ::
    rdByte duk_uc_nybbles (b3 &&& 0x0f) :: rest) 0x25 b1 (by omega)
  have e2 := hex_escape_pct_at [0x25, rdByte duk_uc_nybbles (b0 >>> 4),
    rdByte duk_uc_nybbles (b0 &&& 0x0f), 0x25, rdByte duk_uc_nybbles (b1 >>> 4),
    rdByte duk_uc_nybbles (b1 &&& 0x0f)] (0x25 :: rdByte duk_uc_nybbles (b3 >>> 4) ::
    rdByte duk_uc_nybbles (b3 &&& 0x0f) :: rest) 0x25 b2 (by omega)
  have e3 := hex_escape_pct_at [0x25, rdByte duk_uc_nybbles (b0 >>> 4),
    rdByte duk_uc_nybbles (b0 &&& 0x0f), 0x25, rdByte duk_uc_nybbles (b1 >>> 4),
    rdByte duk_uc_nybbles (b1 &&& 0x0f), 0x25, rdByte duk_uc_nybbles (b2 >>> 4),
    rdByte duk_uc_nybbles (b2 &&& 0x0f)] rest 0x25 b3 (by omega)
  simp only [List.nil_append, List.length_nil, Nat.zero_add, List.cons_append,
    List.length_cons, Nat.reduceAdd] at e0 e1 e2 e3
  rw [callback_decode_uri_multibyte _ table b0 4 8 0x10000
    (b0 % 8 * 262144 + b1 % 64 * 4096 + b2 % 64 * 64 + b3 % 64)
    (Or.inr (Or.inr ⟨rfl, by omega, by omega, rfl, rfl⟩))
    (by simp only [List.length_cons]; omega) e0
    (by
      simp only [Nat.reduceSub, Nat.reduceAdd, Nat.reduceMul]
      rw [decode_uri_cont_loop_step _ 2 4 b1 _ e1 h1, decode_uri_cont_loop_step _ 1 7 b2 _ e2 h2,
        decode_uri_cont_loop_step _ 0 10 b3 _ e3 h3]
      simp only [decode_uri_cont_loop, Nat.reduceAdd]
      congr 2
      all_goals omega)
    (by omega)]
  rw [if_pos (by omega)]
  rfl

/-- Decoder round on an unescaped ASCII character other than `%`. -/
theorem dec_step_raw (table out rest : List Nat) (c : Nat) (hc : c < 0x80) (hne : c ≠ 0x25) :
    transform_step duk__transform_callback_decode_uri table
        { h_str := c :: rest, h_buf := out, p := 0 }
      = .ok { h_str := c :: rest, h_buf := out ++ [c], p := 1 } := by
  unfold transform_step duk_unicode_decode_xutf8_checked
  simp only [duk__transform_context.p_start, duk__transform_context.p_end]
  rw [decode_xutf8_n0 _ _ _ (by simp [rdByte_cons_zero])
    (by simp only [rdByte_cons_zero]; omega) (by simp only [List.length_cons]; omega)]
  simp only [decode_xutf8_loop, rdByte_cons_zero, Nat.zero_add]
  rw [Nat.mod_eq_of_lt hc, toCodepoint_of_lt c (by omega)]
  unfold duk__transform_callback_decode_uri
  rw [if_neg (by omega)]
  simp only [duk_hbuffer_append_xutf8, toUcodepoint_natCast c (by omega), encode_xutf8_1 c hc]

/-- Decoder round on a single escape `%XX` of an ASCII character that is not in
the reserved table. -/
theorem dec_step_pct1 (table out rest : List Nat) (c : Nat) (hc : c < 0x80)
    (hres : DUK__CHECK_BITMASK table c = false) :
    transform_step duk__transform_callback_decode_uri table
        { h_str := pctEscape [c] ++ rest, h_buf := out, p := 0 }
      = .ok { h_str := pctEscape [c] ++ rest, h_buf := out ++ [c], p := 3 } := by
  unfold transform_step
  simp only [pctEscape, List.cons_append, List.nil_append, List.append_nil,
    duk__transform_context.p_start, duk__transform_context.p_end]
  rw [decode_checked_pct]
  simp only [toCodepoint_pct]
  have e0 := hex_escape_pct_at [] rest 0x25 c (by omega)
  simp only [List.nil_append, List.length_nil, Nat.zero_add] at e0
  unfold duk__transform_callback_decode_uri
  simp only [duk__transform_context.p_end, if_true, e0, Int.toNat_ofNat, List.length_cons]
  rw [if_neg (by omega), if_neg (by omega), if_pos (by omega)]
  simp only [hres, Bool.false_eq_true, if_false, duk_hbuffer_append_byte]
  rw [Nat.mod_eq_of_lt (by omega)]

theorem pctEscape_length (bs : List Nat) : (pctEscape bs).length = 3 * bs.length := by
  induction bs with
  | nil => rfl
  | cons b bs ih => simp only [pctEscape, List.length_append, List.length_cons, ih,
      List.length_nil]; omega

/-- Decoder round on what the encoder emitted for one code point outside the
surrogate range: the shortest-form bytes of the code point come back. -/
theorem dec_step_chunk (tenc tdec out rest : List Nat) (u : Nat) (hu : u < 0x10000)
    (hs : ¬ (0xd800 ≤ u ∧ u ≤ 0xdfff))
    (hpct : DUK__CHECK_BITMASK tenc 0x25 = false)
    (htab : ∀ c, c < 0x80 → DUK__CHECK_BITMASK tenc c = false →
      DUK__CHECK_BITMASK tdec c = false) :
    transform_step duk__transform_callback_decode_uri tdec
        { h_str := uriChunk tenc u ++ rest, h_buf := out, p := 0 }
      = .ok { h_str := uriChunk tenc u ++ rest,
              h_buf := out ++ (duk_unicode_encode_xutf8 u).2,
              p := (uriChunk tenc u).length } := by
  unfold uriChunk
  by_cases h1 : u < 0x80
  · by_cases h2 : DUK__CHECK_BITMASK tenc u = true
    · have hne : u ≠ 0x25 := by
        intro h; rw [h, hpct] at h2; cases h2
      simp only [h1, h2, and_self, if_true, List.cons_append, List.nil_append]
      rw [dec_step_raw tdec out rest u h1 hne, encode_xutf8_1 u h1]
      rfl
    · have h2' : DUK__CHECK_BITMASK tenc u = false := by
        cases h : DUK__CHECK_BITMASK tenc u
        · rfl
        · exact absurd h h2
      simp only [h2', Bool.false_eq_true, and_false, if_false, encode_xutf8_1 u h1]
      rw [dec_step_pct1 tdec out rest u h1 (htab u h1 h2')]
      rfl
  · have hn : ¬ (u < 0x80 ∧ DUK__CHECK_BITMASK tenc u = true) := fun h => h1 h.1
    rw [if_neg hn]
    by_cases h2 : u < 0x800
    · rw [encode_xutf8_2 u (by omega) h2]
      simp only []
      rw [dec_step_pct2 tdec out rest _ _ (by omega) (by omega)]
      have e : (0xc0 + u / 64) % 32 * 64 + (0x80 + u % 64) % 64 = u := by omega
      rw [e, encode_xutf8_2 u (by omega) h2]
      rfl
    · rw [encode_xutf8_3 u (by omega) hu]
      simp only []
      have e : (0xe0 + u / 4096) % 16 * 4096 + (0x80 + u / 64 % 64) % 64 * 64
          + (0x80 + u % 64) % 64 = u := by omega
      rw [dec_step_pct3 tdec out rest _ _ _ (by omega) (by omega) (by omega)
        (by rw [e]; omega) (by rw [e]; exact hs)]
      rw [e, encode_xutf8_3 u (by omega) hu]
      rfl

/-- Decoder round on the four-byte escape the encoder emitted for a surrogate
pair: the shortest-form bytes of the two surrogates come back. -/
theorem dec_step_pair (tdec out rest : List Nat) (u v : Nat)
    (hu : 0xd800 ≤ u ∧ u ≤ 0xdbff) (hv : 0xdc00 ≤ v ∧ v ≤ 0xdfff) :
    transform_step duk__transform_callback_decode_uri tdec
        { h_str := pctEscape (duk_unicode_encode_xutf8
            ((u - 0xd800) * 1024 + (v - 0xdc00) + 0x10000)).2 ++ rest,
          h_buf := out, p := 0 }
      = .ok { h_str := pctEscape (duk_unicode_encode_xutf8
                ((u - 0xd800) * 1024 + (v - 0xdc00) + 0x10000)).2 ++ rest,
              h_buf := out ++ ((duk_unicode_encode_xutf8 u).2 ++ (duk_unicode_encode_xutf8 v).2),
              p := 12 } := by
  obtain ⟨cp, hcp⟩ : ∃ cp, cp = (u - 0xd800) * 1024 + (v - 0xdc00) + 0x10000 := ⟨_, rfl⟩
  rw [← hcp, encode_xutf8_4 cp (by omega) (by omega)]
  simp only []
  have e : (0xf0 + cp / 262144) % 8 * 262144 + (0x80 + cp / 4096 % 64) % 64 * 4096
      + (0x80 + cp / 64 % 64) % 64 * 64 + (0x80 + cp % 64) % 64 = cp := by omega
  rw [dec_step_pct4 tdec out rest _ _ _ _ (by omega) (by omega) (by omega) (by omega)
    (by rw [e]; omega) (by rw [e]; omega)]
  rw [e]
  have e1 : (cp - 0x10000) / 1024 + 0xd800 = u := by omega
  have e2 : (cp - 0x10000) % 1024 + 0xdc00 = v := by omega
  rw [e1, e2]

theorem uriChunk_length_pos (table : List Nat) (u : Nat) (hu : u < 2 ^ 32) :
    1 ≤ (uriChunk table u).length := by
  unfold uriChunk
  split_ifs
  · simp
  · rw [pctEscape_length]
    have := encode_xutf8_length_pos u hu
    omega

theorem pctEscape_pair_length (u v : Nat)
    (hu : 0xd800 ≤ u ∧ u ≤ 0xdbff) (hv : 0xdc00 ≤ v ∧ v ≤ 0xdfff) :
    (pctEscape (duk_unicode_encode_xutf8
      ((u - 0xd800) * 1024 + (v - 0xdc00) + 0x10000)).2).length = 12 := by
  rw [pctEscape_length, encode_xutf8_4 _ (by omega) (by omega)]
  rfl

/-- The decoder loop on the encoder's output for a well-paired unit sequence:
it ends at the end of the input with the original string appended. -/
theorem dec_loop_units (tenc tdec : List Nat)
    (hpct : DUK__CHECK_BITMASK tenc 0x25 = false)
    (htab : ∀ c, c < 0x80 → DUK__CHECK_BITMASK tenc c = false →
      DUK__CHECK_BITMASK tdec c = false) (n : Nat) :
    ∀ (us : List Nat), us.length ≤ n → wellPaired us = true →
    ∀ (out : List Nat) (fuel : Nat), (uriEncodeUnits tenc us).length < fuel →
    duk__transform_loop duk__transform_callback_decode_uri tdec fuel
        { h_str := uriEncodeUnits tenc us, h_buf := out, p := 0 }
      = some (.ok { h_str := uriEncodeUnits tenc us, h_buf := out ++ encodeUnits us,
                    p := (uriEncodeUnits tenc us).length }) := by
  induction n with
  | zero =>
      intro us hn _ out fuel hfuel
      have : us = [] := List.eq_nil_of_length_eq_zero (by omega)
      subst this
      obtain ⟨f, rfl⟩ : ∃ f, fuel = f + 1 := ⟨fuel - 1, by omega⟩
      rw [transform_loop_succ]
      simp [encodeUnits, uriEncodeUnits, duk__transform_context.p_end]
  | succ n ih =>
      intro us hn hwp out fuel hfuel
      obtain ⟨f, rfl⟩ : ∃ f, fuel = f + 1 := ⟨fuel - 1, by omega⟩
      rw [transform_loop_succ]
      cases us with
      | nil => simp [encodeUnits, uriEncodeUnits, duk__transform_context.p_end]
      | cons u tl =>
          rcases wellPaired_cons u tl hwp with ⟨hu, v, rest, rfl, hv, hrest⟩ | ⟨hu, hs, htl⟩
          · have hlen := pctEscape_pair_length u v hu hv
            rw [uriEncodeUnits_pair tenc u v rest hu] at hfuel ⊢
            rw [List.length_append] at hfuel ⊢
            rw [if_pos (by simp only [duk__transform_context.p_end, List.length_append]; omega)]
            rw [dec_step_pair tdec out _ u v hu hv]
            simp only [encodeUnits]
            have hsh := transform_loop_decode_shift tdec
              (pctEscape (duk_unicode_encode_xutf8
                ((u - 0xd800) * 1024 + (v - 0xdc00) + 0x10000)).2) f
              { h_str := uriEncodeUnits tenc rest,
                h_buf := out ++ ((duk_unicode_encode_xutf8 u).2 ++ (duk_unicode_encode_xutf8 v).2),
                p := 0 }
            simp only [shiftCtx, Nat.add_zero, hlen] at hsh
            rw [hsh, ih rest (by simp only [List.length_cons] at hn; omega) hrest _ f (by omega)]
            simp only [Option.map_some', Except.map, shiftCtx, List.append_assoc, hlen]
          · have hpos := uriChunk_length_pos tenc u (by omega)
            rw [uriEncodeUnits_plain tenc u tl (by omega)] at hfuel ⊢
            rw [List.length_append] at hfuel ⊢
            rw [if_pos (by simp only [duk__transform_context.p_end, List.length_append]; omega)]
            rw [dec_step_chunk tenc tdec out _ u hu hs hpct htab]
            simp only [encodeUnits]
            have hsh := transform_loop_decode_shift tdec (uriChunk tenc u) f
              { h_str := uriEncodeUnits tenc tl,
                h_buf := out ++ (duk_unicode_encode_xutf8 u).2, p := 0 }
            simp only [shiftCtx, Nat.add_zero] at hsh
            rw [hsh, ih tl (by simp only [List.length_cons] at hn; omega) htl _ f (by omega)]
            simp only [Option.map_some', Except.map, shiftCtx, List.append_assoc]

/-- Round trip through the transform helper for any pair of an encoder table
that escapes `%` and a decoder table that reserves nothing the encoder escapes. -/
theorem uri_roundtrip_units (tenc tdec : List Nat)
    (hpct : DUK__CHECK_BITMASK tenc 0x25 = false)
    (htab : ∀ c, c < 0x80 → DUK__CHECK_BITMASK tenc c = false →
      DUK__CHECK_BITMASK tdec c = false)
    (us : List Nat) (hwp : wellPaired us = true) :
    duk__transform_helper duk__transform_callback_encode_uri tenc (encodeUnits us)
      = some (.ok (uriEncodeUnits tenc us)) ∧
    duk__transform_helper duk__transform_callback_decode_uri tdec (uriEncodeUnits tenc us)
      = some (.ok (encodeUnits us)) := by
  constructor
  · unfold duk__transform_helper
    rw [enc_loop_units tenc us.length us (Nat.le_refl _) hwp [] _ (Nat.lt_succ_self _)]
    rfl
  · unfold duk__transform_helper
    rw [dec_loop_units tenc tdec hpct htab us.length us (Nat.le_refl _) hwp [] _
      (Nat.lt_succ_self _)]
    rfl

/-! ### C1: `decodeURIComponent (encodeURIComponent s)` -/

theorem uricomponent_tables_compatible :
    DUK__CHECK_BITMASK duk__encode_uricomponent_unescaped_table 0x25 = false ∧
    ∀ c, c < 0x80 → DUK__CHECK_BITMASK duk__encode_uricomponent_unescaped_table c = false →
      DUK__CHECK_BITMASK duk__decode_uri_component_reserved_table c = false := by
  refine ⟨by decide, ?_⟩
  intro c hc _
  interval_cases c <;> rfl

/-- C1 (as stated) fails: the one-character string holding the lone high
surrogate U+D800 (bytes `ED A0 80`) makes `encodeURIComponent` raise URIError,
so the composition does not return the string. -/
theorem encode_uri_component_lone_surrogate_fails :
    duk_bi_global_object_encode_uri_component [0xED, 0xA0, 0x80] = some (.error .uriError) ∧
    ¬ ∃ e, duk_bi_global_object_encode_uri_component [0xED, 0xA0, 0x80] = some (.ok e) ∧
        duk_bi_global_object_decode_uri_component e = some (.ok [0xED, 0xA0, 0x80]) := by
  have h : duk_bi_global_object_encode_uri_component [0xED, 0xA0, 0x80]
      = some (.error .uriError) := by decide
  refine ⟨h, ?_⟩
  rintro ⟨e, he, _⟩
  rw [h] at he
  cases he

/-- C1 (amended): for every string `s` that is the shortest-form encoding of a
sequence of 16-bit code units with properly paired surrogates,
`encodeURIComponent s` succeeds, and `decodeURIComponent` applied to its result
succeeds and returns exactly `s`. -/
theorem decode_encode_uri_component_roundtrip (us : List Nat) (hwp : wellPaired us = true) :
    ∃ e, duk_bi_global_object_encode_uri_component (encodeUnits us) = some (.ok e) ∧
      duk_bi_global_object_decode_uri_component e = some (.ok (encodeUnits us)) :=
  ⟨uriEncodeUnits duk__encode_uricomponent_unescaped_table us,
   (uri_roundtrip_units _ _ uricomponent_tables_compatible.1
      uricomponent_tables_compatible.2 us hwp).1,
   (uri_roundtrip_units _ _ uricomponent_tables_compatible.1
      uricomponent_tables_compatible.2 us hwp).2⟩

/-- Witness for C1 (amended): the string `a`, U+1F600 as a surrogate pair
`D83D DE00`, U+20AC, `/`. -/
theorem decode_encode_uri_component_roundtrip_witness :
    wellPaired [0x61, 0xD83D, 0xDE00, 0x20AC, 0x2F] = true ∧
    encodeUnits [0x61, 0xD83D, 0xDE00, 0x20AC, 0x2F]
      = [0x61, 0xED, 0xA0, 0xBD, 0xED, 0xB8, 0x80, 0xE2, 0x82, 0xAC, 0x2F] ∧
    ∃ e, duk_bi_global_object_encode_uri_component
          (encodeUnits [0x61, 0xD83D, 0xDE00, 0x20AC, 0x2F]) = some (.ok e) ∧
      duk_bi_global_object_decode_uri_component e
        = some (.ok (encodeUnits [0x61, 0xD83D, 0xDE00, 0x20AC, 0x2F])) :=
  ⟨by decide, by decide,
   decode_encode_uri_component_roundtrip [0x61, 0xD83D, 0xDE00, 0x20AC, 0x2F] (by decide)⟩

/-- Witness for C10 at the space character: it is escaped as `%20`. -/
theorem encode_uri_component_ascii_witness :
    (0x20 : Nat) < 0x80 ∧
    duk_bi_global_object_encode_uri_component [0x20] = some (.ok [0x25, 0x32, 0x30]) :=
  ⟨by decide, (encode_uri_component_ascii 0x20 (by decide)).2.1⟩


/-! ### Extending the input on the right, more fuel -/

theorem transform_loop_fuel_mono
    (cb : duk__transform_context → List Nat → Int → Except DukError duk__transform_context)
    (udata : List Nat) (f g : Nat) (c : duk__transform_context)
    (r : Except DukError duk__transform_context)
    (h : duk__transform_loop cb udata f c = some r) :
    duk__transform_loop cb udata (f + g) c = some r := by
  induction f generalizing c with
  | zero => simp [duk__transform_loop] at h
  | succ f ih =>
      rw [show f + 1 + g = (f + g) + 1 by omega, transform_loop_succ]
      rw [transform_loop_succ] at h
      split_ifs at h ⊢ with hp
      · cases hs : transform_step cb udata c with
        | error e => rw [hs] at h; exact h
        | ok c' => rw [hs] at h; exact ih c' h
      · exact h

theorem rdByte_append_left (pre rest : List Nat) (i : Nat) (h : i < pre.length) :
    rdByte (pre ++ rest) i = rdByte pre i := by
  simp [rdByte, List.getElem?_append_left h]

theorem decode_xutf8_loop_ext (pre rest : List Nat) (n p res : Nat) (h : p + n ≤ pre.length) :
    decode_xutf8_loop (pre ++ rest) n p res = decode_xutf8_loop pre n p res := by
  induction n generalizing p res with
  | zero => rfl
  | succ n ih =>
      simp only [decode_xutf8_loop]
      rw [rdByte_append_left pre rest p (by omega), ih _ _ (by omega)]

theorem decode_xutf8_checked_ext (pre rest : List Nat) (p : Nat) (r : Nat × Nat)
    (h : duk_unicode_decode_xutf8_checked pre p 0 pre.length = .ok r) :
    duk_unicode_decode_xutf8_checked (pre ++ rest) p 0 (pre ++ rest).length = .ok r := by
  unfold duk_unicode_decode_xutf8_checked at h ⊢
  rw [decode_xutf8_eq] at h ⊢
  split_ifs at h with hc
  have hp : p < pre.length := by omega
  rw [rdByte_append_left pre rest p hp]
  rw [if_neg (by simp only [List.length_append]; omega)]
  rw [decode_xutf8_loop_ext pre rest _ _ _ (by omega)]
  exact h

theorem decode_hex_escape_loop_ext (pre rest : List Nat) (n p : Nat) (t : Int)
    (h : p + n ≤ pre.length) :
    duk__decode_hex_escape_loop (pre ++ rest) n p t = duk__decode_hex_escape_loop pre n p t := by
  induction n generalizing p t with
  | zero => rfl
  | succ n ih =>
      simp only [duk__decode_hex_escape_loop]
      rw [rdByte_append_left pre rest p (by omega), ih _ _ (by omega)]

theorem decode_hex_escape_ext (pre rest : List Nat) (n p : Nat) (h : p + n ≤ pre.length) :
    duk__decode_hex_escape (pre ++ rest) p n = duk__decode_hex_escape pre p n :=
  decode_hex_escape_loop_ext pre rest n p 0 h

theorem decode_uri_cont_loop_ext (pre rest : List Nat) (k p : Nat) (cp : Int)
    (h : p + 3 * k ≤ pre.length + 1) :
    decode_uri_cont_loop (pre ++ rest) k p cp = decode_uri_cont_loop pre k p cp := by
  induction k generalizing p cp with
  | zero => rfl
  | succ k ih =>
      simp only [decode_uri_cont_loop]
      rw [decode_hex_escape_ext pre rest 2 p (by omega), ih _ _ (by omega)]

/-- A successful run of the URI decoder callback stays inside the input and is
not changed by bytes appended to the input. -/
theorem callback_decode_uri_ext (pre rest out : List Nat) (p : Nat) (table : List Nat)
    (cp : Int) (c' : duk__transform_context) (hp1 : 1 ≤ p) (hp : p ≤ pre.length)
    (h : duk__transform_callback_decode_uri { h_str := pre, h_buf := out, p := p } table cp
      = .ok c') :
    duk__transform_callback_decode_uri { h_str := pre ++ rest, h_buf := out, p := p } table cp
      = .ok { h_str := pre ++ rest, h_buf := c'.h_buf, p := c'.p } ∧
    c'.p ≤ pre.length ∧ c'.h_str = pre := by
  unfold duk__transform_callback_decode_uri at h ⊢
  simp only [duk__transform_context.p_end] at h ⊢
  by_cases h1 : cp = 0x25
  · simp only [if_pos h1] at h ⊢
    by_cases h2 : pre.length - p < 2
    · simp only [if_pos h2] at h; cases h
    have h2' : ¬ (pre ++ rest).length - p < 2 := by
      simp only [List.length_append]; omega
    simp only [if_neg h2] at h
    simp only [if_neg h2']
    rw [decode_hex_escape_ext pre rest 2 p (by omega)]
    generalize duk__decode_hex_escape pre p 2 = t at h ⊢
    by_cases h3 : t < 0
    · simp only [if_pos h3] at h; cases h
    simp only [if_neg h3] at h ⊢
    by_cases h4 : t < 0x80
    · simp only [if_pos h4] at h ⊢
      rw [rdByte_append_left pre rest (p - 1) (by omega), rdByte_append_left pre rest p (by omega),
        rdByte_append_left pre rest (p + 1) (by omega)]
      split_ifs at h ⊢
      · cases h
        exact ⟨rfl, by simp only; omega, rfl⟩
      · cases h
        exact ⟨rfl, by simp only; omega, rfl⟩
    simp only [if_neg h4] at h ⊢
    generalize (if t < 0xc0 then none
          else if t < 0xe0 then some (2, (0x80 : Int), ((t.toNat &&& 0x1f : Nat) : Int))
          else if t < 0xf0 then some (3, 0x800, ((t.toNat &&& 0x0f : Nat) : Int))
          else if t < 0xf8 then some (4, 0x10000, ((t.toNat &&& 0x07 : Nat) : Int))
          else none : Option (Nat × Int × Int)) = hdr at h ⊢
    cases hdr with
    | none => cases h
    | some r =>
        obtain ⟨blen, min_cp, cp0⟩ := r
        simp only [] at h ⊢
        by_cases h5 : pre.length - p < blen * 3 - 1
        · simp only [if_pos h5] at h; cases h
        have h5' : ¬ (pre ++ rest).length - p < blen * 3 - 1 := by
          simp only [List.length_append]; omega
        simp only [if_neg h5] at h
        simp only [if_neg h5']
        by_cases hb : blen = 0
        · subst hb
          simp only [Nat.zero_sub, decode_uri_cont_loop] at h ⊢
          split_ifs at h ⊢
          all_goals
            cases h
            simp only [duk_hbuffer_append_xutf8, and_true, true_and]
            omega
        rw [decode_uri_cont_loop_ext pre rest (blen - 1) (p + 3) cp0 (by omega)]
        cases hl : decode_uri_cont_loop pre (blen - 1) (p + 3) cp0 with
        | error e => rw [hl] at h; cases h
        | ok r =>
            obtain ⟨p', cp'⟩ := r
            rw [hl] at h
            have hp' := decode_uri_cont_loop_fst _ _ _ _ _ hl
            simp only at hp' h ⊢
            split_ifs at h ⊢
            all_goals
              cases h
              simp only [duk_hbuffer_append_xutf8, and_true, true_and]
              omega
  · simp only [if_neg h1] at h ⊢
    cases h
    exact ⟨rfl, hp, rfl⟩

theorem transform_step_decode_ext (table pre rest out : List Nat) (p : Nat)
    (c' : duk__transform_context) (_hp : p < pre.length)
    (h : transform_step duk__transform_callback_decode_uri table
      { h_str := pre, h_buf := out, p := p } = .ok c') :
    transform_step duk__transform_callback_decode_uri table
        { h_str := pre ++ rest, h_buf := out, p := p }
      = .ok { h_str := pre ++ rest, h_buf := c'.h_buf, p := c'.p } ∧
    c'.p ≤ pre.length ∧ c'.h_str = pre := by
  unfold transform_step at h ⊢
  simp only [duk__transform_context.p_start, duk__transform_context.p_end] at h ⊢
  cases hd : duk_unicode_decode_xutf8_checked pre p 0 pre.length with
  | error e => rw [hd] at h; cases h
  | ok r =>
      obtain ⟨p', cp⟩ := r
      rw [hd] at h
      rw [decode_xutf8_checked_ext pre rest p _ hd]
      have hp' := decode_xutf8_checked_ok_fst _ _ _ _ _ hd
      simp only at hp' h ⊢
      exact callback_decode_uri_ext pre rest out p' table _ c' (by omega) hp'.2 h

/-- If the decoder loop succeeds on `pre`, then on `pre ++ rest` it arrives at
the end of `pre` with the same output, and goes on from there. -/
theorem transform_loop_decode_ext (table pre rest : List Nat) (f : Nat) :
    ∀ (out : List Nat) (p : Nat) (c : duk__transform_context), p ≤ pre.length →
    duk__transform_loop duk__transform_callback_decode_uri table f
      { h_str := pre, h_buf := out, p := p } = some (.ok c) →
    ∀ (f2 : Nat) (r : Except DukError duk__transform_context),
    duk__transform_loop duk__transform_callback_decode_uri table f2
      { h_str := pre ++ rest, h_buf := c.h_buf, p := pre.length } = some r →
    duk__transform_loop duk__transform_callback_decode_uri table (f + f2)
      { h_str := pre ++ rest, h_buf := out, p := p } = some r := by
  induction f with
  | zero => intro out p c _ h; simp [duk__transform_loop] at h
  | succ f ih =>
      intro out p c hp h f2 r hr
      rw [transform_loop_succ] at h
      by_cases hlt : p < pre.length
      · rw [if_pos (by simpa [duk__transform_context.p_end] using hlt)] at h
        cases hs : transform_step duk__transform_callback_decode_uri table
            { h_str := pre, h_buf := out, p := p } with
        | error e => rw [hs] at h; cases h
        | ok c1 =>
            rw [hs] at h
            obtain ⟨hs', hp1, hstr⟩ := transform_step_decode_ext table pre rest out p c1 hlt hs
            rw [show f + 1 + f2 = (f + f2) + 1 by omega, transform_loop_succ,
              if_pos (by simp only [duk__transform_context.p_end, List.length_append]; omega),
              hs']
            simp only []
            have hc1 : c1 = { h_str := pre, h_buf := c1.h_buf, p := c1.p } := by
              cases c1; simp only at hstr; subst hstr; rfl
            rw [hc1] at h
            exact ih c1.h_buf c1.p c hp1 h f2 r hr
      · rw [if_neg (by simpa [duk__transform_context.p_end] using hlt)] at h
        cases h
        have : p = pre.length := by omega
        subst this
        rw [show f + 1 + f2 = f2 + (f + 1) by omega]
        exact transform_loop_fuel_mono _ _ _ _ _ _ hr

/-- If the URI decoder succeeds on `pre` and its next round on `txt ++ post`
raises an error, the decoder raises that error on `pre ++ txt ++ post`. -/
theorem decode_prefix_then_error (table pre txt post out : List Nat) (e : DukError)
    (hpre : duk__transform_helper duk__transform_callback_decode_uri table pre = some (.ok out))
    (hne : txt ≠ [])
    (hstep : transform_step duk__transform_callback_decode_uri table
      { h_str := txt ++ post, h_buf := out, p := 0 } = .error e) :
    duk__transform_helper duk__transform_callback_decode_uri table (pre ++ txt ++ post)
      = some (.error e) := by
  unfold duk__transform_helper at hpre ⊢
  cases hl : duk__transform_loop duk__transform_callback_decode_uri table (pre.length + 1)
      { h_str := pre, h_buf := [], p := 0 } with
  | none => rw [hl] at hpre; cases hpre
  | some r =>
      rw [hl] at hpre
      cases r with
      | error e' => cases hpre
      | ok c =>
          simp only [Option.some.injEq, Except.ok.injEq] at hpre
          have hlen : 1 ≤ txt.length := by
            cases txt with
            | nil => exact absurd rfl hne
            | cons a t => simp
          have h2 : duk__transform_loop duk__transform_callback_decode_uri table
              ((txt ++ post).length)
              { h_str := pre ++ (txt ++ post), h_buf := c.h_buf, p := pre.length }
              = some (.error e) := by
            have hsh := transform_loop_decode_shift table pre (txt ++ post).length
              { h_str := txt ++ post, h_buf := c.h_buf, p := 0 }
            simp only [shiftCtx, Nat.add_zero] at hsh
            rw [hsh]
            obtain ⟨g, hg⟩ : ∃ g, (txt ++ post).length = g + 1 :=
              ⟨(txt ++ post).length - 1, by simp only [List.length_append]; omega⟩
            rw [hg, transform_loop_succ,
              if_pos (by simp only [duk__transform_context.p_end]; omega), hpre, hstep]
            rfl
          have := transform_loop_decode_ext table pre (txt ++ post) (pre.length + 1) [] 0 c
            (Nat.zero_le _) hl _ _ h2
          rw [List.append_assoc,
            show (pre ++ (txt ++ post)).length + 1 = pre.length + 1 + (txt ++ post).length by
              simp only [List.length_append]; omega,
            this]


/-! ### Escape sequences that are not strict UTF-8 (C2) -/

theorem escapeTextOf_cons (b : Nat) (bs txt : List Nat) (h : escapeTextOf (b :: bs) txt = true) :
    ∃ hd ld txt', txt = 0x25 :: hd :: ld :: txt' ∧ b < 256 ∧
      duk_hex_dectab hd = ((b / 16 : Nat) : Int) ∧ duk_hex_dectab ld = ((b % 16 : Nat) : Int) ∧
      escapeTextOf bs txt' = true := by
  match txt, h with
  | c :: hd :: ld :: txt', h =>
      simp only [escapeTextOf, Bool.and_eq_true, beq_iff_eq, decide_eq_true_eq] at h
      obtain ⟨⟨⟨⟨h1, h2⟩, h3⟩, h4⟩, h5⟩ := h
      subst h1
      exact ⟨hd, ld, txt', rfl, h2, h3, h4, h5⟩

/-- Two hex digits (either case) with the digit values of `b` read as `b`. -/
theorem hex_escape_at (pre rest : List Nat) (a hd ld b : Nat)
    (hh : duk_hex_dectab hd = ((b / 16 : Nat) : Int))
    (hl : duk_hex_dectab ld = ((b % 16 : Nat) : Int)) :
    duk__decode_hex_escape (pre ++ a :: hd :: ld :: rest) (pre.length + 1) 2 = (b : Int) := by
  rw [decode_hex_escape_shift]
  simp only [duk__decode_hex_escape, duk__decode_hex_escape_loop, rdByte_cons_succ,
    rdByte_cons_zero, hh, hl]
  rw [if_pos (by omega), if_pos (by omega)]
  omega

theorem decode_uri_cont_loop_bad (buf : List Nat) (k p b : Nat) (cp : Int)
    (hhex : duk__decode_hex_escape buf p 2 = (b : Int)) (hb256 : b < 256)
    (hb : isContByte b = false) :
    decode_uri_cont_loop buf (k + 1) p cp = .error .uriError := by
  simp only [decode_uri_cont_loop, hhex, Int.toNat_ofNat]
  rw [if_neg (by omega), and_0xc0 b hb256]
  have : b / 64 * 64 ≠ 0x80 := by
    simp only [isContByte, Bool.and_eq_false_imp, decide_eq_true_eq, decide_eq_false_iff_not] at hb
    omega
  rw [if_pos this]

/-- The continuation loop on `k` escapes that are all continuation bytes. -/
theorem decode_uri_cont_loop_good (k : Nat) :
    ∀ (bs txt pre post : List Nat) (cp : Nat), escapeTextOf bs txt = true →
    k ≤ bs.length → (∀ b ∈ bs.take k, isContByte b = true) →
    decode_uri_cont_loop (pre ++ (txt ++ post)) k (pre.length + 1) (cp : Int)
      = .ok (pre.length + 1 + 3 * k,
             (((bs.take k).foldl (fun a b => a * 64 + b % 64) cp : Nat) : Int)) := by
  induction k with
  | zero => intro bs txt pre post cp _ _ _; rfl
  | succ k ih =>
      intro bs txt pre post cp hesc hk hall
      cases bs with
      | nil => simp at hk
      | cons b bs =>
          obtain ⟨hd, ld, txt', rfl, hb256, hh, hl, hesc'⟩ := escapeTextOf_cons b bs txt hesc
          have hb : isContByte b = true := hall b (by simp)
          have hb' : 0x80 ≤ b ∧ b < 0xc0 := by
            simpa [isContByte] using hb
          have hhex := hex_escape_at pre (txt' ++ post) 0x25 hd ld b hh hl
          simp only [List.cons_append] at hhex ⊢
          rw [decode_uri_cont_loop_step _ k _ b _ hhex hb']
          have e : pre ++ 0x25 :: hd :: ld :: (txt' ++ post)
              = (pre ++ [0x25, hd, ld]) ++ (txt' ++ post) := by simp
          have e2 : pre.length + 1 + 3 = (pre ++ [0x25, hd, ld]).length + 1 := by
            simp only [List.length_append, List.length_cons, List.length_nil]
          have e3 : (cp : Int) * 2 ^ 6 + ((b % 64 : Nat) : Int) = ((cp * 64 + b % 64 : Nat) : Int) := by
            omega
          rw [e, e2, e3, ih bs txt' _ post _ hesc' (by simpa using hk)
            (fun x hx => hall x (by simp only [List.take_succ_cons, List.mem_cons]; exact Or.inr hx))]
          simp only [List.length_append, List.length_cons, List.length_nil, List.take_succ_cons,
            List.foldl_cons]
          congr 2
          omega

/-- The continuation loop on escapes one of which, among the first `k`, is not
a continuation byte. -/
theorem decode_uri_cont_loop_any_bad (k : Nat) :
    ∀ (bs txt pre post : List Nat) (cp : Int), escapeTextOf bs txt = true →
    (bs.take k).any (fun b => !isContByte b) = true →
    decode_uri_cont_loop (pre ++ (txt ++ post)) k (pre.length + 1) cp = .error .uriError := by
  induction k with
  | zero => intro bs txt pre post cp _ h; simp at h
  | succ k ih =>
      intro bs txt pre post cp hesc hany
      cases bs with
      | nil => simp at hany
      | cons b bs =>
          obtain ⟨hd, ld, txt', rfl, hb256, hh, hl, hesc'⟩ := escapeTextOf_cons b bs txt hesc
          have hhex := hex_escape_at pre (txt' ++ post) 0x25 hd ld b hh hl
          simp only [List.cons_append] at hhex ⊢
          cases hb : isContByte b with
          | false => exact decode_uri_cont_loop_bad _ k _ b cp hhex hb256 hb
          | true =>
              have hb' : 0x80 ≤ b ∧ b < 0xc0 := by
                simpa [isContByte] using hb
              rw [decode_uri_cont_loop_step _ k _ b _ hhex hb']
              have e : pre ++ 0x25 :: hd :: ld :: (txt' ++ post)
                  = (pre ++ [0x25, hd, ld]) ++ (txt' ++ post) := by simp
              have e2 : pre.length + 1 + 3 = (pre ++ [0x25, hd, ld]).length + 1 := by
                simp only [List.length_append, List.length_cons, List.length_nil]
              rw [e, e2]
              apply ih bs txt' _ post _ hesc'
              simpa [hb] using hany

theorem decode_uri_cont_loop_error (buf : List Nat) (k p : Nat) (cp : Int) (e : DukError)
    (h : decode_uri_cont_loop buf k p cp = .error e) : e = .uriError := by
  induction k generalizing p cp with
  | zero => simp [decode_uri_cont_loop] at h
  | succ k ih =>
      simp only [decode_uri_cont_loop] at h
      split_ifs at h
      · cases h; rfl
      · cases h; rfl
      · exact ih _ _ h

/-- The URI decoder callback on `%` raises URIError when the first escape is a
continuation byte or a lead byte `≥ 0xF8`, and when every result of the
continuation loop is a code point that is too small for its length, too
large, or a surrogate. -/
theorem callback_decode_uri_bad (c : duk__transform_context) (table : List Nat) (t : Nat)
    (ht : duk__decode_hex_escape c.h_str c.p 2 = (t : Int))
    (hbad : (0x80 ≤ t ∧ t < 0xc0) ∨ 0xf8 ≤ t ∨
      ∃ blen m min_cp : Nat,
        ((blen = 2 ∧ 0xc0 ≤ t ∧ t < 0xe0 ∧ m = 32 ∧ min_cp = 0x80) ∨
         (blen = 3 ∧ 0xe0 ≤ t ∧ t < 0xf0 ∧ m = 16 ∧ min_cp = 0x800) ∨
         (blen = 4 ∧ 0xf0 ≤ t ∧ t < 0xf8 ∧ m = 8 ∧ min_cp = 0x10000)) ∧
        ∀ p' cp', decode_uri_cont_loop c.h_str (blen - 1) (c.p + 3) ((t % m : Nat) : Int)
            = .ok (p', cp') →
          cp' < (min_cp : Int) ∨ cp' > 0x10ffff ∨ (cp' ≥ 0xd800 ∧ cp' ≤ 0xdfff)) :
    duk__transform_callback_decode_uri c table 0x25 = .error .uriError := by
  unfold duk__transform_callback_decode_uri
  simp only [duk__transform_context.p_end, if_true, ht, Int.toNat_ofNat, and_0x1f, and_0x0f,
    and_0x07]
  by_cases h2 : c.h_str.length - c.p < 2
  · rw [if_pos h2]
  rw [if_neg h2, if_neg (by omega)]
  have fin : ∀ (blen m min_cp : Nat),
      (∀ p' cp', decode_uri_cont_loop c.h_str (blen - 1) (c.p + 3) ((t % m : Nat) : Int)
            = .ok (p', cp') →
          cp' < (min_cp : Int) ∨ cp' > 0x10ffff ∨ (cp' ≥ 0xd800 ∧ cp' ≤ 0xdfff)) →
      (if c.h_str.length - c.p < blen * 3 - 1 then
          (Except.error DukError.uriError : Except DukError duk__transform_context)
        else
          match decode_uri_cont_loop c.h_str (blen - 1) (c.p + 3) ((t % m : Nat) : Int) with
          | .error e => .error e
          | .ok (p, cp) =>
              if cp < (min_cp : Int) ∨ cp > 0x10ffff ∨ (cp ≥ 0xd800 ∧ cp ≤ 0xdfff) then
                .error .uriError
              else if cp ≥ 0x10000 then
                .ok (duk_hbuffer_append_xutf8
                  (duk_hbuffer_append_xutf8 { c with p := p - 1 }
                    (toUcodepoint ((cp - 0x10000) / 2 ^ 10 + 0xd800)))
                  (toUcodepoint ((cp - 0x10000) % 2 ^ 10 + 0xdc00)))
              else .ok (duk_hbuffer_append_xutf8 { c with p := p - 1 } (toUcodepoint cp)))
        = .error .uriError := by
    intro blen m min_cp hinv
    split_ifs with h5
    · rfl
    · cases hl : decode_uri_cont_loop c.h_str (blen - 1) (c.p + 3) ((t % m : Nat) : Int) with
      | error e =>
          rw [decode_uri_cont_loop_error _ _ _ _ _ hl]
      | ok r =>
          obtain ⟨p', cp'⟩ := r
          simp only []
          rw [if_pos (hinv p' cp' hl)]
  rcases hbad with h | h | ⟨blen, m, min_cp, hcls, hinv⟩
  · rw [if_neg (by omega), if_pos (by omega)]
  · rw [if_neg (by omega), if_neg (by omega), if_neg (by omega), if_neg (by omega),
      if_neg (by omega)]
  · rcases hcls with ⟨rfl, h1, h2, rfl, rfl⟩ | ⟨rfl, h1, h2, rfl, rfl⟩ | ⟨rfl, h1, h2, rfl, rfl⟩
    · rw [if_neg (by omega), if_neg (by omega), if_pos (by omega)]
      exact fin 2 32 0x80 hinv
    · rw [if_neg (by omega), if_neg (by omega), if_neg (by omega), if_pos (by omega)]
      exact fin 3 16 0x800 hinv
    · rw [if_neg (by omega), if_neg (by omega), if_neg (by omega), if_neg (by omega),
        if_pos (by omega)]
      exact fin 4 8 0x10000 hinv

/-- Decoder round on a run of escapes whose bytes are not strict UTF-8. -/
theorem decode_step_bad_escape (table out post bs txt : List Nat)
    (hesc : escapeTextOf bs txt = true) (hbad : badEscapeBytes bs = true) :
    transform_step duk__transform_callback_decode_uri table
      { h_str := txt ++ post, h_buf := out, p := 0 } = .error .uriError := by
  cases bs with
  | nil => simp [badEscapeBytes] at hbad
  | cons b0 rest =>
      obtain ⟨hd, ld, txt', rfl, hb256, hh, hl, hesc'⟩ := escapeTextOf_cons b0 rest txt hesc
      unfold transform_step
      simp only [List.cons_append, duk__transform_context.p_start, duk__transform_context.p_end]
      rw [decode_checked_pct]
      simp only [toCodepoint_pct]
      have ht := hex_escape_at [] (txt' ++ post) 0x25 hd ld b0 hh hl
      simp only [List.nil_append, List.length_nil, Nat.zero_add] at ht
      apply callback_decode_uri_bad _ table b0 ht
      simp only [badEscapeBytes] at hbad
      by_cases c1 : b0 < 0x80
      · simp [c1] at hbad
      by_cases c2 : b0 < 0xc0
      · exact Or.inl ⟨by omega, c2⟩
      by_cases c3 : 0xf8 ≤ b0
      · exact Or.inr (Or.inl c3)
      rw [if_neg c1, if_neg c2, if_neg c3] at hbad
      right; right
      have key : ∀ (blen m min_cp : Nat), 1 ≤ blen →
          (if (rest.take (blen - 1)).any (fun b => !isContByte b) = true then true
            else if (rest.take (blen - 1)).length < blen - 1 then false
            else
              decide ((rest.take (blen - 1)).foldl (fun a b => a * 64 + b % 64) (b0 % m) < min_cp)
                || decide (0x10ffff < (rest.take (blen - 1)).foldl (fun a b => a * 64 + b % 64) (b0 % m))
                || (decide (0xd800 ≤ (rest.take (blen - 1)).foldl (fun a b => a * 64 + b % 64) (b0 % m))
                    && decide ((rest.take (blen - 1)).foldl (fun a b => a * 64 + b % 64) (b0 % m) ≤ 0xdfff)))
            = true →
          ∀ p' cp', decode_uri_cont_loop (0x25 :: hd :: ld :: (txt' ++ post)) (blen - 1) (1 + 3)
              ((b0 % m : Nat) : Int) = .ok (p', cp') →
            cp' < (min_cp : Int) ∨ cp' > 0x10ffff ∨ (cp' ≥ 0xd800 ∧ cp' ≤ 0xdfff) := by
        intro blen m min_cp hblen hb p' cp' hloop
        have e : (0x25 :: hd :: ld :: (txt' ++ post)) = [0x25, hd, ld] ++ (txt' ++ post) := rfl
        have e2 : 1 + 3 = [0x25, hd, ld].length + 1 := rfl
        rw [e, e2] at hloop
        by_cases hany : (rest.take (blen - 1)).any (fun b => !isContByte b) = true
        · rw [decode_uri_cont_loop_any_bad (blen - 1) rest txt' _ post _ hesc' hany] at hloop
          cases hloop
        · rw [if_neg hany] at hb
          by_cases hlen : (rest.take (blen - 1)).length < blen - 1
          · rw [if_pos hlen] at hb; cases hb
          rw [if_neg hlen] at hb
          have hk : blen - 1 ≤ rest.length := by
            rw [List.length_take] at hlen; omega
          have hall : ∀ b ∈ rest.take (blen - 1), isContByte b = true := by
            intro b hbm
            cases hcb : isContByte b with
            | true => rfl
            | false =>
                exfalso
                apply hany
                rw [List.any_eq_true]
                exact ⟨b, hbm, by simp [hcb]⟩
          rw [decode_uri_cont_loop_good (blen - 1) rest txt' _ post _ hesc' hk hall] at hloop
          simp only [Except.ok.injEq, Prod.mk.injEq] at hloop
          obtain ⟨_, rfl⟩ := hloop
          simp only [Bool.or_eq_true, Bool.and_eq_true, decide_eq_true_eq] at hb
          omega
      by_cases c4 : b0 < 0xe0
      · simp only [if_pos c4] at hbad
        exact ⟨2, 32, 0x80, Or.inl ⟨rfl, by omega, c4, rfl, rfl⟩, key 2 32 0x80 (by omega) hbad⟩
      by_cases c5 : b0 < 0xf0
      · simp only [if_neg c4, if_pos c5] at hbad
        exact ⟨3, 16, 0x800, Or.inr (Or.inl ⟨rfl, by omega, c5, rfl, rfl⟩),
          key 3 16 0x800 (by omega) hbad⟩
      · simp only [if_neg c4, if_neg c5] at hbad
        exact ⟨4, 8, 0x10000, Or.inr (Or.inr ⟨rfl, by omega, by omega, rfl, rfl⟩),
          key 4 8 0x10000 (by omega) hbad⟩

/-- C2 (as stated) fails: the input `80 25 43 30 25 38 30`, the raw byte `0x80`
followed by `%C0%80`, contains a percent-escape sequence that is not strict
UTF-8, yet both built-ins fail on the raw byte first, with an internal error
and not with URIError. -/
theorem decode_uri_internal_error_before_bad_escape :
    escapeTextOf [0xC0, 0x80] [0x25, 0x43, 0x30, 0x25, 0x38, 0x30] = true ∧
    badEscapeBytes [0xC0, 0x80] = true ∧
    duk_bi_global_object_decode_uri ([0x80] ++ [0x25, 0x43, 0x30, 0x25, 0x38, 0x30])
      = some (.error .internalError) ∧
    duk_bi_global_object_decode_uri_component ([0x80] ++ [0x25, 0x43, 0x30, 0x25, 0x38, 0x30])
      = some (.error .internalError) := by
  decide

/-- C2 (amended): `decodeURI` and `decodeURIComponent` raise URIError on every input in
which the decoder arrives (the part `pre` before it decodes without error) at
a run of percent escapes `txt` whose bytes `bs` are not strict UTF-8: a
non-shortest form, a surrogate, a code point above `0x10FFFF`, a lead byte
`≥ 0xF8`, a continuation byte in lead position, or a following escape that is
not of the form `10xxxxxx` (`badEscapeBytes`), whatever follows in `post`. -/
theorem decode_uri_rejects_non_strict_utf8 (pre txt post bs : List Nat)
    (hesc : escapeTextOf bs txt = true) (hbad : badEscapeBytes bs = true) :
    (∀ out, duk_bi_global_object_decode_uri pre = some (.ok out) →
      duk_bi_global_object_decode_uri (pre ++ txt ++ post) = some (.error .uriError)) ∧
    (∀ out, duk_bi_global_object_decode_uri_component pre = some (.ok out) →
      duk_bi_global_object_decode_uri_component (pre ++ txt ++ post)
        = some (.error .uriError)) := by
  have hne : txt ≠ [] := by
    cases bs with
    | nil => simp [badEscapeBytes] at hbad
    | cons b0 rest =>
        obtain ⟨hd, ld, txt', rfl, -⟩ := escapeTextOf_cons b0 rest txt hesc
        simp
  constructor
  · intro out hpre
    exact decode_prefix_then_error _ pre txt post out _ hpre hne
      (decode_step_bad_escape _ out post bs txt hesc hbad)
  · intro out hpre
    exact decode_prefix_then_error _ pre txt post out _ hpre hne
      (decode_step_bad_escape _ out post bs txt hesc hbad)

/-- Witness for C2: `a%C0%80b` (the non-shortest form of the spec's scenario,
after the decodable prefix `a`). -/
theorem decode_uri_rejects_non_strict_utf8_witness :
    escapeTextOf [0xC0, 0x80] [0x25, 0x43, 0x30, 0x25, 0x38, 0x30] = true ∧
    badEscapeBytes [0xC0, 0x80] = true ∧
    duk_bi_global_object_decode_uri [0x61] = some (.ok [0x61]) ∧
    duk_bi_global_object_decode_uri
        ([0x61] ++ [0x25, 0x43, 0x30, 0x25, 0x38, 0x30] ++ [0x62])
      = some (.error .uriError) :=
  ⟨by decide, by decide, by decide,
   (decode_uri_rejects_non_strict_utf8 [0x61] [0x25, 0x43, 0x30, 0x25, 0x38, 0x30] [0x62]
      [0xC0, 0x80] (by decide) (by decide)).1 [0x61] (by decide)⟩

/-! ### Module id resolution: the resolution input (C6) -/

theorem cstr_no_nul (s : List Nat) : ∀ b ∈ cstr s, b ≠ 0 := by
  intro b hb
  have := List.mem_takeWhile_imp hb
  simpa using this

theorem cstr_of_no_nul (s : List Nat) (h : ∀ b ∈ s, b ≠ 0) : cstr s = s := by
  unfold cstr
  rw [List.takeWhile_eq_self_iff]
  intro b hb
  simpa using h b hb

theorem cstr_idem (s : List Nat) : cstr (cstr s) = cstr s :=
  cstr_of_no_nul _ (cstr_no_nul s)

theorem resolve_input_no_nul (m r : List Nat) :
    ∀ b ∈ cstr m ++ [0x2f, 0x2e, 0x2e, 0x2f] ++ cstr r, b ≠ 0 := by
  intro b hb
  simp only [List.mem_append, List.mem_cons, List.mem_singleton, List.not_mem_nil,
    or_false] at hb
  rcases hb with (hb | hb) | hb
  · exact cstr_no_nul m b hb
  · omega
  · exact cstr_no_nul r b hb

/-- C6: when the requested id `r` begins with `.` and there is a current
module id `m`, resolving `r` against `m` gives the same outcome as resolving
the string `m + "/../" + r` with no current module; when `r` does not begin
with `.`, the outcome does not depend on `m` and is that of resolving `r`
alone (which is also what happens by definition when there is no current
module id). The strings are the C strings at the two pointers (`cstr`). -/
theorem resolve_module_id_input (limit : Nat) (r m : List Nat) :
    (rdByte r 0 = 0x2e →
      duk__bi_global_resolve_module_id limit r (some m)
        = duk__bi_global_resolve_module_id limit
            (cstr m ++ [0x2f, 0x2e, 0x2e, 0x2f] ++ cstr r) none) ∧
    (rdByte r 0 ≠ 0x2e →
      duk__bi_global_resolve_module_id limit r (some m)
        = duk__bi_global_resolve_module_id limit r none) := by
  constructor
  · intro h
    have e := cstr_of_no_nul _ (resolve_input_no_nul m r)
    simp only [duk__bi_global_resolve_module_id, DUK_STRLEN, h, if_true, e,
      List.length_append, List.length_cons, List.length_nil]
  · intro h
    simp only [duk__bi_global_resolve_module_id, if_neg h]

/-- Witness for C6: requiring `./quux` from module `foo/bar` is resolving
`foo/bar/.././quux`, which gives `foo/quux`. -/
theorem resolve_module_id_input_witness :
    rdByte [0x2e, 0x2f, 0x71, 0x75, 0x75, 0x78] 0 = 0x2e ∧
    duk__bi_global_resolve_module_id 256 [0x2e, 0x2f, 0x71, 0x75, 0x75, 0x78]
        (some [0x66, 0x6f, 0x6f, 0x2f, 0x62, 0x61, 0x72])
      = duk__bi_global_resolve_module_id 256
          (cstr [0x66, 0x6f, 0x6f, 0x2f, 0x62, 0x61, 0x72] ++ [0x2f, 0x2e, 0x2e, 0x2f]
            ++ cstr [0x2e, 0x2f, 0x71, 0x75, 0x75, 0x78]) none ∧
    duk__bi_global_resolve_module_id 256 [0x2e, 0x2f, 0x71, 0x75, 0x75, 0x78]
        (some [0x66, 0x6f, 0x6f, 0x2f, 0x62, 0x61, 0x72])
      = some (.ok [0x66, 0x6f, 0x6f, 0x2f, 0x71, 0x75, 0x75, 0x78]) :=
  ⟨by decide,
   (resolve_module_id_input 256 [0x2e, 0x2f, 0x71, 0x75, 0x75, 0x78]
      [0x66, 0x6f, 0x6f, 0x2f, 0x62, 0x61, 0x72]).1 (by decide),
   by decide⟩

/-! ### Module id resolution: the loop, case by case -/

theorem resolve_loop_nil (f : Nat) (q : List Nat) :
    duk__resolve_loop (f + 1) [] q = some (.error .typeError) := by
  simp [duk__resolve_loop]

theorem resolve_loop_slash (f : Nat) (p q : List Nat) :
    duk__resolve_loop (f + 1) (0x2f :: p) q = some (.error .typeError) := by
  simp [duk__resolve_loop]

theorem resolve_loop_dot_slash (f : Nat) (p q : List Nat) :
    duk__resolve_loop (f + 1) (0x2e :: 0x2f :: p) q
      = duk__resolve_loop f (eat_dup_slashes p) q := by
  simp [duk__resolve_loop]

theorem resolve_loop_dotdot_slash (f : Nat) (p q : List Nat) :
    duk__resolve_loop (f + 1) (0x2e :: 0x2e :: 0x2f :: p) q
      = if q = [] then some (.error .typeError)
        else duk__resolve_loop f (eat_dup_slashes p) (backtrack_to_slash q.tail) := by
  simp [duk__resolve_loop]

theorem resolve_loop_dot_other (f : Nat) (p q : List Nat)
    (h1 : p.headD 0 ≠ 0x2f) (h2 : ¬ (p.headD 0 = 0x2e ∧ p.tail.headD 0 = 0x2f)) :
    duk__resolve_loop (f + 1) (0x2e :: p) q = some (.error .typeError) := by
  simp only [duk__resolve_loop, List.headD_cons, List.tail_cons]
  simp only [if_true, if_neg h1, if_neg h2, Nat.reduceEqDiff, if_false]

theorem resolve_loop_term (f : Nat) (c : Nat) (p q : List Nat)
    (h0 : c ≠ 0) (h1 : c ≠ 0x2e) (h2 : c ≠ 0x2f) :
    duk__resolve_loop (f + 1) (c :: p) q
      = match copy_term c p q with
        | (true, _, q) => some (.ok q.reverse)
        | (false, p, q) => duk__resolve_loop f (eat_dup_slashes p) q := by
  simp only [duk__resolve_loop, List.headD_cons, List.tail_cons]
  rw [if_neg h0, if_neg h1, if_neg h2]

theorem copy_term_slash (u : List Nat) :
    ∀ (c : Nat) (rest q : List Nat), (∀ b ∈ u, b ≠ 0 ∧ b ≠ 0x2f) →
    copy_term c (u ++ 0x2f :: rest) q = (false, rest, 0x2f :: ((c :: u).reverse ++ q)) := by
  induction u with
  | nil => intro c rest q _; simp [copy_term]
  | cons a u ih =>
      intro c rest q h
      have ha := h a (by simp)
      rw [List.cons_append, copy_term, if_neg ha.1, if_neg ha.2,
        ih a rest (c :: q) (fun b hb => h b (by simp [hb]))]
      simp

theorem copy_term_end (u : List Nat) :
    ∀ (c : Nat) (q : List Nat), (∀ b ∈ u, b ≠ 0 ∧ b ≠ 0x2f) →
    copy_term c u q = (true, [], (c :: u).reverse ++ q) := by
  induction u with
  | nil => intro c q _; simp [copy_term]
  | cons a u ih =>
      intro c q h
      have ha := h a (by simp)
      rw [copy_term, if_neg ha.1, if_neg ha.2, ih a (c :: q) (fun b hb => h b (by simp [hb]))]
      simp

theorem slashEnded_tail (c : Nat) (pre : List Nat) (h : slashEnded (c :: pre)) (hc : c ≠ 0x2f) :
    pre ≠ [] ∧ slashEnded pre := by
  rcases h with h | h
  · cases h
  · cases pre with
    | nil => simp at h; omega
    | cons a l =>
        rw [List.getLast?_cons_cons] at h
        exact ⟨by simp, Or.inr h⟩

theorem slashEnded_tail' (c : Nat) (pre : List Nat) (h : slashEnded (c :: pre)) :
    slashEnded pre := by
  rcases h with h | h
  · cases h
  · cases pre with
    | nil => exact Or.inl rfl
    | cons a l =>
        rw [List.getLast?_cons_cons] at h
        exact Or.inr h

/-- Splitting a non-empty list that ends with `/` at its first `/`. -/
theorem split_first_slash (pre : List Nat) (hne : pre ≠ []) (h : slashEnded pre) :
    ∃ u pre2, pre = u ++ 0x2f :: pre2 ∧ (∀ b ∈ u, b ≠ 0x2f) ∧ slashEnded pre2 := by
  induction pre with
  | nil => exact absurd rfl hne
  | cons a l ih =>
      by_cases ha : a = 0x2f
      · exact ⟨[], l, by simp [ha], by simp, slashEnded_tail' a l h⟩
      · obtain ⟨hl, hs⟩ := slashEnded_tail a l h ha
        obtain ⟨u, pre2, rfl, hu, h2⟩ := ih hl hs
        exact ⟨a :: u, pre2, by simp, by
          intro b hb
          simp only [List.mem_cons] at hb
          rcases hb with rfl | hb
          · exact ha
          · exact hu b hb, h2⟩

theorem eat_dup_slashes_length (p : List Nat) : (eat_dup_slashes p).length ≤ p.length := by
  induction p with
  | nil => simp [eat_dup_slashes]
  | cons c p ih =>
      simp only [eat_dup_slashes]
      split_ifs
      · simp
      · simp only [List.length_cons]; omega

/-- Eating duplicate slashes in front of a part `t` that does not start with `/`
stops at or before `t`. -/
theorem eat_dup_slashes_append (pre : List Nat) (t : List Nat) (hs : slashEnded pre)
    (ht : t.head? ≠ some 0x2f) :
    ∃ pre', eat_dup_slashes (pre ++ t) = pre' ++ t ∧ pre'.length ≤ pre.length ∧
      slashEnded pre' ∧ (∀ b ∈ pre', b ∈ pre) := by
  induction pre with
  | nil =>
      refine ⟨[], ?_, Nat.le_refl _, Or.inl rfl, fun b hb => hb⟩
      cases t with
      | nil => rfl
      | cons a t =>
          simp only [List.head?_cons, ne_eq, Option.some.injEq] at ht
          simp [eat_dup_slashes, ht]
  | cons a l ih =>
      by_cases ha : a = 0x2f
      · obtain ⟨pre', h1, h2, h3, h4⟩ := ih (slashEnded_tail' a l hs)
        refine ⟨pre', ?_, by simp only [List.length_cons]; omega, h3,
          fun b hb => List.mem_cons_of_mem _ (h4 b hb)⟩
        simp only [List.cons_append, eat_dup_slashes, ha, ne_eq, not_true_eq_false, if_false]
        exact h1
      · exact ⟨a :: l, by simp [eat_dup_slashes, ha], Nat.le_refl _, hs, fun b hb => hb⟩

/-- If the resolution loop fails whenever it stands at the start of `t`, then
it fails on every input `pre ++ t` in which `t` starts a term. -/
theorem resolve_loop_fails_at_term (t : List Nat)
    (hfail : ∀ f q, duk__resolve_loop (f + 1) t q = some (.error .typeError))
    (n : Nat) :
    ∀ (pre : List Nat), pre.length ≤ n → (∀ b ∈ pre, b ≠ 0) → slashEnded pre →
    (pre ≠ [] → t.head? ≠ some 0x2f) →
    ∀ (q : List Nat) (f : Nat), (pre ++ t).length < f →
    duk__resolve_loop f (pre ++ t) q = some (.error .typeError) := by
  induction n with
  | zero =>
      intro pre hn _ _ _ q f hf
      have : pre = [] := List.eq_nil_of_length_eq_zero (by omega)
      subst this
      obtain ⟨g, rfl⟩ : ∃ g, f = g + 1 := ⟨f - 1, by omega⟩
      exact hfail g q
  | succ n ih =>
      intro pre hn hnul hs ht q f hf
      obtain ⟨g, rfl⟩ : ∃ g, f = g + 1 := ⟨f - 1, by omega⟩
      cases pre with
      | nil => exact hfail g q
      | cons c pre1 =>
          have ht' := ht (by simp)
          have hc0 : c ≠ 0 := hnul c (by simp)
          have hnul1 : ∀ b ∈ pre1, b ≠ 0 := fun b hb => hnul b (by simp [hb])
          simp only [List.length_cons, List.length_append] at hn hf
          -- what the loop does next, in every case: it goes on from a later term start
          have cont : ∀ (pre2 : List Nat) (q' : List Nat), pre2.length ≤ pre1.length →
              (∀ b ∈ pre2, b ∈ pre1) → slashEnded pre2 →
              duk__resolve_loop g (eat_dup_slashes (pre2 ++ t)) q'
                = some (.error .typeError) := by
            intro pre2 q' hl hsub hs2
            obtain ⟨pre', e, hl', hs', hsub'⟩ := eat_dup_slashes_append pre2 t hs2 ht'
            rw [e]
            exact ih pre' (by omega) (fun b hb => hnul1 b (hsub b (hsub' b hb))) hs'
              (fun _ => ht') q' g (by simp only [List.length_append]; omega)
          by_cases hslash : c = 0x2f
          · subst hslash
            exact resolve_loop_slash g _ q
          obtain ⟨hne1, hs1⟩ := slashEnded_tail c pre1 hs hslash
          by_cases hdot : c = 0x2e
          · subst hdot
            cases pre1 with
            | nil => exact absurd rfl hne1
            | cons x pre2 =>
                by_cases hx : x = 0x2f
                · subst hx
                  rw [List.cons_append, List.cons_append, resolve_loop_dot_slash]
                  exact cont pre2 q (by simp) (fun b hb => by simp [hb])
                    (slashEnded_tail' _ _ hs1)
                · obtain ⟨hne2, hs2⟩ := slashEnded_tail x pre2 hs1 hx
                  cases pre2 with
                  | nil => exact absurd rfl hne2
                  | cons y pre3 =>
                      by_cases hxy : x = 0x2e ∧ y = 0x2f
                      · obtain ⟨rfl, rfl⟩ := hxy
                        rw [List.cons_append, List.cons_append, List.cons_append,
                          resolve_loop_dotdot_slash]
                        split_ifs
                        · rfl
                        · exact cont pre3 _ (by simp only [List.length_cons]; omega)
                            (fun b hb => by simp [hb]) (slashEnded_tail' _ _ hs2)
                      · rw [List.cons_append]
                        apply resolve_loop_dot_other
                        · simpa using hx
                        · simpa using hxy
          · rw [List.cons_append, resolve_loop_term g c _ q hc0 hdot hslash]
            obtain ⟨u, pre2, rfl, hu, hs2⟩ := split_first_slash pre1 hne1 hs1
            rw [List.append_assoc, List.cons_append,
              copy_term_slash u c _ q (fun b hb => ⟨hnul1 b (by simp [hb]), hu b hb⟩)]
            simp only []
            exact cont pre2 _ (by simp only [List.length_append, List.length_cons]; omega)
              (fun b hb => by simp [hb]) hs2

/-! ### Module id resolution: rejected inputs (C7, C8) -/

theorem resolve_module_id_none (limit : Nat) (s : List Nat) (hs : ∀ b ∈ s, b ≠ 0) :
    duk__bi_global_resolve_module_id limit s none
      = if s.length + 1 ≥ limit then some (.error .typeError)
        else duk__resolve_loop (s.length + 1) s [] := by
  simp only [duk__bi_global_resolve_module_id, DUK_STRLEN, cstr_of_no_nul s hs]
  split_ifs <;> rfl

theorem resolve_fails_dot (f : Nat) (q : List Nat) :
    duk__resolve_loop (f + 1) [0x2e] q = some (.error .typeError) :=
  resolve_loop_dot_other f [] q (by decide) (by decide)

theorem resolve_fails_dotdot (f : Nat) (q : List Nat) :
    duk__resolve_loop (f + 1) [0x2e, 0x2e] q = some (.error .typeError) :=
  resolve_loop_dot_other f [0x2e] q (by decide) (by decide)

/-- A term that begins with `.` and is neither `.` nor `..` makes the loop fail
when it stands at its start, whatever follows the term. -/
theorem resolve_fails_dot_term (t post : List Nat) (hhead : t.head? = some 0x2e)
    (hslash : ∀ b ∈ t, b ≠ 0x2f) (h1 : t ≠ [0x2e]) (h2 : t ≠ [0x2e, 0x2e])
    (f : Nat) (q : List Nat) :
    duk__resolve_loop (f + 1) (t ++ post) q = some (.error .typeError) := by
  cases t with
  | nil => simp at hhead
  | cons c t1 =>
      simp only [List.head?_cons, Option.some.injEq] at hhead
      subst hhead
      cases t1 with
      | nil => exact absurd rfl h1
      | cons x t2 =>
          have hx : x ≠ 0x2f := hslash x (by simp)
          rw [List.cons_append]
          apply resolve_loop_dot_other
          · simpa using hx
          · rintro ⟨hx2, hy⟩
            simp only [List.cons_append, List.headD_cons] at hx2
            subst hx2
            cases t2 with
            | nil => exact absurd rfl h2
            | cons y t3 =>
                have hy' : y ≠ 0x2f := hslash y (by simp)
                simp only [List.cons_append, List.tail_cons, List.headD_cons] at hy
                exact hy' hy


/-- C7 (as stated) fails: two adjacent `/` are not an error; `a//b` resolves
to `a/b`. -/
theorem resolve_accepts_adjacent_slashes :
    duk__bi_global_resolve_module_id 256 [0x61, 0x2f, 0x2f, 0x62] none
      = some (.ok [0x61, 0x2f, 0x62]) := by
  decide

/-- C7 (amended): module id resolution throws TypeError for every resolution
input (a C string) that is empty, begins with `/` or ends with `/`, and for
every input that contains a term beginning with `.` that is neither `.` nor
`..`; the term `t` stands between `pre`, which is empty or ends with `/`, and
`post`, which is empty or begins with `/`. -/
theorem resolve_rejects_empty_and_dot_terms (limit : Nat) (s : List Nat)
    (hnul : ∀ b ∈ s, b ≠ 0)
    (h : s = [] ∨ s.head? = some 0x2f ∨ s.getLast? = some 0x2f ∨
      ∃ pre t post, s = pre ++ t ++ post ∧ slashEnded pre ∧
        (post = [] ∨ post.head? = some 0x2f) ∧ t.head? = some 0x2e ∧
        (∀ b ∈ t, b ≠ 0x2f) ∧ t ≠ [0x2e] ∧ t ≠ [0x2e, 0x2e]) :
    duk__bi_global_resolve_module_id limit s none = some (.error .typeError) := by
  rw [resolve_module_id_none limit s hnul]
  split_ifs
  · rfl
  rcases h with rfl | h | h | ⟨pre, t, post, rfl, hpre, _, hhead, hslash, h1, h2⟩
  · exact resolve_loop_nil _ _
  · cases s with
    | nil => simp at h
    | cons c s' =>
        simp only [List.head?_cons, Option.some.injEq] at h
        subst h
        exact resolve_loop_slash _ _ _
  · have := resolve_loop_fails_at_term [] (fun f q => resolve_loop_nil f q) s.length s
      (Nat.le_refl _) hnul (Or.inr h) (fun _ => by simp) [] (s.length + 1) (by simp)
    simpa using this
  · have hfail := fun f q => resolve_fails_dot_term t post hhead hslash h1 h2 f q
    have := resolve_loop_fails_at_term (t ++ post) hfail pre.length pre (Nat.le_refl _)
      (fun b hb => hnul b (by simp [hb])) hpre
      (fun _ => by
        cases t with
        | nil => simp at hhead
        | cons c t1 =>
            simp only [List.head?_cons, Option.some.injEq] at hhead
            simp [hhead])
      [] ((pre ++ (t ++ post)).length + 1) (Nat.lt_succ_self _)
    rw [List.append_assoc]
    exact this

/-- Witness for C7 (amended): `a/.b/c` contains the term `.b`. -/
theorem resolve_rejects_empty_and_dot_terms_witness :
    (∀ b ∈ [0x61, 0x2f, 0x2e, 0x62, 0x2f, 0x63], b ≠ 0) ∧
    duk__bi_global_resolve_module_id 256 [0x61, 0x2f, 0x2e, 0x62, 0x2f, 0x63] none
      = some (.error .typeError) :=
  ⟨by decide,
   resolve_rejects_empty_and_dot_terms 256 [0x61, 0x2f, 0x2e, 0x62, 0x2f, 0x63] (by decide)
     (Or.inr (Or.inr (Or.inr ⟨[0x61, 0x2f], [0x2e, 0x62], [0x2f, 0x63], rfl, Or.inr rfl,
       Or.inr rfl, rfl, by decide, by decide, by decide⟩)))⟩

theorem resolve_module_id_some_abs (limit : Nat) (r m : List Nat) (h : rdByte r 0 ≠ 0x2e) :
    duk__bi_global_resolve_module_id limit r (some m)
      = duk__bi_global_resolve_module_id limit r none := by
  simp only [duk__bi_global_resolve_module_id, if_neg h]

theorem resolve_module_id_some_rel (limit : Nat) (r m : List Nat) (h : rdByte r 0 = 0x2e)
    (hnul : ∀ b ∈ r, b ≠ 0) :
    duk__bi_global_resolve_module_id limit r (some m)
      = if (cstr m).length + 4 + r.length + 1 ≥ limit then some (.error .typeError)
        else duk__resolve_loop ((cstr m ++ [0x2f, 0x2e, 0x2e, 0x2f] ++ r).length + 1)
          (cstr m ++ [0x2f, 0x2e, 0x2e, 0x2f] ++ r) [] := by
  simp only [duk__bi_global_resolve_module_id, DUK_STRLEN, cstr_of_no_nul r hnul, h, if_true]
  split_ifs <;> rfl

/-- The loop fails on every input whose last term is `.` or `..`. -/
theorem resolve_loop_fails_dot_last (pre t : List Nat) (hnul : ∀ b ∈ pre, b ≠ 0)
    (hpre : slashEnded pre) (ht : t = [0x2e] ∨ t = [0x2e, 0x2e]) :
    duk__resolve_loop ((pre ++ t).length + 1) (pre ++ t) [] = some (.error .typeError) := by
  have hfail : ∀ f q, duk__resolve_loop (f + 1) t q = some (.error .typeError) := by
    intro f q
    rcases ht with rfl | rfl
    · exact resolve_fails_dot f q
    · exact resolve_fails_dotdot f q
  exact resolve_loop_fails_at_term t hfail pre.length pre (Nat.le_refl _) hnul hpre
    (fun _ => by rcases ht with rfl | rfl <;> simp) [] _ (Nat.lt_succ_self _)

/-- C8: for every current module id (present or absent), requiring the id `.`,
or any id whose last term is `.` or `..` (the id is `pre ++ t` with `pre`
empty or ending with `/` and `t` one of the two), or any id that begins with
`/`, throws TypeError. The requested id is a C string. -/
theorem resolve_rejects_dot_last_and_leading_slash (limit : Nat) (r : List Nat)
    (m : Option (List Nat)) (hnul : ∀ b ∈ r, b ≠ 0)
    (h : (∃ pre t, r = pre ++ t ∧ slashEnded pre ∧ (t = [0x2e] ∨ t = [0x2e, 0x2e])) ∨
      r.head? = some 0x2f) :
    duk__bi_global_resolve_module_id limit r m = some (.error .typeError) := by
  have habs : duk__bi_global_resolve_module_id limit r none = some (.error .typeError) := by
    rw [resolve_module_id_none limit r hnul]
    split_ifs
    · rfl
    rcases h with ⟨pre, t, rfl, hpre, ht⟩ | h
    · exact resolve_loop_fails_dot_last pre t (fun b hb => hnul b (by simp [hb])) hpre ht
    · cases r with
      | nil => simp at h
      | cons c s' =>
          simp only [List.head?_cons, Option.some.injEq] at h
          subst h
          exact resolve_loop_slash _ _ _
  cases m with
  | none => exact habs
  | some mm =>
      by_cases hrel : rdByte r 0 = 0x2e
      · rw [resolve_module_id_some_rel limit r mm hrel hnul]
        split_ifs
        · rfl
        rcases h with ⟨pre, t, rfl, hpre, ht⟩ | h
        · have hpre' : slashEnded (cstr mm ++ [0x2f, 0x2e, 0x2e, 0x2f] ++ pre) := by
            right
            rcases hpre with rfl | hp
            · simp
            · rw [List.getLast?_append, hp]; rfl
          have := resolve_loop_fails_dot_last (cstr mm ++ [0x2f, 0x2e, 0x2e, 0x2f] ++ pre) t
            (fun b hb => by
              rw [List.mem_append] at hb
              rcases hb with hb | hb
              · exact resolve_input_no_nul mm [] b (by simpa [cstr] using hb)
              · exact hnul b (by simp [hb])) hpre' ht
          rw [List.append_assoc (cstr mm ++ [0x2f, 0x2e, 0x2e, 0x2f]) pre t] at this
          exact this
        · cases r with
          | nil => simp at h
          | cons c s' =>
              simp only [List.head?_cons, Option.some.injEq] at h
              subst h
              simp [rdByte] at hrel
      · rw [resolve_module_id_some_abs limit r mm hrel]
        exact habs

/-- Witness for C8: requiring `.` from the module `a/b`. -/
theorem resolve_rejects_dot_last_and_leading_slash_witness :
    (∀ b ∈ [0x2e], b ≠ 0) ∧
    duk__bi_global_resolve_module_id 256 [0x2e] (some [0x61, 0x2f, 0x62])
      = some (.error .typeError) :=
  ⟨by decide,
   resolve_rejects_dot_last_and_leading_slash 256 [0x2e] (some [0x61, 0x2f, 0x62])
     (by decide) (Or.inl ⟨[], [0x2e], rfl, Or.inl rfl, Or.inl rfl⟩)⟩

/-! ### Module id resolution: the term stack -/

theorem joinTerms_cons_cons (t t' : List Nat) (ts : List (List Nat)) :
    joinTerms (t :: t' :: ts) = t ++ 0x2f :: joinTerms (t' :: ts) := rfl

theorem joinTerms_snoc (ts : List (List Nat)) (t : List Nat) (hne : ts ≠ []) :
    joinTerms (ts ++ [t]) = joinTerms ts ++ 0x2f :: t := by
  induction ts with
  | nil => exact absurd rfl hne
  | cons a l ih =>
      cases l with
      | nil => rfl
      | cons b l' =>
          rw [List.cons_append, List.cons_append, joinTerms_cons_cons, ← List.cons_append,
            ih (by simp), joinTerms_cons_cons]
          simp

/-- Reading `buf_out` forwards after a last term `t` was copied: the join of
the stack, bottom first, and `t`. -/
theorem reverse_qOfStack_append (st : List (List Nat)) (t : List Nat) :
    (t.reverse ++ qOfStack st).reverse = joinTerms (st.reverse ++ [t]) := by
  induction st generalizing t with
  | nil => simp [qOfStack, joinTerms]
  | cons s st ih =>
      have h := ih s
      simp only [List.reverse_append, List.reverse_reverse] at h ⊢
      simp only [qOfStack, List.reverse_cons, List.reverse_append, List.reverse_reverse]
      rw [joinTerms_snoc _ _ (by simp), ← h]
      simp

theorem qOfStack_head (st : List (List Nat)) :
    qOfStack st = [] ∨ (qOfStack st).head? = some 0x2f := by
  cases st with
  | nil => exact Or.inl rfl
  | cons s st => exact Or.inr rfl

theorem backtrack_to_slash_append (u v : List Nat) (hu : ∀ b ∈ u, b ≠ 0x2f)
    (hv : v = [] ∨ v.head? = some 0x2f) : backtrack_to_slash (u ++ v) = v := by
  induction u with
  | nil =>
      rcases hv with rfl | hv
      · rfl
      · cases v with
        | nil => rfl
        | cons a v' =>
            simp only [List.head?_cons, Option.some.injEq] at hv
            simp [backtrack_to_slash, hv]
  | cons a u ih =>
      have ha : a ≠ 0x2f := hu a (by simp)
      rw [List.cons_append, backtrack_to_slash, if_neg ha]
      exact ih (fun b hb => hu b (by simp [hb]))

/-- Popping a term: the `..` backtrack on the buffer of a non-empty stack. -/
theorem backtrack_qOfStack (s : List Nat) (st : List (List Nat)) (hs : ∀ b ∈ s, b ≠ 0x2f) :
    backtrack_to_slash (qOfStack (s :: st)).tail = qOfStack st := by
  simp only [qOfStack, List.tail_cons]
  exact backtrack_to_slash_append _ _ (fun b hb => hs b (by simpa using hb)) (qOfStack_head st)

/-- The term copy loop in general: it copies a run `u` without NUL and `/`. -/
theorem copy_term_cases (p : List Nat) :
    ∀ (c : Nat) (q : List Nat), ∃ u p', (∀ b ∈ u, b ≠ 0 ∧ b ≠ 0x2f) ∧ p'.length ≤ p.length ∧
      (copy_term c p q = (true, p', (c :: u).reverse ++ q) ∨
       copy_term c p q = (false, p', 0x2f :: ((c :: u).reverse ++ q))) := by
  induction p with
  | nil => intro c q; exact ⟨[], [], by simp, by simp, Or.inl (by simp [copy_term])⟩
  | cons a p ih =>
      intro c q
      by_cases h0 : a = 0
      · exact ⟨[], p, by simp, by simp, Or.inl (by simp [copy_term, h0])⟩
      by_cases h1 : a = 0x2f
      · exact ⟨[], p, by simp, by simp, Or.inr (by simp [copy_term, h1])⟩
      obtain ⟨u, p', hu, hl, h⟩ := ih a (c :: q)
      refine ⟨a :: u, p', ?_, by simp only [List.length_cons]; omega, ?_⟩
      · intro b hb
        simp only [List.mem_cons] at hb
        rcases hb with rfl | hb
        · exact ⟨h0, h1⟩
        · exact hu b hb
      · rw [copy_term, if_neg h0, if_neg h1]
        rcases h with h | h
        · left; rw [h]; simp
        · right; rw [h]; simp

/-- Every id that the resolution loop returns is the join of a non-empty list
of ordinary terms. -/
theorem resolve_loop_ok_terms (fuel : Nat) :
    ∀ (p : List Nat) (st : List (List Nat)) (x : List Nat), (∀ s ∈ st, ordinaryTerm s) →
    duk__resolve_loop fuel p (qOfStack st) = some (.ok x) →
    ∃ terms, terms ≠ [] ∧ (∀ t ∈ terms, ordinaryTerm t) ∧ x = joinTerms terms := by
  induction fuel with
  | zero => intro p st x _ h; simp [duk__resolve_loop] at h
  | succ f ih =>
      intro p st x hst h
      simp only [duk__resolve_loop] at h
      by_cases c0 : p.headD 0 = 0
      · rw [if_pos c0] at h; cases h
      rw [if_neg c0] at h
      by_cases cdot : p.headD 0 = 0x2e
      · rw [if_pos cdot] at h
        by_cases c1 : p.tail.headD 0 = 0x2f
        · rw [if_pos c1] at h
          exact ih _ st x hst h
        rw [if_neg c1] at h
        by_cases c2 : p.tail.headD 0 = 0x2e ∧ p.tail.tail.headD 0 = 0x2f
        · rw [if_pos c2] at h
          cases st with
          | nil => simp [qOfStack] at h
          | cons s st' =>
              rw [if_neg (by simp [qOfStack])] at h
              rw [backtrack_qOfStack s st' (fun b hb => ((hst s (by simp)).2.1 b hb).2)] at h
              exact ih _ st' x (fun s' hs' => hst s' (by simp [hs'])) h
        · rw [if_neg c2] at h; cases h
      rw [if_neg cdot] at h
      by_cases cs : p.headD 0 = 0x2f
      · rw [if_pos cs] at h; cases h
      rw [if_neg cs] at h
      obtain ⟨u, p', hu, _, hc⟩ := copy_term_cases p.tail (p.headD 0) (qOfStack st)
      have hord : ordinaryTerm (p.headD 0 :: u) := by
        refine ⟨by simp, ?_, by simpa using cdot⟩
        intro b hb
        simp only [List.mem_cons] at hb
        rcases hb with rfl | hb
        · exact ⟨c0, cs⟩
        · exact hu b hb
      rcases hc with hc | hc
      · rw [hc] at h
        simp only [Option.some.injEq, Except.ok.injEq] at h
        subst h
        refine ⟨st.reverse ++ [p.headD 0 :: u], by simp, ?_, reverse_qOfStack_append st _⟩
        intro t ht
        simp only [List.mem_append, List.mem_reverse, List.mem_singleton] at ht
        rcases ht with ht | rfl
        · exact hst t ht
        · exact hord
      · rw [hc] at h
        simp only [] at h
        have e : 0x2f :: ((p.headD 0 :: u).reverse ++ qOfStack st)
            = qOfStack ((p.headD 0 :: u) :: st) := rfl
        rw [e] at h
        refine ih _ _ x ?_ h
        intro s hs
        simp only [List.mem_cons] at hs
        rcases hs with rfl | hs
        · exact hord
        · exact hst s hs

/-- Every id returned by `duk__bi_global_resolve_module_id` is the join of a
non-empty list of ordinary terms. -/
theorem resolve_module_id_ok_terms (limit : Nat) (r : List Nat) (m : Option (List Nat))
    (x : List Nat) (h : duk__bi_global_resolve_module_id limit r m = some (.ok x)) :
    ∃ terms, terms ≠ [] ∧ (∀ t ∈ terms, ordinaryTerm t) ∧ x = joinTerms terms := by
  unfold duk__bi_global_resolve_module_id at h
  simp only [] at h
  split at h
  · cases h
  · exact resolve_loop_ok_terms _ _ [] x (by simp) h

theorem chain_of_no_slash (t : List Nat) (h : ∀ b ∈ t, b ≠ 0x2f) :
    List.Chain' afterSlashOk t := by
  induction t with
  | nil => exact List.chain'_nil
  | cons a t ih =>
      rw [List.chain'_cons']
      exact ⟨fun y _ ha => absurd ha (h a (by simp)),
        ih (fun b hb => h b (by simp [hb]))⟩

/-- The join of ordinary terms is canonical. -/
theorem joinTerms_canonical (terms : List (List Nat)) (hne : terms ≠ [])
    (hord : ∀ t ∈ terms, ordinaryTerm t) :
    joinTerms terms ≠ [] ∧ (joinTerms terms).head? ≠ some 0x2f ∧
    (joinTerms terms).head? ≠ some 0x2e ∧ (joinTerms terms).getLast? ≠ some 0x2f ∧
    List.Chain' afterSlashOk (joinTerms terms) := by
  induction terms with
  | nil => exact absurd rfl hne
  | cons t ts ih =>
      obtain ⟨htne, htb, hth⟩ := hord t (by simp)
      obtain ⟨c, u, rfl⟩ : ∃ c u, t = c :: u := by
        cases t with
        | nil => exact absurd rfl htne
        | cons c u => exact ⟨c, u, rfl⟩
      have hc : c ≠ 0x2f := (htb c (by simp)).2
      have hc' : c ≠ 0x2e := by simpa using hth
      cases ts with
      | nil =>
          refine ⟨by simp [joinTerms], by simpa [joinTerms] using hc,
            by simpa [joinTerms] using hc', ?_, ?_⟩
          · simp only [joinTerms]
            intro hl
            have := List.mem_of_getLast?_eq_some hl
            exact (htb _ this).2 rfl
          · exact chain_of_no_slash _ (fun b hb => (htb b hb).2)
      | cons t' ts' =>
          obtain ⟨y1, y2, y3, y4, y5⟩ := ih (by simp) (fun s hs => hord s (by simp [hs]))
          rw [joinTerms_cons_cons]
          refine ⟨by simp, by simpa using hc, by simpa using hc', ?_, ?_⟩
          · rw [List.getLast?_append_of_ne_nil _ (by simp)]
            cases hy : joinTerms (t' :: ts') with
            | nil => exact absurd hy y1
            | cons a l =>
                rw [hy] at y4
                rw [List.getLast?_cons_cons]
                exact y4
          · rw [List.chain'_append]
            refine ⟨chain_of_no_slash _ (fun b hb => (htb b hb).2), ?_, ?_⟩
            · rw [List.chain'_cons']
              refine ⟨?_, y5⟩
              intro y hy _
              constructor
              · rintro rfl; exact y2 hy
              · rintro rfl; exact y3 hy
            · intro a ha b _ hab
              have := List.mem_of_mem_getLast? ha
              exact absurd hab (htb a this).2

/-! ### C9: returned ids are canonical -/

/-- C9: every id returned by `duk__bi_global_resolve_module_id` is canonical:
it is non-empty, does not begin or end with `/`, contains no two adjacent `/`,
and none of its `/`-separated terms begins with `.` (it does not begin with `.`
and contains no `/.`); indeed it is the `/`-join of ordinary terms. -/
theorem resolved_module_id_canonical (limit : Nat) (r : List Nat) (m : Option (List Nat))
    (x : List Nat) (h : duk__bi_global_resolve_module_id limit r m = some (.ok x)) :
    x ≠ [] ∧ x.head? ≠ some 0x2f ∧ x.getLast? ≠ some 0x2f ∧ ¬ [0x2f, 0x2f] <:+: x ∧
    x.head? ≠ some 0x2e ∧ ¬ [0x2f, 0x2e] <:+: x ∧
    ∃ terms, terms ≠ [] ∧ (∀ t ∈ terms, ordinaryTerm t) ∧ x = joinTerms terms := by
  obtain ⟨terms, hne, hord, rfl⟩ := resolve_module_id_ok_terms limit r m x h
  obtain ⟨h1, h2, h3, h4, h5⟩ := joinTerms_canonical terms hne hord
  refine ⟨h1, h2, h4, ?_, h3, ?_, terms, hne, hord, rfl⟩
  · intro hin
    have hc := List.Chain'.infix h5 hin
    rw [List.chain'_pair] at hc
    exact (hc rfl).1 rfl
  · intro hin
    have hc := List.Chain'.infix h5 hin
    rw [List.chain'_pair] at hc
    exact (hc rfl).2 rfl

/-- Witness for C9: requiring `../c/./d` from `a/b` returns `c/d`. -/
theorem resolved_module_id_canonical_witness :
    duk__bi_global_resolve_module_id 256 [0x2e, 0x2e, 0x2f, 0x63, 0x2f, 0x2e, 0x2f, 0x64]
        (some [0x61, 0x2f, 0x62]) = some (.ok [0x63, 0x2f, 0x64]) ∧
    ¬ [0x2f, 0x2f] <:+: [0x63, 0x2f, 0x64] ∧ ¬ [0x2f, 0x2e] <:+: [0x63, 0x2f, 0x64] :=
  ⟨by decide,
   (resolved_module_id_canonical 256 [0x2e, 0x2e, 0x2f, 0x63, 0x2f, 0x2e, 0x2f, 0x64]
      (some [0x61, 0x2f, 0x62]) [0x63, 0x2f, 0x64] (by decide)).2.2.2.1,
   (resolved_module_id_canonical 256 [0x2e, 0x2e, 0x2f, 0x63, 0x2f, 0x2e, 0x2f, 0x64]
      (some [0x61, 0x2f, 0x62]) [0x63, 0x2f, 0x64] (by decide)).2.2.2.2.2.1⟩

/-! ### C5: resolution as a term stack -/

theorem validTerm_head (t : List Nat) (h : validTerm t) :
    ∃ c u, t = c :: u ∧ c ≠ 0x2f ∧ c ≠ 0 := by
  rcases h with rfl | rfl | ⟨hne, hb, _⟩
  · exact ⟨_, _, rfl, by decide, by decide⟩
  · exact ⟨_, _, rfl, by decide, by decide⟩
  · cases t with
    | nil => exact absurd rfl hne
    | cons c u => exact ⟨c, u, rfl, (hb c (by simp)).2, (hb c (by simp)).1⟩

theorem validTerm_no_nul (t : List Nat) (h : validTerm t) : ∀ b ∈ t, b ≠ 0 := by
  rcases h with rfl | rfl | ⟨_, hb, _⟩
  · decide
  · decide
  · exact fun b hb' => (hb b hb').1

theorem joinTerms_no_nul (terms : List (List Nat)) (h : ∀ t ∈ terms, validTerm t) :
    ∀ b ∈ joinTerms terms, b ≠ 0 := by
  induction terms with
  | nil => simp [joinTerms]
  | cons t ts ih =>
      cases ts with
      | nil => exact validTerm_no_nul t (h t (by simp))
      | cons t' ts' =>
          intro b hb
          rw [joinTerms_cons_cons, List.mem_append, List.mem_cons] at hb
          rcases hb with hb | rfl | hb
          · exact validTerm_no_nul t (h t (by simp)) b hb
          · decide
          · exact ih (fun s hs => h s (by simp [hs])) b hb

theorem eat_dup_slashes_joinTerms (t : List Nat) (ts : List (List Nat))
    (h : validTerm t) : eat_dup_slashes (joinTerms (t :: ts)) = joinTerms (t :: ts) := by
  obtain ⟨c, u, rfl, hc, _⟩ := validTerm_head t h
  cases ts with
  | nil => simp [joinTerms, eat_dup_slashes, hc]
  | cons t' ts' => simp [joinTerms, eat_dup_slashes, hc]

theorem ordinaryTerm_ne_dots (t : List Nat) (h : ordinaryTerm t) :
    t ≠ [0x2e] ∧ t ≠ [0x2e, 0x2e] := by
  obtain ⟨_, _, hh⟩ := h
  constructor <;> rintro rfl <;> simp at hh

/-- The resolution loop on the join of valid terms whose last term is ordinary
computes the term stack of the specification. -/
theorem resolve_loop_terms (terms : List (List Nat)) :
    ∀ (st : List (List Nat)) (fuel : Nat), (∀ t ∈ terms, validTerm t) →
    (∃ l, terms.getLast? = some l ∧ ordinaryTerm l) → (∀ s ∈ st, ordinaryTerm s) →
    (joinTerms terms).length < fuel →
    duk__resolve_loop fuel (joinTerms terms) (qOfStack st)
      = match resolveTerms terms st with
        | none => some (.error .typeError)
        | some st' => some (.ok (joinTerms st'.reverse)) := by
  induction terms with
  | nil => intro st fuel _ hl; obtain ⟨l, hl, _⟩ := hl; simp at hl
  | cons t ts ih =>
      intro st fuel hv hlast hst hfuel
      obtain ⟨f, rfl⟩ : ∃ f, fuel = f + 1 := ⟨fuel - 1, by omega⟩
      cases ts with
      | nil =>
          obtain ⟨l, hl, hord⟩ := hlast
          simp only [List.getLast?_singleton, Option.some.injEq] at hl
          subst hl
          obtain ⟨hd1, hd2⟩ := ordinaryTerm_ne_dots t hord
          obtain ⟨htne, htb, hth⟩ := hord
          cases t with
          | nil => exact absurd rfl htne
          | cons c u =>
              have hc := htb c (by simp)
              simp only [joinTerms, resolveTerms, if_neg hd1, if_neg hd2]
              rw [resolve_loop_term f c u _ hc.1 (by simpa using hth) hc.2,
                copy_term_end u c _ (fun b hb => htb b (by simp [hb]))]
              show some (Except.ok (((c :: u).reverse ++ qOfStack st).reverse)) = _
              rw [reverse_qOfStack_append, List.reverse_cons]
      | cons t' ts' =>
          have hv' : ∀ s ∈ t' :: ts', validTerm s := fun s hs => hv s (by simp [hs])
          have hlast' : ∃ l, (t' :: ts').getLast? = some l ∧ ordinaryTerm l := by
            simpa [List.getLast?_cons_cons] using hlast
          have heat := eat_dup_slashes_joinTerms t' ts' (hv t' (by simp))
          rw [joinTerms_cons_cons] at hfuel ⊢
          simp only [List.length_append, List.length_cons] at hfuel
          rcases hv t (by simp) with rfl | rfl | hord
          · rw [List.cons_append, List.nil_append, resolve_loop_dot_slash, heat]
            simp only [resolveTerms, if_true]
            exact ih st f hv' hlast' hst (by omega)
          · rw [List.cons_append, List.cons_append, List.nil_append, resolve_loop_dotdot_slash,
              heat]
            cases st with
            | nil => simp [qOfStack, resolveTerms]
            | cons s st' =>
                rw [if_neg (by simp [qOfStack]),
                  backtrack_qOfStack s st' (fun b hb => ((hst s (by simp)).2.1 b hb).2)]
                have e : resolveTerms ([0x2e, 0x2e] :: t' :: ts') (s :: st')
                    = resolveTerms (t' :: ts') st' := by
                  simp [resolveTerms]
                rw [e]
                exact ih st' f hv' hlast' (fun x hx => hst x (by simp [hx])) (by omega)
          · obtain ⟨hd1, hd2⟩ := ordinaryTerm_ne_dots t hord
            have hord' := hord
            obtain ⟨htne, htb, hth⟩ := hord
            cases t with
            | nil => exact absurd rfl htne
            | cons c u =>
                have hc := htb c (by simp)
                rw [List.cons_append, resolve_loop_term f c _ _ hc.1 (by simpa using hth) hc.2,
                  copy_term_slash u c _ _ (fun b hb => htb b (by simp [hb]))]
                simp only []
                rw [heat]
                have e : resolveTerms ((c :: u) :: t' :: ts') st
                    = resolveTerms (t' :: ts') ((c :: u) :: st) := by
                  simp only [resolveTerms, if_neg hd1, if_neg hd2]
                rw [e]
                have e2 : 0x2f :: ((c :: u).reverse ++ qOfStack st)
                    = qOfStack ((c :: u) :: st) := rfl
                rw [e2]
                refine ih _ f hv' hlast' ?_ (by simp only [List.length_cons] at hfuel; omega)
                intro x hx
                simp only [List.mem_cons] at hx
                rcases hx with rfl | hx
                · exact hord'
                · exact hst x hx

/-- C5: for every resolution input that fits the id length limit and is the
`/`-join of non-empty terms, none beginning with `.` except the terms `.` and
`..`, the last term being an ordinary name, `duk__bi_global_resolve_module_id`
returns the `/`-join of the term stack obtained by scanning the terms left to
right (dropping `.`, popping on `..`, pushing any other term), and throws
TypeError exactly when some `..` finds the stack empty. -/
theorem resolve_module_id_term_stack (limit : Nat) (terms : List (List Nat))
    (hv : ∀ t ∈ terms, validTerm t)
    (hlast : ∃ l, terms.getLast? = some l ∧ ordinaryTerm l)
    (hfit : (joinTerms terms).length + 1 < limit) :
    duk__bi_global_resolve_module_id limit (joinTerms terms) none
      = match resolveTerms terms [] with
        | none => some (.error .typeError)
        | some st => some (.ok (joinTerms st.reverse)) := by
  rw [resolve_module_id_none limit _ (joinTerms_no_nul terms hv), if_neg (by omega)]
  exact resolve_loop_terms terms [] _ hv hlast (by simp) (Nat.lt_succ_self _)

/-- Witness for C5: the resolution input `a/b/../../c/./d` (requiring
`../c/./d` from the module `a/b`) resolves to `c/d`. -/
theorem resolve_module_id_term_stack_witness :
    joinTerms [[0x61], [0x62], [0x2e, 0x2e], [0x2e, 0x2e], [0x63], [0x2e], [0x64]]
      = [0x61, 0x2f, 0x62, 0x2f, 0x2e, 0x2e, 0x2f, 0x2e, 0x2e, 0x2f, 0x63, 0x2f, 0x2e, 0x2f, 0x64] ∧
    (∀ t ∈ [[0x61], [0x62], [0x2e, 0x2e], [0x2e, 0x2e], [0x63], [0x2e], [0x64]], validTerm t) ∧
    ordinaryTerm [0x64] ∧
    duk__bi_global_resolve_module_id 256
        (joinTerms [[0x61], [0x62], [0x2e, 0x2e], [0x2e, 0x2e], [0x63], [0x2e], [0x64]]) none
      = some (.ok [0x63, 0x2f, 0x64]) :=
  ⟨by decide, by decide, by decide,
   resolve_module_id_term_stack 256
     [[0x61], [0x62], [0x2e, 0x2e], [0x2e, 0x2e], [0x63], [0x2e], [0x64]]
     (by decide) ⟨[0x64], rfl, by decide⟩ (by decide)⟩

/-! ### CESU-8 against XUTF-8, lengths (C16, C17, C18) -/

theorem shr_12 (x : Nat) : x >>> 12 = x / 4096 := Nat.shiftRight_eq_div_pow x 12
theorem shr_10 (x : Nat) : x >>> 10 = x / 1024 := Nat.shiftRight_eq_div_pow x 10
theorem shr_16 (x : Nat) : x >>> 16 = x / 65536 := Nat.shiftRight_eq_div_pow x 16
theorem and_0x3ff (x : Nat) : x &&& 0x3ff = x % 1024 := Nat.and_pow_two_sub_one_eq_mod x 10

/-- `duk_unicode_encode_cesu8` below `0x10000`, in arithmetic form. -/
theorem encode_cesu8_bmp (cp : Nat) (h : cp < 0x10000) :
    duk_unicode_encode_cesu8 cp =
      if cp < 0x80 then (1, [cp])
      else if cp < 0x800 then (2, [0xc0 + cp / 64, 0x80 + cp % 64])
      else (3, [0xe0 + cp / 4096, 0x80 + cp / 64 % 64, 0x80 + cp % 64]) := by
  unfold duk_unicode_encode_cesu8
  simp only [shr_6, shr_12, and_0x3f, and_0x1f, and_0x0f]
  by_cases h1 : cp < 0x80
  · rw [if_pos h1, if_pos h1, Nat.mod_eq_of_lt (by omega)]
  rw [if_neg h1, if_neg h1]
  by_cases h2 : cp < 0x800
  · rw [if_pos h2, if_pos h2]
    have e0 : (192 + cp / 64 % 32) % 256 = 192 + cp / 64 := by omega
    have e1 : (128 + cp % 64) % 256 = 128 + cp % 64 := by omega
    rw [e0, e1]
  rw [if_neg h2, if_neg h2, if_pos h]
  have e0 : (224 + cp / 4096 % 16) % 256 = 224 + cp / 4096 := by omega
  have e1 : (128 + cp / 64 % 64) % 256 = 128 + cp / 64 % 64 := by omega
  have e2 : (128 + cp % 64) % 256 = 128 + cp % 64 := by omega
  rw [e0, e1, e2]

/-- C16: for every code point `cp < 0x10000` (surrogates included),
`duk_unicode_encode_cesu8 cp` and `duk_unicode_encode_xutf8 cp` return the
same length and write the same bytes. -/
theorem encode_cesu8_eq_xutf8_bmp (cp : Nat) (h : cp < 0x10000) :
    duk_unicode_encode_cesu8 cp = duk_unicode_encode_xutf8 cp := by
  rw [encode_cesu8_bmp cp h]
  by_cases h1 : cp < 0x80
  · rw [if_pos h1, encode_xutf8_1 cp h1]
  rw [if_neg h1]
  by_cases h2 : cp < 0x800
  · rw [if_pos h2, encode_xutf8_2 cp (by omega) h2]
  rw [if_neg h2, encode_xutf8_3 cp (by omega) h]

/-- Witness for C16 at the high surrogate U+D800: both encoders write `ED A0 80`. -/
theorem encode_cesu8_eq_xutf8_bmp_witness :
    (0xD800 : Nat) < 0x10000 ∧ duk_unicode_encode_cesu8 0xD800 = (3, [0xED, 0xA0, 0x80]) ∧
    duk_unicode_encode_cesu8 0xD800 = duk_unicode_encode_xutf8 0xD800 :=
  ⟨by decide, by decide, encode_cesu8_eq_xutf8_bmp 0xD800 (by decide)⟩

/-- C17: for every code point `cp` in `[0x10000, 0x10FFFF]`,
`duk_unicode_encode_cesu8` returns 6 and writes the 3-byte encoding of the
high surrogate `0xD800 + ((cp - 0x10000) >> 10)` followed by the 3-byte
encoding of the low surrogate `0xDC00 + ((cp - 0x10000) & 0x3FF)`. -/
theorem encode_cesu8_non_bmp (cp : Nat) (hlo : 0x10000 ≤ cp) (hhi : cp ≤ 0x10FFFF) :
    duk_unicode_encode_cesu8 cp
      = (6, (duk_unicode_encode_cesu8 (0xD800 + ((cp - 0x10000) >>> 10))).2 ++
            (duk_unicode_encode_cesu8 (0xDC00 + ((cp - 0x10000) &&& 0x3FF))).2) ∧
    (duk_unicode_encode_cesu8 (0xD800 + ((cp - 0x10000) >>> 10))).1 = 3 ∧
    (duk_unicode_encode_cesu8 (0xDC00 + ((cp - 0x10000) &&& 0x3FF))).1 = 3 := by
  simp only [shr_10, and_0x3ff]
  rw [encode_cesu8_bmp (0xD800 + (cp - 0x10000) / 1024) (by omega),
    encode_cesu8_bmp (0xDC00 + (cp - 0x10000) % 1024) (by omega)]
  rw [if_neg (by omega), if_neg (by omega), if_neg (by omega), if_neg (by omega)]
  refine ⟨?_, rfl, rfl⟩
  unfold duk_unicode_encode_cesu8
  rw [if_neg (by omega), if_neg (by omega), if_neg (by omega)]
  simp only [shr_6, shr_10, shr_16, and_0x3f, and_0x0f, List.cons_append, List.nil_append,
    Prod.mk.injEq, List.cons.injEq, true_and, and_true]
  omega

/-- Witness for C17 at U+1F600: `ED A0 BD ED B8 80`, the encodings of
`D83D` and `DE00`. -/
theorem encode_cesu8_non_bmp_witness :
    ((0x10000 : Nat) ≤ 0x1F600 ∧ (0x1F600 : Nat) ≤ 0x10FFFF) ∧
    duk_unicode_encode_cesu8 0x1F600 = (6, [0xED, 0xA0, 0xBD, 0xED, 0xB8, 0x80]) ∧
    duk_unicode_encode_cesu8 0x1F600
      = (6, (duk_unicode_encode_cesu8 (0xD800 + ((0x1F600 - 0x10000) >>> 10))).2 ++
            (duk_unicode_encode_cesu8 (0xDC00 + ((0x1F600 - 0x10000) &&& 0x3FF))).2) :=
  ⟨by decide, by decide, (encode_cesu8_non_bmp 0x1F600 (by decide) (by decide)).1⟩

/-- C18 (as stated) fails: the code point `0x80000000` is encoded in 7 bytes. -/
theorem encode_xutf8_seven_bytes :
    duk_unicode_get_xutf8_length 0x80000000 = 7 ∧
    duk_unicode_encode_xutf8 0x80000000 = (7, [0xFE, 0x82, 0x80, 0x80, 0x80, 0x80, 0x80]) := by
  decide

/-- C18 (amended): for every 32-bit code point `cp`, `duk_unicode_encode_xutf8`
returns `duk_unicode_get_xutf8_length cp`, writes that many bytes, and the
length is between 1 and 7; it is at most 6 exactly for `cp < 0x80000000`. -/
theorem encode_xutf8_length_bounds (cp : Nat) (hcp : cp < 2 ^ 32) :
    (duk_unicode_encode_xutf8 cp).1 = duk_unicode_get_xutf8_length cp ∧
    (duk_unicode_encode_xutf8 cp).2.length = duk_unicode_get_xutf8_length cp ∧
    1 ≤ duk_unicode_get_xutf8_length cp ∧ duk_unicode_get_xutf8_length cp ≤ 7 ∧
    (duk_unicode_get_xutf8_length cp ≤ 6 ↔ cp < 0x80000000) := by
  refine ⟨rfl, encode_xutf8_length cp hcp, ?_, ?_, ?_⟩
  all_goals
    unfold duk_unicode_get_xutf8_length
    simp only []
    split_ifs <;> omega

/-- Witness for C18 (amended) at `0x7FFFFFFF`, the largest code point with a
6-byte encoding. -/
theorem encode_xutf8_length_bounds_witness :
    (0x7FFFFFFF : Nat) < 2 ^ 32 ∧ duk_unicode_get_xutf8_length 0x7FFFFFFF = 6 ∧
    (duk_unicode_encode_xutf8 0x7FFFFFFF).2.length = duk_unicode_get_xutf8_length 0x7FFFFFFF :=
  ⟨by decide, by decide, (encode_xutf8_length_bounds 0x7FFFFFFF (by decide)).2.1⟩

/-! ### Character length of a string (C19) -/

/-- The length loop counts the bytes outside `0x80..0xBF` among the next `n`. -/
theorem unvalidated_loop_append (l : List Nat) :
    ∀ (pre post : List Nat) (clen : Nat),
    unvalidated_utf8_length_loop (pre ++ l ++ post) (l.length + post.length) pre.length clen
      = unvalidated_utf8_length_loop (pre ++ l ++ post) post.length (pre.length + l.length)
          (clen + (l.filter (fun x => x < 0x80 ∨ x ≥ 0xc0)).length) := by
  induction l with
  | nil => intro pre post clen; simp
  | cons a l ih =>
      intro pre post clen
      have e : (a :: l).length + post.length = (l.length + post.length) + 1 := by
        simp only [List.length_cons]; omega
      rw [e, unvalidated_utf8_length_loop]
      have hrd : rdByte (pre ++ a :: l ++ post) pre.length = a := by
        rw [List.append_assoc, rdByte_append_right0]; rfl
      simp only [hrd]
      have h := ih (pre ++ [a]) post
      simp only [List.append_assoc, List.singleton_append, List.length_append,
        List.length_singleton, List.cons_append, List.nil_append] at h ⊢
      have e2 : pre.length + (a :: l).length = pre.length + 1 + l.length := by
        simp only [List.length_cons]; omega
      by_cases ha : a < 0x80 ∨ a ≥ 0xc0
      · rw [if_pos ha, h, List.filter_cons_of_pos (by simpa using ha), e2]
        simp only [List.length_cons]
        congr 1
        omega
      · rw [if_neg ha, h, List.filter_cons_of_neg (by simpa using ha), e2]

theorem unvalidated_length_eq_count (s : List Nat) :
    duk_unicode_unvalidated_utf8_length s s.length
      = (s.filter (fun x => x < 0x80 ∨ x ≥ 0xc0)).length := by
  have h := unvalidated_loop_append s [] [] 0
  simp only [List.nil_append, List.append_nil, List.length_nil, Nat.add_zero, Nat.zero_add] at h
  unfold duk_unicode_unvalidated_utf8_length
  rw [h]
  rfl

/-- Every encoding has exactly one byte outside `0x80..0xBF`, its first. -/
theorem encode_xutf8_one_start (cp : Nat) (hcp : cp < 2 ^ 32) :
    ((duk_unicode_encode_xutf8 cp).2.filter (fun x => x < 0x80 ∨ x ≥ 0xc0)).length = 1 := by
  have hc : ∀ (x : Nat) (l : List Nat), 0x80 ≤ x → x < 0xc0 →
      (x :: l).filter (fun x => x < 0x80 ∨ x ≥ 0xc0)
        = l.filter (fun x => x < 0x80 ∨ x ≥ 0xc0) := by
    intro x l h1 h2
    apply List.filter_cons_of_neg
    simp only [decide_eq_true_eq]
    omega
  have hs : ∀ (x : Nat) (l : List Nat), (x < 0x80 ∨ x ≥ 0xc0) →
      (x :: l).filter (fun x => x < 0x80 ∨ x ≥ 0xc0)
        = x :: l.filter (fun x => x < 0x80 ∨ x ≥ 0xc0) := by
    intro x l h
    apply List.filter_cons_of_pos
    simpa using h
  by_cases c1 : cp < 0x80
  · rw [encode_xutf8_1 cp c1, hs _ _ (by omega)]; rfl
  by_cases c2 : cp < 0x800
  · rw [encode_xutf8_2 cp (by omega) c2, hs _ _ (by omega), hc _ _ (by omega) (by omega)]; rfl
  by_cases c3 : cp < 0x10000
  · rw [encode_xutf8_3 cp (by omega) c3, hs _ _ (by omega), hc _ _ (by omega) (by omega),
      hc _ _ (by omega) (by omega)]; rfl
  by_cases c4 : cp < 0x200000
  · rw [encode_xutf8_4 cp (by omega) c4, hs _ _ (by omega)]
    repeat rw [hc _ _ (by omega) (by omega)]
    rfl
  by_cases c5 : cp < 0x4000000
  · rw [encode_xutf8_5 cp (by omega) c5, hs _ _ (by omega)]
    repeat rw [hc _ _ (by omega) (by omega)]
    rfl
  by_cases c6 : cp < 0x80000000
  · rw [encode_xutf8_6 cp (by omega) c6, hs _ _ (by omega)]
    repeat rw [hc _ _ (by omega) (by omega)]
    rfl
  · rw [encode_xutf8_7 cp (by omega) hcp, hs _ _ (by omega)]
    repeat rw [hc _ _ (by omega) (by omega)]
    rfl

theorem encodeUnits_start_count (cps : List Nat) (h : ∀ cp ∈ cps, cp < 2 ^ 32) :
    ((encodeUnits cps).filter (fun x => x < 0x80 ∨ x ≥ 0xc0)).length = cps.length := by
  induction cps with
  | nil => rfl
  | cons c cs ih =>
      rw [encodeUnits, List.filter_append, List.length_append,
        encode_xutf8_one_start c (h c (List.mem_cons_self _ _)),
        ih (fun x hx => h x (List.mem_cons_of_mem _ hx)), List.length_cons]
      omega

/-- C19: for every finite sequence of 32-bit code points, the character length
computed by `duk_unicode_unvalidated_utf8_length` over the concatenation of
their `duk_unicode_encode_xutf8` encodings is the number of code points; it is
the number of bytes outside `0x80..0xBF`. -/
theorem unvalidated_utf8_length_of_encoding (cps : List Nat)
    (h : ∀ cp ∈ cps, cp < 2 ^ 32) :
    duk_unicode_unvalidated_utf8_length (encodeUnits cps) (encodeUnits cps).length
        = cps.length ∧
      ∀ s : List Nat, duk_unicode_unvalidated_utf8_length s s.length
        = (s.filter (fun x => x < 0x80 ∨ x ≥ 0xc0)).length := by
  refine ⟨?_, unvalidated_length_eq_count⟩
  rw [unvalidated_length_eq_count, encodeUnits_start_count cps h]

/-- Witness for C19: the code points `0x41, 0xE9, 0x20AC, 0x1F600, 0xFFFFFFFF`. -/
theorem unvalidated_utf8_length_of_encoding_witness :
    (∀ cp ∈ [0x41, 0xE9, 0x20AC, 0x1F600, 0xFFFFFFFF], cp < 2 ^ 32) ∧
    duk_unicode_unvalidated_utf8_length
        (encodeUnits [0x41, 0xE9, 0x20AC, 0x1F600, 0xFFFFFFFF])
        (encodeUnits [0x41, 0xE9, 0x20AC, 0x1F600, 0xFFFFFFFF]).length = 5 :=
  ⟨by decide, (unvalidated_utf8_length_of_encoding [0x41, 0xE9, 0x20AC, 0x1F600, 0xFFFFFFFF]
    (by decide)).1⟩

/-! ### `encodeURI` on ASCII (C11) -/

/-- C11: for every ASCII code point `c < 0x80`, `encodeURI` emits `c` unchanged
if and only if `c` is in `uriReserved`, in `uriUnescaped`, or is `#`, and
otherwise emits `%` and the two uppercase hexadecimal digits of `c`; its
bitmask table is the bytewise OR of the `encodeURIComponent` unescaped table
and the `decodeURI` reserved table. -/
theorem encode_uri_ascii (c : Nat) (hc : c < 0x80) :
    (∀ tfm_ctx : duk__transform_context,
      duk__transform_callback_encode_uri tfm_ctx duk__encode_uriunescaped_table (c : Int)
        = .ok { tfm_ctx with h_buf := tfm_ctx.h_buf ++
            (if uriReserved c || uriUnescaped c || c == 0x23 then [c]
             else [0x25, hexDigitUpper (c / 16), hexDigitUpper (c % 16)]) }) ∧
    duk_bi_global_object_encode_uri [c]
      = some (.ok (if uriReserved c || uriUnescaped c || c == 0x23 then [c]
                   else [0x25, hexDigitUpper (c / 16), hexDigitUpper (c % 16)])) ∧
    (duk_bi_global_object_encode_uri [c] = some (.ok [c])
      ↔ (uriReserved c || uriUnescaped c || c == 0x23) = true) ∧
    duk__encode_uriunescaped_table
      = List.zipWith (fun a b => a ||| b) duk__encode_uricomponent_unescaped_table
          duk__decode_uri_reserved_table := by
  refine ⟨?_, ?_, ?_, by decide⟩
  · intro tfm_ctx
    interval_cases c <;> rfl
  · interval_cases c <;> rfl
  · interval_cases c <;> decide

/-- Witness for C11 at `/`, which is reserved and kept. -/
theorem encode_uri_ascii_witness :
    (0x2f : Nat) < 0x80 ∧ duk_bi_global_object_encode_uri [0x2f] = some (.ok [0x2f]) :=
  ⟨by decide, (encode_uri_ascii 0x2f (by decide)).2.1⟩

/-! ### `decodeURI` and `decodeURIComponent` on a single ASCII escape (C12) -/

theorem transform_step_decode_shift (table pre : List Nat) (c : duk__transform_context) :
    transform_step duk__transform_callback_decode_uri table (shiftCtx pre c)
      = (transform_step duk__transform_callback_decode_uri table c).map (shiftCtx pre) := by
  unfold transform_step
  have hd := decode_xutf8_checked_shift pre c.h_str c.p
  simp only [shiftCtx, duk__transform_context.p_start, duk__transform_context.p_end,
    List.length_append]
  rw [hd]
  cases hr : duk_unicode_decode_xutf8_checked c.h_str c.p 0 c.h_str.length with
  | error e => rfl
  | ok r =>
      obtain ⟨p', cp⟩ := r
      have hp' := (decode_xutf8_checked_ok_fst _ _ _ _ _ hr).1
      simp only at hp'
      have := callback_decode_uri_shift pre { c with p := p' } table (toCodepoint cp)
        (by simp only; omega)
      simp only [shiftCtx] at this
      simp only [Except.map]
      rw [this]
      cases duk__transform_callback_decode_uri
        { h_str := c.h_str, h_buf := c.h_buf, p := p' } table (toCodepoint cp) <;> rfl

/-- Decoder round on an escape `%XY` of an ASCII value `v`: the three bytes are
copied when `v` is in the reserved table, else the byte `v` is written. -/
theorem dec_step_escape (table out rest : List Nat) (hd ld v : Nat) (hv : v < 0x80)
    (hh : duk_hex_dectab hd = ((v / 16 : Nat) : Int))
    (hl : duk_hex_dectab ld = ((v % 16 : Nat) : Int)) :
    transform_step duk__transform_callback_decode_uri table
        { h_str := 0x25 :: hd :: ld :: rest, h_buf := out, p := 0 }
      = .ok { h_str := 0x25 :: hd :: ld :: rest,
              h_buf := out ++ (if DUK__CHECK_BITMASK table v then [0x25, hd, ld] else [v]),
              p := 3 } := by
  unfold transform_step
  simp only [duk__transform_context.p_start, duk__transform_context.p_end]
  rw [decode_checked_pct]
  simp only [toCodepoint_pct]
  have e0 := hex_escape_at [] rest 0x25 hd ld v hh hl
  simp only [List.nil_append, List.length_nil, Nat.zero_add] at e0
  unfold duk__transform_callback_decode_uri
  simp only [duk__transform_context.p_end, if_true, e0, Int.toNat_ofNat, List.length_cons]
  rw [if_neg (by omega), if_neg (by omega), if_pos (by omega)]
  by_cases hres : DUK__CHECK_BITMASK table v = true
  · simp only [hres, if_true, duk_hbuffer_append_bytes]
    rfl
  · simp only [hres, Bool.false_eq_true, if_false, duk_hbuffer_append_byte]
    rw [Nat.mod_eq_of_lt (by omega)]

theorem decode_uri_reserved_table_spec (v : Nat) (hv : v < 0x80) :
    DUK__CHECK_BITMASK duk__decode_uri_reserved_table v = (uriReserved v || v == 0x23) := by
  interval_cases v <;> rfl

theorem decode_uri_component_reserved_table_spec (v : Nat) (hv : v < 0x80) :
    DUK__CHECK_BITMASK duk__decode_uri_component_reserved_table v = false := by
  interval_cases v <;> rfl

/-- C12: for every escape `%XY` whose two hex digits `X`, `Y` (either case)
give a value `v < 0x80`, in any input position and with any output so far:
`decodeURI` appends the three input bytes unchanged if and only if `v` is in
`uriReserved` or is `#`, and otherwise appends the single byte `v`;
`decodeURIComponent` always appends the single byte `v`; both continue after the
escape. On the string `%XY` alone the built-ins return exactly these bytes. -/
theorem decode_uri_ascii_escape (pre rest out : List Nat) (X Y v : Nat) (hv : v < 0x80)
    (hX : duk_hex_dectab X = ((v / 16 : Nat) : Int))
    (hY : duk_hex_dectab Y = ((v % 16 : Nat) : Int)) :
    transform_step duk__transform_callback_decode_uri duk__decode_uri_reserved_table
        { h_str := pre ++ 0x25 :: X :: Y :: rest, h_buf := out, p := pre.length }
      = .ok { h_str := pre ++ 0x25 :: X :: Y :: rest,
              h_buf := out ++ (if uriReserved v || v == 0x23 then [0x25, X, Y] else [v]),
              p := pre.length + 3 } ∧
    transform_step duk__transform_callback_decode_uri duk__decode_uri_component_reserved_table
        { h_str := pre ++ 0x25 :: X :: Y :: rest, h_buf := out, p := pre.length }
      = .ok { h_str := pre ++ 0x25 :: X :: Y :: rest, h_buf := out ++ [v],
              p := pre.length + 3 } ∧
    duk_bi_global_object_decode_uri [0x25, X, Y]
      = some (.ok (if uriReserved v || v == 0x23 then [0x25, X, Y] else [v])) ∧
    duk_bi_global_object_decode_uri_component [0x25, X, Y] = some (.ok [v]) ∧
    ((if uriReserved v || v == 0x23 then [0x25, X, Y] else [v]) = [0x25, X, Y]
      ↔ (uriReserved v || v == 0x23) = true) := by
  have h1 := dec_step_escape duk__decode_uri_reserved_table out rest X Y v hv hX hY
  have h2 := dec_step_escape duk__decode_uri_component_reserved_table out rest X Y v hv hX hY
  rw [decode_uri_reserved_table_spec v hv] at h1
  rw [decode_uri_component_reserved_table_spec v hv] at h2
  simp only [Bool.false_eq_true, if_false] at h2
  have g1 := dec_step_escape duk__decode_uri_reserved_table [] [] X Y v hv hX hY
  have g2 := dec_step_escape duk__decode_uri_component_reserved_table [] [] X Y v hv hX hY
  rw [decode_uri_reserved_table_spec v hv] at g1
  rw [decode_uri_component_reserved_table_spec v hv] at g2
  simp only [Bool.false_eq_true, if_false, List.nil_append] at g1 g2
  have s1 := transform_step_decode_shift duk__decode_uri_reserved_table pre
    { h_str := 0x25 :: X :: Y :: rest, h_buf := out, p := 0 }
  have s2 := transform_step_decode_shift duk__decode_uri_component_reserved_table pre
    { h_str := 0x25 :: X :: Y :: rest, h_buf := out, p := 0 }
  rw [h1] at s1
  rw [h2] at s2
  refine ⟨s1, s2, ?_, ?_, ?_⟩
  · unfold duk_bi_global_object_decode_uri duk__transform_helper
    have e : ([0x25, X, Y] : List Nat).length + 1 = 2 + 1 + 1 := rfl
    rw [e, transform_loop_succ, if_pos (by simp [duk__transform_context.p_end]), g1]
    simp only []
    rw [transform_loop_succ, if_neg (by simp [duk__transform_context.p_end])]
  · unfold duk_bi_global_object_decode_uri_component duk__transform_helper
    have e : ([0x25, X, Y] : List Nat).length + 1 = 2 + 1 + 1 := rfl
    rw [e, transform_loop_succ, if_pos (by simp [duk__transform_context.p_end]), g2]
    simp only []
    rw [transform_loop_succ, if_neg (by simp [duk__transform_context.p_end])]
  · constructor
    · intro h
      by_contra hn
      rw [if_neg hn] at h
      cases h
    · intro h
      rw [if_pos h]

/-- Witness for C12 at `%2f` (lowercase digit): `decodeURI` keeps the three
bytes, `decodeURIComponent` returns `/`. -/
theorem decode_uri_ascii_escape_witness :
    (0x2f : Nat) < 0x80 ∧
    duk_bi_global_object_decode_uri [0x25, 0x32, 0x66] = some (.ok [0x25, 0x32, 0x66]) ∧
    duk_bi_global_object_decode_uri_component [0x25, 0x32, 0x66] = some (.ok [0x2f]) :=
  ⟨by decide,
   (decode_uri_ascii_escape [] [] [] 0x32 0x66 0x2f (by decide) (by decide) (by decide)).2.2.1,
   (decode_uri_ascii_escape [] [] [] 0x32 0x66 0x2f (by decide) (by decide)
      (by decide)).2.2.2.1⟩

/-! ### The separator before a continuation escape (C14) -/

/-- Decoder round on `%C3`, any byte `s`, `A9`: the byte `s` is skipped. -/
theorem dec_step_any_separator (table : List Nat) (s : Nat) :
    transform_step duk__transform_callback_decode_uri table
        { h_str := [0x25, 0x43, 0x33, s, 0x41, 0x39], h_buf := [], p := 0 }
      = .ok { h_str := [0x25, 0x43, 0x33, s, 0x41, 0x39], h_buf := [0xC3, 0xA9], p := 6 } := by
  unfold transform_step
  simp only [duk__transform_context.p_start, duk__transform_context.p_end]
  rw [decode_checked_pct]
  simp only [toCodepoint_pct]
  have e0 := hex_escape_at [] [s, 0x41, 0x39] 0x25 0x43 0x33 0xC3 (by decide) (by decide)
  have e1 := hex_escape_at [0x25, 0x43, 0x33] [] s 0x41 0x39 0xA9 (by decide) (by decide)
  simp only [List.nil_append, List.length_nil, Nat.zero_add, List.cons_append,
    List.length_cons, Nat.reduceAdd] at e0 e1
  rw [callback_decode_uri_multibyte _ table 0xC3 2 32 0x80 0xE9
    (Or.inl ⟨rfl, by omega, by omega, rfl, rfl⟩)
    (by simp only [List.length_cons, List.length_nil]; omega) e0
    (by
      simp only [Nat.reduceSub, Nat.reduceAdd, Nat.reduceMul]
      rw [decode_uri_cont_loop_step _ 0 4 0xA9 _ e1 (by omega)]
      simp only [decode_uri_cont_loop, Nat.reduceAdd]
      congr 2)
    (by omega)]
  rw [if_neg (by omega)]
  rfl

/-- C14 (divergence from ES5.1 15.1.3 Decode step 4.d.vii.4): after the escape
`%C3`, which announces a two-byte sequence, the byte standing where the `%` of
the second group must be is never examined. For every byte `s` in that place,
for instance `x` in `%C3xA9`, both `decodeURI` and `decodeURIComponent` return
the two bytes `C3 A9` (U+00E9) instead of raising URIError. -/
theorem decode_uri_accepts_missing_percent (s : Nat) :
    duk_bi_global_object_decode_uri [0x25, 0x43, 0x33, s, 0x41, 0x39]
      = some (.ok [0xC3, 0xA9]) ∧
    duk_bi_global_object_decode_uri_component [0x25, 0x43, 0x33, s, 0x41, 0x39]
      = some (.ok [0xC3, 0xA9]) ∧
    duk_bi_global_object_decode_uri [0x25, 0x43, 0x33, 0x78, 0x41, 0x39]
      = some (.ok [0xC3, 0xA9]) := by
  have e : ([0x25, 0x43, 0x33, s, 0x41, 0x39] : List Nat).length + 1 = 5 + 1 + 1 := rfl
  refine ⟨?_, ?_, rfl⟩
  · unfold duk_bi_global_object_decode_uri duk__transform_helper
    rw [e, transform_loop_succ, if_pos (by simp [duk__transform_context.p_end]),
      dec_step_any_separator]
    simp only []
    rw [transform_loop_succ, if_neg (by simp [duk__transform_context.p_end])]
  · unfold duk_bi_global_object_decode_uri_component duk__transform_helper
    rw [e, transform_loop_succ, if_pos (by simp [duk__transform_context.p_end]),
      dec_step_any_separator]
    simp only []
    rw [transform_loop_succ, if_neg (by simp [duk__transform_context.p_end])]

/-! ### The radix decision of `parseInt` (C20) -/

theorem lor_land_self_right (x h : Nat) : (x ||| h) &&& h = h := by
  apply Nat.eq_of_testBit_eq
  intro i
  rw [Nat.testBit_land, Nat.testBit_lor]
  cases x.testBit i <;> cases h.testBit i <;> rfl

theorem parse_int_flags_hex (F : duk_s2n_flag_values) (octal_support : Bool) :
    parse_int_s2n_flags F octal_support true &&& F.ALLOW_AUTO_HEX_INT
      = F.ALLOW_AUTO_HEX_INT := by
  unfold parse_int_s2n_flags
  cases octal_support
  · simp only [Bool.false_eq_true, if_false, if_true]
    exact lor_land_self_right _ _
  · simp only [if_true]
    apply Nat.eq_of_testBit_eq
    intro i
    simp only [Nat.testBit_land, Nat.testBit_lor]
    cases F.ALLOW_AUTO_HEX_INT.testBit i <;> simp

theorem parse_int_flags_no_hex (F : duk_s2n_flag_values) (octal_support : Bool)
    (hdisj : (F.TRIM_WHITE ||| F.ALLOW_GARBAGE ||| F.ALLOW_PLUS ||| F.ALLOW_MINUS |||
      F.ALLOW_LEADING_ZERO) &&& F.ALLOW_AUTO_HEX_INT = 0) :
    parse_int_s2n_flags F octal_support false &&& F.ALLOW_AUTO_HEX_INT = 0 := by
  unfold parse_int_s2n_flags
  cases octal_support <;> simpa using hdisj

/-- C20: with `R` the ToInt32 value of the radix argument, `parseInt` returns
the pushed NaN for every string when `R` is non-zero and outside `[2, 36]`;
otherwise it returns what `duk_numconv_parse` gives for the string with radix 10
when `R = 0` and radix `R` when `R` is in `[2, 36]`, and the flag word it passes
has `ALLOW_AUTO_HEX_INT` set exactly when `R` is 0 or 16 (the flag being
non-zero and not among the five unconditional flags). Hence, for a
`duk_numconv_parse` that with this flag and radix 16 skips a `0x` in front of a
non-zero hex digit, `parseInt("0x123", 16)` equals `parseInt("123", 16)`. -/
theorem parse_int_radix_decision {α : Type} (F : duk_s2n_flag_values) (octal_support : Bool)
    (duk_numconv_parse : List Nat → Int → Nat → α) (duk_push_nan : α)
    (s : List Nat) (R : Int)
    (hnz : F.ALLOW_AUTO_HEX_INT ≠ 0)
    (hdisj : (F.TRIM_WHITE ||| F.ALLOW_GARBAGE ||| F.ALLOW_PLUS ||| F.ALLOW_MINUS |||
      F.ALLOW_LEADING_ZERO) &&& F.ALLOW_AUTO_HEX_INT = 0)
    (hstrip : ∀ (fl c : Nat) (d : List Nat), fl &&& F.ALLOW_AUTO_HEX_INT ≠ 0 →
      0 < duk_hex_dectab c →
      duk_numconv_parse (0x30 :: 0x78 :: c :: d) 16 fl = duk_numconv_parse (c :: d) 16 fl) :
    duk_bi_global_object_parse_int F octal_support duk_numconv_parse duk_push_nan s R
      = (if R ≠ 0 ∧ (R < 2 ∨ 36 < R) then duk_push_nan
         else duk_numconv_parse s (if R = 0 then 10 else R)
                (parse_int_s2n_flags F octal_support (decide (R = 0 ∨ R = 16)))) ∧
    (parse_int_s2n_flags F octal_support (decide (R = 0 ∨ R = 16)) &&& F.ALLOW_AUTO_HEX_INT ≠ 0
      ↔ (R = 0 ∨ R = 16)) ∧
    parse_int_s2n_flags F octal_support false
      = (F.TRIM_WHITE ||| F.ALLOW_GARBAGE ||| F.ALLOW_PLUS ||| F.ALLOW_MINUS |||
          F.ALLOW_LEADING_ZERO) ∧
    parse_int_s2n_flags F octal_support true &&& F.ALLOW_AUTO_HEX_INT
      = F.ALLOW_AUTO_HEX_INT ∧
    duk_bi_global_object_parse_int F octal_support duk_numconv_parse duk_push_nan
        [0x30, 0x78, 0x31, 0x32, 0x33] 16
      = duk_bi_global_object_parse_int F octal_support duk_numconv_parse duk_push_nan
        [0x31, 0x32, 0x33] 16 := by
  refine ⟨?_, ?_, ?_, parse_int_flags_hex F octal_support, ?_⟩
  · unfold duk_bi_global_object_parse_int
    by_cases h0 : R = 0
    · subst h0
      simp
    · by_cases hr : R < 2 ∨ 36 < R
      · simp only [ne_eq, h0, not_false_eq_true, if_true, gt_iff_lt, hr, and_self]
      · by_cases h16 : R = 16
        · subst h16
          simp
        · simp [h0, hr, h16]
  · by_cases hR : R = 0 ∨ R = 16
    · rw [decide_eq_true hR, parse_int_flags_hex]
      exact Iff.intro (fun _ => hR) (fun _ => hnz)
    · rw [decide_eq_false hR, parse_int_flags_no_hex F octal_support hdisj]
      exact Iff.intro (fun h => absurd rfl h) (fun h => absurd h hR)
  · unfold parse_int_s2n_flags
    cases octal_support <;> simp
  · have := hstrip (parse_int_s2n_flags F octal_support true) 0x31 [0x32, 0x33]
      (by rw [parse_int_flags_hex]; exact hnz) (by decide)
    simpa [duk_bi_global_object_parse_int] using this

theorem parse_int_radix_decision_witness :
    ((32 : Nat) ≠ 0 ∧ ((1 : Nat) ||| 2 ||| 4 ||| 8 ||| 16) &&& 32 = 0) ∧
    duk_bi_global_object_parse_int ⟨1, 2, 4, 8, 16, 32, 64⟩ false
        (fun s radix fl =>
          if fl &&& 32 ≠ 0 ∧ radix = 16 then
            (match s with
             | 0x30 :: 0x78 :: rest => rest
             | _ => s)
          else s)
        [] [0x30, 0x78, 0x31, 0x32, 0x33] 16
      = duk_bi_global_object_parse_int ⟨1, 2, 4, 8, 16, 32, 64⟩ false
        (fun s radix fl =>
          if fl &&& 32 ≠ 0 ∧ radix = 16 then
            (match s with
             | 0x30 :: 0x78 :: rest => rest
             | _ => s)
          else s)
        [] [0x31, 0x32, 0x33] 16 :=
  ⟨⟨by decide, by decide⟩,
    (parse_int_radix_decision ⟨1, 2, 4, 8, 16, 32, 64⟩ false
      (fun s radix fl =>
        if fl &&& 32 ≠ 0 ∧ radix = 16 then
          (match s with
           | 0x30 :: 0x78 :: rest => rest
           | _ => s)
        else s)
      [] [] 16 (by decide) (by decide)
      (fun fl c d h1 h2 => by
        have hc : c ≠ 0x30 := by
          rintro rfl
          exact absurd h2 (by decide)
        simp only [h1, ne_eq, not_false_eq_true, and_self, if_true]
        split
        · rename_i heq
          exact absurd (List.cons.inj heq).1 hc
        · rfl)).2.2.2.2⟩

/-! ### When URI encoding fails (C13) -/

theorem decode_xutf8_loop_snd_lt (buf : List Nat) (n : Nat) :
    ∀ (p res : Nat), res < 2 ^ 32 → (decode_xutf8_loop buf n p res).2 < 2 ^ 32 := by
  induction n with
  | zero => intro p res h; exact h
  | succ n ih =>
      intro p res _
      rw [decode_xutf8_loop]
      exact ih _ _ (Nat.mod_lt _ (by decide))

theorem decode_xutf8_some_snd_lt (buf : List Nat) (p s e : Nat) (r : Nat × Nat)
    (h : duk_unicode_decode_xutf8 buf p s e = some r) : r.2 < 2 ^ 32 := by
  rw [decode_xutf8_eq] at h
  split_ifs at h with hc
  simp only [Option.some.injEq] at h
  subst h
  apply decode_xutf8_loop_snd_lt
  unfold xutf8_lead_bits
  split_ifs <;> omega

theorem toCodepoint_neg (u : Nat) (h1 : 2 ^ 31 ≤ u) (h2 : u < 2 ^ 32) : toCodepoint u < 0 := by
  unfold toCodepoint
  have : u % 2 ^ 32 = u := Nat.mod_eq_of_lt h2
  rw [this, if_neg (by omega)]
  omega

/-- The encoder callback raises URIError on a low surrogate and on a code
point above `0x10FFFF`. -/
theorem callback_encode_uri_reject (c : duk__transform_context) (table : List Nat) (cp : Nat)
    (hcp : cp < 2 ^ 32) (h : (0xdc00 ≤ cp ∧ cp ≤ 0xdfff) ∨ 0x10ffff < cp) :
    duk__transform_callback_encode_uri c table (toCodepoint cp) = .error .uriError := by
  unfold duk__transform_callback_encode_uri
  by_cases hneg : 2 ^ 31 ≤ cp
  · rw [if_pos (toCodepoint_neg cp hneg hcp)]
  · rw [toCodepoint_of_lt cp (by omega), if_neg (by omega)]
    have h1 : ¬ ((cp : Int) < 0x80 ∧ DUK__CHECK_BITMASK table (cp : Int).toNat = true) := by
      intro h'; omega
    rw [if_neg h1]
    by_cases hlow : 0xdc00 ≤ cp ∧ cp ≤ 0xdfff
    · rw [if_pos (by omega)]
    · rw [if_neg (by omega), if_neg (by omega), if_pos (by omega)]

/-- The encoder callback on a code point that is neither a surrogate nor above
`0x10FFFF` succeeds and leaves the read position where it is. -/
theorem callback_encode_uri_plain (c : duk__transform_context) (table : List Nat) (cp : Nat)
    (hmax : cp ≤ 0x10ffff) (hs : ¬ (0xd800 ≤ cp ∧ cp ≤ 0xdfff)) :
    ∃ b, duk__transform_callback_encode_uri c table (toCodepoint cp)
      = .ok { h_str := c.h_str, h_buf := b, p := c.p } := by
  unfold duk__transform_callback_encode_uri
  rw [toCodepoint_of_lt cp (by omega), if_neg (by omega)]
  by_cases h1 : (cp : Int) < 0x80 ∧ DUK__CHECK_BITMASK table (cp : Int).toNat = true
  · rw [if_pos h1]
    exact ⟨_, rfl⟩
  · rw [if_neg h1, if_neg (by omega), if_neg (by omega), if_neg (by omega)]
    simp only [encode_uri_emit_eq]
    exact ⟨_, rfl⟩

/-- The encoder callback on a high surrogate at the end of the input, or
before bytes that do not decode: URIError. -/
theorem callback_encode_uri_high_none (c : duk__transform_context) (table : List Nat)
    (cp : Nat) (hh : 0xd800 ≤ cp ∧ cp ≤ 0xdbff)
    (hd : duk_unicode_decode_xutf8 c.h_str c.p 0 c.h_str.length = none) :
    duk__transform_callback_encode_uri c table (toCodepoint cp) = .error .uriError := by
  unfold duk__transform_callback_encode_uri
  rw [toCodepoint_of_lt cp (by omega), if_neg (by omega)]
  have h1 : ¬ ((cp : Int) < 0x80 ∧ DUK__CHECK_BITMASK table (cp : Int).toNat = true) := by
    intro h'; omega
  rw [if_neg h1, if_neg (by omega), if_pos (by omega)]
  simp only [duk__transform_context.p_start, duk__transform_context.p_end, hd]

/-- The encoder callback on a high surrogate followed by the code point `cp2`:
it succeeds, moving past `cp2`, when `cp2` is a low surrogate, and raises
URIError otherwise. -/
theorem callback_encode_uri_high_some (c : duk__transform_context) (table : List Nat)
    (cp p2 cp2 : Nat) (hh : 0xd800 ≤ cp ∧ cp ≤ 0xdbff)
    (hd : duk_unicode_decode_xutf8 c.h_str c.p 0 c.h_str.length = some (p2, cp2)) :
    ((0xdc00 ≤ cp2 ∧ cp2 ≤ 0xdfff) →
      ∃ b, duk__transform_callback_encode_uri c table (toCodepoint cp)
        = .ok { h_str := c.h_str, h_buf := b, p := p2 }) ∧
    (¬ (0xdc00 ≤ cp2 ∧ cp2 ≤ 0xdfff) →
      duk__transform_callback_encode_uri c table (toCodepoint cp) = .error .uriError) := by
  have hlt : cp2 < 2 ^ 32 := decode_xutf8_some_snd_lt _ _ _ _ _ hd
  unfold duk__transform_callback_encode_uri
  rw [toCodepoint_of_lt cp (by omega), if_neg (by omega)]
  have h1 : ¬ ((cp : Int) < 0x80 ∧ DUK__CHECK_BITMASK table (cp : Int).toNat = true) := by
    intro h'; omega
  rw [if_neg h1, if_neg (by omega), if_pos (by omega)]
  simp only [duk__transform_context.p_start, duk__transform_context.p_end, hd]
  constructor
  · intro hl
    rw [toCodepoint_of_lt cp2 (by omega), if_neg (by omega)]
    simp only [encode_uri_emit_eq]
    exact ⟨_, rfl⟩
  · intro hl
    by_cases hneg : 2 ^ 31 ≤ cp2
    · have := toCodepoint_neg cp2 hneg hlt
      rw [if_pos (by omega)]
    · rw [toCodepoint_of_lt cp2 (by omega), if_pos (by omega)]

theorem transform_step_of_decode
    (cb : duk__transform_context → List Nat → Int → Except DukError duk__transform_context)
    (udata s out : List Nat) (p p2 cp : Nat)
    (hd : duk_unicode_decode_xutf8 s p 0 s.length = some (p2, cp)) :
    transform_step cb udata { h_str := s, h_buf := out, p := p }
      = cb { h_str := s, h_buf := out, p := p2 } udata (toCodepoint cp) := by
  unfold transform_step duk_unicode_decode_xutf8_checked
  simp only [duk__transform_context.p_start, duk__transform_context.p_end, hd]

theorem hasEncodeError_reject (c : Nat) (rest : List Nat)
    (h : (0xdc00 ≤ c ∧ c ≤ 0xdfff) ∨ 0x10ffff < c) : hasEncodeError (c :: rest) = true := by
  by_cases hlow : 0xdc00 ≤ c ∧ c ≤ 0xdfff
  · cases rest <;> rw [hasEncodeError, if_pos hlow]
  · cases rest <;>
      rw [hasEncodeError, if_neg hlow, if_neg (by omega), if_pos (by omega)]

theorem hasEncodeError_plain (c : Nat) (rest : List Nat) (hmax : c ≤ 0x10ffff)
    (hs : ¬ (0xd800 ≤ c ∧ c ≤ 0xdfff)) : hasEncodeError (c :: rest) = hasEncodeError rest := by
  have h1 : ¬ (0xdc00 ≤ c ∧ c ≤ 0xdfff) := by omega
  have h2 : ¬ (0xd800 ≤ c ∧ c ≤ 0xdbff) := by omega
  have h3 : ¬ c > 0x10ffff := by omega
  cases rest <;> simp only [hasEncodeError, if_neg h1, if_neg h2, if_neg h3]

/-- The loop of the URI encoder over a string with code point sequence `cps`:
URIError when `hasEncodeError cps`, a result otherwise. -/
theorem enc_loop_cps (table s : List Nat) (n : Nat) :
    ∀ (fuel : Nat), fuel ≤ n → ∀ (p : Nat) (cps out : List Nat) (f : Nat),
    xutf8CodePoints s fuel p = some cps → fuel ≤ f →
    (hasEncodeError cps = true →
      duk__transform_loop duk__transform_callback_encode_uri table f
        { h_str := s, h_buf := out, p := p } = some (.error .uriError)) ∧
    (hasEncodeError cps = false →
      ∃ c, duk__transform_loop duk__transform_callback_encode_uri table f
        { h_str := s, h_buf := out, p := p } = some (.ok c)) := by
  induction n with
  | zero =>
      intro fuel hn p cps out f h _
      obtain rfl : fuel = 0 := by omega
      simp [xutf8CodePoints] at h
  | succ n ih =>
      intro fuel hn p cps out f h hf
      cases fuel with
      | zero => simp [xutf8CodePoints] at h
      | succ k =>
          obtain ⟨g, rfl⟩ : ∃ g, f = g + 1 := ⟨f - 1, by omega⟩
          rw [transform_loop_succ]
          rw [xutf8CodePoints] at h
          by_cases hp : p < s.length
          · rw [if_pos hp] at h
            rw [if_pos (by simpa [duk__transform_context.p_end] using hp)]
            cases hd : duk_unicode_decode_xutf8 s p 0 s.length with
            | none => rw [hd] at h; cases h
            | some r =>
                obtain ⟨p1, cp⟩ := r
                rw [hd] at h
                simp only [Option.map_eq_some'] at h
                obtain ⟨rest, hrest, rfl⟩ := h
                have hlt : cp < 2 ^ 32 := decode_xutf8_some_snd_lt _ _ _ _ _ hd
                rw [transform_step_of_decode _ _ _ _ _ _ _ hd]
                by_cases hrej : (0xdc00 ≤ cp ∧ cp ≤ 0xdfff) ∨ 0x10ffff < cp
                · rw [callback_encode_uri_reject _ table cp hlt hrej]
                  have he : hasEncodeError (cp :: rest) = true :=
                    hasEncodeError_reject cp rest hrej
                  exact ⟨fun _ => rfl, fun h => by rw [he] at h; cases h⟩
                · by_cases hhigh : 0xd800 ≤ cp ∧ cp ≤ 0xdbff
                  · cases k with
                    | zero => simp [xutf8CodePoints] at hrest
                    | succ j =>
                        rw [xutf8CodePoints] at hrest
                        by_cases hp1 : p1 < s.length
                        · rw [if_pos hp1] at hrest
                          cases hd2 : duk_unicode_decode_xutf8 s p1 0 s.length with
                          | none => rw [hd2] at hrest; cases hrest
                          | some r2 =>
                              obtain ⟨p2, cp2⟩ := r2
                              rw [hd2] at hrest
                              simp only [Option.map_eq_some'] at hrest
                              obtain ⟨rest2, hrest2, rfl⟩ := hrest
                              have hcb := callback_encode_uri_high_some
                                { h_str := s, h_buf := out, p := p1 } table cp p2 cp2 hhigh hd2
                              by_cases hlow : 0xdc00 ≤ cp2 ∧ cp2 ≤ 0xdfff
                              · obtain ⟨b, hb⟩ := hcb.1 hlow
                                rw [hb]
                                have he : hasEncodeError (cp :: cp2 :: rest2)
                                    = hasEncodeError rest2 := by
                                  rw [hasEncodeError, if_neg (by omega), if_pos hhigh]
                                  simp only [if_pos hlow]
                                rw [he]
                                exact ih j (by omega) p2 rest2 b g hrest2 (by omega)
                              · rw [hcb.2 hlow]
                                have he : hasEncodeError (cp :: cp2 :: rest2) = true := by
                                  rw [hasEncodeError, if_neg (by omega), if_pos hhigh]
                                  simp only [if_neg hlow]
                                exact ⟨fun _ => rfl, fun h => by rw [he] at h; cases h⟩
                        · rw [if_neg hp1] at hrest
                          cases hrest
                          have hd2 : duk_unicode_decode_xutf8 s p1 0 s.length = none := by
                            rw [decode_xutf8_eq, if_pos (by omega)]
                          rw [callback_encode_uri_high_none
                            { h_str := s, h_buf := out, p := p1 } table cp hhigh hd2]
                          have he : hasEncodeError [cp] = true := by
                            rw [hasEncodeError, if_neg (by omega), if_pos hhigh]
                          exact ⟨fun _ => rfl, fun h => by rw [he] at h; cases h⟩
                  · obtain ⟨b, hb⟩ := callback_encode_uri_plain
                      { h_str := s, h_buf := out, p := p1 } table cp (by omega) (by omega)
                    rw [hb]
                    have he : hasEncodeError (cp :: rest) = hasEncodeError rest :=
                      hasEncodeError_plain cp rest (by omega) (by omega)
                    rw [he]
                    exact ih k (by omega) p1 rest b g hrest (by omega)
          · rw [if_neg hp] at h
            cases h
            rw [if_neg (by simpa [duk__transform_context.p_end] using hp)]
            exact ⟨fun h => by simp [hasEncodeError] at h, fun _ => ⟨_, rfl⟩⟩

theorem enc_helper_cps (table s cps : List Nat)
    (h : xutf8CodePoints s (s.length + 1) 0 = some cps) :
    (duk__transform_helper duk__transform_callback_encode_uri table s
        = some (.error .uriError) ↔ hasEncodeError cps = true) ∧
    (hasEncodeError cps = false →
      ∃ e, duk__transform_helper duk__transform_callback_encode_uri table s = some (.ok e)) := by
  have hl := enc_loop_cps table s (s.length + 1) (s.length + 1) (Nat.le_refl _) 0 cps []
    (s.length + 1) h (Nat.le_refl _)
  unfold duk__transform_helper
  cases he : hasEncodeError cps with
  | true =>
      rw [hl.1 he]
      exact ⟨Iff.intro (fun _ => rfl) (fun _ => rfl), fun h => by cases h⟩
  | false =>
      obtain ⟨c, hc⟩ := hl.2 he
      rw [hc]
      exact ⟨Iff.intro (fun h => by cases h) (fun h => by cases h), fun _ => ⟨_, rfl⟩⟩

/-- C13: for every input string that has a code point sequence `cps` (every
position the transform loop reads decodes), `encodeURI` and
`encodeURIComponent` raise URIError if and only if `cps` contains a low
surrogate that is not the second half of a pair, a high surrogate not
immediately followed by a low surrogate, or a code point above `0x10FFFF`;
when it contains none of these, both return a result. -/
theorem encode_uri_error_iff (s cps : List Nat)
    (h : xutf8CodePoints s (s.length + 1) 0 = some cps) :
    (duk_bi_global_object_encode_uri s = some (.error .uriError)
      ↔ hasEncodeError cps = true) ∧
    (duk_bi_global_object_encode_uri_component s = some (.error .uriError)
      ↔ hasEncodeError cps = true) ∧
    (hasEncodeError cps = false →
      (∃ e, duk_bi_global_object_encode_uri s = some (.ok e)) ∧
      ∃ e, duk_bi_global_object_encode_uri_component s = some (.ok e)) :=
  ⟨(enc_helper_cps duk__encode_uriunescaped_table s cps h).1,
   (enc_helper_cps duk__encode_uricomponent_unescaped_table s cps h).1,
   fun he => ⟨(enc_helper_cps duk__encode_uriunescaped_table s cps h).2 he,
     (enc_helper_cps duk__encode_uricomponent_unescaped_table s cps h).2 he⟩⟩

/-- Witness for C13: `a` followed by the high surrogate U+D83D and then `b`
(bytes `61 ED A0 BD 62`) has code points `61, D83D, 62` and is rejected. -/
theorem encode_uri_error_iff_witness :
    xutf8CodePoints [0x61, 0xED, 0xA0, 0xBD, 0x62] 6 0 = some [0x61, 0xD83D, 0x62] ∧
    hasEncodeError [0x61, 0xD83D, 0x62] = true ∧
    duk_bi_global_object_encode_uri [0x61, 0xED, 0xA0, 0xBD, 0x62]
      = some (.error .uriError) :=
  ⟨by decide, by decide,
   (encode_uri_error_iff [0x61, 0xED, 0xA0, 0xBD, 0x62] [0x61, 0xD83D, 0x62]
      (by decide)).1.mpr (by decide)⟩

/-! ### Module id resolution: the output never overtakes the input (C15) -/

theorem rdByte_ne_zero_lt (buf : List Nat) (i : Nat) (h : rdByte buf i ≠ 0) : i < buf.length := by
  by_contra hn
  apply h
  unfold rdByte
  rw [List.getD_eq_default _ _ (by omega)]

theorem resolve_step_bounded (buf_in : List Nat) (limit : Nat) (hlen : buf_in.length + 1 < limit)
    (cfg : resolve_config) (h : resolve_bounded buf_in.length limit cfg) :
    resolve_bounded buf_in.length limit (resolve_step buf_in cfg) := by
  cases cfg with
  | loop_done r => exact h
  | resolve_error => exact h
  | bad_write => exact h
  | running pc s =>
      obtain ⟨p, q, out⟩ := s
      cases pc with
      | top =>
          simp only [resolve_bounded] at h
          obtain ⟨h0, hq, hp, hl⟩ := h
          simp only [resolve_step]
          by_cases c0 : rdByte buf_in p = 0
          · rw [if_pos c0]; exact True.intro
          have hp1 := rdByte_ne_zero_lt _ _ c0
          rw [if_neg c0]
          by_cases c1 : rdByte buf_in p = 0x2e
          · rw [if_pos c1]
            by_cases c2 : rdByte buf_in (p + 1) = 0x2f
            · rw [if_pos c2]
              have hp2 := rdByte_ne_zero_lt buf_in (p + 1) (by omega)
              simp only [resolve_bounded]
              omega
            · rw [if_neg c2]
              by_cases c3 : rdByte buf_in (p + 1) = 0x2e ∧ rdByte buf_in (p + 1 + 1) = 0x2f
              · rw [if_pos c3]
                have hp3 := rdByte_ne_zero_lt buf_in (p + 1 + 1) (by omega)
                by_cases c4 : q = 0
                · rw [if_pos c4]; exact True.intro
                · rw [if_neg c4]
                  simp only [resolve_bounded]
                  omega
              · rw [if_neg c3]; exact True.intro
          · rw [if_neg c1]
            by_cases c5 : rdByte buf_in p = 0x2f
            · rw [if_pos c5]; exact True.intro
            · rw [if_neg c5]
              simp only [resolve_bounded]
              omega
      | copy c =>
          simp only [resolve_bounded] at h
          obtain ⟨h0, hq, hp, hl⟩ := h
          simp only [resolve_step, resolve_write]
          rw [if_pos (by omega)]
          simp only []
          by_cases c0 : rdByte buf_in p = 0
          · rw [if_pos c0]
            simp only [resolve_bounded, List.length_take, List.length_set]
            omega
          have hp1 := rdByte_ne_zero_lt _ _ c0
          rw [if_neg c0]
          by_cases c1 : rdByte buf_in p = 0x2f
          · rw [if_pos c1, if_pos (by simp only [List.length_set]; omega)]
            simp only [resolve_bounded, List.length_set]
            omega
          · rw [if_neg c1]
            simp only [resolve_bounded, List.length_set]
            omega
      | backtrack =>
          simp only [resolve_bounded] at h
          obtain ⟨h0, hq, hp, hl⟩ := h
          simp only [resolve_step]
          by_cases c0 : q = 0
          · rw [if_pos c0]
            simp only [resolve_bounded]
            omega
          rw [if_neg c0]
          by_cases c1 : rdByte out (q - 1).toNat = 0x2f
          · rw [if_pos c1]
            simp only [resolve_bounded]
            omega
          · rw [if_neg c1]
            simp only [resolve_bounded]
            omega
      | eat =>
          simp only [resolve_bounded] at h
          obtain ⟨h0, hq, hp, hl⟩ := h
          simp only [resolve_step]
          by_cases c0 : rdByte buf_in p ≠ 0x2f
          · rw [if_pos c0]
            simp only [resolve_bounded]
            omega
          · rw [if_neg c0]
            have hp1 := rdByte_ne_zero_lt buf_in p (by omega)
            simp only [resolve_bounded]
            omega

theorem resolve_run_bounded (buf_in : List Nat) (limit : Nat) (hlen : buf_in.length + 1 < limit)
    (k : Nat) : ∀ (cfg : resolve_config), resolve_bounded buf_in.length limit cfg →
    resolve_bounded buf_in.length limit (resolve_run buf_in k cfg) := by
  induction k with
  | zero => intro cfg h; exact h
  | succ k ih =>
      intro cfg h
      rw [resolve_run]
      exact ih _ (resolve_step_bounded buf_in limit hlen cfg h)

/-! ### The machine computes what the loop `duk__resolve_loop` computes -/

theorem drop_eq_rdByte_cons (buf : List Nat) (p : Nat) (h : p < buf.length) :
    buf.drop p = rdByte buf p :: buf.drop (p + 1) := by
  rw [List.drop_eq_getElem_cons h]
  simp [rdByte, List.getD_eq_getElem?_getD, List.getElem?_eq_getElem h]

theorem rdByte_of_le (buf : List Nat) (p : Nat) (h : buf.length ≤ p) : rdByte buf p = 0 := by
  unfold rdByte
  rw [List.getD_eq_default _ _ h]

theorem rdByte_mem (buf : List Nat) (p : Nat) (h : p < buf.length) : rdByte buf p ∈ buf := by
  have : rdByte buf p = buf[p] := by
    simp [rdByte, List.getD_eq_getElem?_getD, List.getElem?_eq_getElem h]
  rw [this]
  exact List.getElem_mem _

theorem take_set_succ (out : List Nat) (q c : Nat) (h : q < out.length) :
    (out.set q c).take (q + 1) = out.take q ++ [c] := by
  induction out generalizing q with
  | nil => simp at h
  | cons a out ih =>
      cases q with
      | zero => simp
      | succ q =>
          simp only [List.set_cons_succ, List.take_succ_cons, List.cons_append, List.cons.injEq,
            true_and]
          exact ih q (by simpa using h)

theorem take_succ_rdByte (out : List Nat) (q : Nat) (h : q < out.length) :
    out.take (q + 1) = out.take q ++ [rdByte out q] := by
  rw [List.take_succ]
  simp [rdByte, List.getD_eq_getElem?_getD, List.getElem?_eq_getElem h]

theorem resolve_run_add (buf_in : List Nat) (j k : Nat) (cfg : resolve_config) :
    resolve_run buf_in (j + k) cfg = resolve_run buf_in k (resolve_run buf_in j cfg) := by
  induction j generalizing cfg with
  | zero => simp [resolve_run]
  | succ j ih =>
      rw [show j + 1 + k = (j + k) + 1 by omega, resolve_run, resolve_run, ih]

/-- The `eat_dup_slashes` loop of the machine. -/
theorem eat_sim (buf_in : List Nat) (q : Int) (out : List Nat) (m : Nat) :
    ∀ (p : Nat), buf_in.length - p ≤ m → p ≤ buf_in.length →
    ∃ k p', resolve_run buf_in k (.running .eat { p := p, q := q, buf_out := out })
        = .running .top { p := p', q := q, buf_out := out } ∧
      buf_in.drop p' = eat_dup_slashes (buf_in.drop p) ∧ p ≤ p' ∧ p' ≤ buf_in.length := by
  induction m with
  | zero =>
      intro p hm hp
      have hz : rdByte buf_in p = 0 := rdByte_of_le _ _ (by omega)
      refine ⟨1, p, ?_, ?_, Nat.le_refl _, hp⟩
      · simp only [resolve_run, resolve_step, hz]
        rw [if_pos (by omega)]
      · rw [List.drop_eq_nil_of_le (by omega)]; rfl
  | succ m ih =>
      intro p hm hp
      by_cases hlt : p < buf_in.length
      · by_cases hc : rdByte buf_in p = 0x2f
        · obtain ⟨k, p', hk, hd, h1, h2⟩ := ih (p + 1) (by omega) (by omega)
          refine ⟨k + 1, p', ?_, ?_, by omega, h2⟩
          · rw [resolve_run]
            simp only [resolve_step]
            rw [if_neg (by simpa using hc)]
            exact hk
          · rw [hd, drop_eq_rdByte_cons buf_in p hlt, hc]
            simp [eat_dup_slashes]
        · refine ⟨1, p, ?_, ?_, Nat.le_refl _, hp⟩
          · simp only [resolve_run, resolve_step]
            rw [if_pos hc]
          · rw [drop_eq_rdByte_cons buf_in p hlt]
            simp [eat_dup_slashes, hc]
      · have hz : rdByte buf_in p = 0 := rdByte_of_le _ _ (by omega)
        refine ⟨1, p, ?_, ?_, Nat.le_refl _, hp⟩
        · simp only [resolve_run, resolve_step, hz]
          rw [if_pos (by omega)]
        · rw [List.drop_eq_nil_of_le (by omega)]; rfl

/-- The backtrack loop of the machine. -/
theorem backtrack_sim (buf_in : List Nat) (p : Nat) (out : List Nat) (qn : Nat) :
    qn ≤ out.length →
    ∃ (k qn' : Nat), resolve_run buf_in k (.running .backtrack { p := p, q := (qn : Int), buf_out := out })
        = .running .eat { p := p, q := (qn' : Int), buf_out := out } ∧
      (out.take qn').reverse = backtrack_to_slash (out.take qn).reverse ∧ qn' ≤ qn := by
  induction qn with
  | zero =>
      intro _
      refine ⟨1, 0, ?_, by simp [backtrack_to_slash], Nat.le_refl _⟩
      simp [resolve_run, resolve_step]
  | succ qn ih =>
      intro hq
      have hne : ((qn + 1 : Nat) : Int) ≠ 0 := by omega
      have hsub : (((qn + 1 : Nat) : Int) - 1).toNat = qn := by omega
      have hsub2 : ((qn + 1 : Nat) : Int) - 1 = (qn : Int) := by omega
      have ht := take_succ_rdByte out qn (by omega)
      by_cases hc : rdByte out qn = 0x2f
      · refine ⟨1, qn + 1, ?_, ?_, Nat.le_refl _⟩
        · simp only [resolve_run, resolve_step]
          rw [if_neg hne, hsub, if_pos hc]
        · rw [ht, List.reverse_append, List.reverse_singleton, List.singleton_append, hc]
          simp [backtrack_to_slash]
      · obtain ⟨k, qn', hk, hb, hle⟩ := ih (by omega)
        refine ⟨k + 1, qn', ?_, ?_, by omega⟩
        · rw [resolve_run]
          simp only [resolve_step]
          rw [if_neg hne, hsub, if_neg hc, hsub2]
          exact hk
        · rw [hb, ht, List.reverse_append, List.reverse_singleton, List.singleton_append]
          simp [backtrack_to_slash, hc]

/-- The term copy loop of the machine. -/
theorem copy_sim (buf_in : List Nat) (hnul : ∀ b ∈ buf_in, b ≠ 0) (m : Nat) :
    ∀ (p c qn : Nat) (out : List Nat), buf_in.length - p ≤ m → p ≤ buf_in.length →
    qn + 1 ≤ p → buf_in.length < out.length →
    ∃ k, (∃ pl' ql', copy_term c (buf_in.drop p) (out.take qn).reverse = (true, pl', ql') ∧
            resolve_run buf_in k (.running (.copy c) { p := p, q := (qn : Int), buf_out := out })
              = .loop_done ql'.reverse) ∨
         (∃ (p' qn' : Nat) (out' : List Nat),
            copy_term c (buf_in.drop p) (out.take qn).reverse
              = (false, buf_in.drop p', (out'.take qn').reverse) ∧
            resolve_run buf_in k (.running (.copy c) { p := p, q := (qn : Int), buf_out := out })
              = .running .eat { p := p', q := (qn' : Int), buf_out := out' } ∧
            qn' ≤ p' ∧ p' ≤ buf_in.length ∧ out'.length = out.length) := by
  induction m with
  | zero =>
      intro p c qn out hm hp hq hout
      have hz : rdByte buf_in p = 0 := rdByte_of_le _ _ (by omega)
      refine ⟨1, Or.inl ⟨[], c :: (out.take qn).reverse, ?_, ?_⟩⟩
      · rw [List.drop_eq_nil_of_le (by omega)]; rfl
      · simp only [resolve_run, resolve_step, resolve_write]
        rw [if_pos (by omega)]
        simp only [hz, if_true, Int.toNat_ofNat]
        have e : ((qn : Int) + 1).toNat = qn + 1 := by omega
        rw [e, take_set_succ out qn c (by omega)]
        simp
  | succ m ih =>
      intro p c qn out hm hp hq hout
      have e : ((qn : Int) + 1).toNat = qn + 1 := by omega
      have e2 : ((qn : Int) + 1) = ((qn + 1 : Nat) : Int) := by omega
      by_cases hlt : p < buf_in.length
      · have hc0 : rdByte buf_in p ≠ 0 := hnul _ (rdByte_mem buf_in p hlt)
        rw [drop_eq_rdByte_cons buf_in p hlt]
        by_cases hc : rdByte buf_in p = 0x2f
        · refine ⟨1, Or.inr ⟨p + 1, qn + 1 + 1, (out.set qn c).set (qn + 1) 0x2f, ?_, ?_,
            by omega, by omega, by simp⟩⟩
          · rw [copy_term, if_neg hc0, if_pos hc,
              take_set_succ (out.set qn c) (qn + 1) 0x2f (by simp only [List.length_set]; omega),
              take_set_succ out qn c (by omega)]
            simp
          · simp only [resolve_run, resolve_step, resolve_write]
            rw [if_pos (by omega)]
            simp only [Int.toNat_ofNat]
            rw [if_neg hc0, if_pos hc, if_pos (by simp only [List.length_set]; omega), e]
            simp only []
            congr 2
        · obtain ⟨k, hk⟩ := ih (p + 1) (rdByte buf_in p) (qn + 1) (out.set qn c) (by omega)
            (by omega) (by omega) (by simp only [List.length_set]; omega)
          rw [take_set_succ out qn c (by omega), List.reverse_append, List.reverse_singleton,
            List.singleton_append] at hk
          have hstep : resolve_step buf_in
              (.running (.copy c) { p := p, q := (qn : Int), buf_out := out })
              = .running (.copy (rdByte buf_in p))
                  { p := p + 1, q := ((qn + 1 : Nat) : Int), buf_out := out.set qn c } := by
            simp only [resolve_step, resolve_write]
            rw [if_pos (by omega)]
            simp only [Int.toNat_ofNat]
            rw [if_neg hc0, if_neg hc, e2]
          refine ⟨k + 1, ?_⟩
          rw [copy_term, if_neg hc0, if_neg hc, resolve_run, hstep]
          rcases hk with ⟨pl', ql', h1, h2⟩ | ⟨p', qn', out', h1, h2, h3, h4, h5⟩
          · exact Or.inl ⟨pl', ql', h1, h2⟩
          · exact Or.inr ⟨p', qn', out', h1, h2, h3, h4, by simpa using h5⟩
      · have hz : rdByte buf_in p = 0 := rdByte_of_le _ _ (by omega)
        refine ⟨1, Or.inl ⟨[], c :: (out.take qn).reverse, ?_, ?_⟩⟩
        · rw [List.drop_eq_nil_of_le (by omega)]; rfl
        · simp only [resolve_run, resolve_step, resolve_write]
          rw [if_pos (by omega)]
          simp only [hz, if_true, Int.toNat_ofNat]
          rw [e, take_set_succ out qn c (by omega)]
          simp

theorem headD_drop (buf : List Nat) (p : Nat) : (buf.drop p).headD 0 = rdByte buf p := by
  by_cases h : p < buf.length
  · rw [drop_eq_rdByte_cons buf p h]; rfl
  · rw [List.drop_eq_nil_of_le (by omega), rdByte_of_le _ _ (by omega)]; rfl

theorem tail_drop (buf : List Nat) (p : Nat) : (buf.drop p).tail = buf.drop (p + 1) := by
  rw [List.tail_drop]

/-- One round of `duk__resolve_loop` on the rest of a buffer, with the reads
written as indexed reads. -/
theorem resolve_loop_drop (buf : List Nat) (f p : Nat) (ql : List Nat) :
    duk__resolve_loop (f + 1) (buf.drop p) ql =
      if rdByte buf p = 0 then some (.error .typeError)
      else if rdByte buf p = 0x2e then
        if rdByte buf (p + 1) = 0x2f then
          duk__resolve_loop f (eat_dup_slashes (buf.drop (p + 1 + 1))) ql
        else if rdByte buf (p + 1) = 0x2e ∧ rdByte buf (p + 1 + 1) = 0x2f then
          if ql = [] then some (.error .typeError)
          else duk__resolve_loop f (eat_dup_slashes (buf.drop (p + 1 + 1 + 1)))
            (backtrack_to_slash ql.tail)
        else some (.error .typeError)
      else if rdByte buf p = 0x2f then some (.error .typeError)
      else
        match copy_term (rdByte buf p) (buf.drop (p + 1)) ql with
        | (true, _, q) => some (.ok q.reverse)
        | (false, p, q) => duk__resolve_loop f (eat_dup_slashes p) q := by
  simp only [duk__resolve_loop, headD_drop, tail_drop]

/-- From the top of the loop, the machine reaches the final configuration that
`duk__resolve_loop` computes. -/
theorem resolve_sim (buf_in : List Nat) (hnul : ∀ b ∈ buf_in, b ≠ 0) (f : Nat) :
    ∀ (p qn : Nat) (out : List Nat), buf_in.length - p < f → p ≤ buf_in.length → qn ≤ p →
    buf_in.length < out.length →
    ∃ k r, duk__resolve_loop f (buf_in.drop p) (out.take qn).reverse = some r ∧
      resolve_run buf_in k (.running .top { p := p, q := (qn : Int), buf_out := out })
        = resolve_final r := by
  induction f with
  | zero => intro p qn out h; omega
  | succ f ih =>
      intro p qn out hf hp hq hout
      rw [resolve_loop_drop]
      by_cases c0 : rdByte buf_in p = 0
      · refine ⟨1, .error .typeError, by rw [if_pos c0], ?_⟩
        simp only [resolve_run, resolve_step]
        rw [if_pos c0]
        rfl
      have hp1 := rdByte_ne_zero_lt _ _ c0
      rw [if_neg c0]
      by_cases c1 : rdByte buf_in p = 0x2e
      · rw [if_pos c1]
        by_cases c2 : rdByte buf_in (p + 1) = 0x2f
        · rw [if_pos c2]
          have hp2 := rdByte_ne_zero_lt buf_in (p + 1) (by omega)
          obtain ⟨k1, p', hk1, hd, hle1, hle2⟩ :=
            eat_sim buf_in (qn : Int) out (buf_in.length - (p + 1 + 1)) (p + 1 + 1)
              (Nat.le_refl _) (by omega)
          obtain ⟨k2, r, hr, hk2⟩ := ih p' qn out (by omega) hle2 (by omega) hout
          refine ⟨1 + k1 + k2, r, by rw [← hd]; exact hr, ?_⟩
          rw [resolve_run_add, resolve_run_add]
          have hstep : resolve_run buf_in 1
              (.running .top { p := p, q := (qn : Int), buf_out := out })
              = .running .eat { p := p + 1 + 1, q := (qn : Int), buf_out := out } := by
            simp only [resolve_run, resolve_step]
            rw [if_neg c0, if_pos c1, if_pos c2]
          rw [hstep, hk1, hk2]
        · rw [if_neg c2]
          by_cases c3 : rdByte buf_in (p + 1) = 0x2e ∧ rdByte buf_in (p + 1 + 1) = 0x2f
          · rw [if_pos c3]
            have hp3 := rdByte_ne_zero_lt buf_in (p + 1 + 1) (by omega)
            cases qn with
            | zero =>
                refine ⟨1, .error .typeError, by simp, ?_⟩
                simp only [resolve_run, resolve_step]
                rw [if_neg c0, if_pos c1, if_neg c2, if_pos c3]
                rfl
            | succ qm =>
                have ht := take_succ_rdByte out qm (by omega)
                have hne : (out.take (qm + 1)).reverse ≠ [] := by
                  rw [ht]; simp
                have htl : (out.take (qm + 1)).reverse.tail = (out.take qm).reverse := by
                  rw [ht]; simp
                rw [if_neg hne, htl]
                obtain ⟨k0, qn', hk0, hb, hle0⟩ :=
                  backtrack_sim buf_in (p + 1 + 1 + 1) out qm (by omega)
                obtain ⟨k1, p', hk1, hd, hle1, hle2⟩ :=
                  eat_sim buf_in (qn' : Int) out (buf_in.length - (p + 1 + 1 + 1)) (p + 1 + 1 + 1)
                    (Nat.le_refl _) (by omega)
                obtain ⟨k2, r, hr, hk2⟩ := ih p' qn' out (by omega) hle2 (by omega) hout
                refine ⟨1 + k0 + k1 + k2, r, by rw [← hd, ← hb]; exact hr, ?_⟩
                rw [resolve_run_add, resolve_run_add, resolve_run_add]
                have hstep : resolve_run buf_in 1
                    (.running .top { p := p, q := ((qm + 1 : Nat) : Int), buf_out := out })
                    = .running .backtrack
                        { p := p + 1 + 1 + 1, q := (qm : Int), buf_out := out } := by
                  simp only [resolve_run, resolve_step]
                  rw [if_neg c0, if_pos c1, if_neg c2, if_pos c3, if_neg (by omega)]
                  congr 2
                  omega
                rw [hstep, hk0, hk1, hk2]
          · rw [if_neg c3]
            refine ⟨1, .error .typeError, rfl, ?_⟩
            simp only [resolve_run, resolve_step]
            rw [if_neg c0, if_pos c1, if_neg c2, if_neg c3]
            rfl
      · rw [if_neg c1]
        by_cases c5 : rdByte buf_in p = 0x2f
        · refine ⟨1, .error .typeError, by rw [if_pos c5], ?_⟩
          simp only [resolve_run, resolve_step]
          rw [if_neg c0, if_neg c1, if_pos c5]
          rfl
        · rw [if_neg c5]
          have hstep : resolve_run buf_in 1
              (.running .top { p := p, q := (qn : Int), buf_out := out })
              = .running (.copy (rdByte buf_in p))
                  { p := p + 1, q := (qn : Int), buf_out := out } := by
            simp only [resolve_run, resolve_step]
            rw [if_neg c0, if_neg c1, if_neg c5]
          obtain ⟨kc, hc⟩ := copy_sim buf_in hnul (buf_in.length - (p + 1)) (p + 1)
            (rdByte buf_in p) qn out (Nat.le_refl _) (by omega) (by omega) hout
          rcases hc with ⟨pl', ql', h1, h2⟩ | ⟨p', qn', out', h1, h2, h3, h4, h5⟩
          · refine ⟨1 + kc, .ok ql'.reverse, by rw [h1], ?_⟩
            rw [resolve_run_add, hstep, h2]
            rfl
          · obtain ⟨k1, p'', hk1, hd, hle1, hle2⟩ :=
              eat_sim buf_in (qn' : Int) out' (buf_in.length - p') p' (Nat.le_refl _) h4
            have hp' : p + 1 ≤ p' := by
              have := copy_term_cases (buf_in.drop (p + 1)) (rdByte buf_in p)
                (out.take qn).reverse
              obtain ⟨u, pp, _, hl, hh⟩ := this
              rw [h1] at hh
              rcases hh with hh | hh
              · cases hh
              · simp only [Prod.mk.injEq, true_and] at hh
                rw [← hh.1] at hl
                simp only [List.length_drop] at hl
                omega
            obtain ⟨k2, r, hr, hk2⟩ := ih p'' qn' out' (by omega) hle2 (by omega) (by omega)
            refine ⟨1 + kc + k1 + k2, r, by rw [h1]; simp only []; rw [← hd]; exact hr, ?_⟩
            rw [resolve_run_add, resolve_run_add, resolve_run_add, hstep, h2, hk1, hk2]

theorem resolve_module_id_eq_buf_in (limit : Nat) (req_id : List Nat)
    (mod_id : Option (List Nat)) :
    duk__bi_global_resolve_module_id limit req_id mod_id
      = match resolve_buf_in limit req_id mod_id with
        | .error e => some (.error e)
        | .ok buf_in => duk__resolve_loop (buf_in.length + 1) buf_in [] := by
  unfold duk__bi_global_resolve_module_id resolve_buf_in
  rfl

/-- An input accepted by the length check has no NUL byte and fits, with its
terminator, in a buffer of `limit` bytes. -/
theorem resolve_buf_in_ok (limit : Nat) (req_id : List Nat) (mod_id : Option (List Nat))
    (buf_in : List Nat) (h : resolve_buf_in limit req_id mod_id = .ok buf_in) :
    (∀ b ∈ buf_in, b ≠ 0) ∧ buf_in.length + 1 < limit := by
  unfold resolve_buf_in at h
  simp only [DUK_STRLEN] at h
  cases mod_id with
  | none =>
      simp only at h
      split_ifs at h with h1
      cases h
      exact ⟨cstr_no_nul req_id, by omega⟩
  | some m =>
      simp only at h
      split_ifs at h with h0 h1 h2
      · cases h
        refine ⟨resolve_input_no_nul m req_id, ?_⟩
        simp only [List.length_append, List.length_cons, List.length_nil]
        omega
      · cases h
        exact ⟨cstr_no_nul req_id, by omega⟩

/-- C15: for every input `buf_in` accepted by the length check of
`duk__bi_global_resolve_module_id` and every initial contents of `buf_out`, in
every configuration the resolution loop reaches (after any number `k` of
passes): no store has fallen outside `buf_out`; while running, the output
pointer is not before `buf_out` (`0 ≤ q`), the number of bytes written is at
most the number of bytes consumed (`q ≤ p`, and `q + 1 ≤ p` in the copy loop,
where one byte is about to be written), `p` is not past the terminator and `q`
is inside `buf_out`. The loop reaches the outcome of the function, and a
returned id is never longer than the input. -/
theorem resolve_output_within_input (limit : Nat) (req_id : List Nat)
    (mod_id : Option (List Nat)) (buf_in buf0 : List Nat)
    (hin : resolve_buf_in limit req_id mod_id = .ok buf_in) (hbuf : buf0.length = limit) :
    (∀ k, resolve_run buf_in k (.running .top { p := 0, q := 0, buf_out := buf0 })
        ≠ .bad_write) ∧
    (∀ k pc s, resolve_run buf_in k (.running .top { p := 0, q := 0, buf_out := buf0 })
        = .running pc s →
      0 ≤ s.q ∧ s.q ≤ (s.p : Int) ∧ (∀ c, pc = .copy c → s.q + 1 ≤ (s.p : Int)) ∧
      s.p ≤ buf_in.length ∧ s.q < (limit : Int) ∧ s.buf_out.length = limit) ∧
    (∃ k r, duk__bi_global_resolve_module_id limit req_id mod_id = some r ∧
      resolve_run buf_in k (.running .top { p := 0, q := 0, buf_out := buf0 })
        = resolve_final r) ∧
    (∀ x, duk__bi_global_resolve_module_id limit req_id mod_id = some (.ok x) →
      x.length ≤ buf_in.length) := by
  obtain ⟨hnul, hlen⟩ := resolve_buf_in_ok limit req_id mod_id buf_in hin
  have hfun : duk__bi_global_resolve_module_id limit req_id mod_id
      = duk__resolve_loop (buf_in.length + 1) buf_in [] := by
    rw [resolve_module_id_eq_buf_in, hin]
  have hinit : resolve_bounded buf_in.length limit
      (.running .top { p := 0, q := 0, buf_out := buf0 }) := by
    simp only [resolve_bounded]
    omega
  have hall := fun k => resolve_run_bounded buf_in limit hlen k _ hinit
  have hsim := resolve_sim buf_in hnul (buf_in.length + 1) 0 0 buf0 (by omega) (by omega)
    (Nat.le_refl _) (by omega)
  simp only [List.drop_zero, List.take_zero, List.reverse_nil, Nat.cast_zero] at hsim
  refine ⟨?_, ?_, ?_, ?_⟩
  · intro k hk
    have := hall k
    rw [hk] at this
    exact this
  · intro k pc s hk
    have := hall k
    rw [hk] at this
    cases pc with
    | copy c =>
        simp only [resolve_bounded] at this
        obtain ⟨h0, hq, hp, hl⟩ := this
        exact ⟨h0, by omega, fun _ _ => hq, hp, by omega, hl⟩
    | top =>
        simp only [resolve_bounded] at this
        obtain ⟨h0, hq, hp, hl⟩ := this
        exact ⟨h0, hq, (fun _ h => nomatch h), hp, by omega, hl⟩
    | backtrack =>
        simp only [resolve_bounded] at this
        obtain ⟨h0, hq, hp, hl⟩ := this
        exact ⟨h0, hq, (fun _ h => nomatch h), hp, by omega, hl⟩
    | eat =>
        simp only [resolve_bounded] at this
        obtain ⟨h0, hq, hp, hl⟩ := this
        exact ⟨h0, hq, (fun _ h => nomatch h), hp, by omega, hl⟩
  · obtain ⟨k, r, hr, hk⟩ := hsim
    exact ⟨k, r, by rw [hfun]; exact hr, hk⟩
  · intro x hx
    obtain ⟨k, r, hr, hk⟩ := hsim
    rw [hfun, hr] at hx
    cases hx
    have := hall k
    rw [hk] at this
    exact this

/-- Witness for C15: requiring `./b` from module `a/c` with buffers of 16
bytes; the input is `a/c/.././b` and the result `a/b`. -/
theorem resolve_output_within_input_witness :
    resolve_buf_in 16 [0x2e, 0x2f, 0x62] (some [0x61, 0x2f, 0x63])
      = .ok [0x61, 0x2f, 0x63, 0x2f, 0x2e, 0x2e, 0x2f, 0x2e, 0x2f, 0x62] ∧
    duk__bi_global_resolve_module_id 16 [0x2e, 0x2f, 0x62] (some [0x61, 0x2f, 0x63])
      = some (.ok [0x61, 0x2f, 0x62]) ∧
    ∀ k, resolve_run [0x61, 0x2f, 0x63, 0x2f, 0x2e, 0x2e, 0x2f, 0x2e, 0x2f, 0x62] k
        (.running .top { p := 0, q := 0, buf_out := List.replicate 16 0 })
      ≠ .bad_write :=
  ⟨by decide, by decide,
   (resolve_output_within_input 16 [0x2e, 0x2f, 0x62] (some [0x61, 0x2f, 0x63])
      [0x61, 0x2f, 0x63, 0x2f, 0x2e, 0x2e, 0x2f, 0x2e, 0x2f, 0x62] (List.replicate 16 0)
      (by decide) (by decide)).1⟩

/-! ### Extended UTF-8 for every 32-bit code point (C27) -/

/-- C27: for every code point `cp` in `[0, 0xFFFFFFFF]` (surrogates and values
above `0x10FFFF` included), `duk_unicode_encode_xutf8` returns a length between
1 and 7 and writes that many bytes, and `duk_unicode_decode_xutf8` applied to
those bytes followed by any further bytes `post` (and standing after any bytes
`pre`) returns `cp` and moves the read pointer past exactly the encoded bytes. -/
theorem xutf8_roundtrip_any_codepoint (cp : Nat) (hcp : cp < 2 ^ 32) (pre post : List Nat) :
    1 ≤ (duk_unicode_encode_xutf8 cp).1 ∧ (duk_unicode_encode_xutf8 cp).1 ≤ 7 ∧
    (duk_unicode_encode_xutf8 cp).2.length = (duk_unicode_encode_xutf8 cp).1 ∧
    duk_unicode_decode_xutf8 ((duk_unicode_encode_xutf8 cp).2 ++ post) 0 0
        ((duk_unicode_encode_xutf8 cp).2 ++ post).length
      = some ((duk_unicode_encode_xutf8 cp).1, cp) ∧
    duk_unicode_decode_xutf8 (pre ++ (duk_unicode_encode_xutf8 cp).2 ++ post) pre.length 0
        (pre ++ (duk_unicode_encode_xutf8 cp).2 ++ post).length
      = some (pre.length + (duk_unicode_encode_xutf8 cp).1, cp) := by
  have hlen := encode_xutf8_length cp hcp
  have h1 : 1 ≤ (duk_unicode_encode_xutf8 cp).1 ∧ (duk_unicode_encode_xutf8 cp).1 ≤ 7 := by
    show 1 ≤ duk_unicode_get_xutf8_length cp ∧ duk_unicode_get_xutf8_length cp ≤ 7
    unfold duk_unicode_get_xutf8_length
    simp only []
    split_ifs <;> omega
  refine ⟨h1.1, h1.2, hlen, ?_, ?_⟩
  · have := decode_encode_xutf8 cp hcp [] post ((duk_unicode_encode_xutf8 cp).2 ++ post).length
      (by simp only [List.length_nil, List.length_append]; omega)
    simpa using this
  · exact decode_encode_xutf8 cp hcp pre post _
      (by simp only [List.length_append]; omega)

/-- Witness for C27 at `0xFFFFFFFF`, the largest code point, followed by one
more byte: seven bytes are written and read back. -/
theorem xutf8_roundtrip_any_codepoint_witness :
    (0xFFFFFFFF : Nat) < 2 ^ 32 ∧
    duk_unicode_encode_xutf8 0xFFFFFFFF = (7, [0xFE, 0x83, 0xBF, 0xBF, 0xBF, 0xBF, 0xBF]) ∧
    duk_unicode_decode_xutf8 ((duk_unicode_encode_xutf8 0xFFFFFFFF).2 ++ [0x41]) 0 0
        ((duk_unicode_encode_xutf8 0xFFFFFFFF).2 ++ [0x41]).length
      = some ((duk_unicode_encode_xutf8 0xFFFFFFFF).1, 0xFFFFFFFF) :=
  ⟨by decide, by decide,
   (xutf8_roundtrip_any_codepoint 0xFFFFFFFF (by decide) [] [0x41]).2.2.2.1⟩

/-! ### URI round trips (C26, C28) -/

theorem codeUnitsPaired_tail2 (u v : Nat) (rest : List Nat)
    (h : codeUnitsPaired (u :: v :: rest)) (hv : ¬ (0xd800 ≤ v ∧ v ≤ 0xdbff)) :
    codeUnitsPaired rest := by
  intro j hj
  have := h (j + 2) (by simp only [List.length_cons]; omega)
  simp only [List.getD_cons_succ] at this
  obtain ⟨h1, h2, h3⟩ := this
  refine ⟨h1, h2, ?_⟩
  intro hl
  obtain ⟨_, hp⟩ := h3 hl
  cases j with
  | zero =>
      simp only [Nat.zero_add, Nat.add_one_sub_one, List.getD_cons_succ,
        List.getD_cons_zero] at hp
      exact absurd hp hv
  | succ j =>
      simp only [show j + 1 + 2 - 1 = (j + 1) + 1 by omega, List.getD_cons_succ] at hp
      exact ⟨by omega, by simpa using hp⟩

theorem codeUnitsPaired_tail1 (u : Nat) (rest : List Nat)
    (h : codeUnitsPaired (u :: rest)) (hu : ¬ (0xd800 ≤ u ∧ u ≤ 0xdbff)) :
    codeUnitsPaired rest := by
  intro j hj
  have := h (j + 1) (by simp only [List.length_cons]; omega)
  simp only [List.getD_cons_succ] at this
  obtain ⟨h1, h2, h3⟩ := this
  refine ⟨h1, h2, ?_⟩
  intro hl
  obtain ⟨_, hp⟩ := h3 hl
  cases j with
  | zero =>
      simp only [Nat.zero_add, Nat.add_one_sub_one, List.getD_cons_zero] at hp
      exact absurd hp hu
  | succ j =>
      simp only [Nat.add_one_sub_one, List.getD_cons_succ] at hp
      exact ⟨by omega, by simpa using hp⟩

/-- The position-by-position pairing condition implies the left-to-right one. -/
theorem wellPaired_of_codeUnitsPaired (n : Nat) :
    ∀ us : List Nat, us.length ≤ n → codeUnitsPaired us → wellPaired us = true := by
  induction n with
  | zero =>
      intro us hn _
      have : us = [] := List.eq_nil_of_length_eq_zero (by omega)
      subst this
      rfl
  | succ n ih =>
      intro us hn h
      cases us with
      | nil => rfl
      | cons u tl =>
          have h0 := h 0 (by simp)
          simp only [List.getD_cons_zero, Nat.zero_add, List.getD_cons_succ, Nat.lt_irrefl,
            false_and, imp_false] at h0
          obtain ⟨hu, hhigh, hlow⟩ := h0
          cases tl with
          | nil =>
              simp only [List.getD_nil] at hhigh
              simp only [wellPaired, Bool.and_eq_true, decide_eq_true_eq, Bool.not_eq_true',
                Bool.and_eq_false_imp, decide_eq_false_iff_not]
              exact ⟨hu, by omega⟩
          | cons v rest =>
              simp only [List.getD_cons_zero] at hhigh
              simp only [wellPaired]
              by_cases hh : 0xd800 ≤ u ∧ u ≤ 0xdbff
              · rw [if_pos hh]
                have hv := hhigh hh
                have hr := ih rest (by simp only [List.length_cons] at hn; omega)
                  (codeUnitsPaired_tail2 u v rest h (by omega))
                simp only [Bool.and_eq_true, decide_eq_true_eq]
                exact ⟨hv, hr⟩
              · rw [if_neg hh]
                have hr := ih (v :: rest) (by simp only [List.length_cons] at hn ⊢; omega)
                  (codeUnitsPaired_tail1 u (v :: rest) h hh)
                simp only [Bool.and_eq_true, decide_eq_true_eq, Bool.not_eq_true',
                  Bool.and_eq_false_imp, decide_eq_false_iff_not]
                exact ⟨⟨hu, by omega⟩, hr⟩

/-- C26: for every string `s` that is the shortest-form encoding of a sequence
of 16-bit code units in which every high surrogate is immediately followed by
a low surrogate and every low surrogate is immediately preceded by a high
surrogate, `encodeURIComponent s` succeeds and `decodeURIComponent` of its
output returns `s` byte for byte. -/
theorem uri_component_roundtrip_paired (us : List Nat) (h : codeUnitsPaired us) :
    duk_bi_global_object_encode_uri_component (encodeUnits us)
      = some (.ok (uriEncodeUnits duk__encode_uricomponent_unescaped_table us)) ∧
    duk_bi_global_object_decode_uri_component
        (uriEncodeUnits duk__encode_uricomponent_unescaped_table us)
      = some (.ok (encodeUnits us)) :=
  uri_roundtrip_units _ _ uricomponent_tables_compatible.1 uricomponent_tables_compatible.2 us
    (wellPaired_of_codeUnitsPaired us.length us (Nat.le_refl _) h)

/-- Witness for C26: the units `é`, the pair `D83D DE00`, `%`. -/
theorem uri_component_roundtrip_paired_witness :
    codeUnitsPaired [0xE9, 0xD83D, 0xDE00, 0x25] ∧
    encodeUnits [0xE9, 0xD83D, 0xDE00, 0x25]
      = [0xC3, 0xA9, 0xED, 0xA0, 0xBD, 0xED, 0xB8, 0x80, 0x25] ∧
    duk_bi_global_object_decode_uri_component
        (uriEncodeUnits duk__encode_uricomponent_unescaped_table [0xE9, 0xD83D, 0xDE00, 0x25])
      = some (.ok (encodeUnits [0xE9, 0xD83D, 0xDE00, 0x25])) :=
  ⟨by decide, by decide,
   (uri_component_roundtrip_paired [0xE9, 0xD83D, 0xDE00, 0x25] (by decide)).2⟩

theorem uri_tables_compatible :
    DUK__CHECK_BITMASK duk__encode_uriunescaped_table 0x25 = false ∧
    ∀ c, c < 0x80 → DUK__CHECK_BITMASK duk__encode_uriunescaped_table c = false →
      DUK__CHECK_BITMASK duk__decode_uri_reserved_table c = false := by
  refine ⟨by decide, ?_⟩
  intro c hc h
  interval_cases c <;> first | rfl | exact absurd h (by decide)

/-- C28: for every string `s` that is the shortest-form encoding of a sequence
of 16-bit code units with properly paired surrogates, `encodeURI s` succeeds
and `decodeURI` of its output returns `s`; every ASCII character that
`encodeURI` leaves unescaped (the reserved set and `#` included) is returned
unchanged by `decodeURI`, and `%` is encoded as `%25` and decoded back to `%`. -/
theorem decode_uri_encode_uri_roundtrip (us : List Nat) (hwp : wellPaired us = true) :
    duk_bi_global_object_encode_uri (encodeUnits us)
      = some (.ok (uriEncodeUnits duk__encode_uriunescaped_table us)) ∧
    duk_bi_global_object_decode_uri (uriEncodeUnits duk__encode_uriunescaped_table us)
      = some (.ok (encodeUnits us)) ∧
    (∀ c, c < 0x80 → (uriReserved c || uriUnescaped c || c == 0x23) = true →
      duk_bi_global_object_encode_uri [c] = some (.ok [c]) ∧
      duk_bi_global_object_decode_uri [c] = some (.ok [c])) ∧
    duk_bi_global_object_encode_uri [0x25] = some (.ok [0x25, 0x32, 0x35]) ∧
    duk_bi_global_object_decode_uri [0x25, 0x32, 0x35] = some (.ok [0x25]) := by
  refine ⟨(uri_roundtrip_units _ _ uri_tables_compatible.1 uri_tables_compatible.2 us hwp).1,
    (uri_roundtrip_units _ _ uri_tables_compatible.1 uri_tables_compatible.2 us hwp).2,
    ?_, by decide, by decide⟩
  intro c hc h
  interval_cases c <;> first | exact ⟨rfl, rfl⟩ | exact absurd h (by decide)

/-- Witness for C28: the string `a/b#%` followed by U+20AC and the pair `D83D DE00`. -/
theorem decode_uri_encode_uri_roundtrip_witness :
    wellPaired [0x61, 0x2F, 0x62, 0x23, 0x25, 0x20AC, 0xD83D, 0xDE00] = true ∧
    duk_bi_global_object_encode_uri
        (encodeUnits [0x61, 0x2F, 0x62, 0x23, 0x25, 0x20AC, 0xD83D, 0xDE00])
      = some (.ok [0x61, 0x2F, 0x62, 0x23, 0x25, 0x32, 0x35, 0x25, 0x45, 0x32, 0x25, 0x38,
          0x32, 0x25, 0x41, 0x43, 0x25, 0x46, 0x30, 0x25, 0x39, 0x46, 0x25, 0x39, 0x38,
          0x25, 0x38, 0x30]) ∧
    duk_bi_global_object_decode_uri
        (uriEncodeUnits duk__encode_uriunescaped_table
          [0x61, 0x2F, 0x62, 0x23, 0x25, 0x20AC, 0xD83D, 0xDE00])
      = some (.ok (encodeUnits [0x61, 0x2F, 0x62, 0x23, 0x25, 0x20AC, 0xD83D, 0xDE00])) :=
  ⟨by decide, by decide,
   (decode_uri_encode_uri_roundtrip [0x61, 0x2F, 0x62, 0x23, 0x25, 0x20AC, 0xD83D, 0xDE00]
      (by decide)).2.1⟩

/-! ### Module id resolution is idempotent (C30) -/

/-- A returned id is not longer than the resolution input, which fits the limit. -/
theorem resolve_ok_length (limit : Nat) (r : List Nat) (m : Option (List Nat)) (x : List Nat)
    (h : duk__bi_global_resolve_module_id limit r m = some (.ok x)) : x.length + 1 < limit := by
  rw [resolve_module_id_eq_buf_in] at h
  cases hin : resolve_buf_in limit r m with
  | error e => rw [hin] at h; cases h
  | ok buf_in =>
      rw [hin] at h
      simp only at h
      obtain ⟨hnul, hlen⟩ := resolve_buf_in_ok limit r m buf_in hin
      have hinit : resolve_bounded buf_in.length limit
          (.running .top { p := 0, q := 0, buf_out := List.replicate limit 0 }) := by
        simp only [resolve_bounded]
        exact ⟨by omega, by omega, by omega, List.length_replicate _ _⟩
      obtain ⟨k, res, hr, hk⟩ := resolve_sim buf_in hnul (buf_in.length + 1) 0 0
        (List.replicate limit 0) (by omega) (by omega) (Nat.le_refl _)
        (by simp only [List.length_replicate]; omega)
      simp only [List.drop_zero, List.take_zero, List.reverse_nil, Nat.cast_zero] at hr hk
      rw [h] at hr
      cases hr
      have := resolve_run_bounded buf_in limit hlen k _ hinit
      rw [hk] at this
      have hx : x.length ≤ buf_in.length := this
      omega

theorem resolveTerms_ordinary (terms : List (List Nat)) :
    ∀ st : List (List Nat), (∀ t ∈ terms, ordinaryTerm t) →
    resolveTerms terms st = some (terms.reverse ++ st) := by
  induction terms with
  | nil => intro st _; rfl
  | cons t ts ih =>
      intro st h
      obtain ⟨hd1, hd2⟩ := ordinaryTerm_ne_dots t (h t (by simp))
      simp only [resolveTerms, if_neg hd1, if_neg hd2]
      rw [ih (t :: st) (fun s hs => h s (by simp [hs]))]
      simp

/-- C30: for every id `x` returned by a successful resolution (of any requested
id `r` against any current module id `m`, or none), resolving `x` again as the
requested id, with any current module id `m2` or none, succeeds and returns `x`. -/
theorem resolve_module_id_idempotent (limit : Nat) (r : List Nat) (m m2 : Option (List Nat))
    (x : List Nat) (h : duk__bi_global_resolve_module_id limit r m = some (.ok x)) :
    duk__bi_global_resolve_module_id limit x m2 = some (.ok x) := by
  have hlen := resolve_ok_length limit r m x h
  obtain ⟨terms, hne, hord, rfl⟩ := resolve_module_id_ok_terms limit r m _ h
  obtain ⟨_, _, hdot, _, _⟩ := joinTerms_canonical terms hne hord
  have hv : ∀ t ∈ terms, validTerm t := fun t ht => Or.inr (Or.inr (hord t ht))
  have hnone : duk__bi_global_resolve_module_id limit (joinTerms terms) none
      = some (.ok (joinTerms terms)) := by
    rw [resolve_module_id_none limit _ (joinTerms_no_nul terms hv), if_neg (by omega)]
    have hlast : ∃ l, terms.getLast? = some l ∧ ordinaryTerm l := by
      refine ⟨terms.getLast hne, List.getLast?_eq_getLast _ hne, hord _ (List.getLast_mem hne)⟩
    have hl := resolve_loop_terms terms [] ((joinTerms terms).length + 1) hv hlast (by simp)
      (by omega)
    rw [resolveTerms_ordinary terms [] hord] at hl
    simpa [qOfStack] using hl
  cases m2 with
  | none => exact hnone
  | some m' =>
      rw [resolve_module_id_some_abs limit _ m' ?_]
      · exact hnone
      · intro hc
        apply hdot
        cases hj : joinTerms terms with
        | nil => rw [hj] at hc; simp [rdByte] at hc
        | cons a l =>
            rw [hj] at hc
            simp only [rdByte_cons_zero] at hc
            rw [hc]
            rfl

/-- Witness for C30: `../c/./d` required from `a/b` resolves to `c/d`, and
`c/d` required from `a/b` resolves to `c/d` again. -/
theorem resolve_module_id_idempotent_witness :
    duk__bi_global_resolve_module_id 256 [0x2e, 0x2e, 0x2f, 0x63, 0x2f, 0x2e, 0x2f, 0x64]
        (some [0x61, 0x2f, 0x62]) = some (.ok [0x63, 0x2f, 0x64]) ∧
    duk__bi_global_resolve_module_id 256 [0x63, 0x2f, 0x64] (some [0x61, 0x2f, 0x62])
      = some (.ok [0x63, 0x2f, 0x64]) :=
  ⟨by decide,
   resolve_module_id_idempotent 256 [0x2e, 0x2e, 0x2f, 0x63, 0x2f, 0x2e, 0x2f, 0x64]
     (some [0x61, 0x2f, 0x62]) (some [0x61, 0x2f, 0x62]) [0x63, 0x2f, 0x64] (by decide)⟩

/-! ### The three regions of a compiled function's data buffer (C22) -/

theorem ptrdiff_to_size_of_le (w e b : Nat) (h : b ≤ e) (hw : e - b < 2 ^ w) :
    ptrdiff_to_size w e b = e - b := by
  unfold ptrdiff_to_size
  have e1 : ((e : Int) - (b : Int)) = ((e - b : Nat) : Int) := by omega
  rw [e1]
  have e2 : (((e - b : Nat) : Int) % 2 ^ w) = ((e - b : Nat) : Int) := by
    have : ((2 : Int) ^ w) = (((2 : Nat) ^ w : Nat) : Int) := by push_cast; rfl
    rw [this, ← Int.ofNat_emod, Nat.mod_eq_of_lt hw]
  rw [e2, Int.toNat_ofNat]

/-- C22: for every compiled function whose mid-pointers satisfy
`base ≤ funcs ≤ bytecode ≤ base + size` (the size fitting `duk_size_t`), the
accessor macros describe three adjacent regions that partition the data
buffer: constants start at the buffer base and end where the inner-function
region starts, which ends where the bytecode region starts, which ends at the
end of the buffer; every address of the buffer lies in exactly one region, and
`CONSTS_SIZE + FUNCS_SIZE + CODE_SIZE` is the buffer size. -/
theorem compiledfunction_regions_partition (w : Nat) (h : duk_hcompiledfunction)
    (h1 : h.data.data_ptr ≤ h.funcs) (h2 : h.funcs ≤ h.bytecode)
    (h3 : h.bytecode ≤ h.data.data_ptr + h.data.size) (hw : h.data.size < 2 ^ w) :
    DUK_HCOMPILEDFUNCTION_GET_CONSTS_BASE h = h.data.data_ptr ∧
    DUK_HCOMPILEDFUNCTION_GET_CONSTS_END h = DUK_HCOMPILEDFUNCTION_GET_FUNCS_BASE h ∧
    DUK_HCOMPILEDFUNCTION_GET_FUNCS_END h = DUK_HCOMPILEDFUNCTION_GET_CODE_BASE h ∧
    DUK_HCOMPILEDFUNCTION_GET_CODE_END h = h.data.data_ptr + h.data.size ∧
    DUK_HCOMPILEDFUNCTION_GET_CONSTS_SIZE w h + DUK_HCOMPILEDFUNCTION_GET_FUNCS_SIZE w h
      + DUK_HCOMPILEDFUNCTION_GET_CODE_SIZE w h = h.data.size ∧
    DUK_HCOMPILEDFUNCTION_GET_CONSTS_BASE h + DUK_HCOMPILEDFUNCTION_GET_CONSTS_SIZE w h
      = DUK_HCOMPILEDFUNCTION_GET_CONSTS_END h ∧
    DUK_HCOMPILEDFUNCTION_GET_FUNCS_BASE h + DUK_HCOMPILEDFUNCTION_GET_FUNCS_SIZE w h
      = DUK_HCOMPILEDFUNCTION_GET_FUNCS_END h ∧
    DUK_HCOMPILEDFUNCTION_GET_CODE_BASE h + DUK_HCOMPILEDFUNCTION_GET_CODE_SIZE w h
      = DUK_HCOMPILEDFUNCTION_GET_CODE_END h ∧
    ∀ a : Nat, (h.data.data_ptr ≤ a ∧ a < h.data.data_ptr + h.data.size) ↔
      ((DUK_HCOMPILEDFUNCTION_GET_CONSTS_BASE h ≤ a ∧ a < DUK_HCOMPILEDFUNCTION_GET_CONSTS_END h) ∧
        ¬ (DUK_HCOMPILEDFUNCTION_GET_FUNCS_BASE h ≤ a ∧ a < DUK_HCOMPILEDFUNCTION_GET_FUNCS_END h) ∧
        ¬ (DUK_HCOMPILEDFUNCTION_GET_CODE_BASE h ≤ a ∧ a < DUK_HCOMPILEDFUNCTION_GET_CODE_END h)) ∨
      (¬ (DUK_HCOMPILEDFUNCTION_GET_CONSTS_BASE h ≤ a ∧ a < DUK_HCOMPILEDFUNCTION_GET_CONSTS_END h) ∧
        (DUK_HCOMPILEDFUNCTION_GET_FUNCS_BASE h ≤ a ∧ a < DUK_HCOMPILEDFUNCTION_GET_FUNCS_END h) ∧
        ¬ (DUK_HCOMPILEDFUNCTION_GET_CODE_BASE h ≤ a ∧ a < DUK_HCOMPILEDFUNCTION_GET_CODE_END h)) ∨
      (¬ (DUK_HCOMPILEDFUNCTION_GET_CONSTS_BASE h ≤ a ∧ a < DUK_HCOMPILEDFUNCTION_GET_CONSTS_END h) ∧
        ¬ (DUK_HCOMPILEDFUNCTION_GET_FUNCS_BASE h ≤ a ∧ a < DUK_HCOMPILEDFUNCTION_GET_FUNCS_END h) ∧
        (DUK_HCOMPILEDFUNCTION_GET_CODE_BASE h ≤ a ∧ a < DUK_HCOMPILEDFUNCTION_GET_CODE_END h)) := by
  have s1 : DUK_HCOMPILEDFUNCTION_GET_CONSTS_SIZE w h = h.funcs - h.data.data_ptr :=
    ptrdiff_to_size_of_le w h.funcs h.data.data_ptr h1 (by omega)
  have s2 : DUK_HCOMPILEDFUNCTION_GET_FUNCS_SIZE w h = h.bytecode - h.funcs :=
    ptrdiff_to_size_of_le w h.bytecode h.funcs h2 (by omega)
  have s3 : DUK_HCOMPILEDFUNCTION_GET_CODE_SIZE w h
      = h.data.data_ptr + h.data.size - h.bytecode :=
    ptrdiff_to_size_of_le w (h.data.data_ptr + h.data.size) h.bytecode h3 (by omega)
  rw [s1, s2, s3]
  simp only [DUK_HCOMPILEDFUNCTION_GET_CONSTS_BASE, DUK_HCOMPILEDFUNCTION_GET_BUFFER_BASE,
    DUK_HCOMPILEDFUNCTION_GET_CONSTS_END, DUK_HCOMPILEDFUNCTION_GET_FUNCS_BASE,
    DUK_HCOMPILEDFUNCTION_GET_FUNCS_END, DUK_HCOMPILEDFUNCTION_GET_CODE_BASE,
    DUK_HCOMPILEDFUNCTION_GET_CODE_END, DUK_HCOMPILEDFUNCTION_GET_DATA,
    DUK_HCOMPILEDFUNCTION_GET_FUNCS, DUK_HCOMPILEDFUNCTION_GET_BYTECODE,
    DUK_HBUFFER_FIXED_GET_DATA_PTR, DUK_HBUFFER_GET_SIZE]
  refine ⟨True.intro, True.intro, True.intro, True.intro, by omega, by omega, by omega,
    by omega, ?_⟩
  intro a
  omega

/-- Witness for C22: a buffer of 64 bytes at address 1000 with 24 bytes of
constants, 8 bytes of inner functions and 32 bytes of bytecode. -/
theorem compiledfunction_regions_partition_witness :
    DUK_HCOMPILEDFUNCTION_GET_CONSTS_SIZE 32
        { data := { data_ptr := 1000, size := 64 }, funcs := 1024, bytecode := 1032 }
      + DUK_HCOMPILEDFUNCTION_GET_FUNCS_SIZE 32
        { data := { data_ptr := 1000, size := 64 }, funcs := 1024, bytecode := 1032 }
      + DUK_HCOMPILEDFUNCTION_GET_CODE_SIZE 32
        { data := { data_ptr := 1000, size := 64 }, funcs := 1024, bytecode := 1032 }
      = 64 :=
  (compiledfunction_regions_partition 32
    { data := { data_ptr := 1000, size := 64 }, funcs := 1024, bytecode := 1032 }
    (by decide) (by decide) (by decide) (by decide)).2.2.2.2.1

/-! ### The command-line tool: unknown options (C23) -/

theorem head_dash_iff (a : List Nat) :
    a.head? = some 0x2d ↔ (a.length ≥ 1 ∧ rdByte a 0 = 0x2d) := by
  cases a with
  | nil => simp [rdByte]
  | cons c l => simp [rdByte_cons_zero]

theorem parse_options_cons (arg : List Nat) (rest : List (List Nat)) (o : cmdline_options) :
    parse_options (arg :: rest) o =
      if arg = OPT_RESTRICT_MEMORY then parse_options rest { o with memlimit_high := false }
      else if arg = OPT_I then parse_options rest { o with interactive := true }
      else if arg = OPT_E then
        match rest with
        | [] => none
        | _ :: rest' => parse_options rest' { o with have_eval := true }
      else if arg = OPT_ALLOC_DEFAULT then
        parse_options rest { o with alloc_provider := ALLOC_DEFAULT }
      else if arg = OPT_ALLOC_LOGGING then
        parse_options rest { o with alloc_provider := ALLOC_LOGGING }
      else if arg = OPT_ALLOC_TORTURE then
        parse_options rest { o with alloc_provider := ALLOC_TORTURE }
      else if arg = OPT_ALLOC_HYBRID then
        parse_options rest { o with alloc_provider := ALLOC_HYBRID }
      else if arg = OPT_ALLOC_AJSHEAP then
        parse_options rest { o with alloc_provider := ALLOC_AJSHEAP }
      else if arg.length ≥ 1 ∧ rdByte arg 0 = 0x2d then none
      else parse_options rest { o with have_files := true } := by
  cases rest <;> simp only [parse_options]

theorem optionPositions_cons (arg : List Nat) (rest : List (List Nat)) :
    optionPositions (arg :: rest) =
      if arg = OPT_E then
        match rest with
        | [] => [arg]
        | _ :: rest' => arg :: optionPositions rest'
      else arg :: optionPositions rest := by
  cases rest <;> simp only [optionPositions]

/-- An argument in option position that begins with `-` and is not a known
option sends the option loop to `usage`. -/
theorem parse_options_unknown (n : Nat) :
    ∀ (args : List (List Nat)) (o : cmdline_options), args.length ≤ n →
    (∃ a ∈ optionPositions args, a.head? = some 0x2d ∧ a ∉ knownOptions) →
    parse_options args o = none := by
  induction n with
  | zero =>
      intro args o hn h
      have : args = [] := List.eq_nil_of_length_eq_zero (by omega)
      subst this
      obtain ⟨a, ha, _⟩ := h
      simp [optionPositions] at ha
  | succ n ih =>
      intro args o hn h
      cases args with
      | nil =>
          obtain ⟨a, ha, _⟩ := h
          simp [optionPositions] at ha
      | cons arg rest =>
          obtain ⟨a, ha, hdash, hunk⟩ := h
          simp only [List.length_cons] at hn
          rw [parse_options_cons]
          by_cases hE : arg = OPT_E
          · have c1 : arg ≠ OPT_RESTRICT_MEMORY := by rw [hE]; decide
            have c2 : arg ≠ OPT_I := by rw [hE]; decide
            rw [if_neg c1, if_neg c2, if_pos hE]
            rw [optionPositions_cons, if_pos hE] at ha
            cases rest with
            | nil => rfl
            | cons code rest' =>
                simp only [List.mem_cons] at ha
                rcases ha with rfl | ha
                · exfalso; apply hunk; rw [hE]; decide
                · exact ih rest' _ (by simp only [List.length_cons] at hn; omega)
                    ⟨a, ha, hdash, hunk⟩
          · rw [optionPositions_cons, if_neg hE] at ha
            have hrest : ∀ o', a ∈ optionPositions rest → parse_options rest o' = none :=
              fun o' ha' => ih rest o' (by omega) ⟨a, ha', hdash, hunk⟩
            simp only [List.mem_cons] at ha
            rcases ha with rfl | ha
            · have hk : a ∉ knownOptions := hunk
              simp only [knownOptions, List.mem_cons, List.mem_singleton, List.not_mem_nil,
                or_false, not_or] at hk
              obtain ⟨k1, k2, k3, k4, k5, k6, k7, k8⟩ := hk
              simp only [if_neg k1, if_neg k2, if_neg k3, if_neg k4, if_neg k5, if_neg k6,
                if_neg k7, if_neg k8]
              rw [if_pos ((head_dash_iff a).mp hdash)]
            · split_ifs
              all_goals first | rfl | exact hrest _ ha

/-- C23: for every argument vector in which some argument in option position
(not the `CODE` operand of a preceding `-e`) begins with `-` and is not one of
the eight known options, whatever the environment, `main` prints usage and
exits with status 1, and does nothing else: no heap is created and no file or
code is executed. -/
theorem main_unknown_option_usage {ctx : Type} (env : cmdline_env ctx) (ajsheap : Bool)
    (argv0 : List Nat) (args : List (List Nat))
    (h : ∃ a ∈ optionPositions args, a.head? = some 0x2d ∧ a ∉ knownOptions) :
    main env ajsheap (argv0 :: args) = (1, [.print_usage]) := by
  unfold main
  simp only [List.tail_cons]
  rw [parse_options_unknown args.length args _ (Nat.le_refl _) h]

/-- Witness for C23: `duk -e -x --bogus file.js`; the `-x` after `-e` is code,
`--bogus` is an unknown option. The environment would succeed at everything. -/
theorem main_unknown_option_usage_witness :
    main { duk_create_heap := fun _ => some (), handle_eval := fun c _ => (0, c),
           handle_file := fun c _ => (0, c), handle_interactive := fun c => (0, c) }
      false
      ([0x64, 0x75, 0x6b] ::
        [OPT_E, [0x2d, 0x78], [0x2d, 0x2d, 0x62, 0x6f, 0x67, 0x75, 0x73], [0x66, 0x2e, 0x6a, 0x73]])
      = (1, [.print_usage]) :=
  main_unknown_option_usage _ false [0x64, 0x75, 0x6b]
    [OPT_E, [0x2d, 0x78], [0x2d, 0x2d, 0x62, 0x6f, 0x67, 0x75, 0x73], [0x66, 0x2e, 0x6a, 0x73]]
    ⟨[0x2d, 0x2d, 0x62, 0x6f, 0x67, 0x75, 0x73], by decide, by decide, by decide⟩

/-! ### The command-line tool: when interactive mode is entered (C24) -/

theorem run_arguments_cons {ctx : Type} (env : cmdline_env ctx) (arg : List Nat)
    (rest : List (List Nat)) (c : ctx) (tr : List cmdline_event) :
    run_arguments env (arg :: rest) c tr =
      if arg.length = 2 ∧ arg = OPT_E then
        match rest with
        | [] => (1, c, tr)
        | code :: rest' =>
            let r := env.handle_eval c code
            if r.1 ≠ 0 then (1, r.2, tr ++ [.handle_eval code])
            else run_arguments env rest' r.2 (tr ++ [.handle_eval code])
      else if arg.length ≥ 1 ∧ rdByte arg 0 = 0x2d then run_arguments env rest c tr
      else
        let r := env.handle_file c arg
        if r.1 ≠ 0 then (1, r.2, tr ++ [.handle_file arg])
        else run_arguments env rest r.2 (tr ++ [.handle_file arg]) := by
  cases rest <;> simp only [run_arguments]

theorem run_arguments_skip_option {ctx : Type} (env : cmdline_env ctx) (arg : List Nat)
    (rest : List (List Nat)) (c : ctx) (tr : List cmdline_event) (hne : arg ≠ OPT_E)
    (hd : arg.length ≥ 1 ∧ rdByte arg 0 = 0x2d) :
    run_arguments env (arg :: rest) c tr = run_arguments env rest c tr := by
  rw [run_arguments_cons, if_neg (fun hh => hne hh.2), if_pos hd]

/-- The option loop never clears `have_files` or `have_eval`. -/
theorem parse_options_flags_mono (n : Nat) :
    ∀ (args : List (List Nat)) (o o' : cmdline_options), args.length ≤ n →
    parse_options args o = some o' →
    (o.have_files = true → o'.have_files = true) ∧
    (o.have_eval = true → o'.have_eval = true) := by
  induction n with
  | zero =>
      intro args o o' hn h
      have : args = [] := List.eq_nil_of_length_eq_zero (by omega)
      subst this
      simp only [parse_options, Option.some.injEq] at h
      subst h
      exact ⟨id, id⟩
  | succ n ih =>
      intro args o o' hn h
      cases args with
      | nil =>
          simp only [parse_options, Option.some.injEq] at h
          subst h
          exact ⟨id, id⟩
      | cons arg rest =>
          simp only [List.length_cons] at hn
          rw [parse_options_cons] at h
          have step : ∀ o1 : cmdline_options, parse_options rest o1 = some o' →
              (o.have_files = true → o1.have_files = true) →
              (o.have_eval = true → o1.have_eval = true) →
              (o.have_files = true → o'.have_files = true) ∧
              (o.have_eval = true → o'.have_eval = true) := by
            intro o1 h1 hf he
            have := ih rest o1 o' (by omega) h1
            exact ⟨fun x => this.1 (hf x), fun x => this.2 (he x)⟩
          split_ifs at h
          · exact step _ h id id
          · exact step _ h id id
          · cases rest with
            | nil => cases h
            | cons code rest' =>
                have := ih rest' _ o' (by simp only [List.length_cons] at hn; omega) h
                exact ⟨fun x => this.1 x, fun _ => this.2 rfl⟩
          · exact step _ h id id
          · exact step _ h id id
          · exact step _ h id id
          · exact step _ h id id
          · exact step _ h id id
          · exact step _ h (fun _ => rfl) id

/-- When the option loop accepts the arguments and finds neither a file nor
`-e`, the loop that executes the arguments does nothing. -/
theorem run_arguments_no_file_no_eval {ctx : Type} (env : cmdline_env ctx) (n : Nat) :
    ∀ (args : List (List Nat)) (o o' : cmdline_options) (c : ctx) (tr : List cmdline_event),
    args.length ≤ n → parse_options args o = some o' → o'.have_files = false →
    o'.have_eval = false → run_arguments env args c tr = (0, c, tr) := by
  induction n with
  | zero =>
      intro args o o' c tr hn _ _ _
      have : args = [] := List.eq_nil_of_length_eq_zero (by omega)
      subst this
      rfl
  | succ n ih =>
      intro args o o' c tr hn h hf he
      cases args with
      | nil => rfl
      | cons arg rest =>
          simp only [List.length_cons] at hn
          rw [parse_options_cons] at h
          have known : ∀ o1 : cmdline_options, parse_options rest o1 = some o' →
              arg ≠ OPT_E → (arg.length ≥ 1 ∧ rdByte arg 0 = 0x2d) →
              run_arguments env (arg :: rest) c tr = (0, c, tr) := by
            intro o1 h1 hne hd
            rw [run_arguments_skip_option env arg rest c tr hne hd]
            exact ih rest o1 o' c tr (by omega) h1 hf he
          split_ifs at h with k1 k2 k3 k4 k5 k6 k7 k8 k9
          · exact known _ h (by rw [k1]; decide) (by rw [k1]; decide)
          · exact known _ h (by rw [k2]; decide) (by rw [k2]; decide)
          · cases rest with
            | nil => cases h
            | cons code rest' =>
                have := (parse_options_flags_mono rest'.length rest' _ o' (Nat.le_refl _) h).2 rfl
                rw [he] at this
                cases this
          · exact known _ h (by rw [k4]; decide) (by rw [k4]; decide)
          · exact known _ h (by rw [k5]; decide) (by rw [k5]; decide)
          · exact known _ h (by rw [k6]; decide) (by rw [k6]; decide)
          · exact known _ h (by rw [k7]; decide) (by rw [k7]; decide)
          · exact known _ h (by rw [k8]; decide) (by rw [k8]; decide)
          · have := (parse_options_flags_mono rest.length rest _ o' (Nat.le_refl _) h).1 rfl
            rw [hf] at this
            cases this

/-- C24 (as stated) fails: `duk -e 1` is accepted and names no file, and with a
heap and an evaluation that succeed the tool evaluates the code and exits with
status 0 without entering interactive mode. -/
theorem main_eval_without_file_not_interactive :
    parse_options [OPT_E, [0x31]]
        { have_files := false, have_eval := false, interactive := false,
          memlimit_high := true, alloc_provider := ALLOC_DEFAULT }
      = some { have_files := false, have_eval := true, interactive := false,
               memlimit_high := true, alloc_provider := ALLOC_DEFAULT } ∧
    main { duk_create_heap := fun _ => some (), handle_eval := fun c _ => (0, c),
           handle_file := fun c _ => (0, c), handle_interactive := fun c => (0, c) }
      false [[0x64, 0x75, 0x6b], OPT_E, [0x31]]
      = (0, [.memory_limit true, .create_heap ALLOC_DEFAULT, .handle_eval [0x31],
             .destroy_heap]) := by
  decide

/-- For every command line that the option loop accepts and in which it finds
neither a file name nor `-e`, if the heap is created then `main` enters
interactive mode: it runs no file and no code, calls `handle_interactive` on
the new context, destroys the heap, and exits with status 0, or 1 when
`handle_interactive` fails. -/
theorem main_interactive_without_file_and_eval {ctx : Type} (env : cmdline_env ctx)
    (ajsheap : Bool) (argv0 : List Nat) (args : List (List Nat)) (o : cmdline_options) (c : ctx)
    (hacc : parse_options args
        { have_files := false, have_eval := false, interactive := false, memlimit_high := true,
          alloc_provider := if ajsheap then ALLOC_AJSHEAP else ALLOC_DEFAULT } = some o)
    (hf : o.have_files = false) (he : o.have_eval = false)
    (hheap : env.duk_create_heap o.alloc_provider = some c) :
    main env ajsheap (argv0 :: args)
      = (if (env.handle_interactive c).1 ≠ 0 then 1 else 0,
         [.memory_limit o.memlimit_high, .create_heap o.alloc_provider, .handle_interactive,
          .destroy_heap]) := by
  unfold main
  simp only [List.tail_cons, hacc, hheap, hf, he]
  rw [run_arguments_no_file_no_eval env args.length args _ o c _ (Nat.le_refl _) hacc hf he]
  simp only [ne_eq, not_true_eq_false, if_false, Bool.false_eq_true, not_false_eq_true,
    and_self, if_true, List.cons_append, List.nil_append]
  split_ifs <;> rfl

/-! ### `unescape (escape s)` (C29) -/

theorem shr_4 (x : Nat) : x >>> 4 = x / 16 := Nat.shiftRight_eq_div_pow x 4
theorem shr_8 (x : Nat) : x >>> 8 = x / 256 := Nat.shiftRight_eq_div_pow x 8

theorem callback_escape_shift (pre : List Nat) (c : duk__transform_context)
    (udata : List Nat) (cp : Int) :
    duk__transform_callback_escape (shiftCtx pre c) udata cp
      = (duk__transform_callback_escape c udata cp).map (shiftCtx pre) := by
  unfold duk__transform_callback_escape
  split_ifs <;> rfl

theorem callback_unescape_shift (pre : List Nat) (c : duk__transform_context)
    (udata : List Nat) (cp : Int) :
    duk__transform_callback_unescape (shiftCtx pre c) udata cp
      = (duk__transform_callback_unescape c udata cp).map (shiftCtx pre) := by
  have hleft : (pre ++ c.h_str).length - (pre.length + c.p) = c.h_str.length - c.p := by
    simp only [List.length_append]; omega
  unfold duk__transform_callback_unescape
  simp only [shiftCtx, duk__transform_context.p_end, hleft, rdByte_append_right]
  rw [Nat.add_assoc, decode_hex_escape_shift, decode_hex_escape_shift]
  split_ifs <;>
    simp only [Except.map, duk_hbuffer_append_xutf8, Nat.add_assoc, shiftCtx]

theorem transform_loop_escape_shift (pre : List Nat) (fuel : Nat)
    (c : duk__transform_context) :
    duk__transform_loop duk__transform_callback_escape [] fuel (shiftCtx pre c)
      = (duk__transform_loop duk__transform_callback_escape [] fuel c).map
          (Except.map (shiftCtx pre)) :=
  transform_loop_shift _ _ (fun pre c cp _ => callback_escape_shift pre c [] cp) pre fuel c

theorem transform_loop_unescape_shift (pre : List Nat) (fuel : Nat)
    (c : duk__transform_context) :
    duk__transform_loop duk__transform_callback_unescape [] fuel (shiftCtx pre c)
      = (duk__transform_loop duk__transform_callback_unescape [] fuel c).map
          (Except.map (shiftCtx pre)) :=
  transform_loop_shift _ _ (fun pre c cp _ => callback_unescape_shift pre c [] cp) pre fuel c

/-- One round of `escape` on a code point below `0x10000`. -/
theorem esc_step (out rest : List Nat) (u : Nat) (hu : u < 0x10000) :
    transform_step duk__transform_callback_escape []
        { h_str := (duk_unicode_encode_xutf8 u).2 ++ rest, h_buf := out, p := 0 }
      = .ok { h_str := (duk_unicode_encode_xutf8 u).2 ++ rest,
              h_buf := out ++ escapeChunk u,
              p := (duk_unicode_encode_xutf8 u).2.length } := by
  unfold transform_step
  simp only [duk__transform_context.p_start, duk__transform_context.p_end]
  rw [decode_checked_encode_xutf8 u (by omega) rest]
  simp only []
  rw [toCodepoint_of_lt u (by omega)]
  unfold duk__transform_callback_escape escapeChunk
  rw [if_neg (by omega)]
  simp only [Int.toNat_ofNat, shr_4, shr_8, shr_12, and_0x0f]
  by_cases h1 : u < 0x80 ∧ DUK__CHECK_BITMASK duk__escape_unescaped_table u = true
  · have h1' : (u : Int) < 0x80 ∧ DUK__CHECK_BITMASK duk__escape_unescaped_table u = true :=
      ⟨by omega, h1.2⟩
    rw [if_pos h1', if_pos h1]
    simp only [duk_hbuffer_append_bytes]
    rw [Nat.mod_eq_of_lt (by omega)]
  · have h1' : ¬ ((u : Int) < 0x80 ∧
        DUK__CHECK_BITMASK duk__escape_unescaped_table u = true) := by
      intro h; exact h1 ⟨by omega, h.2⟩
    rw [if_neg h1', if_neg h1]
    by_cases h2 : u < 0x100
    · rw [if_pos (by omega), if_pos h2]
      rfl
    · rw [if_neg (by omega), if_pos (by omega), if_neg h2]
      rfl

theorem nybble_ne_u (n : Nat) : rdByte duk_uc_nybbles n ≠ 0x75 := by
  by_cases h : n < 16
  · interval_cases n <;> decide
  · have : rdByte duk_uc_nybbles n = 0 := by
      unfold rdByte
      rw [List.getD_eq_default]
      simp [duk_uc_nybbles]; omega
    omega

theorem hex_escape4_at (a b k3 k2 k1 k0 : Nat) (rest : List Nat)
    (h3 : k3 < 16) (h2 : k2 < 16) (h1 : k1 < 16) (h0 : k0 < 16) :
    duk__decode_hex_escape
        (a :: b :: rdByte duk_uc_nybbles k3 :: rdByte duk_uc_nybbles k2 ::
          rdByte duk_uc_nybbles k1 :: rdByte duk_uc_nybbles k0 :: rest) 2 4
      = (((k3 * 16 + k2) * 16 + k1) * 16 + k0 : Nat) := by
  simp only [duk__decode_hex_escape, duk__decode_hex_escape_loop, rdByte_cons_succ,
    rdByte_cons_zero]
  rw [hex_dectab_nybble _ h3, hex_dectab_nybble _ h2, hex_dectab_nybble _ h1,
    hex_dectab_nybble _ h0]
  rw [if_pos (by omega), if_pos (by omega), if_pos (by omega), if_pos (by omega)]
  omega

theorem hex_escape2_at (a k1 k0 : Nat) (rest : List Nat) (h1 : k1 < 16) (h0 : k0 < 16) :
    duk__decode_hex_escape
        (a :: rdByte duk_uc_nybbles k1 :: rdByte duk_uc_nybbles k0 :: rest) 1 2
      = ((k1 * 16 + k0 : Nat) : Int) := by
  simp only [duk__decode_hex_escape, duk__decode_hex_escape_loop, rdByte_cons_succ,
    rdByte_cons_zero]
  rw [hex_dectab_nybble _ h1, hex_dectab_nybble _ h0]
  rw [if_pos (by omega), if_pos (by omega)]
  omega

/-- One round of `unescape` on what `escape` wrote for a code point. -/
theorem unesc_step (out rest : List Nat) (u : Nat) (hu : u < 0x10000) :
    transform_step duk__transform_callback_unescape []
        { h_str := escapeChunk u ++ rest, h_buf := out, p := 0 }
      = .ok { h_str := escapeChunk u ++ rest,
              h_buf := out ++ (duk_unicode_encode_xutf8 u).2,
              p := (escapeChunk u).length } := by
  unfold escapeChunk
  by_cases h1 : u < 0x80 ∧ DUK__CHECK_BITMASK duk__escape_unescaped_table u = true
  · rw [if_pos h1]
    have hne : u ≠ 0x25 := by
      rintro rfl
      have := h1.2
      revert this
      decide
    unfold transform_step duk_unicode_decode_xutf8_checked
    simp only [duk__transform_context.p_start, duk__transform_context.p_end,
      List.singleton_append]
    rw [decode_xutf8_n0 _ _ _ (by simp [rdByte_cons_zero])
      (by simp only [rdByte_cons_zero]; omega) (by simp only [List.length_cons]; omega)]
    simp only [decode_xutf8_loop, rdByte_cons_zero, Nat.zero_add]
    rw [Nat.mod_eq_of_lt h1.1, toCodepoint_of_lt u (by omega)]
    unfold duk__transform_callback_unescape
    rw [if_neg (by omega)]
    simp only [duk_hbuffer_append_xutf8, toUcodepoint_natCast u (by omega),
      encode_xutf8_1 u h1.1, List.length_singleton]
  · rw [if_neg h1]
    by_cases h2 : u < 0x100
    · rw [if_pos h2]
      unfold transform_step
      simp only [List.cons_append, List.nil_append, duk__transform_context.p_start,
        duk__transform_context.p_end]
      rw [decode_checked_pct]
      simp only [toCodepoint_pct]
      have e0 := hex_escape2_at 0x25 (u / 16) (u % 16) rest (by omega) (by omega)
      have e1 : u / 16 * 16 + u % 16 = u := by omega
      rw [e1] at e0
      unfold duk__transform_callback_unescape
      simp only [duk__transform_context.p_end, if_true, rdByte_cons_succ, rdByte_cons_zero,
        List.length_cons, e0]
      rw [if_neg (fun h => nybble_ne_u _ h.2.1), if_pos ⟨by omega, by omega⟩]
      simp only [duk_hbuffer_append_xutf8, toUcodepoint_natCast u (by omega), List.length_nil]
    · rw [if_neg h2]
      unfold transform_step
      simp only [List.cons_append, List.nil_append, duk__transform_context.p_start,
        duk__transform_context.p_end]
      rw [decode_checked_pct]
      simp only [toCodepoint_pct]
      have e0 := hex_escape4_at 0x25 0x75 (u / 4096) (u / 256 % 16) (u / 16 % 16) (u % 16) rest
        (by omega) (by omega) (by omega) (by omega)
      have e1 : ((u / 4096 * 16 + u / 256 % 16) * 16 + u / 16 % 16) * 16 + u % 16 = u := by
        omega
      rw [e1] at e0
      unfold duk__transform_callback_unescape
      simp only [duk__transform_context.p_end, if_true, rdByte_cons_succ, rdByte_cons_zero,
        List.length_cons, e0]
      rw [if_pos ⟨by omega, True.intro, by omega⟩]
      simp only [duk_hbuffer_append_xutf8, toUcodepoint_natCast u (by omega), List.length_nil]

theorem escapeChunk_length_pos (u : Nat) : 1 ≤ (escapeChunk u).length := by
  unfold escapeChunk
  split_ifs <;> simp

/-- The loops of `escape` and `unescape` over a sequence of code points below
`0x10000`. -/
theorem esc_loop_units (us : List Nat) :
    ∀ (out : List Nat) (fuel : Nat), (∀ u ∈ us, u < 0x10000) →
    (encodeUnits us).length < fuel →
    duk__transform_loop duk__transform_callback_escape [] fuel
        { h_str := encodeUnits us, h_buf := out, p := 0 }
      = some (.ok { h_str := encodeUnits us, h_buf := out ++ escapeUnits us,
                    p := (encodeUnits us).length }) := by
  induction us with
  | nil =>
      intro out fuel _ hfuel
      obtain ⟨f, rfl⟩ : ∃ f, fuel = f + 1 := ⟨fuel - 1, by omega⟩
      rw [transform_loop_succ]
      simp [encodeUnits, escapeUnits, duk__transform_context.p_end]
  | cons u tl ih =>
      intro out fuel hlt hfuel
      obtain ⟨f, rfl⟩ : ∃ f, fuel = f + 1 := ⟨fuel - 1, by omega⟩
      have hu := hlt u (by simp)
      have hposu := encode_xutf8_length_pos u (by omega)
      rw [transform_loop_succ]
      simp only [encodeUnits, List.length_append] at hfuel ⊢
      rw [if_pos (by simp only [duk__transform_context.p_end, List.length_append]; omega)]
      rw [esc_step out _ u hu]
      simp only [escapeUnits]
      have hsh := transform_loop_escape_shift (duk_unicode_encode_xutf8 u).2 f
        { h_str := encodeUnits tl, h_buf := out ++ escapeChunk u, p := 0 }
      simp only [shiftCtx, Nat.add_zero] at hsh
      rw [hsh, ih _ f (fun x hx => hlt x (by simp [hx])) (by omega)]
      simp only [Option.map_some', Except.map, shiftCtx, List.append_assoc]

theorem unesc_loop_units (us : List Nat) :
    ∀ (out : List Nat) (fuel : Nat), (∀ u ∈ us, u < 0x10000) →
    (escapeUnits us).length < fuel →
    duk__transform_loop duk__transform_callback_unescape [] fuel
        { h_str := escapeUnits us, h_buf := out, p := 0 }
      = some (.ok { h_str := escapeUnits us, h_buf := out ++ encodeUnits us,
                    p := (escapeUnits us).length }) := by
  induction us with
  | nil =>
      intro out fuel _ hfuel
      obtain ⟨f, rfl⟩ : ∃ f, fuel = f + 1 := ⟨fuel - 1, by omega⟩
      rw [transform_loop_succ]
      simp [encodeUnits, escapeUnits, duk__transform_context.p_end]
  | cons u tl ih =>
      intro out fuel hlt hfuel
      obtain ⟨f, rfl⟩ : ∃ f, fuel = f + 1 := ⟨fuel - 1, by omega⟩
      have hu := hlt u (by simp)
      have hpos := escapeChunk_length_pos u
      rw [transform_loop_succ]
      simp only [escapeUnits, List.length_append] at hfuel ⊢
      rw [if_pos (by simp only [duk__transform_context.p_end, List.length_append]; omega)]
      rw [unesc_step out _ u hu]
      simp only [encodeUnits]
      have hsh := transform_loop_unescape_shift (escapeChunk u) f
        { h_str := escapeUnits tl, h_buf := out ++ (duk_unicode_encode_xutf8 u).2, p := 0 }
      simp only [shiftCtx, Nat.add_zero] at hsh
      rw [hsh, ih _ f (fun x hx => hlt x (by simp [hx])) (by omega)]
      simp only [Option.map_some', Except.map, shiftCtx, List.append_assoc]

/-- C29: for every string `s` that is the shortest-form encoding of code points
all below `0x10000` (unpaired surrogates allowed), `escape s` succeeds and
`unescape` of its output returns `s` byte for byte. -/
theorem unescape_escape_roundtrip (us : List Nat) (h : ∀ u ∈ us, u < 0x10000) :
    duk_bi_global_object_escape (encodeUnits us) = some (.ok (escapeUnits us)) ∧
    duk_bi_global_object_unescape (escapeUnits us) = some (.ok (encodeUnits us)) := by
  constructor
  · unfold duk_bi_global_object_escape duk__transform_helper
    rw [esc_loop_units us [] _ h (Nat.lt_succ_self _)]
    rfl
  · unfold duk_bi_global_object_unescape duk__transform_helper
    rw [unesc_loop_units us [] _ h (Nat.lt_succ_self _)]
    rfl

/-- Witness for C29: `a`, space, `%`, U+00E9, U+20AC and the lone surrogate
U+D800 escape to `a%20%25%E9%u20AC%uD800` and come back. -/
theorem unescape_escape_roundtrip_witness :
    (∀ u ∈ [0x61, 0x20, 0x25, 0xE9, 0x20AC, 0xD800], u < 0x10000) ∧
    duk_bi_global_object_escape (encodeUnits [0x61, 0x20, 0x25, 0xE9, 0x20AC, 0xD800])
      = some (.ok [0x61, 0x25, 0x32, 0x30, 0x25, 0x32, 0x35, 0x25, 0x45, 0x39,
          0x25, 0x75, 0x32, 0x30, 0x41, 0x43, 0x25, 0x75, 0x44, 0x38, 0x30, 0x30]) ∧
    duk_bi_global_object_unescape (escapeUnits [0x61, 0x20, 0x25, 0xE9, 0x20AC, 0xD800])
      = some (.ok (encodeUnits [0x61, 0x20, 0x25, 0xE9, 0x20AC, 0xD800])) :=
  ⟨by decide, by decide,
   (unescape_escape_roundtrip [0x61, 0x20, 0x25, 0xE9, 0x20AC, 0xD800] (by decide)).2⟩

/-! ### `require`: the cache of loaded modules (C21) -/

/-- After `duk_def_prop`, the object holds the property. -/
theorem get_prop_def_prop (st : require_heap) (ref : Nat) (key : List Nat) (v : duk_value) :
    duk_get_prop ((heap_get (duk_def_prop st ref key v) ref).getD []) key = some v := by
  simp [duk_def_prop, heap_get, duk_get_prop, List.lookup]

/-- A hit in `Duktape.modLoaded`: the cached value is returned and the heap is
left as it is, whatever the callbacks. -/
theorem require_hit (cb : require_callbacks) (limit : Nat) (st : require_heap)
    (req : List Nat) (current_id : duk_value) (rid : List Nat) (loaded : Nat) (v : duk_value)
    (hres : duk__bi_global_resolve_module_id limit req
      (match current_id with
       | .string s => some s
       | _ => none) = some (.ok rid))
    (hml : st.modLoaded = .object loaded)
    (hv : duk_get_prop ((heap_get st loaded).getD []) rid = some v) :
    duk_bi_global_object_require cb limit st (.string req) current_id = some (.ok (v, st)) := by
  unfold duk_bi_global_object_require
  simp only [hres, hml, hv]

/-- C21: let the requested id resolve to `rid` and `Duktape.modLoaded` be the
object `loaded`. If `loaded` holds an entry for `rid`, `require` returns that
value and leaves the heap as it is, for every choice of the callbacks, so
`Duktape.modSearch` is not invoked. If it holds none and `Duktape.modSearch`
returns a source string, the exports table is stored in `loaded[rid]` in the
heap `st2` handed on to the compilation and then to the call of the module
function; a `require` of an id resolving to `rid` issued in a heap where
`Duktape.modLoaded` is still `loaded` and still holds that entry, such as `st2`
when `modSearch` has not replaced `Duktape.modLoaded`, returns the exports table
without invoking `modSearch`. -/
theorem require_returns_cached (cb : require_callbacks) (limit : Nat) (st : require_heap)
    (req : List Nat) (current_id : duk_value) (rid : List Nat) (loaded : Nat)
    (hres : duk__bi_global_resolve_module_id limit req
      (match current_id with
       | .string s => some s
       | _ => none) = some (.ok rid))
    (hml : st.modLoaded = .object loaded) :
    (∀ v, duk_get_prop ((heap_get st loaded).getD []) rid = some v →
      ∀ cb2 : require_callbacks,
        duk_bi_global_object_require cb2 limit st (.string req) current_id
          = some (.ok (v, st))) ∧
    (duk_get_prop ((heap_get st loaded).getD []) rid = none →
      ∀ (src : List Nat) (st1 : require_heap),
      cb.modSearch (require_fresh st rid).2.2.2 (.string rid)
          (.object (require_fresh st rid).1) (.object (require_fresh st rid).2.1)
          (.object (require_fresh st rid).2.2.1) = .ok (.string src, st1) →
      duk_bi_global_object_require cb limit st (.string req) current_id
        = (match cb.duk_eval_raw
              (duk_def_prop st1 loaded rid (.object (require_fresh st rid).2.1))
              (MODULE_WRAP_HEAD ++ src ++ MODULE_WRAP_TAIL) rid with
           | .error e => some (.error e)
           | .ok (mod_func, st3) =>
               match cb.duk_call_method st3 mod_func (.object (require_fresh st rid).2.1)
                   [.object (require_fresh st rid).1, .object (require_fresh st rid).2.1,
                    .object (require_fresh st rid).2.2.1] with
               | .error e => some (.error e)
               | .ok (_, st4) => some (.ok (.object (require_fresh st rid).2.1, st4))) ∧
      duk_get_prop
          ((heap_get (duk_def_prop st1 loaded rid (.object (require_fresh st rid).2.1))
            loaded).getD []) rid
        = some (.object (require_fresh st rid).2.1) ∧
      (st1.modLoaded = .object loaded →
        ∀ (cb2 : require_callbacks) (req2 : List Nat) (cur2 : duk_value),
        duk__bi_global_resolve_module_id limit req2
          (match cur2 with
           | .string s => some s
           | _ => none) = some (.ok rid) →
        duk_bi_global_object_require cb2 limit
            (duk_def_prop st1 loaded rid (.object (require_fresh st rid).2.1))
            (.string req2) cur2
          = some (.ok (.object (require_fresh st rid).2.1,
              duk_def_prop st1 loaded rid (.object (require_fresh st rid).2.1))))) := by
  constructor
  · intro v hv cb2
    exact require_hit cb2 limit st req current_id rid loaded v hres hml hv
  · intro hmiss src st1 hsearch
    refine ⟨?_, get_prop_def_prop _ _ _ _, ?_⟩
    · unfold duk_bi_global_object_require
      simp only [hres, hml, hmiss, hsearch]
    · intro hkeep cb2 req2 cur2 hres2
      exact require_hit cb2 limit _ req2 cur2 rid loaded _ hres2
        (by simp only [duk_def_prop]; exact hkeep) (get_prop_def_prop _ _ _ _)

/-- Witness for C21: in a heap whose `Duktape.modLoaded` (object 0) maps `a` to
object 7, `require ("a")` returns object 7 even with callbacks that throw; and
in a heap with an empty `Duktape.modLoaded`, loading a module `a` whose body
requires `a` again succeeds and returns the exports table (object 2), the
nested call being served from the cache. -/
theorem require_returns_cached_witness :
    duk_bi_global_object_require failing_callbacks 256
        { objects := [(0, [([0x61], .object 7)])], modLoaded := .object 0, next_ref := 8 }
        (.string [0x61]) .undefined
      = some (.ok (.object 7,
          { objects := [(0, [([0x61], .object 7)])], modLoaded := .object 0, next_ref := 8 })) ∧
    (duk_bi_global_object_require cyclic_callbacks 256
        { objects := [(0, [])], modLoaded := .object 0, next_ref := 1 }
        (.string [0x61]) .undefined).map (fun r => r.map (fun x => x.1))
      = some (.ok (.object 2)) :=
  ⟨(require_returns_cached failing_callbacks 256
      { objects := [(0, [([0x61], .object 7)])], modLoaded := .object 0, next_ref := 8 }
      [0x61] .undefined [0x61] 0 (by decide) rfl).1 (.object 7) (by decide) failing_callbacks,
   by decide⟩

/-! ### The string table: interning twice (C25) -/

theorem getD_set_eq {α : Type} (l : List α) (j : Nat) (x d : α) (hj : j < l.length) :
    (l.set j x).getD j d = x := by
  simp [List.getD_eq_getElem?_getD, List.getElem?_set_self hj]

theorem getD_set_ne {α : Type} (l : List α) (i j : Nat) (x d : α) (h : i ≠ j) :
    (l.set j x).getD i d = l.getD i d := by
  simp [List.getD_eq_getElem?_getD, List.getElem?_set_ne (Ne.symm h)]

theorem strtab_probe_seq_lt (st_size : Nat) (step : Nat → Nat) (hash : Nat) (k : Nat)
    (hpos : 0 < st_size) : ∀ i ∈ strtab_probe_seq st_size step hash k, i < st_size := by
  induction k with
  | zero => intro i hi; simp [strtab_probe_seq] at hi
  | succ k ih =>
      intro i hi
      simp only [strtab_probe_seq, List.mem_append, List.mem_singleton] at hi
      rcases hi with hi | rfl
      · exact ih i hi
      · exact Nat.mod_lt _ hpos

/-- With a deleted cell remembered, a miss goes to that cell. -/
theorem strtab_probe_miss_some (h : strtab_heap) (s : List Nat) (L : List Nat) :
    ∀ (d slot : Nat), strtab_probe h s L (some d) = .miss slot → slot = d := by
  induction L with
  | nil => intro d slot hp; simp [strtab_probe] at hp
  | cons i rest ih =>
      intro d slot hp
      rw [strtab_probe] at hp
      cases hc : h.strtable.getD i .empty with
      | empty =>
          rw [hc] at hp
          simp only [Option.getD_some, strtab_probe_result.miss.injEq] at hp
          exact hp.symm
      | deleted =>
          rw [hc] at hp
          simp only [Option.getD_some] at hp
          exact ih d slot hp
      | used r =>
          rw [hc] at hp
          simp only at hp
          split_ifs at hp
          exact ih d slot hp

/-- With no deleted cell remembered, a miss goes to one of the probed cells,
which is empty or deleted. -/
theorem strtab_probe_miss_none (h : strtab_heap) (s : List Nat) (L : List Nat) :
    ∀ (slot : Nat), strtab_probe h s L none = .miss slot →
    slot ∈ L ∧ (h.strtable.getD slot .empty = .empty ∨
      h.strtable.getD slot .empty = .deleted) := by
  induction L with
  | nil => intro slot hp; simp [strtab_probe] at hp
  | cons i rest ih =>
      intro slot hp
      rw [strtab_probe] at hp
      cases hc : h.strtable.getD i .empty with
      | empty =>
          rw [hc] at hp
          simp only [Option.getD_none, strtab_probe_result.miss.injEq] at hp
          subst hp
          exact ⟨by simp, Or.inl hc⟩
      | deleted =>
          rw [hc] at hp
          simp only [Option.getD_none] at hp
          have := strtab_probe_miss_some h s rest i slot hp
          subst this
          exact ⟨by simp, Or.inr hc⟩
      | used r =>
          rw [hc] at hp
          simp only at hp
          split_ifs at hp
          obtain ⟨h1, h2⟩ := ih slot hp
          exact ⟨by simp [h1], h2⟩

/-- After the new string is placed, probing for its bytes finds it. -/
theorem strtab_probe_after_insert (h : strtab_heap) (s : List Nat) (L : List Nat) :
    ∀ (slot : Nat), (∀ i ∈ L, i < h.strtable.length) →
    strtab_probe h s L none = .miss slot →
    ∀ del, strtab_probe (strtab_insert h slot s) s L del = .hit h.next_ref := by
  induction L with
  | nil => intro slot _ hp; simp [strtab_probe] at hp
  | cons i rest ih =>
      intro slot hL hp del
      have hi := hL i (by simp)
      have hnew : (strtab_insert h slot s).strings.lookup h.next_ref = some s := by
        simp [strtab_insert, List.lookup]
      rw [strtab_probe] at hp
      rw [strtab_probe]
      cases hc : h.strtable.getD i .empty with
      | empty =>
          rw [hc] at hp
          simp only [Option.getD_none, strtab_probe_result.miss.injEq] at hp
          subst hp
          have : (strtab_insert h i s).strtable.getD i .empty = .used h.next_ref :=
            getD_set_eq _ _ _ _ hi
          rw [this]
          simp only [hnew, if_true]
      | deleted =>
          rw [hc] at hp
          simp only [Option.getD_none] at hp
          have := strtab_probe_miss_some h s rest i slot hp
          subst this
          have : (strtab_insert h slot s).strtable.getD slot .empty = .used h.next_ref :=
            getD_set_eq _ _ _ _ hi
          rw [this]
          simp only [hnew, if_true]
      | used r =>
          rw [hc] at hp
          simp only at hp
          split_ifs at hp with hm
          obtain ⟨_, hcell⟩ := strtab_probe_miss_none h s rest slot hp
          have hne : i ≠ slot := by
            rintro rfl
            rw [hc] at hcell
            rcases hcell with hcell | hcell <;> cases hcell
          have : (strtab_insert h slot s).strtable.getD i .empty = .used r := by
            rw [← hc]
            exact getD_set_ne _ _ _ _ _ hne
          rw [this]
          simp only
          by_cases hr : r = h.next_ref
          · subst hr
            simp only [hnew, if_true]
          · have hl : (strtab_insert h slot s).strings.lookup r = h.strings.lookup r := by
              simp only [strtab_insert, List.lookup]
              have : (r == h.next_ref) = false := by simpa using hr
              rw [this]
            rw [hl, if_neg hm]
            exact ih slot (fun j hj => hL j (by simp [hj])) hp del

/-- Interning the same bytes again returns the same reference and changes
nothing. -/
theorem intern_twice (hash : List Nat → Nat) (step : Nat → Nat) (h h1 : strtab_heap)
    (s : List Nat) (r : Nat) (hi : duk_heap_string_intern hash step h s = some (r, h1)) :
    duk_heap_string_intern hash step h1 s = some (r, h1) := by
  unfold duk_heap_string_intern at hi
  cases hp : strtab_probe h s
      (strtab_probe_seq h.strtable.length step (hash s) h.strtable.length) none with
  | hit r' =>
      rw [hp] at hi
      simp only [Option.some.injEq, Prod.mk.injEq] at hi
      obtain ⟨rfl, rfl⟩ := hi
      unfold duk_heap_string_intern
      rw [hp]
  | full => rw [hp] at hi; cases hi
  | miss slot =>
      rw [hp] at hi
      simp only [Option.some.injEq, Prod.mk.injEq] at hi
      obtain ⟨rfl, rfl⟩ := hi
      have hpos : 0 < h.strtable.length := by
        by_contra hz
        have : h.strtable.length = 0 := by omega
        rw [this] at hp
        simp [strtab_probe_seq, strtab_probe] at hp
      have := strtab_probe_after_insert h s _ slot
        (strtab_probe_seq_lt h.strtable.length step (hash s) h.strtable.length hpos) hp none
      unfold duk_heap_string_intern
      have hlen : (strtab_insert h slot s).strtable.length = h.strtable.length := by
        simp [strtab_insert]
      rw [hlen, this]

theorem getD_used_lt (t : List strtab_cell) (i r : Nat)
    (h : t.getD i .empty = .used r) : i < t.length := by
  by_contra hn
  have hd : t.getD i strtab_cell.empty = strtab_cell.empty :=
    List.getD_eq_default _ _ (by omega)
  rw [hd] at h
  exact strtab_cell.noConfusion h

/-- Placing a new string does not disturb the probing for another one. -/
theorem strtab_probe_insert_other (h : strtab_heap) (s b : List Nat) (slot r : Nat)
    (hbs : b ≠ s)
    (hslot : h.strtable.getD slot .empty = .empty ∨ h.strtable.getD slot .empty = .deleted)
    (hfresh : ∀ i r', h.strtable.getD i .empty = .used r' → r' < h.next_ref) (L : List Nat) :
    ∀ del del', strtab_probe h b L del = .hit r →
    strtab_probe (strtab_insert h slot s) b L del' = .hit r := by
  induction L with
  | nil => intro del del' hp; simp [strtab_probe] at hp
  | cons i rest ih =>
      intro del del' hp
      have hnew : (strtab_insert h slot s).strings.lookup h.next_ref = some s := by
        simp [strtab_insert, List.lookup]
      rw [strtab_probe] at hp
      rw [strtab_probe]
      cases hc : h.strtable.getD i .empty with
      | empty => rw [hc] at hp; cases hp
      | deleted =>
          rw [hc] at hp
          simp only at hp
          by_cases hi : i = slot ∧ slot < h.strtable.length
          · obtain ⟨rfl, hlt⟩ := hi
            have : (strtab_insert h i s).strtable.getD i .empty = .used h.next_ref :=
              getD_set_eq _ _ _ _ hlt
            rw [this]
            simp only [hnew]
            rw [if_neg (by
              intro hh
              simp only [Option.some.injEq] at hh
              exact hbs hh.symm)]
            exact ih _ del' hp
          · have : (strtab_insert h slot s).strtable.getD i .empty = .deleted := by
              rw [← hc]
              by_cases hne : i = slot
              · subst hne
                have hge : h.strtable.length ≤ i := by
                  by_contra hlt
                  exact hi ⟨rfl, by omega⟩
                simp only [strtab_insert]
                rw [List.getD_eq_default _ _ (by simpa using hge),
                  List.getD_eq_default _ _ hge]
              · exact getD_set_ne _ _ _ _ _ hne
            rw [this]
            exact ih _ _ hp
      | used r' =>
          rw [hc] at hp
          simp only at hp
          have hne : i ≠ slot := by
            rintro rfl
            rw [hc] at hslot
            rcases hslot with hslot | hslot <;> cases hslot
          have hcell : (strtab_insert h slot s).strtable.getD i .empty = .used r' := by
            rw [← hc]
            exact getD_set_ne _ _ _ _ _ hne
          have hr : r' ≠ h.next_ref := by
            have := hfresh i r' hc
            omega
          have hl : (strtab_insert h slot s).strings.lookup r' = h.strings.lookup r' := by
            simp only [strtab_insert, List.lookup]
            have : (r' == h.next_ref) = false := by simpa using hr
            rw [this]
          rw [hcell]
          simp only
          rw [hl]
          by_cases hm : h.strings.lookup r' = some b
          · rw [if_pos hm] at hp ⊢
            exact hp
          · rw [if_neg hm] at hp ⊢
            exact ih del del' hp

theorem getD_map_cell (t : List strtab_cell) (f : strtab_cell → strtab_cell)
    (hf : f .empty = .empty) (i : Nat) :
    (t.map f).getD i .empty = f (t.getD i .empty) := by
  by_cases h : i < t.length
  · simp [List.getD_eq_getElem?_getD, List.getElem?_eq_getElem h]
  · rw [List.getD_eq_default _ _ (by simpa using h), List.getD_eq_default _ _ (by omega), hf]

theorem strtab_remove_getD (h : strtab_heap) (ref i : Nat) :
    (duk_heap_string_remove h ref).strtable.getD i .empty
      = if h.strtable.getD i .empty = .used ref then .deleted
        else h.strtable.getD i .empty := by
  unfold duk_heap_string_remove
  simp only
  rw [getD_map_cell _ _ (by simp) i]

/-- Removing a string does not disturb the probing for another one. -/
theorem strtab_probe_remove_other (h : strtab_heap) (b : List Nat) (ref r : Nat)
    (hne : r ≠ ref) (L : List Nat) :
    ∀ del del', strtab_probe h b L del = .hit r →
    strtab_probe (duk_heap_string_remove h ref) b L del' = .hit r := by
  induction L with
  | nil => intro del del' hp; simp [strtab_probe] at hp
  | cons i rest ih =>
      intro del del' hp
      rw [strtab_probe] at hp
      rw [strtab_probe, strtab_remove_getD]
      cases hc : h.strtable.getD i .empty with
      | empty => rw [hc] at hp; cases hp
      | deleted =>
          rw [hc] at hp
          simp only at hp
          rw [if_neg (by simp)]
          exact ih _ _ hp
      | used r' =>
          rw [hc] at hp
          simp only at hp
          have hstr : (duk_heap_string_remove h ref).strings = h.strings := rfl
          by_cases hr : r' = ref
          · subst hr
            rw [if_pos rfl]
            simp only
            by_cases hm : h.strings.lookup r' = some b
            · rw [if_pos hm] at hp
              simp only [strtab_probe_result.hit.injEq] at hp
              exact absurd hp.symm hne
            · rw [if_neg hm] at hp
              exact ih _ _ hp
          · rw [if_neg (by simpa using hr)]
            simp only
            rw [hstr]
            by_cases hm : h.strings.lookup r' = some b
            · rw [if_pos hm] at hp ⊢
              exact hp
            · rw [if_neg hm] at hp ⊢
              exact ih _ _ hp

theorem strtab_wf_new (hash : List Nat → Nat) (step : Nat → Nat) (st_size : Nat) :
    strtab_wf hash step (strtab_new st_size) := by
  intro i r hi hc
  simp only [strtab_new] at hi hc
  rw [List.getD_eq_getElem?_getD, List.getElem?_replicate] at hc
  split_ifs at hc <;> cases hc

theorem strtab_wf_remove (hash : List Nat → Nat) (step : Nat → Nat) (h : strtab_heap)
    (ref : Nat) (hw : strtab_wf hash step h) :
    strtab_wf hash step (duk_heap_string_remove h ref) := by
  intro i r hi hc
  have hlen : (duk_heap_string_remove h ref).strtable.length = h.strtable.length := by
    simp [duk_heap_string_remove]
  rw [hlen] at hi ⊢
  rw [strtab_remove_getD] at hc
  by_cases hx : h.strtable.getD i .empty = .used ref
  · rw [if_pos hx] at hc
    exact strtab_cell.noConfusion hc
  · rw [if_neg hx] at hc
    obtain ⟨h1, b, hb, hp⟩ := hw i r hi hc
    have hne : r ≠ ref := by
      rintro rfl
      exact hx hc
    exact ⟨h1, b, hb, strtab_probe_remove_other h b ref r hne _ none none hp⟩

theorem strtab_wf_intern (hash : List Nat → Nat) (step : Nat → Nat) (h h1 : strtab_heap)
    (s : List Nat) (r : Nat) (hw : strtab_wf hash step h)
    (hi : duk_heap_string_intern hash step h s = some (r, h1)) :
    strtab_wf hash step h1 := by
  unfold duk_heap_string_intern at hi
  cases hp : strtab_probe h s
      (strtab_probe_seq h.strtable.length step (hash s) h.strtable.length) none with
  | hit r' =>
      rw [hp] at hi
      simp only [Option.some.injEq, Prod.mk.injEq] at hi
      obtain ⟨rfl, rfl⟩ := hi
      exact hw
  | full => rw [hp] at hi; cases hi
  | miss slot =>
      rw [hp] at hi
      simp only [Option.some.injEq, Prod.mk.injEq] at hi
      obtain ⟨rfl, rfl⟩ := hi
      have hpos : 0 < h.strtable.length := by
        by_contra hz
        have : h.strtable.length = 0 := by omega
        rw [this] at hp
        simp [strtab_probe_seq, strtab_probe] at hp
      have hseq := strtab_probe_seq_lt h.strtable.length step (hash s) h.strtable.length hpos
      obtain ⟨hmem, hcell⟩ := strtab_probe_miss_none h s _ slot hp
      have hslot_lt : slot < h.strtable.length := hseq slot hmem
      have hlen : (strtab_insert h slot s).strtable.length = h.strtable.length := by
        simp [strtab_insert]
      have hfresh : ∀ i r', h.strtable.getD i .empty = .used r' → r' < h.next_ref :=
        fun i r' hc => (hw i r' (getD_used_lt _ _ _ hc) hc).1
      intro i r hlt hc
      rw [hlen] at hlt ⊢
      by_cases his : i = slot
      · subst his
        have hcell1 : (strtab_insert h i s).strtable.getD i .empty = .used h.next_ref :=
          getD_set_eq _ _ _ _ hslot_lt
        rw [hcell1] at hc
        simp only [strtab_cell.used.injEq] at hc
        subst hc
        refine ⟨by simp [strtab_insert], s, by simp [strtab_insert, List.lookup], ?_⟩
        exact strtab_probe_after_insert h s _ i hseq hp none
      · have hcell0 : h.strtable.getD i .empty = .used r := by
          rw [← hc]
          exact (getD_set_ne _ _ _ _ _ his).symm
        obtain ⟨h1, b, hb, hpb⟩ := hw i r hlt hcell0
        have hbs : b ≠ s := by
          rintro rfl
          rw [hp] at hpb
          cases hpb
        have hr : r ≠ h.next_ref := by omega
        refine ⟨by simp only [strtab_insert]; omega, b, ?_, ?_⟩
        · simp only [strtab_insert, List.lookup]
          have : (r == h.next_ref) = false := by simpa using hr
          rw [this]
          exact hb
        · exact strtab_probe_insert_other h s b slot r hbs hcell hfresh _ none none hpb

theorem strtab_wf_run (hash : List Nat → Nat) (step : Nat → Nat) (ops : List strtab_op) :
    ∀ (h h1 : strtab_heap), strtab_wf hash step h → strtab_run hash step ops h = some h1 →
    strtab_wf hash step h1 := by
  induction ops with
  | nil =>
      intro h h1 hw hr
      simp only [strtab_run, Option.some.injEq] at hr
      subst hr
      exact hw
  | cons op ops ih =>
      intro h h1 hw hr
      cases op with
      | intern s =>
          simp only [strtab_run] at hr
          cases hi : duk_heap_string_intern hash step h s with
          | none => rw [hi] at hr; cases hr
          | some res =>
              rw [hi] at hr
              exact ih res.2 h1 (strtab_wf_intern hash step h res.2 s res.1 hw hi) hr
      | remove ref =>
          simp only [strtab_run] at hr
          exact ih _ h1 (strtab_wf_remove hash step h ref hw) hr

/-- C25: in every heap reached from a new string table by interning and
removing strings, for every byte sequence `s`: interning `s` and then interning
`s` again yields the same reference (and the second call changes nothing);
interning the bytes of a string that is in the table yields that string; and
no two strings in the table have equal bytes. -/
theorem intern_twice_same_reference (hash : List Nat → Nat) (step : Nat → Nat)
    (st_size : Nat) (ops : List strtab_op) (h : strtab_heap)
    (hrun : strtab_run hash step ops (strtab_new st_size) = some h) :
    (∀ s r h1, duk_heap_string_intern hash step h s = some (r, h1) →
      duk_heap_string_intern hash step h1 s = some (r, h1)) ∧
    (∀ i r, h.strtable.getD i .empty = .used r →
      ∃ b, h.strings.lookup r = some b ∧
        duk_heap_string_intern hash step h b = some (r, h)) ∧
    (∀ i j r1 r2 b, h.strtable.getD i .empty = .used r1 →
      h.strtable.getD j .empty = .used r2 →
      h.strings.lookup r1 = some b → h.strings.lookup r2 = some b → r1 = r2) := by
  have hw := strtab_wf_run hash step ops _ h (strtab_wf_new hash step st_size) hrun
  refine ⟨fun s r h1 hi => intern_twice hash step h h1 s r hi, ?_, ?_⟩
  · intro i r hc
    obtain ⟨_, b, hb, hp⟩ := hw i r (getD_used_lt _ _ _ hc) hc
    refine ⟨b, hb, ?_⟩
    unfold duk_heap_string_intern
    rw [hp]
  · intro i j r1 r2 b hc1 hc2 hb1 hb2
    obtain ⟨_, b1, hb1', hp1⟩ := hw i r1 (getD_used_lt _ _ _ hc1) hc1
    obtain ⟨_, b2, hb2', hp2⟩ := hw j r2 (getD_used_lt _ _ _ hc2) hc2
    rw [hb1] at hb1'
    rw [hb2] at hb2'
    simp only [Option.some.injEq] at hb1' hb2'
    subst hb1'
    subst hb2'
    rw [hp1] at hp2
    simp only [strtab_probe_result.hit.injEq] at hp2
    exact hp2

/-- Witness for C25: a table of 5 cells, the hash being the sum of the bytes
and the probe step 1; `a` and `b` are interned, `a` is removed, `b` is interned
again and is found in its cell. -/
theorem intern_twice_same_reference_witness :
    strtab_run (fun s => s.sum) (fun _ => 1)
        [.intern [0x61], .intern [0x62], .remove 0, .intern [0x62]] (strtab_new 5)
      = some { strtable := [.empty, .empty, .deleted, .used 1, .empty],
               strings := [(1, [0x62]), (0, [0x61])], next_ref := 2 } ∧
    ∀ s r h1,
      duk_heap_string_intern (fun s => s.sum) (fun _ => 1)
          { strtable := [.empty, .empty, .deleted, .used 1, .empty],
            strings := [(1, [0x62]), (0, [0x61])], next_ref := 2 } s = some (r, h1) →
      duk_heap_string_intern (fun s => s.sum) (fun _ => 1) h1 s = some (r, h1) :=
  ⟨rfl,
   (intern_twice_same_reference (fun s => s.sum) (fun _ => 1) 5
      [.intern [0x61], .intern [0x62], .remove 0, .intern [0x62]]
      { strtable := [.empty, .empty, .deleted, .used 1, .empty],
        strings := [(1, [0x62]), (0, [0x61])], next_ref := 2 } rfl).1⟩

/-! ### `duk_unicode_decode_xutf8`: what it reads and writes (C31) -/

theorem xutf8_cont_count_le (ch : Nat) : xutf8_cont_count ch ≤ 6 := by
  unfold xutf8_cont_count
  split_ifs <;> omega

theorem decode_xutf8_loop_congr (buf buf2 : List Nat) (n : Nat) :
    ∀ (p res : Nat), (∀ i, p ≤ i → i < p + n → rdByte buf2 i = rdByte buf i) →
    decode_xutf8_loop buf2 n p res = decode_xutf8_loop buf n p res := by
  induction n with
  | zero => intro p res _; rfl
  | succ n ih =>
      intro p res h
      simp only [decode_xutf8_loop]
      rw [h p (Nat.le_refl _) (by omega)]
      exact ih (p + 1) _ (fun i h1 h2 => h i (by omega) (by omega))

/-- The decoder reads only bytes of the buffer `[ptr_start, ptr_end)`. -/
theorem decode_xutf8_congr (buf buf2 : List Nat) (p ptr_start ptr_end : Nat)
    (h : ∀ i, ptr_start ≤ i → i < ptr_end → rdByte buf2 i = rdByte buf i) :
    duk_unicode_decode_xutf8 buf2 p ptr_start ptr_end
      = duk_unicode_decode_xutf8 buf p ptr_start ptr_end := by
  rw [decode_xutf8_eq, decode_xutf8_eq]
  by_cases hout : p < ptr_start ∨ ptr_end ≤ p
  · rw [if_pos (by rcases hout with h1 | h1 <;> simp [h1]),
      if_pos (by rcases hout with h1 | h1 <;> simp [h1])]
  · have hp := h p (by omega) (by omega)
    rw [hp]
    by_cases hc : p < ptr_start ∨ ptr_end ≤ p ∨ (0x80 ≤ rdByte buf p ∧ rdByte buf p < 0xc0) ∨
        0xff ≤ rdByte buf p ∨ ptr_end < p + 1 + xutf8_cont_count (rdByte buf p)
    · rw [if_pos hc, if_pos hc]
    · rw [if_neg hc, if_neg hc]
      congr 1
      exact decode_xutf8_loop_congr buf buf2 _ _ _
        (fun i h1 h2 => h i (by omega) (by omega))

/-- C31: for every buffer `[ptr_start, ptr_end)` and read position `ptr`,
`duk_unicode_decode_xutf8` returns 0 exactly when the position is outside the
buffer, the lead byte is in `0x80..0xBF` or is `0xFF`, or fewer bytes are left
than the lead byte announces, and then `*ptr` and `*out_cp` are unchanged;
otherwise it returns 1 with `*ptr` advanced by `1 + n` bytes, `n` in `0..6`
being a function of the lead byte alone, to a position not beyond `ptr_end`.
Its result depends only on the bytes inside the buffer. -/
theorem decode_xutf8_frame (buf : List Nat) (ptr_start ptr_end ptr out_cp : Nat) :
    (duk_unicode_decode_xutf8 buf ptr ptr_start ptr_end = none ↔
      (ptr < ptr_start ∨ ptr_end ≤ ptr ∨ (0x80 ≤ rdByte buf ptr ∧ rdByte buf ptr < 0xc0) ∨
        0xff ≤ rdByte buf ptr ∨ ptr_end < ptr + 1 + xutf8_cont_count (rdByte buf ptr))) ∧
    (duk_unicode_decode_xutf8 buf ptr ptr_start ptr_end = none →
      duk_unicode_decode_xutf8_call buf ptr_start ptr_end ptr out_cp = (0, ptr, out_cp)) ∧
    (∀ r, duk_unicode_decode_xutf8 buf ptr ptr_start ptr_end = some r →
      duk_unicode_decode_xutf8_call buf ptr_start ptr_end ptr out_cp = (1, r.1, r.2) ∧
      r.1 = ptr + 1 + xutf8_cont_count (rdByte buf ptr) ∧
      xutf8_cont_count (rdByte buf ptr) ≤ 6 ∧ ptr_start ≤ ptr ∧ r.1 ≤ ptr_end ∧
      r.2 < 2 ^ 32) ∧
    (∀ buf2 : List Nat,
      (∀ i, ptr_start ≤ i → i < ptr_end → rdByte buf2 i = rdByte buf i) →
      duk_unicode_decode_xutf8_call buf2 ptr_start ptr_end ptr out_cp
        = duk_unicode_decode_xutf8_call buf ptr_start ptr_end ptr out_cp) := by
  refine ⟨?_, ?_, ?_, ?_⟩
  · rw [decode_xutf8_eq]
    split_ifs with hc
    · exact ⟨fun _ => hc, fun _ => rfl⟩
    · exact Iff.intro (fun h => by cases h) (fun h => absurd h hc)
  · intro h
    unfold duk_unicode_decode_xutf8_call
    rw [h]
  · intro r hr
    have h1 := decode_xutf8_some_fst buf ptr ptr_start ptr_end r hr
    have h2 := decode_xutf8_some_snd_lt buf ptr ptr_start ptr_end r hr
    have h3 : ptr_start ≤ ptr := by
      rw [decode_xutf8_eq] at hr
      split_ifs at hr with hc
      omega
    refine ⟨?_, h1.1, xutf8_cont_count_le _, h3, h1.2, h2⟩
    unfold duk_unicode_decode_xutf8_call
    rw [hr]
  · intro buf2 h
    unfold duk_unicode_decode_xutf8_call
    rw [decode_xutf8_congr buf buf2 ptr ptr_start ptr_end h]

/-! ### White space (C33, C34) -/

theorem shifted_hi_eq (w : Nat) (cp : Int) (hw : 32 ≤ w)
    (hlo : -(2 ^ 31) ≤ cp) (hhi : cp < 2 ^ 31) :
    (0 ≤ cp ∧ (cp / 256) % 2 ^ w = cp / 256) ∨
    (cp < 0 ∧ (2 : Int) ^ 32 ≤ 2 ^ w ∧ (cp / 256) % 2 ^ w = cp / 256 + 2 ^ w) := by
  have hX : (2 : Int) ^ 32 ≤ 2 ^ w := by
    have : (2 : Nat) ^ 32 ≤ 2 ^ w := Nat.pow_le_pow_right (by decide) hw
    exact_mod_cast this
  generalize (2 : Int) ^ w = X at hX ⊢
  norm_num at hlo hhi hX
  by_cases h0 : 0 ≤ cp
  · left
    refine ⟨h0, Int.emod_eq_of_lt (by omega) (by omega)⟩
  · right
    refine ⟨by omega, by norm_num; exact hX, ?_⟩
    rw [← Int.add_emod_self]
    exact Int.emod_eq_of_lt (by omega) (by omega)

/-- Closed form of `duk_unicode_is_whitespace` on 32-bit code points. -/
theorem is_whitespace_eq (w : Nat) (cp : Int) (hw : 32 ≤ w)
    (hlo : -(2 ^ 31) ≤ cp) (hhi : cp < 2 ^ 31) :
    duk_unicode_is_whitespace w cp =
      if cp = 0x0009 ∨ cp = 0x000B ∨ cp = 0x000C ∨ cp = 0x0020 ∨ cp = 0x00A0 ∨
        cp = 0x1680 ∨ cp = 0x180E ∨ (0x2000 ≤ cp ∧ cp ≤ 0x200A) ∨ cp = 0x202F ∨
        cp = 0x205F ∨ cp = 0x3000 ∨ cp = 0xFEFF then 1 else 0 := by
  unfold duk_unicode_is_whitespace
  simp only []
  rcases shifted_hi_eq w cp hw hlo hhi with ⟨h0, he⟩ | ⟨h0, hX, he⟩
  · rw [he]
    norm_num at hhi
    split_ifs <;> omega
  · rw [he]
    generalize (2 : Int) ^ w = X at hX ⊢
    norm_num at hlo hX
    split_ifs <;> omega

/-- C33: for every 32-bit signed code point `cp`, `duk_unicode_is_whitespace`
returns 1 if and only if `cp` is one of 0x0009, 0x000B, 0x000C, 0x0020, 0x00A0,
0x1680, 0x180E, 0x2000..0x200A, 0x202F, 0x205F, 0x3000, 0xFEFF, and returns 0
otherwise; in particular it returns 0 for every negative `cp`. -/
theorem is_whitespace_iff (w : Nat) (cp : Int) (hw : 32 ≤ w)
    (hlo : -(2 ^ 31) ≤ cp) (hhi : cp < 2 ^ 31) :
    (duk_unicode_is_whitespace w cp = 1 ↔
      (cp = 0x0009 ∨ cp = 0x000B ∨ cp = 0x000C ∨ cp = 0x0020 ∨ cp = 0x00A0 ∨
        cp = 0x1680 ∨ cp = 0x180E ∨ (0x2000 ≤ cp ∧ cp ≤ 0x200A) ∨ cp = 0x202F ∨
        cp = 0x205F ∨ cp = 0x3000 ∨ cp = 0xFEFF)) ∧
    (duk_unicode_is_whitespace w cp ≠ 1 → duk_unicode_is_whitespace w cp = 0) ∧
    (cp < 0 → duk_unicode_is_whitespace w cp = 0) := by
  rw [is_whitespace_eq w cp hw hlo hhi]
  refine ⟨?_, ?_, ?_⟩
  · split_ifs with h
    · exact Iff.intro (fun _ => h) (fun _ => rfl)
    · exact Iff.intro (fun h1 => by cases h1) (fun h1 => absurd h1 h)
  · split_ifs with h
    · intro h1; exact absurd rfl h1
    · intro _; rfl
  · intro hneg
    rw [if_neg (by omega)]

theorem is_whitespace_iff_witness :
    (32 ≤ 64 ∧ -(2 ^ 31) ≤ (-1 : Int) ∧ (-1 : Int) < 2 ^ 31) ∧
    duk_unicode_is_whitespace 64 (-1) = 0 :=
  ⟨⟨by decide, by decide, by decide⟩,
    (is_whitespace_iff 64 (-1) (by decide) (by decide) (by decide)).2.2 (by decide)⟩

/-- C34: for every code point `cp` in `[0, 0xFFFF]`, `cp` lies in one of the
inclusive ranges of `duk_unicode_re_ranges_white` if and only if
`duk_unicode_is_whitespace (cp) = 1` or `duk_unicode_is_line_terminator (cp) = 1`. -/
theorem re_ranges_white_iff (w cp : Nat) (hw : 32 ≤ w) (hcp : cp ≤ 0xFFFF) :
    inRanges duk_unicode_re_ranges_white cp = true ↔
      (duk_unicode_is_whitespace w (cp : Int) = 1 ∨
        duk_unicode_is_line_terminator (cp : Int) = 1) := by
  rw [is_whitespace_eq w (cp : Int) hw (by omega) (by omega)]
  unfold duk_unicode_is_line_terminator
  simp only [duk_unicode_re_ranges_white, inRanges, Bool.or_eq_true, Bool.and_eq_true,
    decide_eq_true_eq, Bool.or_false]
  constructor
  · intro h
    by_cases hl : cp = 0x000a ∨ cp = 0x000d ∨ cp = 0x2028 ∨ cp = 0x2029
    · right
      rw [if_pos (by omega)]
    · left
      rw [if_pos (by omega)]
  · intro h
    rcases h with h | h
    · split_ifs at h with hc
      omega
    · split_ifs at h with hc
      omega

theorem re_ranges_white_iff_witness :
    (32 ≤ 32 ∧ 0x2028 ≤ 0xFFFF) ∧
    (inRanges duk_unicode_re_ranges_white 0x2028 = true ↔
      (duk_unicode_is_whitespace 32 ((0x2028 : Nat) : Int) = 1 ∨
        duk_unicode_is_line_terminator ((0x2028 : Nat) : Int) = 1)) :=
  ⟨⟨by decide, by decide⟩, re_ranges_white_iff 32 0x2028 (by decide) (by decide)⟩

/-! ### `eval`: strictness of the compiled code (C32) -/

theorem lor_land_self (a b : Nat) : (a ||| b) &&& b = b := by
  apply Nat.eq_of_testBit_eq
  intro i
  simp only [Nat.testBit_and, Nat.testBit_or]
  cases a.testBit i <;> cases b.testBit i <;> rfl

/-- C32: `eval` of a string compiles it with the STRICT compile flag if and
only if a calling activation exists, the eval activation has DIRECT_EVAL set
and the calling activation has STRICT set; otherwise the flags are exactly the
EVAL flag, so an indirect eval never gets STRICT from its caller. A non-string
argument is returned without compiling. -/
theorem eval_strict_iff_direct_and_caller_strict (F : duk_eval_flag_values)
    (callstack : List Nat) (src : List Nat)
    (hdistinct : F.DUK_JS_COMPILE_FLAG_EVAL &&& F.DUK_JS_COMPILE_FLAG_STRICT = 0)
    (hnz : F.DUK_JS_COMPILE_FLAG_STRICT ≠ 0) :
    duk_bi_global_object_eval F callstack none = .return_arg ∧
    ∃ comp_flags,
      duk_bi_global_object_eval F callstack (some src) = .duk_js_compile src comp_flags ∧
      (comp_flags &&& F.DUK_JS_COMPILE_FLAG_STRICT ≠ 0 ↔
        (2 ≤ callstack.length ∧
          callstack.getD (callstack.length - 1) 0 &&& F.DUK_ACT_FLAG_DIRECT_EVAL ≠ 0 ∧
          callstack.getD (callstack.length - 2) 0 &&& F.DUK_ACT_FLAG_STRICT ≠ 0)) ∧
      (comp_flags = F.DUK_JS_COMPILE_FLAG_EVAL ∨
        comp_flags = F.DUK_JS_COMPILE_FLAG_EVAL ||| F.DUK_JS_COMPILE_FLAG_STRICT) ∧
      (callstack.getD (callstack.length - 1) 0 &&& F.DUK_ACT_FLAG_DIRECT_EVAL = 0 →
        comp_flags = F.DUK_JS_COMPILE_FLAG_EVAL) := by
  refine ⟨rfl, ?_⟩
  unfold duk_bi_global_object_eval
  simp only []
  by_cases h2 : callstack.length ≥ 2
  · rw [if_pos h2]
    by_cases hc : callstack.getD (callstack.length - 2) 0 &&& F.DUK_ACT_FLAG_STRICT ≠ 0 ∧
        callstack.getD (callstack.length - 1) 0 &&& F.DUK_ACT_FLAG_DIRECT_EVAL ≠ 0
    · rw [if_pos hc]
      refine ⟨_, rfl, ?_, Or.inr rfl, fun h0 => absurd h0 hc.2⟩
      rw [lor_land_self]
      exact Iff.intro (fun _ => ⟨h2, hc.2, hc.1⟩) (fun _ => hnz)
    · rw [if_neg hc]
      refine ⟨_, rfl, ?_, Or.inl rfl, fun _ => rfl⟩
      rw [hdistinct]
      exact Iff.intro (fun h => absurd rfl h) (fun h => absurd ⟨h.2.2, h.2.1⟩ hc)
  · rw [if_neg h2]
    refine ⟨_, rfl, ?_, Or.inl rfl, fun _ => rfl⟩
    rw [hdistinct]
    exact Iff.intro (fun h => absurd rfl h) (fun h => absurd h.1 h2)

theorem eval_strict_iff_direct_and_caller_strict_witness :
    ((1 : Nat) &&& 2 = 0 ∧ (2 : Nat) ≠ 0) ∧
    (duk_bi_global_object_eval ⟨1, 16, 1, 2⟩ [1, 16] none = .return_arg ∧
    ∃ comp_flags,
      duk_bi_global_object_eval ⟨1, 16, 1, 2⟩ [1, 16] (some [0x31])
        = .duk_js_compile [0x31] comp_flags ∧
      (comp_flags &&& 2 ≠ 0 ↔
        (2 ≤ [1, 16].length ∧
          [1, 16].getD ([1, 16].length - 1) 0 &&& 16 ≠ 0 ∧
          [1, 16].getD ([1, 16].length - 2) 0 &&& 1 ≠ 0)) ∧
      (comp_flags = 1 ∨ comp_flags = 1 ||| 2) ∧
      ([1, 16].getD ([1, 16].length - 1) 0 &&& 16 = 0 → comp_flags = 1)) :=
  ⟨⟨by decide, by decide⟩,
    eval_strict_iff_direct_and_caller_strict ⟨1, 16, 1, 2⟩ [1, 16] [0x31]
      (by decide) (by decide)⟩

/-! ### `require`: stack tops (C35) -/

/-- C35: in `duk_bi_global_object_require`, entered with exactly one argument
and given the stack effect of each API call, every `DUK_ASSERT_TOP` reached
holds, the asserted tops being 4, 4, 6, 7, 10, 12, 11, 15, 11 in order (4, 4, 6
on a cache hit and 4, 4, 6, 7, 10, 12 when the search callback returns no
source); on both miss paths the value returned is the first object created,
the exports table, which was created at stack index 8 and is still there. -/
theorem require_assert_tops_hold (entry : List ValueStack.stack_item)
    (found source_is_string : Bool) (h : entry.length = 1) :
    (∀ a ∈ (ValueStack.duk_bi_global_object_require entry found source_is_string).2.asserts,
      a.2 = a.1) ∧
    ((ValueStack.duk_bi_global_object_require entry found source_is_string).2.asserts.map
        Prod.fst =
      if found then [4, 4, 6]
      else if source_is_string then [4, 4, 6, 7, 10, 12, 11, 15, 11]
      else [4, 4, 6, 7, 10, 12]) ∧
    (found = true →
      (ValueStack.duk_bi_global_object_require entry found source_is_string).1 =
        .property (.property_stridx .builtin_duktape .DUK_STRIDX_MOD_LOADED) .resolved_id) ∧
    (found = false →
      (ValueStack.duk_bi_global_object_require entry found source_is_string).1 = .object 0 ∧
      (ValueStack.duk_bi_global_object_require entry found source_is_string).2.created.getD 0 0
        = 8 ∧
      (ValueStack.duk_bi_global_object_require entry found source_is_string).2.items.getD 8
        .undefined = .object 0) := by
  obtain ⟨a, rfl⟩ : ∃ a, entry = [a] := by
    match entry, h with
    | [a], _ => exact ⟨a, rfl⟩
  cases found <;> cases source_is_string <;>
    set_option maxRecDepth 4000 in
    simp [ValueStack.duk_bi_global_object_require, ValueStack.duk_push, ValueStack.duk_dup,
      ValueStack.duk_push_object, ValueStack.duk_get_prop_stridx, ValueStack.duk_get_prop,
      ValueStack.duk_def_prop_stridx, ValueStack.duk_def_prop, ValueStack.duk_call,
      ValueStack.duk_call_method, ValueStack.duk_concat, ValueStack.duk_eval_raw,
      ValueStack.duk_pop_2, ValueStack.DUK_ASSERT_TOP, ValueStack.return_1,
      ValueStack.stack_pop_n, ValueStack.stack_at, ValueStack.duk_normalize_index,
      ValueStack.duk_get_top]

theorem require_assert_tops_hold_witness :
    [ValueStack.stack_item.argument 0].length = 1 ∧
    (ValueStack.duk_bi_global_object_require [.argument 0] false true).2.asserts.map Prod.fst
      = [4, 4, 6, 7, 10, 12, 11, 15, 11] ∧
    (ValueStack.duk_bi_global_object_require [.argument 0] false true).1 = .object 0 :=
  ⟨rfl,
    (require_assert_tops_hold [.argument 0] false true rfl).2.1,
    ((require_assert_tops_hold [.argument 0] false true rfl).2.2.2 rfl).1⟩

/-! ### The command-line tool: `-e` without a file name (C24) -/

/-- The events recorded before the loop over the arguments stay in front. -/
theorem run_arguments_trace {ctx : Type} (env : cmdline_env ctx) (n : Nat) :
    ∀ (args : List (List Nat)) (c : ctx) (tr : List cmdline_event), args.length ≤ n →
    run_arguments env args c tr
      = ((run_arguments env args c []).1, (run_arguments env args c []).2.1,
          tr ++ (run_arguments env args c []).2.2) := by
  induction n with
  | zero =>
      intro args c tr hn
      have : args = [] := List.eq_nil_of_length_eq_zero (by omega)
      subst this
      simp [run_arguments]
  | succ n ih =>
      intro args c tr hn
      cases args with
      | nil => simp [run_arguments]
      | cons arg rest =>
          simp only [List.length_cons] at hn
          rw [run_arguments_cons, run_arguments_cons env arg rest c []]
          by_cases h1 : arg.length = 2 ∧ arg = OPT_E
          · rw [if_pos h1, if_pos h1]
            cases rest with
            | nil => simp
            | cons code rest' =>
                simp only [List.length_cons] at hn
                simp only [List.nil_append]
                by_cases h2 : (env.handle_eval c code).1 ≠ 0
                · rw [if_pos h2, if_pos h2]
                · rw [if_neg h2, if_neg h2, ih rest' _ (tr ++ [cmdline_event.handle_eval code]) (by omega),
                    ih rest' _ [cmdline_event.handle_eval code] (by omega)]
                  simp
          · rw [if_neg h1, if_neg h1]
            by_cases h3 : arg.length ≥ 1 ∧ rdByte arg 0 = 0x2d
            · rw [if_pos h3, if_pos h3]
              exact ih rest c tr (by omega)
            · rw [if_neg h3, if_neg h3]
              simp only [List.nil_append]
              by_cases h2 : (env.handle_file c arg).1 ≠ 0
              · rw [if_pos h2, if_pos h2]
              · rw [if_neg h2, if_neg h2, ih rest _ (tr ++ [cmdline_event.handle_file arg]) (by omega),
                  ih rest _ [cmdline_event.handle_file arg] (by omega)]
                simp

/-- When the option loop accepts the arguments and finds no file, the loop
that executes the arguments only evaluates code, its status is 0 or 1, and it
evaluates some code if a `-e` was found. -/
theorem run_arguments_no_file {ctx : Type} (env : cmdline_env ctx) (n : Nat) :
    ∀ (args : List (List Nat)) (o o' : cmdline_options) (c : ctx),
    args.length ≤ n → parse_options args o = some o' → o'.have_files = false →
    ∃ codes : List (List Nat),
      (run_arguments env args c []).2.2 = codes.map cmdline_event.handle_eval ∧
      ((run_arguments env args c []).1 = 0 ∨ (run_arguments env args c []).1 = 1) ∧
      (o.have_eval = false → o'.have_eval = true → codes ≠ []) := by
  induction n with
  | zero =>
      intro args o o' c hn h _
      have : args = [] := List.eq_nil_of_length_eq_zero (by omega)
      subst this
      simp only [parse_options, Option.some.injEq] at h
      subst h
      exact ⟨[], rfl, Or.inl rfl, fun h1 h2 => by rw [h1] at h2; cases h2⟩
  | succ n ih =>
      intro args o o' c hn h hf
      cases args with
      | nil =>
          simp only [parse_options, Option.some.injEq] at h
          subst h
          exact ⟨[], rfl, Or.inl rfl, fun h1 h2 => by rw [h1] at h2; cases h2⟩
      | cons arg rest =>
          simp only [List.length_cons] at hn
          rw [parse_options_cons] at h
          have known : ∀ o1 : cmdline_options, parse_options rest o1 = some o' →
              o1.have_eval = o.have_eval →
              arg ≠ OPT_E → (arg.length ≥ 1 ∧ rdByte arg 0 = 0x2d) →
              ∃ codes : List (List Nat),
                (run_arguments env (arg :: rest) c []).2.2
                  = codes.map cmdline_event.handle_eval ∧
                ((run_arguments env (arg :: rest) c []).1 = 0 ∨
                  (run_arguments env (arg :: rest) c []).1 = 1) ∧
                (o.have_eval = false → o'.have_eval = true → codes ≠ []) := by
            intro o1 h1 he1 hne hd
            rw [run_arguments_skip_option env arg rest c [] hne hd]
            obtain ⟨codes, hc1, hc2, hc3⟩ := ih rest o1 o' c (by omega) h1 hf
            exact ⟨codes, hc1, hc2, fun a b => hc3 (by rw [he1]; exact a) b⟩
          split_ifs at h with k1 k2 k3 k4 k5 k6 k7 k8 k9
          · exact known _ h rfl (by rw [k1]; decide) (by rw [k1]; decide)
          · exact known _ h rfl (by rw [k2]; decide) (by rw [k2]; decide)
          · cases rest with
            | nil => cases h
            | cons code rest' =>
                simp only [List.length_cons] at hn
                simp only [] at h
                obtain ⟨codes, hc1, hc2, -⟩ :=
                  ih rest' _ o' (env.handle_eval c code).2 (by omega) h hf
                rw [run_arguments_cons, if_pos ⟨by rw [k3]; rfl, k3⟩]
                simp only [List.nil_append]
                by_cases h2 : (env.handle_eval c code).1 ≠ 0
                · rw [if_pos h2]
                  exact ⟨[code], rfl, Or.inr rfl, fun _ _ => by simp⟩
                · rw [if_neg h2, run_arguments_trace env rest'.length rest' _ _ (Nat.le_refl _)]
                  refine ⟨code :: codes, ?_, hc2, fun _ _ => by simp⟩
                  simp only [hc1, List.map_cons, List.singleton_append]
          · exact known _ h rfl (by rw [k4]; decide) (by rw [k4]; decide)
          · exact known _ h rfl (by rw [k5]; decide) (by rw [k5]; decide)
          · exact known _ h rfl (by rw [k6]; decide) (by rw [k6]; decide)
          · exact known _ h rfl (by rw [k7]; decide) (by rw [k7]; decide)
          · exact known _ h rfl (by rw [k8]; decide) (by rw [k8]; decide)
          · have := (parse_options_flags_mono rest.length rest _ o' (Nat.le_refl _) h).1 rfl
            rw [hf] at this
            cases this

/-- C24 (amended): for every command line that the option loop accepts and in
which it finds no file name, once the heap is created: without `-e`, `main`
enters interactive mode (it runs no code, calls `handle_interactive`, destroys
the heap and exits with 0, or 1 when `handle_interactive` fails); with `-e`,
`main` evaluates code (at least one `handle_eval`, nothing else before the
heap is destroyed) and exits without entering interactive mode, unless `-i`
was given, in which case interactive mode follows the evaluations when all of
them succeed. -/
theorem main_interactive_mode_without_file {ctx : Type} (env : cmdline_env ctx)
    (ajsheap : Bool) (argv0 : List Nat) (args : List (List Nat)) (o : cmdline_options) (c : ctx)
    (hacc : parse_options args
        { have_files := false, have_eval := false, interactive := false, memlimit_high := true,
          alloc_provider := if ajsheap then ALLOC_AJSHEAP else ALLOC_DEFAULT } = some o)
    (hf : o.have_files = false)
    (hheap : env.duk_create_heap o.alloc_provider = some c) :
    (o.have_eval = false →
      main env ajsheap (argv0 :: args)
        = (if (env.handle_interactive c).1 ≠ 0 then 1 else 0,
           [.memory_limit o.memlimit_high, .create_heap o.alloc_provider, .handle_interactive,
            .destroy_heap])) ∧
    (o.have_eval = true →
      ∃ codes : List (List Nat), codes ≠ [] ∧
        (run_arguments env args c []).2.2 = codes.map cmdline_event.handle_eval ∧
        main env ajsheap (argv0 :: args)
          = (if (run_arguments env args c []).1 ≠ 0 then
               (1, [.memory_limit o.memlimit_high, .create_heap o.alloc_provider] ++
                 codes.map cmdline_event.handle_eval ++ [.destroy_heap])
             else if o.interactive = true then
               (if (env.handle_interactive (run_arguments env args c []).2.1).1 ≠ 0 then 1 else 0,
                 [.memory_limit o.memlimit_high, .create_heap o.alloc_provider] ++
                 codes.map cmdline_event.handle_eval ++ [.handle_interactive, .destroy_heap])
             else
               (0, [.memory_limit o.memlimit_high, .create_heap o.alloc_provider] ++
                 codes.map cmdline_event.handle_eval ++ [.destroy_heap])) ∧
        (o.interactive = false →
          cmdline_event.handle_interactive ∉ (main env ajsheap (argv0 :: args)).2)) := by
  constructor
  · intro he
    exact main_interactive_without_file_and_eval env ajsheap argv0 args o c hacc hf he hheap
  · intro he
    obtain ⟨codes, hc1, hc2, hc3⟩ :=
      run_arguments_no_file env args.length args _ o c (Nat.le_refl _) hacc hf
    have hne : codes ≠ [] := hc3 rfl he
    have hmain : main env ajsheap (argv0 :: args)
          = (if (run_arguments env args c []).1 ≠ 0 then
               (1, [.memory_limit o.memlimit_high, .create_heap o.alloc_provider] ++
                 codes.map cmdline_event.handle_eval ++ [.destroy_heap])
             else if o.interactive = true then
               (if (env.handle_interactive (run_arguments env args c []).2.1).1 ≠ 0 then 1 else 0,
                 [.memory_limit o.memlimit_high, .create_heap o.alloc_provider] ++
                 codes.map cmdline_event.handle_eval ++ [.handle_interactive, .destroy_heap])
             else
               (0, [.memory_limit o.memlimit_high, .create_heap o.alloc_provider] ++
                 codes.map cmdline_event.handle_eval ++ [.destroy_heap])) := by
      unfold main
      simp only [List.tail_cons, hacc, hheap, hf, he]
      rw [run_arguments_trace env args.length args c _ (Nat.le_refl _), hc1]
      simp only [Bool.false_eq_true, not_false_eq_true, not_true_eq_false, and_false, if_false]
      rcases hc2 with h0 | h1
      · rw [h0]
        simp only [ne_eq, not_true_eq_false, if_false]
        by_cases hi : o.interactive = true
        · simp only [hi, if_true]
          split_ifs <;> simp
        · simp only [hi, if_false]
          simp
      · rw [h1]
        simp
    refine ⟨codes, hne, hc1, hmain, ?_⟩
    intro hi
    rw [hmain]
    simp only [hi, Bool.false_eq_true, if_false]
    split_ifs <;> simp

theorem main_interactive_mode_without_file_witness :
    parse_options [OPT_E, [0x32]]
        { have_files := false, have_eval := false, interactive := false,
          memlimit_high := true, alloc_provider := ALLOC_DEFAULT }
      = some { have_files := false, have_eval := true, interactive := false,
               memlimit_high := true, alloc_provider := ALLOC_DEFAULT } ∧
    cmdline_event.handle_interactive ∉
      (main { duk_create_heap := fun _ => some (), handle_eval := fun c _ => (0, c),
              handle_file := fun c _ => (0, c), handle_interactive := fun c => (0, c) }
        false [[0x64, 0x75, 0x6b], OPT_E, [0x32]]).2 :=
  ⟨by decide,
    Exists.elim
      ((main_interactive_mode_without_file
        { duk_create_heap := fun _ => some (), handle_eval := fun c _ => (0, c),
          handle_file := fun c _ => (0, c), handle_interactive := fun c => (0, c) }
        false [0x64, 0x75, 0x6b] [OPT_E, [0x32]]
        { have_files := false, have_eval := true, interactive := false,
          memlimit_high := true, alloc_provider := ALLOC_DEFAULT } ()
        (by decide) rfl rfl).2 rfl)
      (fun _ hc => hc.2.2.2 rfl)⟩

end Duktape
